import Mathlib

/-!
# Declaration checking in `xtypes`: object colours, cycles, delayed actions

A shallow embedding of `src/xtypes/decl.go`, `src/xtypes/check.go`,
`src/xtypes/errors.go`, `src/xtypes/typeexpr.go`, `src/xtypes/typeset.go`,
`src/xtypes/typeterm.go` and of `object.go`, `predicates.go` and `under.go` in
`src/xtypes/internal/xtypes`.

Conventions of the embedding.

* Go pointers to objects are identifiers (`ObjId`); the heap of objects is the
  field `objs` of the checker state.
* A Go function that mutates the checker is a function from the state to a
  `Res`: how control leaves (`Outcome`), the state left behind, and the list of
  observation points passed (`Moment`), which is ghost data used to state
  properties that hold during a call.
* Go pointers to the type structures that `typInternal` allocates are
  identifiers too; the heap of structures is the field `nodes` of the checker
  state, and `nextNode` is the structure that the next allocation returns.
* `uint32` colours are natural numbers reduced modulo `2 ^ 32`.
* Output written to standard output by the tracing code is not part of the
  state.
-/

namespace Xtypes

/-! ## Positions -/

/-- Source positions, Go `token.Pos` (an `int`). -/
abbrev Pos := Int

/-- The zero position, Go `token.NoPos`. -/
def NoPos : Pos := 0

/-- Go `token.Pos.IsValid`. -/
def Pos_IsValid (p : Pos) : Bool := decide (p ≠ NoPos)

/-- Modelled from the spec: `cmpPos` is called by `firstInSrc` but is not defined in the
sources at hand; the spec speaks of the lexically earliest source position, so the
comparison is the sign of the difference of the two positions. -/
def cmpPos (p q : Pos) : Int := p - q

/-! ## Colours (`internal/xtypes/object.go`) -/

/-- Go `type Color uint32`; values are kept below `2 ^ 32`. -/
abbrev Color := Nat

/-- Reduction to 32 bits, the arithmetic of Go `uint32`. -/
def u32 (n : Nat) : Nat := n % 4294967296

def White : Color := 0

def Black : Color := 1

def Grey : Color := 2

/-- Go `Color.String`. -/
def Color_String (c : Color) : String :=
  if c = White then "white" else if c = Black then "black" else "grey"

/-! ## Types and objects (the part of `go/types` the checker code touches) -/

abbrev ObjId := Nat

/-- The shapes of `types.Type` that the embedded code distinguishes. -/
inductive Typ where
  | basic (name : String)
  | named (obj : ObjId) (generic : Bool)
  | typeParam (obj : ObjId)
  | composite (id : Nat)
deriving DecidableEq, Repr

/-- Go `types.Typ[types.Invalid]`. -/
def Typ_Invalid : Typ := Typ.basic "invalid type"

/-- Modelled from the spec: `IsGeneric` is an unimplemented stub in
`internal/xtypes/predicates.go`; the spec calls a generic type one that is itself
uninstantiated, which is the flag carried by a named type here. A nil type is not
generic. -/
def IsGeneric (t : Option Typ) : Bool :=
  match t with
  | some (Typ.named _ g) => g
  | _ => false

/-- Go `*types.Package`, a pointer to a package object: `ptr` is the identity of the
object, which a comparison of pointers compares; `path` and `name` are the fields
read here. -/
structure Package where
  path : String
  name : String
  ptr : Nat
deriving DecidableEq, Repr

/-- The dynamic type of a `types.Object`. `Other` stands for the kinds the
type switches of `objDecl` and `validCycle` do not list (package names, labels,
builtins, nil). -/
inductive ObjKind where
  | Const
  | Var
  | TypeName
  | Func
  | Other
deriving DecidableEq, Repr

/-- Go `constant.Value`, the part told apart here: the unknown value of
`constant.MakeUnknown` or a known value, given by a number. -/
inductive Value where
  | unknown
  | known (n : Int)
deriving DecidableEq, Repr

/-- Go `types.Object` with the attributes of its implementations that the embedded
code reads or writes; `val` is the value of a constant (`nil` when there is none). -/
structure Object where
  kind : ObjKind
  name : String
  pkg : Option Package
  pos : Pos
  typ : Option Typ
  color : Color
  val : Option Value
deriving DecidableEq, Repr

/-- Go `(*types.TypeName).IsAlias` of the standard library, on the object stored
under identifier `self`. -/
def TypeName_IsAlias (self : ObjId) (o : Object) : Bool :=
  match o.typ with
  | none => false
  | some (Typ.basic tname) =>
    match o.pkg with
    | some p => if p.path = "unsafe" then false else true
    | none => decide (tname ≠ o.name) || decide (tname = "byte") || decide (tname = "rune")
  | some (Typ.named tobj _) => decide (tobj ≠ self)
  | some (Typ.typeParam tobj) => decide (tobj ≠ self)
  | some (Typ.composite _) => true

/-! ## Errors (`errors.go`) -/

/-- Modelled from the spec: the package `internal/errors` with the error codes is
not in the sources at hand; the spec gives each diagnostic a stable code. These are
the codes that the embedded code mentions: `noCode` is the zero value, `code n` is
any other code. -/
inductive Code where
  | noCode
  | InvalidSyntaxTree
  | DuplicateDecl
  | InvalidDeclCycle
  | BlankPkgName
  | MismatchedPkgName
  | InvalidConstType
  | WrongTypeArgCount
  | MisplacedConstraintIface
  | NotAType
  | BadDotDotDotSyntax
  | InvalidDotDotDot
  | IncomparableMapKey
  | DuplicateMethod
  | DuplicateFieldAndMethod
  | code (n : Nat)
deriving DecidableEq, Repr

/-- Values of the Go interface `positioner`; `nil` is the nil interface. -/
inductive positioner where
  | nil
  | atPos (p : Pos)
  | posSpan (start pos end_ : Pos)
  | node (pos end_ : Pos)
  | operand (expr : Option (Pos × Pos))
  | object (pos : Pos)
deriving DecidableEq, Repr

structure posSpan where
  start : Pos
  pos : Pos
  end_ : Pos
deriving DecidableEq, Repr

/-- The method `Pos()` of a positioner; `none` is the run-time panic of a call
through a nil interface. -/
def positioner.Pos : positioner → Option Pos
  | positioner.nil => none
  | positioner.atPos p => some p
  | positioner.posSpan _ p _ => some p
  | positioner.node p _ => some p
  | positioner.operand (some e) => some e.1
  | positioner.operand none => some NoPos
  | positioner.object p => some p

/-- Go `spanOf`; `none` is `panic("nil positioner")`. -/
def spanOf : positioner → Option posSpan
  | positioner.nil => none
  | positioner.posSpan s p e => some ⟨s, p, e⟩
  | positioner.node p e => some ⟨p, p, e⟩
  | positioner.operand (some e) => some ⟨e.1, e.1, e.2⟩
  | positioner.operand none => some ⟨NoPos, NoPos, NoPos⟩
  | positioner.atPos p => some ⟨p, p, p⟩
  | positioner.object p => some ⟨p, p, p⟩

/-- One part of an error; `text` is the result of `sprintf(format, args...)`,
which is the formatting of the Go library. -/
structure errorDesc where
  posn : positioner
  text : String
deriving DecidableEq, Repr

structure error_ where
  desc : List errorDesc
  code : Code
  soft : Bool
deriving DecidableEq, Repr

/-- Go `types.Error` as built by `report` (the file set is left out). -/
structure Error where
  pos : Pos
  msg : String
  soft : Bool
deriving DecidableEq, Repr

/-- Go `newErrorf`, with the message already formatted. -/
def newErrorf (at_ : positioner) (code : Code) (text : String) : error_ :=
  { desc := [⟨at_, text⟩], code := code, soft := false }

/-- Go `strings.Index` on lists of characters: the index of the first occurrence
of `sub` in `s`, or `-1`. The index counts characters; the embedded code only
compares it with zero or splits the string at it. -/
def stringsIndexAux (sub : List Char) : List Char → Nat → Int
  | [], k => if sub = [] then (k : Int) else -1
  | c :: cs, k => if sub.isPrefixOf (c :: cs) then (k : Int) else stringsIndexAux sub cs (k + 1)

def stringsIndex (s sub : String) : Int := stringsIndexAux sub.data s.data 0

/-- Go `stripAnnotations`: the subscript digits U+2080 to U+2089 are removed. -/
def stripAnnotations (s : String) : String :=
  String.mk (s.data.filter (fun r => decide (r.toNat < 8320) || decide (8320 + 10 ≤ r.toNat)))

/-! ## Type sets (`typeterm.go`, `typeset.go`) -/

/-- Go `term`; a nil `typ` makes the term the set of all types. -/
structure term where
  tilde : Bool
  typ : Option Typ
deriving DecidableEq, Repr

/-- Modelled from the spec: the type `termlist` is not in the sources at hand; a term
list is a list of pointers to terms, the nil pointer being the empty set. -/
abbrev termlist := List (Option term)

/-- Modelled from the spec: `termlist.isAll` is not in the sources at hand; by the
comment of `term` the term `&term\x7b\x7d` is the set of all types, and a list
denotes the union of its terms, so it denotes all types when it has such a term. -/
def termlist.isAll (xl : termlist) : Bool :=
  xl.any fun x =>
    match x with
    | some t => t.typ.isNone
    | none => false

/-- Go `_TypeSet`. -/
structure _TypeSet where
  methods : List ObjId
  terms : termlist
  comparable : Bool
deriving DecidableEq, Repr

/-- Go `_TypeSet.IsMethodSet`. -/
def _TypeSet.IsMethodSet (s : _TypeSet) : Bool := !s.comparable && s.terms.isAll

/-- Go `_TypeSet.IsAll`. -/
def _TypeSet.IsAll (s : _TypeSet) : Bool := s.IsMethodSet && decide (s.methods.length = 0)

/-! ## Type structures -/

/-- The type structures that `typInternal` allocates, and `Other` for any other
composite type. -/
inductive NodeKind where
  | Slice
  | Array
  | Struct
  | Pointer
  | Signature
  | Interface
  | Map
  | Chan
  | Other
deriving DecidableEq, Repr

/-- The fields of the type structures that `typInternal` stores: `len` of an array,
`elem` of a slice, array, map or channel, `base` of a pointer, `key` of a map, `dir`
of a channel. A nil type is `none`. -/
structure TypeNode where
  kind : NodeKind
  len : Int
  elem : Option Typ
  base : Option Typ
  key : Option Typ
  dir : Nat
deriving DecidableEq, Repr

/-- The zero value of a type structure. -/
def TypeNode.zero (k : NodeKind) : TypeNode :=
  { kind := k, len := 0, elem := none, base := none, key := none, dir := 0 }

/-! ## Checker state (`check.go`) -/

/-- A delayed closure. The closures built by code outside this development are
told apart by a number; `validVarType` is the closure that `validVarType` builds for
the type expression from `pos` to `end_` and its type; `mapKey` is the closure that
`typInternal` builds for a map type, with the type structure `typ` it captures and
the extent of the key expression; `checkFieldUniqueness` is the closure that
`collectMethods` builds for the named type `base`. -/
inductive Closure where
  | fn (id : Nat)
  | validVarType (pos end_ : Pos) (typ : Typ)
  | mapKey (typ : Nat) (pos end_ : Pos)
  | checkFieldUniqueness (base : ObjId)
deriving DecidableEq, Repr

structure actionDesc where
  pos : positioner
  text : String
deriving DecidableEq, Repr

structure action where
  f : Closure
  desc : Option actionDesc
deriving DecidableEq, Repr

/-- Go `environment`; pointers and maps are identifiers and lists. -/
structure environment where
  decl : Option ObjId
  scope : Option Nat
  pos : Pos
  iota : Option Value
  errpos : positioner
  inTParamList : Bool
  sig : Option Nat
  isPanic : List Nat
  hasLabel : Bool
  hasCallOrRecv : Bool
deriving DecidableEq, Repr

/-- The zero value of `environment` with the given scope, Go
`environment\x7bscope: s\x7d`. -/
def environment.ofScope (s : Option Nat) : environment :=
  { decl := none, scope := s, pos := NoPos, iota := none, errpos := positioner.nil,
    inTParamList := false, sig := none, isPanic := [], hasLabel := false,
    hasCallOrRecv := false }

/-- Go `ast.TypeSpec`, the part read here. -/
structure TypeSpec where
  Assign : Pos
deriving DecidableEq, Repr

/-- Modelled from the spec: the routines that resolve a declaration (`typeDecl`,
`funcDecl` and the expression checker behind `constDecl` and `varDecl`) are not in
the sources at hand. Following the spec, resolving one object is a sequence of
these effects on the checker: meeting another object, which is checked by a nested
`objDecl` (`use`); giving an object its type (`setTyp`); reporting a diagnostic
(`errorf`); pushing a delayed action (`later`); changing the environment
(`setEnv`); a failed assertion or another panic (`fail`). -/
inductive Act where
  | use (o : ObjId)
  | setTyp (o : ObjId) (t : Typ)
  | errorf (at_ : positioner) (code : Code) (text : String) (soft : Bool)
  | later (f : Closure)
  | setEnv (e : environment)
  | fail (msg : String)
deriving DecidableEq, Repr

/-- Modelled from the spec: the expression checker (`check.expr`) is not in the
sources at hand. A value expression of the syntax tree is given by its extent
(`Pos()` and `End()`), by the effects of checking it (`acts`, in the sense of `Act`)
and by the type of the operand that checking it yields (`typ`). Type expressions are
`TExpr`. -/
structure Expr where
  pos : Pos
  end_ : Pos
  acts : List Act
  typ : Typ
deriving DecidableEq, Repr

/-- Go `operandMode`, the modes that `typInternal` tells apart; `value` stands for the
modes of the default case. -/
inductive operandMode where
  | invalid
  | novalue
  | typexpr
  | value
deriving DecidableEq, Repr

/-- The length expression `e.Len` of an array type as `typInternal` sees it: the
ellipsis, or an expression handed to `check.arrayLength`. Modelled from the spec:
`check.arrayLength` is not in the sources at hand; the expression is given by the
effects of checking it and the length it yields (negative for an invalid length). -/
inductive ArrayLen where
  | ellipsis (pos end_ : Pos)
  | expr (pos end_ : Pos) (acts : List Act) (len : Int)
deriving DecidableEq, Repr

/-- Go `ast.Expr` as the type switch of `typInternal` tells the expressions apart,
each with its extent (`Pos()` and `End()`). Modelled from the spec: the routines that
the switch calls for the parts it does not evaluate itself (`check.ident`,
`check.selector`, `check.instantiatedType`, `check.structType`, `check.funcType`,
`check.interfaceType`, `check.use`) are not in the sources at hand; such a part is
given by its effects (`acts`) and by what the routine yields: for an identifier or a
selector the mode and the type of the operand and its printed form `text`, for an
instantiation the instantiated type. `other` is any expression that the switch does
not list, with its printed form. For a channel `dir` is `e.Dir`. -/
inductive TExpr where
  | bad (pos end_ : Pos)
  | ident (pos end_ : Pos) (text : String) (acts : List Act) (mode : operandMode) (typ : Typ)
  | selector (pos end_ : Pos) (text : String) (acts : List Act) (mode : operandMode) (typ : Typ)
  | index (pos end_ : Pos) (acts : List Act) (typ : Typ)
  | paren (pos end_ : Pos) (x : TExpr)
  | array (pos end_ : Pos) (len : Option ArrayLen) (elt : TExpr)
  | ellipsis (pos end_ : Pos) (acts : List Act)
  | struct (pos end_ : Pos) (acts : List Act)
  | star (pos end_ : Pos) (x : TExpr)
  | func (pos end_ : Pos) (acts : List Act)
  | interface (pos end_ : Pos) (acts : List Act)
  | map (pos end_ : Pos) (key value : TExpr)
  | chan (pos end_ : Pos) (dir : Nat) (value : TExpr)
  | other (pos end_ : Pos) (text : String) (acts : List Act)
deriving DecidableEq, Repr

/-- Go `ast.Expr.Pos`. -/
def TExpr.pos : TExpr → Pos
  | TExpr.bad p _ => p
  | TExpr.ident p _ _ _ _ _ => p
  | TExpr.selector p _ _ _ _ _ => p
  | TExpr.index p _ _ _ => p
  | TExpr.paren p _ _ => p
  | TExpr.array p _ _ _ => p
  | TExpr.ellipsis p _ _ => p
  | TExpr.struct p _ _ => p
  | TExpr.star p _ _ => p
  | TExpr.func p _ _ => p
  | TExpr.interface p _ _ => p
  | TExpr.map p _ _ _ => p
  | TExpr.chan p _ _ _ => p
  | TExpr.other p _ _ _ => p

/-- Go `ast.Expr.End`. -/
def TExpr.end_ : TExpr → Pos
  | TExpr.bad _ q => q
  | TExpr.ident _ q _ _ _ _ => q
  | TExpr.selector _ q _ _ _ _ => q
  | TExpr.index _ q _ _ => q
  | TExpr.paren _ q _ => q
  | TExpr.array _ q _ _ => q
  | TExpr.ellipsis _ q _ => q
  | TExpr.struct _ q _ => q
  | TExpr.star _ q _ => q
  | TExpr.func _ q _ => q
  | TExpr.interface _ q _ => q
  | TExpr.map _ q _ _ => q
  | TExpr.chan _ q _ _ => q
  | TExpr.other _ q _ _ => q

/-- Go `ast.File`, the part read by `initFiles`: the package name `file.Name.Name`,
the extent of the identifier `file.Name` and the position `file.Package`. -/
structure File where
  Name : String
  NamePos : Pos
  NameEnd : Pos
  Package : Pos
deriving DecidableEq, Repr

/-- Modelled from the spec: `declInfo` is not declared in the sources at hand. It is
the lazy descriptor of the spec, here the parts read by `objDecl` and `validCycle`
(the file scope and the type specification), with the work of resolving the
declaration as `body`. -/
structure declInfo where
  file : Option Nat
  tdecl : Option TypeSpec
  body : List Act
deriving DecidableEq, Repr

/-- Go `Config`, the fields read here. `hasError` says whether the callback
`Error` is set; `fmtErrorURL c` is `fmt.Sprintf(_ErrorURL, c)`. -/
structure Config where
  hasError : Bool
  _Trace : Bool
  _ErrorURL : String
  fmtErrorURL : Code → String
  FakeImportC : Bool
  go115UsesCgo : Bool
  DisableUnusedImportCheck : Bool

/-- Go `Checker`, the fields the embedded code reads or writes. `objs` is the heap
of objects; `sink` lists the errors handed to the callback `conf.Error`, in order;
`pkgPathMap` is the table that `markImports` fills on first use from the imports of
`pkg`, given as built; `fsetPosition` is `fset.Position(p).String()`; `files` is
`check.files`; `Types` is the map `Info.Types` as the list of its entries, keyed by
the extent of the expression, latest last; `underlying o` is the underlying type of
the named type, or the constraint of the type parameter, that object `o` declares;
`pkgComplete` is the flag set by `pkg.MarkComplete()`; `nodes` is the heap of type
structures, a composite type being the identifier of its structure, and `nextNode`
the structure that the next allocation returns; `methods` is the map
`check.methods` as the list of its entries, and `namedMethods o` lists the methods
of the named type that object `o` declares (`NumMethods`, `Method`, `AddMethod`).
Modelled from the spec: `Comparable`, `Struct_fields` and the body of
`computeInterfaceTypeSet` are not in the sources at hand; `Comparable t` says
whether values of type `t` can be compared, `structFields n` lists the fields of the
struct type `n`, and `typeSets n` is the type set computed for the interface type
`n`. `typeString t` is the text of the type `t` in a diagnostic, which is the work
of the library (`TypeString`). -/
structure Checker where
  conf : Config
  objs : ObjId → Object
  objMap : List (ObjId × declInfo)
  brokenAliases : List ObjId
  firstErr : Option Error
  delayed : List action
  objPath : List ObjId
  env : environment
  indent : Int
  sink : List Error
  pkg : Package
  pkgPathMap : String → List String
  fsetPosition : Pos → String
  files : List File
  Types : List ((Pos × Pos) × Typ)
  underlying : ObjId → Typ
  pkgComplete : Bool
  nodes : Nat → TypeNode
  nextNode : Nat
  methods : List (ObjId × List ObjId)
  namedMethods : ObjId → List ObjId
  Comparable : Typ → Bool
  structFields : Nat → List ObjId
  typeSets : Nat → _TypeSet
  typeString : Typ → String

/-- How control leaves a function: normal return with a value, the bailout
panic, or any other panic. -/
inductive Outcome (α : Type) where
  | ok (a : α)
  | bailout
  | panic (msg : String)
deriving DecidableEq, Repr

/-- Go `ast.ValueSpec`, the part read by `walkDecl`, with its extent: the type
`Type` (nil when there is none) and the initialization expressions `Values`. -/
structure ValueSpec where
  pos : Pos
  end_ : Pos
  Type_ : Option TExpr
  Values : List Expr
deriving DecidableEq, Repr

/-- Go `decl`, the values that `walkDecl` hands to its callback; an import
specification and a function declaration are known by a number. -/
inductive decl where
  | importDecl (spec : Nat)
  | constDecl (spec : ValueSpec) (iota : Int) (typ : Option TExpr) (init : List Expr)
      (inherited : Bool)
  | varDecl (spec : ValueSpec)
  | typeDecl (spec : TypeSpec)
  | funcDecl (decl : Nat)
deriving DecidableEq, Repr

/-- What an observation point records. -/
inductive Label where
  | setColor (o : ObjId) (c : Color)
  | validCycle (o : ObjId)
  | report (e : error_)
  | step
  | enter (name : String)
  | call (d : decl)
deriving DecidableEq, Repr

/-- An observation point: its label and the checker state at that point (for
`setColor` and `step` the state just after the effect, for `validCycle` and
`report` the state in which the function is entered with that argument, for
`enter` the state in which the named routine is entered: a phase of `checkFiles` or
one of the routines `expr`, `initConst`, `initVar`, `initVars`, for `call` the state
in which the callback of `walkDecl` is called with that argument). -/
structure Moment where
  label : Label
  st : Checker

structure Res (α : Type) where
  out : Outcome α
  st : Checker
  trace : List Moment

/-- Go map lookup `check.objMap[obj]`. -/
def Checker.decl? (st : Checker) (obj : ObjId) : Option declInfo := st.objMap.lookup obj

/-- Modelled from the spec: `Object_color` is an unimplemented stub in
`internal/xtypes/object.go`; the spec gives every object a colour attribute that
`color(obj)` reads. -/
def Object_color (st : Checker) (obj : ObjId) : Color := (st.objs obj).color

/-- Modelled from the spec: `Object_setColor` is an unimplemented stub in
`internal/xtypes/object.go`; the spec has `setColor(obj, c)` store the colour
attribute of the object. -/
def Object_setColor (st : Checker) (obj : ObjId) (c : Color) : Checker :=
  { st with objs := Function.update st.objs obj { st.objs obj with color := c } }

/-- Modelled from the spec: `Const_setTyp`, `Var_setTyp` and `TypeName_setTyp` are
unimplemented stubs in `internal/xtypes/object.go`; the spec gives every object a
declared-type attribute, which they store. This is the store they share. -/
def Object_setTyp (st : Checker) (obj : ObjId) (t : Typ) : Checker :=
  { st with objs := Function.update st.objs obj { st.objs obj with typ := some t } }

/-- Modelled from the spec: `Const_setTyp` (a stub in `internal/xtypes/object.go`)
stores the declared type of a constant. -/
def Const_setTyp (st : Checker) (obj : ObjId) (t : Typ) : Checker := Object_setTyp st obj t

/-- Modelled from the spec: `Var_setTyp` (a stub in `internal/xtypes/object.go`)
stores the declared type of a variable. -/
def Var_setTyp (st : Checker) (obj : ObjId) (t : Typ) : Checker := Object_setTyp st obj t

/-- Modelled from the spec: `TypeName_setTyp` (a stub in `internal/xtypes/object.go`)
stores the declared type of a type name. -/
def TypeName_setTyp (st : Checker) (obj : ObjId) (t : Typ) : Checker := Object_setTyp st obj t

/-- Go `Checker.later`: the state after the call and the pointer returned, as the
index into `delayed` it points at. -/
def later (st : Checker) (f : Closure) : Checker × Nat :=
  let i := st.delayed.length
  ({ st with delayed := st.delayed ++ [{ f := f, desc := none }] }, i)

/-- Go `Checker.push`. -/
def push (st : Checker) (obj : ObjId) : Checker × Nat :=
  let st1 := { st with objPath := st.objPath ++ [obj] }
  (st1, st1.objPath.length - 1)

/-- Go `Checker.pop`; `none` is the index panic on an empty path. -/
def pop (st : Checker) : Option (Checker × ObjId) :=
  match st.objPath.getLast? with
  | none => none
  | some obj => some ({ st with objPath := st.objPath.dropLast }, obj)

/-- Go `Checker.validAlias`. -/
def validAlias (st : Checker) (tname : ObjId) (t : Typ) : Checker :=
  TypeName_setTyp
    { st with brokenAliases := st.brokenAliases.filter (fun a => decide (a ≠ tname)) } tname t

/-! ## Sequencing -/

/-- Normal return without an observation point. -/
def Res.ret {α : Type} (st : Checker) (a : α) : Res α := ⟨Outcome.ok a, st, []⟩

/-- A panic with the given message. -/
def Res.fail {α : Type} (st : Checker) (msg : String) : Res α := ⟨Outcome.panic msg, st, []⟩

/-- Sequential composition: the continuation runs only after a normal return. -/
def Res.bind {α β : Type} (r : Res α) (k : α → Checker → Res β) : Res β :=
  match r.out with
  | Outcome.ok a => let r2 := k a r.st; ⟨r2.out, r2.st, r.trace ++ r2.trace⟩
  | Outcome.bailout => ⟨Outcome.bailout, r.st, r.trace⟩
  | Outcome.panic m => ⟨Outcome.panic m, r.st, r.trace⟩

/-- A Go deferred call `d` run when the function whose result so far is `r` is left:
it runs on every exit path; the way the function is left is kept unless the
deferred call panics itself. -/
def Res.deferred {α : Type} (r : Res α) (d : Checker → Res Unit) : Res α :=
  let r2 := d r.st
  ⟨(match r2.out with
    | Outcome.ok _ => r.out
    | Outcome.bailout => Outcome.bailout
    | Outcome.panic m => Outcome.panic m), r2.st, r.trace ++ r2.trace⟩

/-- The observation points `ms` come before those of `r`. -/
def Res.after {α : Type} (ms : List Moment) (r : Res α) : Res α := ⟨r.out, r.st, ms ++ r.trace⟩

/-! ## Reporting (`errors.go`) -/

/-- The lines that `error_.msg` writes for the descriptions after the first. -/
def error_.msgTail (fsetPosition : Pos → String) : List errorDesc → Option String
  | [] => some ""
  | p :: ps =>
    match p.posn.Pos with
    | none => none
    | some pos =>
      (error_.msgTail fsetPosition ps).map fun rest =>
        "\n\t" ++ (if Pos_IsValid pos then fsetPosition pos ++ ": " else "") ++ p.text ++ rest

/-- Go `error_.msg`; `none` is the run-time panic of `Pos()` on a nil positioner. -/
def error_.msg (fsetPosition : Pos → String) (err : error_) : Option String :=
  match err.desc with
  | [] => some "no error"
  | d :: ds => (error_.msgTail fsetPosition ds).map fun rest => d.text ++ rest

/-- The test of `report` for follow-on errors. -/
def isInvalidErr (msg : String) : Bool :=
  decide (stringsIndex msg "invalid operand" > 0) || decide (stringsIndex msg "invalid type" > 0)

/-- The link to the error code added to the first line of a message by `report`. -/
def addErrorURL (msg u : String) : String :=
  let i := stringsIndex msg "\n"
  if i ≥ 0 then String.mk (msg.data.take i.toNat ++ u.data ++ msg.data.drop i.toNat) else msg ++ u

/-- The first part of `report`: from the text `msg` of the error, the message with
the mark of an invalid syntax tree and the link to the error code added. -/
def renderMsg (st : Checker) (code : Code) (msg : String) : String :=
  let msg1 := if code = Code.InvalidSyntaxTree then "invalid AST: " ++ msg else msg
  if st.conf._ErrorURL ≠ "" then addErrorURL msg1 (st.conf.fmtErrorURL code) else msg1

/-- Go `Checker.report`. -/
def report (st : Checker) (errp : error_) : Res Unit :=
  Res.after [⟨Label.report errp, st⟩] <|
  match errp.desc with
  | [] => Res.fail st "empty error details"
  | d0 :: _ =>
    match errp.msg st.fsetPosition with
    | none => Res.fail st "invalid memory address or nil pointer dereference"
    | some msg0 =>
      if errp.code = Code.noCode then Res.fail st "no error code provided" else
      let msg := renderMsg st errp.code msg0
      match spanOf d0.posn with
      | none => Res.fail st "nil positioner"
      | some span =>
        if st.firstErr.isSome && isInvalidErr msg then Res.ret st () else
        let pos := match spanOf st.env.errpos with
          | some sp => sp.pos
          | none => span.pos
        let err : Error := { pos := pos, msg := stripAnnotations msg, soft := errp.soft }
        let st1 := { st with firstErr := match st.firstErr with
                                          | none => some err
                                          | some e => some e }
        if st1.conf.hasError then Res.ret { st1 with sink := st1.sink ++ [err] } ()
        else ⟨Outcome.bailout, st1, []⟩

/-- Go `Checker.error`. -/
def error (st : Checker) (at_ : positioner) (code : Code) (msg : String) : Res Unit :=
  report st (newErrorf at_ code msg)

/-- Go `Checker.errorf`, with the message already formatted. -/
def errorf (st : Checker) (at_ : positioner) (code : Code) (text : String) : Res Unit :=
  report st (newErrorf at_ code text)

/-- Go `Checker.softErrorf`, with the message already formatted. -/
def softErrorf (st : Checker) (at_ : positioner) (code : Code) (text : String) : Res Unit :=
  report st { newErrorf at_ code text with soft := true }

/-! ## Cycles (`decl.go`) -/

/-- Go `PackagePrefix`. -/
def PackagePrefix (pkg : Option Package) (qf : Option (Package → String)) : String :=
  match pkg with
  | none => ""
  | some p =>
    let s := match qf with
      | some f => f p
      | none => p.path
    if s ≠ "" then s ++ "." else s

/-- Go `strconv.Quote` of the standard library, as `String.quote`; the two agree on
printable ASCII. -/
def strconvQuote (s : String) : String := s.quote

/-- Go `Checker.qualifier`, with the table `pkgPathMap` as built by `markImports`. -/
def qualifier (st : Checker) (pkg : Package) : String :=
  if pkg ≠ st.pkg then
    if (st.pkgPathMap pkg.name).length > 1 then strconvQuote pkg.path else pkg.name
  else ""

/-- The closure `name` of `cycleError`: the possibly qualified object name. -/
def objName (st : Checker) (obj : ObjId) : String :=
  PackagePrefix (st.objs obj).pkg (some (qualifier st)) ++ (st.objs obj).name

/-- The loop of `firstInSrc` over `path[1:]`: `i` is the loop index, `fst` and
`pos` the best index and position so far. -/
def firstInSrcLoop (posOf : ObjId → Pos) : List ObjId → Nat → Nat → Pos → Nat
  | [], _, fst, _ => fst
  | t :: ts, i, fst, pos =>
    if cmpPos (posOf t) pos < 0 then firstInSrcLoop posOf ts (i + 1) (i + 1) (posOf t)
    else firstInSrcLoop posOf ts (i + 1) fst pos

/-- Go `firstInSrc`; `none` is the index panic on an empty path. -/
def firstInSrc (posOf : ObjId → Pos) (path : List ObjId) : Option Nat :=
  match path with
  | [] => none
  | p0 :: rest => some (firstInSrcLoop posOf rest 0 0 (posOf p0))

/-- The loop `for range cycle` of `cycleError` with `n` rounds left; `i`, `obj` and
`name` are the loop variables `i`, `obj` and `objName`. It returns the object and the
name that the final line uses. -/
def cycleErrorLoop (cycle : List ObjId) :
    Nat → Checker → Nat → ObjId → String → Res (ObjId × String)
  | 0, st, _, obj, name => Res.ret st (obj, name)
  | n + 1, st, i, obj, name =>
    (errorf st (positioner.object (st.objs obj).pos) Code.InvalidDeclCycle
        ("\t" ++ name ++ " refers to")).bind fun _ st1 =>
      let i1 := if i + 1 ≥ cycle.length then 0 else i + 1
      match cycle[i1]? with
      | none => Res.fail st1 "index out of range"
      | some obj1 => cycleErrorLoop cycle n st1 i1 obj1 (objName st1 obj1)

/-- Go `Checker.cycleError`. -/
def cycleError (st : Checker) (cycle : List ObjId) : Res Unit :=
  match firstInSrc (fun o => (st.objs o).pos) cycle with
  | none => Res.fail st "index out of range"
  | some i =>
    match cycle[i]? with
    | none => Res.fail st "index out of range"
    | some obj =>
      let name0 := objName st obj
      let isTName := decide ((st.objs obj).kind = ObjKind.TypeName)
      let st1 := if isTName && TypeName_IsAlias obj (st.objs obj)
        then validAlias st obj Typ_Invalid else st
      let at_ := positioner.object (st1.objs obj).pos
      if cycle.length = 1 then
        if isTName then
          errorf st1 at_ Code.InvalidDeclCycle
            ("invalid recursive type: " ++ name0 ++ " refers to itself")
        else
          errorf st1 at_ Code.InvalidDeclCycle
            ("invalid cycle in declaration: " ++ name0 ++ " refers to itself")
      else
        (if isTName then
          errorf st1 at_ Code.InvalidDeclCycle ("invalid recursive type " ++ name0)
        else
          errorf st1 at_ Code.InvalidDeclCycle ("invalid cycle in declaration of " ++ name0)).bind
        fun _ st2 =>
          (cycleErrorLoop cycle cycle.length st2 i obj name0).bind fun last st3 =>
            errorf st3 (positioner.object (st3.objs last.1).pos) Code.InvalidDeclCycle
              ("\t" ++ last.2)

/-- What the counting loop of `validCycle` has found. -/
structure CycleCount where
  tparCycle : Bool
  nval : Nat
  ndef : Nat
deriving DecidableEq, Repr

/-- The loop `for _, obj := range cycle` of `validCycle`, from the counts so far;
`Except.error` is a panic. -/
def countCycle (st : Checker) : List ObjId → Nat → Nat → Except String CycleCount
  | [], nval, ndef => Except.ok ⟨false, nval, ndef⟩
  | o :: rest, nval, ndef =>
    match (st.objs o).kind with
    | ObjKind.Const => countCycle st rest (nval + 1) ndef
    | ObjKind.Var => countCycle st rest (nval + 1) ndef
    | ObjKind.TypeName =>
      if st.env.inTParamList && IsGeneric (st.objs o).typ then Except.ok ⟨true, nval, ndef⟩
      else
        match st.decl? o with
        | some d =>
          match d.tdecl with
          | none => Except.error "invalid memory address or nil pointer dereference"
          | some td =>
            if Pos_IsValid td.Assign then countCycle st rest nval ndef
            else countCycle st rest nval (ndef + 1)
        | none =>
          if TypeName_IsAlias o (st.objs o) then countCycle st rest nval ndef
          else countCycle st rest nval (ndef + 1)
    | ObjKind.Func => countCycle st rest nval ndef
    | ObjKind.Other => Except.error "unreachable"

/-- Go `Checker.validCycle` (with `debug` false). -/
def validCycle (st : Checker) (obj : ObjId) : Res Bool :=
  Res.after [⟨Label.validCycle obj, st⟩] <|
  if Object_color st obj < Grey then Res.fail st "assertion failed" else
  let start := Object_color st obj - Grey
  if start > st.objPath.length then Res.fail st "slice bounds out of range" else
  let cycle := st.objPath.drop start
  match countCycle st cycle 0 0 with
  | Except.error msg => Res.fail st msg
  | Except.ok cnt =>
    if !cnt.tparCycle && decide (cnt.nval = cycle.length) then Res.ret st true
    else if !cnt.tparCycle && (decide (cnt.nval = 0) && decide (cnt.ndef > 0)) then Res.ret st true
    else (cycleError st cycle).bind fun _ st1 => Res.ret st1 false

/-! ## `objDecl` (`decl.go`) -/

/-- The deferred call of the white case of `objDecl`:
`Object_setColor(check.pop(), Black)`. -/
def popBlack (st : Checker) : Res Unit :=
  match pop st with
  | none => Res.fail st "index out of range"
  | some (st1, top) =>
    let st2 := Object_setColor st1 top Black
    ⟨Outcome.ok (), st2, [⟨Label.setColor top Black, st2⟩]⟩

/-- One effect of resolving a declaration; `call` is `objDecl` for the objects the
declaration refers to. `none` means that `call` did not finish. -/
def execAct (call : Checker → ObjId → Option (Res Unit)) (st : Checker) :
    Act → Option (Res Unit)
  | Act.use o => call st o
  | Act.setTyp o t =>
    let st1 := Object_setTyp st o t
    some ⟨Outcome.ok (), st1, [⟨Label.step, st1⟩]⟩
  | Act.errorf at_ code text soft =>
    let r := report st { newErrorf at_ code text with soft := soft }
    some ⟨r.out, r.st, r.trace ++ [⟨Label.step, r.st⟩]⟩
  | Act.later f =>
    let st1 := (later st f).1
    some ⟨Outcome.ok (), st1, [⟨Label.step, st1⟩]⟩
  | Act.setEnv e =>
    let st1 := { st with env := e }
    some ⟨Outcome.ok (), st1, [⟨Label.step, st1⟩]⟩
  | Act.fail msg => some (Res.fail st msg)

/-- The effects of resolving a declaration, in order, up to the first that does
not return normally. -/
def runActs (call : Checker → ObjId → Option (Res Unit)) : Checker → List Act → Option (Res Unit)
  | st, [] => some (Res.ret st ())
  | st, a :: rest =>
    match execAct call st a with
    | none => none
    | some r =>
      match r.out with
      | Outcome.ok _ => (runActs call r.st rest).map fun r2 => Res.after r.trace r2
      | _ => some r

/-- The grey case of the colour switch of `objDecl`. -/
def objDeclGrey (st : Checker) (obj : ObjId) : Res Unit :=
  let assertTyp := fun (s : Checker) =>
    if (s.objs obj).typ.isNone then (⟨Outcome.panic "assertion failed", s, [⟨Label.step, s⟩]⟩ : Res Unit)
    else ⟨Outcome.ok (), s, [⟨Label.step, s⟩]⟩
  match (st.objs obj).kind with
  | ObjKind.Const =>
    (validCycle st obj).bind fun valid s =>
      assertTyp (if !valid || (s.objs obj).typ.isNone then Const_setTyp s obj Typ_Invalid else s)
  | ObjKind.Var =>
    (validCycle st obj).bind fun valid s =>
      assertTyp (if !valid || (s.objs obj).typ.isNone then Var_setTyp s obj Typ_Invalid else s)
  | ObjKind.TypeName =>
    (validCycle st obj).bind fun valid s =>
      assertTyp (if !valid then TypeName_setTyp s obj Typ_Invalid else s)
  | ObjKind.Func =>
    (validCycle st obj).bind fun _ s => assertTyp s
  | ObjKind.Other => Res.fail st "unreachable"

/-- The part of `objDecl` after the colour switch: the declaration of a white
object is looked up and resolved in a fresh environment, which is restored by a
deferred call. The routine that the switch on the kind of object calls (`constDecl`,
`varDecl`, `typeDecl` with `collectMethods`, `funcDecl`) is run here as the sequence
of effects that the declaration carries (`d.body`, in the sense of `Act`);
`constDecl`, `varDecl` and `collectMethods` are embedded on their own further
down. -/
def objDeclResolve (call : Checker → ObjId → Option (Res Unit)) (st : Checker) (obj : ObjId) :
    Option (Res Unit) :=
  match st.decl? obj with
  | none => some (Res.fail st "unreachable")
  | some d =>
    let env := st.env
    let st1 := { st with env := environment.ofScope d.file }
    let body : Option (Res Unit) :=
      match (st.objs obj).kind with
      | ObjKind.Const => runActs call { st1 with env := { st1.env with decl := some obj } } d.body
      | ObjKind.Var => runActs call { st1 with env := { st1.env with decl := some obj } } d.body
      | ObjKind.TypeName => runActs call st1 d.body
      | ObjKind.Func => runActs call st1 d.body
      | ObjKind.Other => some (Res.fail st1 "unreachable")
    body.map fun r => r.deferred fun s =>
      let s1 := { s with env := env }
      ⟨Outcome.ok (), s1, [⟨Label.step, s1⟩]⟩

/-- The body of `objDecl` below the tracing block. -/
def objDeclBody (call : Checker → ObjId → Option (Res Unit)) (st : Checker) (obj : ObjId) :
    Option (Res Unit) :=
  if Object_color st obj = White ∧ (st.objs obj).typ ≠ none then
    let st1 := Object_setColor st obj Black
    some ⟨Outcome.ok (), st1, [⟨Label.setColor obj Black, st1⟩]⟩
  else if Object_color st obj = White then
    if (st.objs obj).typ ≠ none then some (Res.fail st "assertion failed") else
    let pushed := push st obj
    let c := u32 (Grey + u32 pushed.2)
    let st2 := Object_setColor pushed.1 obj c
    (objDeclResolve call st2 obj).map fun r =>
      Res.after [⟨Label.setColor obj c, st2⟩] (r.deferred popBlack)
  else if Object_color st obj = Black then
    if (st.objs obj).typ = none then some (Res.fail st "assertion failed")
    else some (Res.ret st ())
  else some (objDeclGrey st obj)

/-- Go `Checker.objDecl`; the first argument bounds the depth of nested calls, and
`none` means that the bound was reached. The argument `def` of the Go function is
only handed on to `typeDecl` and is left out. -/
def objDecl : Nat → Checker → ObjId → Option (Res Unit)
  | 0 => fun _ _ => none
  | fuel + 1 => fun st obj =>
    if st.conf._Trace && (st.objs obj).typ.isNone then
      (objDeclBody (objDecl fuel) { st with indent := st.indent + 1 } obj).map fun r =>
        r.deferred fun s => Res.ret { s with indent := s.indent - 1 } ()
    else objDeclBody (objDecl fuel) st obj

/-! ## Predicates on types (`internal/xtypes/predicates.go`, `internal/xtypes/under.go`) -/

/-- Go `types.IsBoolean`, a flag of `types.BasicInfo` of the standard library. -/
def types_IsBoolean : Nat := 1

def types_IsInteger : Nat := 2

def types_IsUnsigned : Nat := 4

def types_IsFloat : Nat := 8

def types_IsComplex : Nat := 16

def types_IsString : Nat := 32

def types_IsUntyped : Nat := 64

def types_IsNumeric : Nat := types_IsInteger ||| types_IsFloat ||| types_IsComplex

def types_IsConstType : Nat := types_IsBoolean ||| types_IsNumeric ||| types_IsString

/-- Go `(*types.Basic).Info`: the table `types.Typ` of the standard library with the
aliases `byte` and `rune`, by the name of the basic type. The invalid type,
`unsafe.Pointer` and any other name have no flag. -/
def Basic_Info (name : String) : Nat :=
  if name = "bool" then types_IsBoolean
  else if name ∈ ["int", "int8", "int16", "int32", "int64", "rune"] then types_IsInteger
  else if name ∈ ["uint", "uint8", "uint16", "uint32", "uint64", "uintptr", "byte"] then
    types_IsInteger ||| types_IsUnsigned
  else if name ∈ ["float32", "float64"] then types_IsFloat
  else if name ∈ ["complex64", "complex128"] then types_IsComplex
  else if name = "string" then types_IsString
  else if name = "untyped bool" then types_IsBoolean ||| types_IsUntyped
  else if name ∈ ["untyped int", "untyped rune"] then types_IsInteger ||| types_IsUntyped
  else if name = "untyped float" then types_IsFloat ||| types_IsUntyped
  else if name = "untyped complex" then types_IsComplex ||| types_IsUntyped
  else if name = "untyped string" then types_IsString ||| types_IsUntyped
  else if name = "untyped nil" then types_IsUntyped
  else 0

/-- Go `Under`. Modelled from the spec: `Named_under` is not in the sources at hand
and `Underlying` belongs to the library; the underlying type of a named type and of a
type parameter is read off the field `underlying` of the checker, and a basic or
composite type is its own underlying type. -/
def Under (st : Checker) : Typ → Typ
  | Typ.named o _ => st.underlying o
  | Typ.typeParam o => st.underlying o
  | t => t

/-- Go `IsBasic`. -/
def IsBasic (st : Checker) (t : Typ) (info : Nat) : Bool :=
  match Under st t with
  | Typ.basic name => decide (Basic_Info name &&& info ≠ 0)
  | _ => false

/-- Go `IsConstType`. -/
def IsConstType (st : Checker) (t : Typ) : Bool := IsBasic st t types_IsConstType

/-- Go `IsTyped`. -/
def IsTyped (t : Typ) : Bool :=
  match t with
  | Typ.basic name => decide (Basic_Info name &&& types_IsUntyped = 0)
  | _ => true

/-- Go `isTypeParam`. -/
def isTypeParam (t : Typ) : Bool :=
  match t with
  | Typ.typeParam _ => true
  | _ => false

/-! ## Type expressions (`typeexpr.go`) -/

/-- The text that `%s` gives for a type in a diagnostic: `TypeString` of the library
with the qualifier of the checker, which the checker state carries as given. -/
def Typ_String (st : Checker) (t : Typ) : String := st.typeString t

/-- Modelled from the spec: `recordTypeAndValue` is not in the sources at hand; the
spec has the checker fill a side table that maps each type-bearing expression to its
resolved type, which is `Info.Types`. -/
def recordTypeAndValue (st : Checker) (e : TExpr) (t : Typ) : Checker :=
  { st with Types := st.Types ++ [((e.pos, e.end_), t)] }

/-- Modelled from the spec: `setUnderlying` is not in the sources at hand; by the
comment of `definedType`, `def.underlying` is set to the type, and nothing happens
when `def` is nil. The named type `def` is known by the object that declares it. -/
def setUnderlying (st : Checker) (def_ : Option ObjId) (t : Typ) : Checker :=
  match def_ with
  | none => st
  | some d => { st with underlying := Function.update st.underlying d t }

/-- Go `new(T)` for a type structure: the node that is next in line, which is not in
use, gets the zero value; the state after and the node. -/
def newNode (st : Checker) (k : NodeKind) : Checker × Nat :=
  ({ st with nodes := Function.update st.nodes st.nextNode (TypeNode.zero k),
             nextNode := st.nextNode + 1 }, st.nextNode)

/-- The start of a case of `typInternal` that builds a type structure:
`typ := new(T); def.setUnderlying(typ)`. -/
def allocBound (st : Checker) (def_ : Option ObjId) (k : NodeKind) : Checker × Nat :=
  let a := newNode st k
  (setUnderlying a.1 def_ (Typ.composite a.2), a.2)

/-- The store `typ.elem = t`. -/
def setElem (st : Checker) (node : Nat) (t : Typ) : Checker :=
  { st with nodes := Function.update st.nodes node { st.nodes node with elem := some t } }

/-- The store `typ.base = t`. -/
def setBase (st : Checker) (node : Nat) (t : Typ) : Checker :=
  { st with nodes := Function.update st.nodes node { st.nodes node with base := some t } }

/-- The store `typ.key = t`. -/
def setKey (st : Checker) (node : Nat) (t : Typ) : Checker :=
  { st with nodes := Function.update st.nodes node { st.nodes node with key := some t } }

/-- The store `typ.len = n`. -/
def setLen (st : Checker) (node : Nat) (n : Int) : Checker :=
  { st with nodes := Function.update st.nodes node { st.nodes node with len := n } }

/-- The store `typ.dir = d`. -/
def setDir (st : Checker) (node : Nat) (d : Nat) : Checker :=
  { st with nodes := Function.update st.nodes node { st.nodes node with dir := d } }

/-- Sequential composition with a continuation that may not finish. -/
def Res.bindO {α β : Type} (r : Res α) (k : α → Checker → Option (Res β)) : Option (Res β) :=
  match r.out with
  | Outcome.ok a => (k a r.st).map (Res.after r.trace)
  | Outcome.bailout => some ⟨Outcome.bailout, r.st, r.trace⟩
  | Outcome.panic m => some ⟨Outcome.panic m, r.st, r.trace⟩

/-- Sequential composition of two computations that may not finish. -/
def seqO {α β : Type} (x : Option (Res α)) (k : α → Checker → Option (Res β)) :
    Option (Res β) :=
  x.bind fun r => r.bindO k

/-- The end of `typInternal`, reached by the cases that do not return a type:
`typ := Typ[Invalid]; def.setUnderlying(typ); return typ`. -/
def typInvalidEnd (st : Checker) (def_ : Option ObjId) : Res Typ :=
  let s1 := setUnderlying st def_ Typ_Invalid
  ⟨Outcome.ok Typ_Invalid, s1, [⟨Label.step, s1⟩]⟩

/-- The part of `definedType` after the call of `typInternal`, whose result is `r`. -/
def definedTypeAfter (e : TExpr) (r : Res Typ) : Res Typ :=
  r.bind fun t s =>
    if !IsTyped t then Res.fail s "assertion failed" else
    (if IsGeneric (some t) then
      (errorf s (positioner.node e.pos e.end_) Code.WrongTypeArgCount
        ("cannot use generic type " ++ Typ_String s t ++ " without instantiation")).bind
        fun _ s1 => Res.ret s1 Typ_Invalid
     else Res.ret s t).bind fun t1 s1 =>
      let s2 := recordTypeAndValue s1 e t1
      ⟨Outcome.ok t1, s2, [⟨Label.step, s2⟩]⟩

/-- Go `Checker.validVarType`: for a type that is not a type parameter the check is
pushed as a delayed action (`describef` does nothing, `debug` being false). -/
def validVarType (st : Checker) (e : TExpr) (t : Typ) : Res Unit :=
  if isTypeParam t then Res.ret st () else
  let st1 := (later st (Closure.validVarType e.pos e.end_ t)).1
  ⟨Outcome.ok (), st1, [⟨Label.step, st1⟩]⟩

/-- The part of `varType` after the call of `typInternal` inside `definedType`, whose
result is `r`. -/
def varTypeAfter (e : TExpr) (r : Res Typ) : Res Typ :=
  (definedTypeAfter e r).bind fun t s =>
    (validVarType s e t).bind fun _ s1 => Res.ret s1 t

/-- The cases `*ast.Ident` and `*ast.SelectorExpr` of `typInternal` after the call of
`check.ident` or `check.selector`, which left the state `s` and the operand with the
given extent, printed form, mode and type. -/
def identAfter (s : Checker) (def_ : Option ObjId) (pos end_ : Pos) (text : String)
    (mode : operandMode) (t : Typ) : Res Typ :=
  match mode with
  | operandMode.typexpr =>
    let s1 := setUnderlying s def_ t
    ⟨Outcome.ok t, s1, [⟨Label.step, s1⟩]⟩
  | operandMode.invalid => typInvalidEnd s def_
  | operandMode.novalue =>
    (errorf s (positioner.operand (some (pos, end_))) Code.NotAType
      (text ++ " used as type")).bind fun _ s1 => typInvalidEnd s1 def_
  | operandMode.value =>
    (errorf s (positioner.operand (some (pos, end_))) Code.NotAType
      (text ++ " is not a type")).bind fun _ s1 => typInvalidEnd s1 def_

/-- The cases `*ast.Ident` and `*ast.SelectorExpr` of `typInternal`. -/
def identCase (call : Checker → ObjId → Option (Res Unit)) (st : Checker) (def_ : Option ObjId)
    (pos end_ : Pos) (text : String) (acts : List Act) (mode : operandMode) (t : Typ) :
    Option (Res Typ) :=
  (runActs call st acts).map fun r => r.bind fun _ s => identAfter s def_ pos end_ text mode t

/-- A case of `typInternal` that builds a type structure and hands it to a routine
that fills it (`check.structType`, `check.funcType`, `check.interfaceType`):
the structure is allocated and bound before the routine runs. -/
def filledCase (call : Checker → ObjId → Option (Res Unit)) (st : Checker) (def_ : Option ObjId)
    (k : NodeKind) (acts : List Act) : Option (Res Typ) :=
  let a := allocBound st def_ k
  (runActs call a.1 acts).map fun r =>
    Res.after [⟨Label.step, a.1⟩] (r.bind fun _ s => Res.ret s (Typ.composite a.2))

/-- The case `*ast.ArrayType` of `typInternal` without a length; `evalElt` is
`check.varType(e.Elt)`. -/
def sliceCase (st : Checker) (def_ : Option ObjId) (evalElt : Checker → Option (Res Typ)) :
    Option (Res Typ) :=
  let a := allocBound st def_ NodeKind.Slice
  (seqO (evalElt a.1) fun t s =>
    let s1 := setElem s a.2 t
    some ⟨Outcome.ok (Typ.composite a.2), s1, [⟨Label.step, s1⟩]⟩).map
    (Res.after [⟨Label.step, a.1⟩])

/-- The length of the array in the case `*ast.ArrayType` of `typInternal`. -/
def arrayLen (call : Checker → ObjId → Option (Res Unit)) (st : Checker) :
    ArrayLen → Option (Res Int)
  | ArrayLen.ellipsis p q =>
    some ((error st (positioner.node p q) Code.BadDotDotDotSyntax
      "invalid use of [...] array (outside a composite literal)").bind
      fun _ s => Res.ret s (-1))
  | ArrayLen.expr _ _ acts n => (runActs call st acts).map fun r => r.bind fun _ s => Res.ret s n

/-- The case `*ast.ArrayType` of `typInternal` with a length; `evalElt` is
`check.varType(e.Elt)`. An array of negative length falls through to the end of the
function. -/
def arrayCase (call : Checker → ObjId → Option (Res Unit)) (st : Checker) (def_ : Option ObjId)
    (len : ArrayLen) (evalElt : Checker → Option (Res Typ)) : Option (Res Typ) :=
  let a := allocBound st def_ NodeKind.Array
  (seqO (arrayLen call a.1 len) fun n s =>
    let s1 := setLen s a.2 n
    (seqO (evalElt s1) fun t s2 =>
      let s3 := setElem s2 a.2 t
      some (Res.after [⟨Label.step, s3⟩]
        (if n ≥ 0 then Res.ret s3 (Typ.composite a.2) else typInvalidEnd s3 def_))).map
      (Res.after [⟨Label.step, s1⟩])).map
    (Res.after [⟨Label.step, a.1⟩])

/-- The case `*ast.StarExpr` of `typInternal`; `evalX` is `check.varType(e.X)`. -/
def starCase (st : Checker) (def_ : Option ObjId) (evalX : Checker → Option (Res Typ)) :
    Option (Res Typ) :=
  let a := newNode st NodeKind.Pointer
  let s0 := setUnderlying (setBase a.1 a.2 Typ_Invalid) def_ (Typ.composite a.2)
  (seqO (evalX s0) fun t s =>
    let s1 := setBase s a.2 t
    some ⟨Outcome.ok (Typ.composite a.2), s1, [⟨Label.step, s1⟩]⟩).map
    (Res.after [⟨Label.step, s0⟩])

/-- The case `*ast.MapType` of `typInternal`; `evalKey` is `check.varType(e.Key)`,
`evalValue` is `check.varType(e.Value)`, and the delayed check of the key is the
closure `mapKey` with the structure and the extent of `e.Key`. -/
def mapCase (st : Checker) (def_ : Option ObjId) (kpos kend : Pos)
    (evalKey evalValue : Checker → Option (Res Typ)) : Option (Res Typ) :=
  let a := allocBound st def_ NodeKind.Map
  (seqO (evalKey a.1) fun tk s =>
    let s1 := setKey s a.2 tk
    (seqO (evalValue s1) fun tv s2 =>
      let s3 := setElem s2 a.2 tv
      let s4 := (later s3 (Closure.mapKey a.2 kpos kend)).1
      some ⟨Outcome.ok (Typ.composite a.2), s4, [⟨Label.step, s3⟩, ⟨Label.step, s4⟩]⟩).map
      (Res.after [⟨Label.step, s1⟩])).map
    (Res.after [⟨Label.step, a.1⟩])

/-- Go `ast.SEND`. -/
def ast_SEND : Nat := 1

/-- Go `ast.RECV`. -/
def ast_RECV : Nat := 2

/-- Go `types.SendRecv`. -/
def SendRecv : Nat := 0

/-- Go `types.SendOnly`. -/
def SendOnly : Nat := 1

/-- Go `types.RecvOnly`. -/
def RecvOnly : Nat := 2

/-- The case `*ast.ChanType` of `typInternal`; `evalValue` is
`check.varType(e.Value)`. -/
def chanCase (st : Checker) (def_ : Option ObjId) (pos end_ : Pos) (dir : Nat)
    (evalValue : Checker → Option (Res Typ)) : Option (Res Typ) :=
  let a := allocBound st def_ NodeKind.Chan
  let rd : Res Nat :=
    if dir = ast_SEND ||| ast_RECV then Res.ret a.1 SendRecv
    else if dir = ast_SEND then Res.ret a.1 SendOnly
    else if dir = ast_RECV then Res.ret a.1 RecvOnly
    else (errorf a.1 (positioner.node pos end_) Code.InvalidSyntaxTree
      ("unknown channel direction " ++ toString dir)).bind fun _ s => Res.ret s SendRecv
  (rd.bindO fun d s =>
    let s1 := setDir s a.2 d
    (seqO (evalValue s1) fun t s2 =>
      let s3 := setElem s2 a.2 t
      some ⟨Outcome.ok (Typ.composite a.2), s3, [⟨Label.step, s3⟩]⟩).map
      (Res.after [⟨Label.step, s1⟩])).map
    (Res.after [⟨Label.step, a.1⟩])

/-- The cases `*ast.Ellipsis` and `default` of `typInternal`: the diagnostic
(`check.error` and `check.errorf` are the same call of `report` once the message is
formatted), then `check.use` with its effects, then the end of the function. -/
def reportedCase (call : Checker → ObjId → Option (Res Unit)) (st : Checker)
    (def_ : Option ObjId) (pos end_ : Pos) (code : Code) (text : String) (acts : List Act) :
    Option (Res Typ) :=
  (errorf st (positioner.node pos end_) code text).bindO fun _ s =>
    (runActs call s acts).map fun r => r.bind fun _ s1 => typInvalidEnd s1 def_

/-- Go `Checker.typInternal`, with the tracing block as in the source (what is
written to standard output left out); `varType` and `definedType` on a part of the
expression are the recursive call followed by `varTypeAfter` and
`definedTypeAfter`. -/
def typInternal (call : Checker → ObjId → Option (Res Unit)) (st : Checker) (e : TExpr)
    (def_ : Option ObjId) : Option (Res Typ) :=
  let st0 := if st.conf._Trace then { st with indent := st.indent + 1 } else st
  let body : Option (Res Typ) :=
    match e with
    | TExpr.bad _ _ => some (typInvalidEnd st0 def_)
    | TExpr.ident p q text acts mode t => identCase call st0 def_ p q text acts mode t
    | TExpr.selector p q text acts mode t => identCase call st0 def_ p q text acts mode t
    | TExpr.index _ _ acts t => (runActs call st0 acts).map fun r => r.bind fun _ s => Res.ret s t
    | TExpr.paren _ _ x => (typInternal call st0 x def_).map (definedTypeAfter x)
    | TExpr.array _ _ none elt =>
      sliceCase st0 def_ fun s => (typInternal call s elt none).map (varTypeAfter elt)
    | TExpr.array _ _ (some len) elt =>
      arrayCase call st0 def_ len fun s => (typInternal call s elt none).map (varTypeAfter elt)
    | TExpr.ellipsis p q acts =>
      reportedCase call st0 def_ p q Code.InvalidDotDotDot "invalid use of \x27...\x27" acts
    | TExpr.struct _ _ acts => filledCase call st0 def_ NodeKind.Struct acts
    | TExpr.star _ _ x =>
      starCase st0 def_ fun s => (typInternal call s x none).map (varTypeAfter x)
    | TExpr.func _ _ acts => filledCase call st0 def_ NodeKind.Signature acts
    | TExpr.interface _ _ acts => filledCase call st0 def_ NodeKind.Interface acts
    | TExpr.map _ _ key value =>
      mapCase st0 def_ key.pos key.end_
        (fun s => (typInternal call s key none).map (varTypeAfter key))
        (fun s => (typInternal call s value none).map (varTypeAfter value))
    | TExpr.chan p q dir value =>
      chanCase st0 def_ p q dir fun s => (typInternal call s value none).map (varTypeAfter value)
    | TExpr.other p q text acts =>
      reportedCase call st0 def_ p q Code.NotAType (text ++ " is not a type") acts
  if st.conf._Trace then
    body.map fun r => r.deferred fun s => Res.ret { s with indent := s.indent - 1 } ()
  else body

/-- Go `Checker.definedType`. -/
def definedType (call : Checker → ObjId → Option (Res Unit)) (st : Checker) (e : TExpr)
    (def_ : Option ObjId) : Option (Res Typ) :=
  (typInternal call st e def_).map (definedTypeAfter e)

/-- Go `Checker.typ`. -/
def typ (call : Checker → ObjId → Option (Res Unit)) (st : Checker) (e : TExpr) :
    Option (Res Typ) :=
  definedType call st e none

/-- Go `Checker.varType`. -/
def varType (call : Checker → ObjId → Option (Res Unit)) (st : Checker) (e : TExpr) :
    Option (Res Typ) :=
  (definedType call st e none).map fun r => r.bind fun t s =>
    (validVarType s e t).bind fun _ s1 => Res.ret s1 t

/-! ## Constant and variable declarations (`decl.go`) -/

/-- Modelled from the spec: `Const_setVal` is an unimplemented stub in
`internal/xtypes/object.go`; it stores the value attribute of a constant. -/
def Const_setVal (st : Checker) (obj : ObjId) (v : Value) : Checker :=
  { st with objs := Function.update st.objs obj { st.objs obj with val := some v } }

/-- Modelled from the spec: `check.expr` is not in the sources at hand; checking an
expression has the effects given with the expression, objects met on the way being
checked by `call`. -/
def expr (call : Checker → ObjId → Option (Res Unit)) (st : Checker) (e : Expr) :
    Option (Res Unit) :=
  (runActs call st e.acts).map (Res.after [⟨Label.enter "expr", st⟩])

/-- Modelled from the spec: `check.initConst` is not in the sources at hand; the spec
has the constant take its type and value from the initializer; the effects of that
for the constant at hand are `assign`. -/
def initConst (call : Checker → ObjId → Option (Res Unit)) (st : Checker) (assign : List Act) :
    Option (Res Unit) :=
  (runActs call st assign).map (Res.after [⟨Label.enter "initConst", st⟩])

/-- The end of `constDecl`: the initializer, if any, is checked, with the position
override set for an inherited one, and the constant is initialized. -/
def constDeclInit (call : Checker → ObjId → Option (Res Unit)) (st : Checker) (obj : ObjId)
    (init : Option Expr) (inherited : Bool) (assign : List Act) : Option (Res Unit) :=
  match init with
  | some e =>
    let st1 := if inherited
      then { st with env := { st.env with errpos := positioner.atPos (st.objs obj).pos } }
      else st
    match expr call st1 e with
    | none => none
    | some r =>
      match r.out with
      | Outcome.ok _ => (initConst call r.st assign).map (Res.after r.trace)
      | _ => some r
  | none => initConst call st assign

/-- The body of `constDecl` below the deferred call. -/
def constDeclBody (call : Checker → ObjId → Option (Res Unit)) (st : Checker) (obj : ObjId)
    (typ_ : Option TExpr) (init : Option Expr) (inherited : Bool) (assign : List Act) : Option (Res Unit) :=
  match typ_ with
  | some te =>
    match typ call st te with
    | none => none
    | some r =>
      match r.out with
      | Outcome.ok t =>
        if !IsConstType r.st t then
          some <| Res.after r.trace <|
            (if Under r.st t ≠ Typ_Invalid then
              errorf r.st (positioner.node te.pos te.end_) Code.InvalidConstType
                ("invalid constant type " ++ Typ_String r.st t)
             else Res.ret r.st ()).bind fun _ s =>
              let s1 := Const_setTyp s obj Typ_Invalid
              ⟨Outcome.ok (), s1, [⟨Label.step, s1⟩]⟩
        else
          let s1 := Const_setTyp r.st obj t
          (constDeclInit call s1 obj init inherited assign).map
            (Res.after (r.trace ++ [⟨Label.step, s1⟩]))
      | Outcome.bailout => some ⟨Outcome.bailout, r.st, r.trace⟩
      | Outcome.panic m => some ⟨Outcome.panic m, r.st, r.trace⟩
  | none => constDeclInit call st obj init inherited assign

/-- Go `Checker.constDecl`; `assign` stands for `initConst`, see there. -/
def constDecl (call : Checker → ObjId → Option (Res Unit)) (st : Checker) (obj : ObjId)
    (typ_ : Option TExpr) (init : Option Expr) (inherited : Bool) (assign : List Act) : Option (Res Unit) :=
  if (st.objs obj).typ.isSome then some (Res.fail st "assertion failed") else
  let iota := st.env.iota
  let errpos := st.env.errpos
  let st1 := { st with env := { st.env with iota := (st.objs obj).val } }
  let st2 := { st1 with env := { st1.env with errpos := positioner.nil } }
  let st3 := Const_setVal st2 obj Value.unknown
  (constDeclBody call st3 obj typ_ init inherited assign).map fun r =>
    r.deferred fun s =>
      let s1 := { s with env := { s.env with iota := iota, errpos := errpos } }
      ⟨Outcome.ok (), s1, [⟨Label.step, s1⟩]⟩

/-- The loop `for _, lhs := range lhs \x7b lhs.typ = obj.typ \x7d` of `varDecl`. -/
def spreadTyp (obj : ObjId) : Checker → List ObjId → Checker
  | st, [] => st
  | st, v :: vs =>
    spreadTyp obj
      { st with objs := Function.update st.objs v { st.objs v with typ := (st.objs obj).typ } } vs

/-- Modelled from the spec: `check.initVar` is not in the sources at hand; the
effects of initializing the variable from the operand are `assign`. -/
def initVar (call : Checker → ObjId → Option (Res Unit)) (st : Checker) (assign : List Act) :
    Option (Res Unit) :=
  (runActs call st assign).map (Res.after [⟨Label.enter "initVar", st⟩])

/-- Modelled from the spec: `check.initVars` is not in the sources at hand; it checks
the initializer that the variables share and initializes them from it: the effects of
the expression followed by those of the assignments, `assign`. -/
def initVars (call : Checker → ObjId → Option (Res Unit)) (st : Checker) (init : Expr)
    (assign : List Act) : Option (Res Unit) :=
  (runActs call st (init.acts ++ assign)).map (Res.after [⟨Label.enter "initVars", st⟩])

/-- The first block of `varDecl`: the declared type, if any, is given to `obj`. -/
def varDeclType (call : Checker → ObjId → Option (Res Unit)) (st : Checker) (obj : ObjId)
    (typ_ : Option TExpr) : Option (Res Unit) :=
  match typ_ with
  | some te =>
    (varType call st te).map fun r => r.bind fun t s =>
      let s1 := Var_setTyp s obj t
      ⟨Outcome.ok (), s1, [⟨Label.step, s1⟩]⟩
  | none => some (Res.ret st ())

/-- The part of `varDecl` below its first block (with `debug` false). -/
def varDeclInit (call : Checker → ObjId → Option (Res Unit)) (st : Checker) (obj : ObjId)
    (lhs : Option (List ObjId)) (typ_ : Option TExpr) (init : Option Expr) (assign : List Act) :
    Option (Res Unit) :=
  match init with
  | none =>
    if typ_.isNone then
      let s1 := Object_setTyp st obj Typ_Invalid
      some ⟨Outcome.ok (), s1, [⟨Label.step, s1⟩]⟩
    else some (Res.ret st ())
  | some e =>
    match lhs with
    | none =>
      match expr call st e with
      | none => none
      | some r =>
        match r.out with
        | Outcome.ok _ => (initVar call r.st assign).map (Res.after r.trace)
        | _ => some r
    | some vs =>
      if vs.length = 1 then
        if vs.head? ≠ some obj then some (Res.fail st "assertion failed") else
        match expr call st e with
        | none => none
        | some r =>
          match r.out with
          | Outcome.ok _ => (initVar call r.st assign).map (Res.after r.trace)
          | _ => some r
      else
        let s1 := if typ_.isSome then spreadTyp obj st vs else st
        initVars call s1 e assign

/-- Go `Checker.varDecl`; `assign` stands for `initVar` and `initVars`, see there. -/
def varDecl (call : Checker → ObjId → Option (Res Unit)) (st : Checker) (obj : ObjId)
    (lhs : Option (List ObjId)) (typ_ : Option TExpr) (init : Option Expr) (assign : List Act) :
    Option (Res Unit) :=
  if (st.objs obj).typ.isSome then some (Res.fail st "assertion failed") else
  match varDeclType call st obj typ_ with
  | none => none
  | some r =>
    match r.out with
    | Outcome.ok _ => (varDeclInit call r.st obj lhs typ_ init assign).map (Res.after r.trace)
    | _ => some r

/-! ## Checking the files of a package (`check.go`) -/

/-- The loop of `initFiles` over the files; `pkg.SetName` stores the name in the
package of the checker. -/
def initFilesLoop : Checker → List File → Res Unit
  | st, [] => Res.ret st ()
  | st, file :: rest =>
    let name := file.Name
    if st.pkg.name = "" then
      (if name ≠ "_" then Res.ret { st with pkg := { st.pkg with name := name } } ()
       else error st (positioner.node file.NamePos file.NameEnd) Code.BlankPkgName
          "invalid package name _").bind fun _ s =>
        initFilesLoop { s with files := s.files ++ [file] } rest
    else if st.pkg.name = name then initFilesLoop { st with files := st.files ++ [file] } rest
    else
      (errorf st (positioner.atPos file.Package) Code.MismatchedPkgName
        ("package " ++ name ++ "; expected " ++ st.pkg.name)).bind fun _ s =>
        initFilesLoop s rest

/-- Go `Checker.initFiles`; of the fields it clears, those of the embedding. -/
def initFiles (st : Checker) (files : List File) : Res Unit :=
  initFilesLoop
    { st with files := [], firstErr := none, methods := [], delayed := [], objPath := [] } files

/-- Modelled from the spec: the phases of `checkFiles` after `initFiles` are not in
the sources at hand; the spec has them run in sequence on the checker, and each is
given as a function on the checker state (`processDelayed` with its argument). -/
structure Phases where
  collectObjects : Checker → Res Unit
  packageObjects : Checker → Res Unit
  processDelayed : Nat → Checker → Res Unit
  cleanup : Checker → Res Unit
  initOrder : Checker → Res Unit
  unusedImports : Checker → Res Unit
  recordUntyped : Checker → Res Unit
  monomorph : Checker → Res Unit

/-- Go `types.Unsafe` of the standard library. -/
def Unsafe : Package := ⟨"unsafe", "unsafe", 0⟩

/-- The value of type `error` that `checkFiles` returns when it is not nil. -/
inductive CheckError where
  | errBadCgo
  | first (e : Error)
deriving DecidableEq, Repr

/-- A call of a phase of `checkFiles`, with the observation point of its entry. -/
def enterPhase (name : String) (f : Checker → Res Unit) (st : Checker) : Res Unit :=
  Res.after [⟨Label.enter name, st⟩] (f st)

/-- The body of `checkFiles` below the deferred call of `handleBailout`. Of the
fields released at the end, `brokenAliases` is part of the state (`pkgPathMap` is
kept as built, it would be filled again on its next use). -/
def checkFilesBody (ph : Phases) (st : Checker) (files : List File) : Res Unit :=
  (enterPhase "initFiles" (fun s => initFiles s files) st).bind fun _ s1 =>
  (enterPhase "collectObjects" ph.collectObjects s1).bind fun _ s2 =>
  (enterPhase "packageObjects" ph.packageObjects s2).bind fun _ s3 =>
  (enterPhase "processDelayed" (ph.processDelayed 0) s3).bind fun _ s4 =>
  (enterPhase "cleanup" ph.cleanup s4).bind fun _ s5 =>
  (enterPhase "initOrder" ph.initOrder s5).bind fun _ s6 =>
  (if !s6.conf.DisableUnusedImportCheck then enterPhase "unusedImports" ph.unusedImports s6
   else Res.ret s6 ()).bind fun _ s7 =>
  (enterPhase "recordUntyped" ph.recordUntyped s7).bind fun _ s8 =>
  (if s8.firstErr.isNone then enterPhase "monomorph" ph.monomorph s8
   else Res.ret s8 ()).bind fun _ s9 =>
  Res.ret { s9 with pkgComplete := true, brokenAliases := [] } ()

/-- Go `Checker.handleBailout`, deferred in `checkFiles`: `r` is how the body of
`checkFiles` was left; after a normal return or a bailout the result `err` is set
to `firstErr`, any other panic goes on. -/
def handleBailout (r : Res Unit) : Res (Option CheckError) :=
  match r.out with
  | Outcome.ok _ => ⟨Outcome.ok (r.st.firstErr.map CheckError.first), r.st, r.trace⟩
  | Outcome.bailout => ⟨Outcome.ok (r.st.firstErr.map CheckError.first), r.st, r.trace⟩
  | Outcome.panic m => ⟨Outcome.panic m, r.st, r.trace⟩

/-- Go `Checker.checkFiles`; `check.pkg == types.Unsafe` compares the pointers. -/
def checkFiles (ph : Phases) (st : Checker) (files : List File) : Res (Option CheckError) :=
  if st.pkg.ptr = Unsafe.ptr then Res.ret st none
  else if st.conf.FakeImportC && st.conf.go115UsesCgo then Res.ret st (some CheckError.errBadCgo)
  else handleBailout (checkFilesBody ph st files)

/-! ## Delayed checks of type expressions (`typeexpr.go`) -/

/-- Modelled from the spec: `computeInterfaceTypeSet` is an unimplemented stub in
`typeset.go`; the spec has every interface type carry a type set, which is read off
the field `typeSets` of the checker for the interface structure `ityp`. -/
def computeInterfaceTypeSet (st : Checker) (_pos : Pos) (ityp : Nat) : _TypeSet :=
  st.typeSets ityp

/-- Modelled from the spec: `Comparable` is not in the sources at hand; whether
values of a type can be compared is read off the field `Comparable` of the
checker. -/
def Comparable (st : Checker) (t : Typ) : Bool := st.Comparable t

/-- The closure that `validVarType` hands to `later`, for the type expression from
`pos` to `end_` and the type `t`. -/
def validVarTypeCheck (st : Checker) (pos end_ : Pos) (t : Typ) : Res Unit :=
  match Under st t with
  | Typ.composite n =>
    if (st.nodes n).kind = NodeKind.Interface then
      let tset := computeInterfaceTypeSet st pos n
      if !tset.IsMethodSet then
        if tset.comparable then
          softErrorf st (positioner.node pos end_) Code.MisplacedConstraintIface
            ("cannot use type " ++ Typ_String st t
              ++ " outside a type constraint: interface is (or embeds) comparable")
        else
          softErrorf st (positioner.node pos end_) Code.MisplacedConstraintIface
            ("cannot use type " ++ Typ_String st t
              ++ " outside a type constraint: interface contains type constraints")
      else Res.ret st ()
    else Res.ret st ()
  | _ => Res.ret st ()

/-- The closure that the case `*ast.MapType` of `typInternal` hands to `later`, for
the map structure `typ` and the key expression from `pos` to `end_`; a nil key is
the nil dereference inside `Comparable`. -/
def mapKeyCheck (st : Checker) (typ : Nat) (pos end_ : Pos) : Res Unit :=
  match (st.nodes typ).key with
  | none => Res.fail st "invalid memory address or nil pointer dereference"
  | some k =>
    if !Comparable st k then
      let why := if isTypeParam k then " (missing comparable constraint)" else ""
      errorf st (positioner.node pos end_) Code.IncomparableMapKey
        ("invalid map key type " ++ Typ_String st k ++ why)
    else Res.ret st ()

/-! ## Methods and fields (`decl.go`) -/

/-- Modelled from the spec: the type `objset` is not in the sources at hand; it is
a set of objects with at most one object of a name, here the list of its objects
with their names, in the order of insertion. -/
abbrev objset := List (String × ObjId)

/-- Modelled from the spec: `objset.insert` is not in the sources at hand; if the
set has an object `alt` of the same name, the set is left as it is and `alt` is
returned, otherwise the object is inserted and nil is returned. -/
def objset_insert (st : Checker) (s : objset) (obj : ObjId) : objset × Option ObjId :=
  match s.lookup (st.objs obj).name with
  | some alt => (s, some alt)
  | none => (s ++ [((st.objs obj).name, obj)], none)

/-- Go `Checker.reportAltDecl`. -/
def reportAltDecl (st : Checker) (obj : ObjId) : Res Unit :=
  if Pos_IsValid (st.objs obj).pos then
    errorf st (positioner.object (st.objs obj).pos) Code.DuplicateDecl
      ("\tother declaration of " ++ (st.objs obj).name)
  else Res.ret st ()

/-- The loop of `collectMethods` and of `checkFieldUniqueness` over the methods
that the type has already, which are inserted into the set; `none` is a failed
assertion. -/
def insertExisting (st : Checker) : List ObjId → objset → Option objset
  | [], s => some s
  | m :: ms, s =>
    if (st.objs m).name = "_" then none else
    match objset_insert st s m with
    | (s1, none) => insertExisting st ms s1
    | (_, some _) => none

/-- Go `(*types.Named).AddMethod` of the standard library: the method is appended
to the methods of the type unless the type has a method of that name. -/
def Named_AddMethod (st : Checker) (base m : ObjId) : Checker :=
  if (st.namedMethods base).any (fun x => decide ((st.objs x).name = (st.objs m).name)) then st
  else { st with namedMethods :=
           Function.update st.namedMethods base (st.namedMethods base ++ [m]) }

/-- The formatting of a `token.Pos` with the verb `%s` by `fmt.Sprintf` of the
library: the type is an integer type without a method `String`. -/
def sprintfPos (p : Pos) : String := "%!s(token.Pos=" ++ toString p ++ ")"

/-- The loop `for _, m := range methods` of `collectMethods`. -/
def collectMethodsLoop (obj : ObjId) (base : Option ObjId) :
    Checker → objset → List ObjId → Res Unit
  | st, _, [] => Res.ret st ()
  | st, mset, m :: ms =>
    if (st.objs m).name = "_" then Res.fail st "assertion failed" else
    match objset_insert st mset m with
    | (_, some alt) =>
      (if Pos_IsValid (st.objs alt).pos then
        errorf st (positioner.object (st.objs m).pos) Code.DuplicateMethod
          ("method " ++ (st.objs obj).name ++ "." ++ (st.objs m).name ++ " already declared at "
            ++ sprintfPos (st.objs alt).pos)
       else
        errorf st (positioner.object (st.objs m).pos) Code.DuplicateMethod
          ("method " ++ (st.objs obj).name ++ "." ++ (st.objs m).name
            ++ " already declared")).bind fun _ s1 =>
        collectMethodsLoop obj base s1 mset ms
    | (mset1, none) =>
      match base with
      | some b =>
        let s1 := Named_AddMethod st b m
        Res.after [⟨Label.step, s1⟩] (collectMethodsLoop obj base s1 mset1 ms)
      | none => collectMethodsLoop obj base st mset1 ms

/-- Go `Checker.collectMethods`. The map lookup `check.methods[obj]` is nil when
the object has no entry; the named types of the embedding are declared types, which
have no type arguments, so the assertion on `base.TypeArgs()` holds. -/
def collectMethods (st : Checker) (obj : ObjId) : Res Unit :=
  match st.methods.lookup obj with
  | none => Res.ret st ()
  | some methods =>
    let st1 := { st with methods := st.methods.filter fun p => decide (p.1 ≠ obj) }
    match st1.decl? obj with
    | none => Res.fail st1 "invalid memory address or nil pointer dereference"
    | some d =>
      match d.tdecl with
      | none => Res.fail st1 "invalid memory address or nil pointer dereference"
      | some td =>
        if Pos_IsValid td.Assign then Res.fail st1 "assertion failed" else
        match (st1.objs obj).typ with
        | some (Typ.named b _) =>
          let st2 := (later st1 (Closure.checkFieldUniqueness b)).1
          Res.after [⟨Label.step, st2⟩] <|
            match insertExisting st2 (st2.namedMethods b) [] with
            | none => Res.fail st2 "assertion failed"
            | some mset => collectMethodsLoop obj (some b) st2 mset methods
        | _ => collectMethodsLoop obj none st1 [] methods

/-- The loop `for _, fld := range Struct_fields(t)` of `checkFieldUniqueness`; the
type assertion `alt.(*types.Func)` panics for an object that is not a function. -/
def checkFieldsLoop : Checker → objset → List ObjId → Res Unit
  | st, _, [] => Res.ret st ()
  | st, mset, fld :: rest =>
    if (st.objs fld).name ≠ "_" then
      match objset_insert st mset fld with
      | (_, some alt) =>
        if (st.objs alt).kind ≠ ObjKind.Func then
          Res.fail st "interface conversion: types.Object is not *types.Func"
        else
          (errorf st (positioner.object (st.objs alt).pos) Code.DuplicateFieldAndMethod
            ("field and method with the same name " ++ (st.objs fld).name)).bind fun _ s1 =>
          (reportAltDecl s1 fld).bind fun _ s2 => checkFieldsLoop s2 mset rest
      | (mset1, none) => checkFieldsLoop st mset1 rest
    else checkFieldsLoop st mset rest

/-- Go `Checker.checkFieldUniqueness`; `Named_under(base)` is the underlying type
recorded for the object that declares `base`, and the fields of a struct type are
read off the field `structFields` of the checker. -/
def checkFieldUniqueness (st : Checker) (base : ObjId) : Res Unit :=
  match st.underlying base with
  | Typ.composite n =>
    if (st.nodes n).kind = NodeKind.Struct then
      match insertExisting st (st.namedMethods base) [] with
      | none => Res.fail st "assertion failed"
      | some mset => checkFieldsLoop st mset (st.structFields n)
    else Res.ret st ()
  | _ => Res.ret st ()

/-- The call `f()` of a delayed closure; the closures built by code outside this
development are given by `other`. -/
def runClosure (other : Nat → Checker → Res Unit) (st : Checker) : Closure → Res Unit
  | Closure.fn id => other id st
  | Closure.validVarType p q t => validVarTypeCheck st p q t
  | Closure.mapKey n p q => mapKeyCheck st n p q
  | Closure.checkFieldUniqueness b => checkFieldUniqueness st b

/-! ## Declaring objects (`decl.go`, `check.go`) -/

/-- The parts of the program state that `declare` works on besides the checker: for
each scope its elements, keyed by name, for each object its parent scope and its
scope position, and the map `Defs` of the checker, keyed by identifier (`none` is the
nil map). Modelled from the spec: `types.Scope` and `types.Info` belong to the
library `go/types`, which is not in the sources at hand. -/
structure declStore where
  elems : Nat → List (String × ObjId)
  parent : ObjId → Option Nat
  scopePos : ObjId → Pos
  Defs : Option (Nat → Option ObjId)

/-- Modelled from the spec: `(*types.Scope).Insert` belongs to the library
`go/types`; if the scope has an object `alt` of the same name, the scope is left as
it is and `alt` is returned; otherwise the object is inserted, its parent is set to
the scope if it has none, and nil is returned. -/
def Scope_Insert (st : Checker) (w : declStore) (scope : Nat) (obj : ObjId) :
    declStore × Option ObjId :=
  match (w.elems scope).lookup (st.objs obj).name with
  | some alt => (w, some alt)
  | none =>
    ({ w with elems := Function.update w.elems scope
                (w.elems scope ++ [((st.objs obj).name, obj)]),
              parent := if (w.parent obj).isNone then Function.update w.parent obj (some scope)
                        else w.parent }, none)

/-- Modelled from the spec: `Object_setScopePos` is an unimplemented stub in
`internal/xtypes/object.go`; it stores the scope position of the object. -/
def Object_setScopePos (w : declStore) (obj : ObjId) (pos : Pos) : declStore :=
  { w with scopePos := Function.update w.scopePos obj pos }

/-- Go `Checker.recordDef`. -/
def recordDef (st : Checker) (w : declStore) (id : Option Nat) (obj : ObjId) :
    Res Unit × declStore :=
  match id with
  | none => (Res.fail st "assertion failed", w)
  | some i =>
    (Res.ret st (),
      match w.Defs with
      | some m => { w with Defs := some (Function.update m i (some obj)) }
      | none => w)

/-- Go `Checker.declare`; the result and the store after the call. -/
def declare (st : Checker) (w : declStore) (scope : Nat) (id : Option Nat) (obj : ObjId)
    (pos : Pos) : Res Unit × declStore :=
  let record := fun (w1 : declStore) =>
    if id.isSome then recordDef st w1 id obj else (Res.ret st (), w1)
  if (st.objs obj).name ≠ "_" then
    match Scope_Insert st w scope obj with
    | (w1, some alt) =>
      ((errorf st (positioner.object (st.objs obj).pos) Code.DuplicateDecl
          ((st.objs obj).name ++ " redeclared in this block")).bind
        fun _ s => reportAltDecl s alt, w1)
    | (w1, none) => record (Object_setScopePos w1 obj pos)
  else record w

/-! ## Walking the declarations (`decl.go`) -/

/-- Go `token.Token` as `walkDecl` tells the tokens of a general declaration apart;
`other` is any other token, with its printed form. -/
inductive Token where
  | CONST
  | VAR
  | other (text : String)
deriving DecidableEq, Repr

/-- Go `ast.Spec` as the type switch of `walkDecl` tells the specifications apart;
an import specification is known by a number, `other` is a node of any other type,
with its extent and the name of its type. -/
inductive Spec where
  | importSpec (spec : Nat)
  | valueSpec (s : ValueSpec)
  | typeSpec (s : TypeSpec)
  | other (pos end_ : Pos) (typeName : String)
deriving DecidableEq, Repr

/-- Go `ast.Decl` as the type switch of `walkDecl` tells the declarations apart; a
function declaration is known by a number, `other` is a node of any other type, with
its extent and the name of its type. -/
inductive Decl where
  | bad
  | gen (Tok : Token) (Specs : List Spec)
  | func (decl : Nat)
  | other (pos end_ : Pos) (typeName : String)
deriving DecidableEq, Repr

/-- Go `new(ast.ValueSpec)`: the zero value, without a type and without values. -/
def ValueSpec.zero : ValueSpec := ⟨NoPos, NoPos, none, []⟩

/-- The call `f(d)` of the callback of `walkDecl`, with its observation point. -/
def callDecl (f : decl → Checker → Res Unit) (d : decl) (st : Checker) : Res Unit :=
  Res.after [⟨Label.call d, st⟩] (f d st)

/-- The switch of `walkDecl` that determines which initialization expressions a
constant specification uses: the value of `last` after it and `inherited`. -/
def lastAndInherited (s : ValueSpec) (last : Option ValueSpec) : ValueSpec × Bool :=
  if s.Type_ ≠ none ∨ s.Values.length > 0 then (s, false)
  else
    match last with
    | none => (ValueSpec.zero, false)
    | some l => (l, true)

/-- The loop of `walkDecl` over the specifications of a general declaration with the
token `Tok`, from the loop index `iota` on, with the variable `last` (`none` is
nil). `arityMatch` is `check.arityMatch`, which is not in the sources at hand. -/
def walkSpecs (arityMatch : ValueSpec → Option ValueSpec → Checker → Res Unit)
    (f : decl → Checker → Res Unit) (Tok : Token) :
    List Spec → Nat → Option ValueSpec → Checker → Res Unit
  | [], _, _, st => Res.ret st ()
  | s :: rest, iota, last, st =>
    match s with
    | Spec.importSpec i =>
      (callDecl f (decl.importDecl i) st).bind fun _ s1 =>
        walkSpecs arityMatch f Tok rest (iota + 1) last s1
    | Spec.valueSpec v =>
      match Tok with
      | Token.CONST =>
        let li := lastAndInherited v last
        (arityMatch v (some li.1) st).bind fun _ s1 =>
          (callDecl f (decl.constDecl v iota li.1.Type_ li.1.Values li.2) s1).bind fun _ s2 =>
            walkSpecs arityMatch f Tok rest (iota + 1) (some li.1) s2
      | Token.VAR =>
        (arityMatch v none st).bind fun _ s1 =>
          (callDecl f (decl.varDecl v) s1).bind fun _ s2 =>
            walkSpecs arityMatch f Tok rest (iota + 1) last s2
      | Token.other text =>
        (errorf st (positioner.node v.pos v.end_) Code.InvalidSyntaxTree
          ("invalid token " ++ text)).bind fun _ s1 =>
          walkSpecs arityMatch f Tok rest (iota + 1) last s1
    | Spec.typeSpec t =>
      (callDecl f (decl.typeDecl t) st).bind fun _ s1 =>
        walkSpecs arityMatch f Tok rest (iota + 1) last s1
    | Spec.other p q n =>
      (errorf st (positioner.node p q) Code.InvalidSyntaxTree
        ("unknown ast.Spec node " ++ n)).bind fun _ s1 =>
        walkSpecs arityMatch f Tok rest (iota + 1) last s1

/-- Go `Checker.walkDecl`. -/
def walkDecl (arityMatch : ValueSpec → Option ValueSpec → Checker → Res Unit)
    (f : decl → Checker → Res Unit) (st : Checker) (d : Decl) : Res Unit :=
  match d with
  | Decl.bad => Res.ret st ()
  | Decl.gen Tok Specs => walkSpecs arityMatch f Tok Specs 0 none st
  | Decl.func i => callDecl f (decl.funcDecl i) st
  | Decl.other p q n =>
    errorf st (positioner.node p q) Code.InvalidSyntaxTree ("unknown ast.Decl node " ++ n)

/-- Go `Checker.walkDecls`. -/
def walkDecls (arityMatch : ValueSpec → Option ValueSpec → Checker → Res Unit)
    (f : decl → Checker → Res Unit) : List Decl → Checker → Res Unit
  | [], st => Res.ret st ()
  | d :: ds, st =>
    (walkDecl arityMatch f st d).bind fun _ s => walkDecls arityMatch f ds s

/-! ## Strings as bytes (`errors.go`) -/

/-- Go `utf8.RuneError`. -/
def RuneError : Nat := 0xFFFD

/-- Go `utf8.AppendRune`, as `strings.Builder.WriteRune` uses it: the UTF-8 encoding of
the rune, bytes as numbers. Modelled from the spec: the package `unicode/utf8`
belongs to the standard library; the bit operations are written arithmetically
(`r >> 6` is `r / 64`, `r & 0x3F` is `r % 64`, the marker bits are added). A rune
out of range or a surrogate is written as `RuneError`. -/
def appendRune (r : Nat) : List Nat :=
  if r ≤ 0x7F then [r]
  else if r ≤ 0x7FF then [0xC0 + r / 64, 0x80 + r % 64]
  else if r > 0x10FFFF ∨ (0xD800 ≤ r ∧ r ≤ 0xDFFF) then [0xEF, 0xBF, 0xBD]
  else if r ≤ 0xFFFF then [0xE0 + r / 4096, 0x80 + r / 64 % 64, 0x80 + r % 64]
  else [0xF0 + r / 262144, 0x80 + r / 4096 % 64, 0x80 + r / 64 % 64, 0x80 + r % 64]

/-- The tables `first` and `acceptRanges` of `unicode/utf8` for a first byte that
starts a sequence of more than one byte: the length of the sequence and the range
accepted for the second byte; `none` for a byte that starts no such sequence.
Modelled from the spec: the package belongs to the standard library. -/
def firstByte (b : Nat) : Option (Nat × Nat × Nat) :=
  if 0xC2 ≤ b ∧ b ≤ 0xDF then some (2, 0x80, 0xBF)
  else if b = 0xE0 then some (3, 0xA0, 0xBF)
  else if (0xE1 ≤ b ∧ b ≤ 0xEC) ∨ b = 0xEE ∨ b = 0xEF then some (3, 0x80, 0xBF)
  else if b = 0xED then some (3, 0x80, 0x9F)
  else if b = 0xF0 then some (4, 0x90, 0xBF)
  else if 0xF1 ≤ b ∧ b ≤ 0xF3 then some (4, 0x80, 0xBF)
  else if b = 0xF4 then some (4, 0x80, 0x8F)
  else none

/-- Go `utf8.DecodeRuneInString`, which gives the rune and its width that a `range`
loop over a string reads at the front of the bytes `s`: an invalid or incomplete
sequence yields `RuneError` with width 1. Modelled from the spec: the package
belongs to the standard library; the bit operations are written arithmetically. -/
def decodeRune (s : List Nat) : Nat × Nat :=
  match s with
  | [] => (RuneError, 0)
  | s0 :: t =>
    if s0 < 0x80 then (s0, 1) else
    match firstByte s0 with
    | none => (RuneError, 1)
    | some (sz, lo, hi) =>
      if s.length < sz then (RuneError, 1) else
      match t with
      | [] => (RuneError, 1)
      | s1 :: t1 =>
        if s1 < lo ∨ hi < s1 then (RuneError, 1) else
        if sz ≤ 2 then (s0 % 32 * 64 + s1 % 64, 2) else
        match t1 with
        | [] => (RuneError, 1)
        | s2 :: t2 =>
          if s2 < 0x80 ∨ 0xBF < s2 then (RuneError, 1) else
          if sz ≤ 3 then (s0 % 16 * 4096 + s1 % 64 * 64 + s2 % 64, 3) else
          match t2 with
          | [] => (RuneError, 1)
          | s3 :: _ =>
            if s3 < 0x80 ∨ 0xBF < s3 then (RuneError, 1) else
            (s0 % 8 * 262144 + s1 % 64 * 4096 + s2 % 64 * 64 + s3 % 64, 4)

/-- The loop of `stripAnnotations` over the runes of the bytes `s` that are left,
with the buffer `buf`; `fuel` bounds the number of runes. -/
def stripLoop : Nat → List Nat → List Nat → List Nat
  | 0, _, buf => buf
  | fuel + 1, s, buf =>
    match s with
    | [] => buf
    | _ :: _ =>
      let r := (decodeRune s).1
      stripLoop fuel (s.drop (decodeRune s).2)
        (if r < 0x2080 ∨ 0x2080 + 10 ≤ r then buf ++ appendRune r else buf)

/-- The runes that a `range` loop over the bytes `s` yields; `fuel` bounds their
number. -/
def runesLoop : Nat → List Nat → List Nat
  | 0, _ => []
  | fuel + 1, s =>
    match s with
    | [] => []
    | _ :: _ => (decodeRune s).1 :: runesLoop fuel (s.drop (decodeRune s).2)

/-- The runes of a string given by its bytes, as a `range` loop yields them. -/
def runesOf (s : List Nat) : List Nat := runesLoop s.length s

/-- Go `stripAnnotations` on the bytes of the string. -/
def stripAnnotations_utf8 (s : List Nat) : List Nat :=
  let buf := stripLoop s.length s []
  if buf.length < s.length then buf else s

/-! ## Example states -/

/-- A configuration with an error callback, without tracing and without error
URL. -/
def exConf : Config := ⟨true, false, "", fun _ => "", false, false, false⟩

/-- The text of the types of the examples: a basic type by its name, a named type and
a type parameter by the name of the declaring object, and the one composite type of
the examples, `[]int`. -/
def exTypeString (objs : ObjId → Object) : Typ → String
  | Typ.basic name => name
  | Typ.named o _ => (objs o).name
  | Typ.typeParam o => (objs o).name
  | Typ.composite _ => "[]int"

/-- A checker over the given objects and declarations, with nothing recorded. -/
def exChecker (objs : ObjId → Object) (objMap : List (ObjId × declInfo)) : Checker :=
  { conf := exConf, objs := objs, objMap := objMap, brokenAliases := [], firstErr := none,
    delayed := [], objPath := [], env := environment.ofScope none, indent := 0, sink := [],
    pkg := ⟨"example.org/p", "p", 1⟩, pkgPathMap := fun _ => [], fsetPosition := fun _ => "",
    files := [], Types := [], underlying := fun _ => Typ_Invalid, pkgComplete := false,
    nodes := fun _ => TypeNode.zero NodeKind.Other, nextNode := 0, methods := [],
    namedMethods := fun _ => [], Comparable := fun _ => true, structFields := fun _ => [],
    typeSets := fun _ => ⟨[], [some ⟨false, none⟩], false⟩,
    typeString := exTypeString objs }

/-- An object of the given kind, name, position, type and colour, outside any
package. -/
def exObj (k : ObjKind) (n : String) (p : Pos) (t : Option Typ) (c : Color) : Object :=
  ⟨k, n, none, p, t, c, none⟩

/-- A black variable `x` of type `int`; every other identifier is a white constant. -/
def exBlackObjs : ObjId → Object := fun i =>
  if i = 0 then exObj ObjKind.Var "x" 10 (some (Typ.basic "int")) Black
  else exObj ObjKind.Const "c" 20 none White

/-- Two grey constants `A` and `B` on the object path, as in `const A = B; const B = A`
when `B` refers back to `A`. -/
def exConstCycle : Checker :=
  { exChecker (fun i => if i = 0 then exObj ObjKind.Const "A" 10 none 2
      else exObj ObjKind.Const "B" 20 none 3)
      [(0, ⟨some 1, none, [Act.use 1]⟩), (1, ⟨some 1, none, [Act.use 0]⟩)]
    with objPath := [0, 1] }

/-- A configuration without an error callback: the first error ends the pass. -/
def exConfBailout : Config := ⟨false, false, "", fun _ => "", false, false, false⟩

/-- The grey type definition `T` (object 0) and the grey function `f` (object 1) on
the object path, as in `type T [len(f())]int; func f() T` when `f` refers back
to `T`. -/
def exMixedCycle : Checker :=
  { exChecker (fun i => if i = 0 then exObj ObjKind.TypeName "T" 10 (some (Typ.named 0 false)) 2
      else exObj ObjKind.Func "f" 20 (some (Typ.composite 0)) 3)
      [(0, ⟨some 1, some ⟨0⟩, [Act.use 1]⟩), (1, ⟨some 1, none, [Act.use 0]⟩)]
    with objPath := [0, 1] }

/-- The grey alias names `A` and `B` on the object path, as in
`type A = B; type B = A` when `B` refers back to `A`. -/
def exAliasCycle : Checker :=
  { exChecker (fun i => if i = 0 then exObj ObjKind.TypeName "A" 10 none 2
      else exObj ObjKind.TypeName "B" 20 none 3)
      [(0, ⟨some 1, some ⟨15⟩, [Act.use 1]⟩), (1, ⟨some 1, some ⟨25⟩, [Act.use 0]⟩)]
    with objPath := [0, 1] }

/-- The alias cycle above in a checker without an error callback. -/
def exAliasCycleBailout : Checker := { exAliasCycle with conf := exConfBailout }

/-- The grey generic type definition `T` on the object path while the checker is
inside its type parameter list, as in `type T[P T[P]] int`. -/
def exGenericCycle : Checker :=
  { exChecker (fun _ => exObj ObjKind.TypeName "T" 10 (some (Typ.named 0 true)) 2)
      [(0, ⟨some 1, some ⟨0⟩, [Act.use 0]⟩)]
    with objPath := [0], env := { environment.ofScope (some 1) with inTParamList := true } }

/-- The generic cycle above in a checker without an error callback. -/
def exGenericCycleBailout : Checker := { exGenericCycle with conf := exConfBailout }

/-- The white constants `A` (object 0) and `B` (object 1) of `const A = B; const B = 1`
before any of them is checked: the declaration of `A` refers to `B`. -/
def exWhiteConsts : Checker :=
  exChecker (fun i => if i = 0 then exObj ObjKind.Const "A" 10 none White
      else exObj ObjKind.Const "B" 20 none White)
    [(0, ⟨some 1, none, [Act.use 1, Act.setTyp 0 (Typ.basic "int")]⟩),
     (1, ⟨some 1, none, [Act.setTyp 1 (Typ.basic "int")]⟩)]

/-- The white constant `A` whose declaration reports an error, in a checker
without an error callback. -/
def exWhiteFailing : Checker :=
  { exChecker (fun _ => exObj ObjKind.Const "A" 10 none White)
      [(0, ⟨some 1, none, [Act.errorf (positioner.atPos 10) (Code.code 1) "bad" false]⟩)]
    with conf := exConfBailout }

/-- The white constants `A` (object 0) and `B` (object 1) of `const A = B; const B = A`
before any of them is checked. -/
def exWhiteCycle : Checker :=
  exChecker (fun i => if i = 0 then exObj ObjKind.Const "A" 10 none White
      else exObj ObjKind.Const "B" 20 none White)
    [(0, ⟨some 1, none, [Act.use 1]⟩), (1, ⟨some 1, none, [Act.use 0]⟩)]

/-- The diagnostic `undefined: x` at position 5. -/
def exFirst : error_ := newErrorf (positioner.atPos 5) (Code.code 1) "undefined: x"

/-- The diagnostic `undefined: y` at position 9. -/
def exSecond : error_ := newErrorf (positioner.atPos 9) (Code.code 2) "undefined: y"

/-- A checker with an error callback and nothing recorded. -/
def exEmpty : Checker := exChecker exBlackObjs []

/-- The checker above after the diagnostic `undefined: x` has been recorded and
delivered. -/
def exRecorded : Checker :=
  { exEmpty with firstErr := some ⟨5, "undefined: x", false⟩,
                 sink := [⟨5, "undefined: x", false⟩] }

/-- A diagnostic that mentions an invalid operand after the beginning. -/
def exFollowOn : error_ :=
  newErrorf (positioner.atPos 9) (Code.code 2) "cannot convert x (invalid operand)"

/-- A diagnostic whose message begins with `invalid type` and contains the phrase
once more. -/
def exRepeated : error_ :=
  newErrorf (positioner.atPos 9) (Code.code 2) "invalid type T in conversion to invalid type U"

/-- Phases that do nothing, except that `packageObjects` reports `undefined: x`. -/
def exPhases : Phases :=
  { collectObjects := fun s => Res.ret s (),
    packageObjects := fun s => errorf s (positioner.atPos 5) (Code.code 1) "undefined: x",
    processDelayed := fun _ s => Res.ret s (),
    cleanup := fun s => Res.ret s (),
    initOrder := fun s => Res.ret s (),
    unusedImports := fun s => Res.ret s (),
    recordUntyped := fun s => Res.ret s (),
    monomorph := fun s => Res.ret s () }

/-- A checker without an error callback and with nothing recorded. -/
def exEmptyBailout : Checker := { exEmpty with conf := exConfBailout }

/-- A file of package `p`. -/
def exFile : File := ⟨"p", 9, 10, 1⟩

/-- The type expression `[]int` from position 20 to 25. -/
def exSliceType : TExpr :=
  TExpr.array 20 25 none (TExpr.ident 22 25 "int" [] operandMode.typexpr (Typ.basic "int"))

/-- The type expression `int` from position 20 to 23. -/
def exIntType : TExpr := TExpr.ident 20 23 "int" [] operandMode.typexpr (Typ.basic "int")

/-- The expression `1` from position 30 to 31. -/
def exOne : Expr := ⟨30, 31, [], Typ.basic "untyped int"⟩

/-- The white constant `c` (object 0) without a type, as in `const c []int = 1`. -/
def exWhiteConst : Checker := exChecker (fun _ => exObj ObjKind.Const "c" 10 none White) []

/-- The checker above without an error callback. -/
def exWhiteConstBailout : Checker := { exWhiteConst with conf := exConfBailout }

/-- The white variables `a` (object 0) and `b` (object 1) without a type, as in
`var a, b int = f()`. -/
def exTwoVars : Checker :=
  exChecker (fun i => if i = 0 then exObj ObjKind.Var "a" 10 none White
    else exObj ObjKind.Var "b" 13 none White) []

/-- The checker above after `varType` has evaluated the type expression `int`: the
type is recorded and the delayed check is pushed. -/
def exTwoVarsTyped : Checker :=
  (later (recordTypeAndValue exTwoVars exIntType (Typ.basic "int"))
    (Closure.validVarType 20 23 (Typ.basic "int"))).1

/-- The call `f()` from position 30 to 33, whose check has no effect on the
checker. -/
def exCall : Expr := ⟨30, 33, [], Typ.composite 2⟩

/-- The white constants `c` (object 0, at position 10) and `y0` (object 1, at
position 40), as in `const ( a = y0 + 1; c )` with `const y0 = y`: the declaration
of `y0` reports `undefined: y` at position 50. -/
def exInherited : Checker :=
  exChecker (fun i => if i = 0 then exObj ObjKind.Const "c" 10 none White
      else exObj ObjKind.Const "y0" 40 none White)
    [(1, ⟨some 1, none,
      [Act.errorf (positioner.atPos 50) (Code.code 1) "undefined: y" false,
       Act.setTyp 1 Typ_Invalid]⟩)]

/-- The expression `1 << 70` from position 20 to 27, whose check reports a constant
overflow at position 22. -/
def exOverflow : Expr :=
  ⟨20, 27, [Act.errorf (positioner.atPos 22) (Code.code 3) "constant overflow" false],
    Typ.basic "untyped int"⟩

/-- The expression `y0 + 1` from position 20 to 26, which `c` inherits: checking it
meets the constant `y0`. -/
def exInheritedInit : Expr := ⟨20, 26, [Act.use 1], Typ.basic "untyped int"⟩

/-- The error `x redeclared` at position 5 with the related description
`other declaration of x` at position 9. -/
def exTwoDescs : error_ :=
  { desc := [⟨positioner.atPos 5, "x redeclared"⟩, ⟨positioner.atPos 9, "other declaration of x"⟩],
    code := Code.DuplicateDecl, soft := false }

/-- The generic type name `T` (object 0), black, with its uninstantiated type. -/
def exGenericObjs : ObjId → Object := fun _ =>
  exObj ObjKind.TypeName "T" 10 (some (Typ.named 0 true)) Black

/-- A checker with an error callback over the generic type `T`. -/
def exGeneric : Checker := exChecker exGenericObjs []

/-- The checker above without an error callback. -/
def exGenericBailout : Checker := { exGeneric with conf := exConfBailout }

/-- The type expression `T` from position 20 to 21, which denotes the generic type
`T`. -/
def exGenericName : TExpr :=
  TExpr.ident 20 21 "T" [] operandMode.typexpr (Typ.named 0 true)

/-- A checker without an error callback in which the type declared by object 5 has
the underlying type `int` so far. -/
def exBoundBailout : Checker := { exEmptyBailout with underlying := fun _ => Typ.basic "int" }

/-- The expression `x` from position 20 to 21, which denotes a variable and not a
type. -/
def exValueName : TExpr := TExpr.ident 20 21 "x" [] operandMode.value (Typ.basic "int")

/-- The type expression `map[[]int]int` from position 20 to 33: the key `[]int` from
24 to 29, the element `int` from 30 to 33. -/
def exMapType : TExpr :=
  TExpr.map 20 33
    (TExpr.array 24 29 none (TExpr.ident 26 29 "int" [] operandMode.typexpr (Typ.basic "int")))
    (TExpr.ident 30 33 "int" [] operandMode.typexpr (Typ.basic "int"))

/-- The type expression `*T` from position 20 to 22, as in `type T *T`, where `T` is
the type declared by object 5. -/
def exStarType : TExpr :=
  TExpr.star 20 22 (TExpr.ident 21 22 "T" [] operandMode.typexpr (Typ.named 5 false))

/-- The type name `T` (object 0) with its named type, and the functions `m`
(object 1, at position 30), `m` (object 2, at position 40) and `n` (any other
object, at position 50). -/
def exMethodObjs : ObjId → Object := fun i =>
  if i = 0 then exObj ObjKind.TypeName "T" 10 (some (Typ.named 0 false)) Black
  else if i = 1 then exObj ObjKind.Func "m" 30 none Black
  else if i = 2 then exObj ObjKind.Func "m" 40 none Black
  else exObj ObjKind.Func "n" 50 none Black

/-- A checker with an error callback in which the type `T`, declared by a type
specification that is not an alias declaration, has the pending methods `m`, `m` and
`n` (objects 1, 2 and 3). -/
def exMethods : Checker :=
  { exChecker exMethodObjs [(0, ⟨none, some ⟨0⟩, []⟩)] with methods := [(0, [1, 2, 3])] }

/-- The checker above without an error callback. -/
def exMethodsBailout : Checker := { exMethods with conf := exConfBailout }

/-- The type name `T` (object 0), the function `m` (object 1, at position 30), the
variables `m` (object 4, at position 60) and `_` (object 5, at position 70), and the
variable `x` (any other object, at position 80). -/
def exFieldObjs : ObjId → Object := fun i =>
  if i = 0 then exObj ObjKind.TypeName "T" 10 (some (Typ.named 0 false)) Black
  else if i = 1 then exObj ObjKind.Func "m" 30 none Black
  else if i = 4 then exObj ObjKind.Var "m" 60 none Black
  else if i = 5 then exObj ObjKind.Var "_" 70 none Black
  else exObj ObjKind.Var "x" 80 none Black

/-- A checker with an error callback in which the type `T` has the method `m` and
the underlying type `struct \x7b m, _, x int \x7d` (structure 7, with the fields 4, 5
and 6). -/
def exFields : Checker :=
  { exChecker exFieldObjs [] with
    underlying := fun _ => Typ.composite 7
    nodes := fun _ => TypeNode.zero NodeKind.Struct
    namedMethods := fun _ => [1]
    structFields := fun _ => [4, 5, 6] }

/-- The checker above without an error callback. -/
def exFieldsBailout : Checker := { exFields with conf := exConfBailout }

/-- A white variable `v` (object 0) that has the type `int` already, as after the
initialization of a variable outside of `objDecl`; it has no declaration info. -/
def exWhiteTyped : Checker :=
  exChecker (fun _ => exObj ObjKind.Var "v" 10 (some (Typ.basic "int")) White) []

/-- The grey constant `A` (object 0), whose type is not known yet, and the grey type
definition `T` (object 1) on the object path, as in `const A = len(T\x7b\x7d)` and
`type T [A]int` when `T` refers back to `A`. -/
def exValueTypeCycle : Checker :=
  { exChecker (fun i => if i = 0 then exObj ObjKind.Const "A" 10 none 2
      else exObj ObjKind.TypeName "T" 20 (some (Typ.named 1 false)) 3) []
    with objPath := [0, 1] }

/-- The cycle above in a checker without an error callback. -/
def exValueTypeCycleBailout : Checker := { exValueTypeCycle with conf := exConfBailout }

/-- A diagnostic whose message begins with `invalid operand` and mentions an invalid
type later. -/
def exOperandOfInvalidType : error_ :=
  newErrorf (positioner.atPos 9) (Code.code 2) "invalid operand x (value of invalid type)"

/-- A diagnostic whose message begins with `invalid operand` and does not contain
`invalid type`. -/
def exInvalidOperand : error_ :=
  newErrorf (positioner.atPos 9) (Code.code 2) "invalid operand x"

/-- The type expression `[...]int` from position 20 to 28. -/
def exEllipsisArray : TExpr :=
  TExpr.array 20 28 (some (ArrayLen.ellipsis 21 24))
    (TExpr.ident 25 28 "int" [] operandMode.typexpr (Typ.basic "int"))

/-- The type expression `[3][]int` from position 20 to 31: evaluating the element
type allocates a slice structure. -/
def exArrayOfSlices : TExpr :=
  TExpr.array 20 31 (some (ArrayLen.expr 21 22 [] 3))
    (TExpr.array 23 31 none (TExpr.ident 25 28 "int" [] operandMode.typexpr (Typ.basic "int")))

/-- A store in which scope 0 holds the variable `x` (object 0) and `Defs` is an
empty map. -/
def exStore : declStore :=
  { elems := fun s => if s = 0 then [("x", 0)] else [],
    parent := fun o => if o = 0 then some 0 else none,
    scopePos := fun _ => NoPos,
    Defs := some fun _ => none }

/-- The variable `x` at position 10 (object 0) and a second variable `x` at position
40 (every other object). -/
def exTwoX : ObjId → Object := fun i =>
  if i = 0 then exObj ObjKind.Var "x" 10 (some (Typ.basic "int")) Black
  else exObj ObjKind.Var "x" 40 (some (Typ.basic "int")) Black

/-- A checker with the two variables `x`, without an error callback. -/
def exTwoXBailout : Checker := { exChecker exTwoX [] with conf := exConfBailout }

/-- The constant group `const ( a; b )`: neither specification has a type or
values. -/
def exBareGroup : Decl :=
  Decl.gen Token.CONST [Spec.valueSpec ⟨10, 11, none, []⟩, Spec.valueSpec ⟨20, 21, none, []⟩]

/-- The constant group `const ( a = 1; b; c int = 1; d )`. -/
def exConstGroup : Decl :=
  Decl.gen Token.CONST
    [Spec.valueSpec ⟨10, 15, none, [exOne]⟩, Spec.valueSpec ⟨20, 21, none, []⟩,
     Spec.valueSpec ⟨30, 39, some exIntType, [exOne]⟩, Spec.valueSpec ⟨40, 41, none, []⟩]

/-- An `arityMatch` that finds nothing to report. -/
def exArity : ValueSpec → Option ValueSpec → Checker → Res Unit := fun _ _ s => Res.ret s ()

/-- A callback of `walkDecl` that does nothing. -/
def exVisit : decl → Checker → Res Unit := fun _ s => Res.ret s ()

/-- The bytes of the Go string `"\xff\xff₀"`: two bytes that are not valid UTF-8 and
the subscript digit U+2080. -/
def exInvalidUtf8 : List Nat := [0xFF, 0xFF, 0xE2, 0x82, 0x80]

/-! ## Notions used to state the properties -/

/-- The diagnostics handed to `report` at the observation points of a trace, in
order. -/
def reportsOf (tr : List Moment) : List error_ :=
  tr.filterMap fun m =>
    match m.label with
    | Label.report e => some e
    | _ => none

/-- The error value that `report` builds for a diagnostic at an object position. -/
def errorAt (st : Checker) (p : Pos) (code : Code) (text : String) : Error :=
  { pos := (match spanOf st.env.errpos with
      | some sp => sp.pos
      | none => p),
    msg := stripAnnotations (renderMsg st code text), soft := false }

/-- The state after `report` has recorded `err` and passed it on. -/
def recorded (st : Checker) (err : Error) : Checker :=
  { st with firstErr := (match st.firstErr with
                         | none => some err
                         | some e => some e),
            sink := if st.conf.hasError then st.sink ++ [err] else st.sink }

/-- The object is a constant or a variable. -/
def isValue (st : Checker) (o : ObjId) : Bool :=
  decide ((st.objs o).kind = ObjKind.Const) || decide ((st.objs o).kind = ObjKind.Var)

/-- The object is a type name. -/
def isTypeName (st : Checker) (o : ObjId) : Bool := decide ((st.objs o).kind = ObjKind.TypeName)

/-- The type name is an alias, as `validCycle` decides it: by the syntax of the
declaration for an object of the object map, by `IsAlias` otherwise. -/
def isAliasName (st : Checker) (o : ObjId) : Bool :=
  match st.decl? o with
  | some d =>
    match d.tdecl with
    | some td => Pos_IsValid td.Assign
    | none => false
  | none => TypeName_IsAlias o (st.objs o)

/-- The object is a type name that is a true definition, not an alias. -/
def isTypeDef (st : Checker) (o : ObjId) : Bool := isTypeName st o && !isAliasName st o

/-- The object is a type name whose type is generic (not instantiated). -/
def isGenericName (st : Checker) (o : ObjId) : Bool :=
  isTypeName st o && IsGeneric (st.objs o).typ

/-- The members of a cycle have one of the four kinds that `validCycle` handles, and
the declaration of a type name of the object map has its type specification. -/
def wellFormedCycle (st : Checker) (cycle : List ObjId) : Prop :=
  ∀ o ∈ cycle, (st.objs o).kind ≠ ObjKind.Other
    ∧ ((st.objs o).kind = ObjKind.TypeName → ∀ d, st.decl? o = some d → d.tdecl ≠ none)

/-- The cycle that `validCycle` reads off the object path for `obj`. -/
def cycleOf (st : Checker) (obj : ObjId) : List ObjId :=
  st.objPath.drop (Object_color st obj - Grey)

/-- The cycle goes through a type parameter list: the checker is inside one and a
member of the cycle is a type name with a generic type. -/
def throughTParamList (st : Checker) (cycle : List ObjId) : Bool :=
  st.env.inTParamList && cycle.any (isGenericName st)

/-- The condition under which a cycle is accepted: it does not go through a type
parameter list, and either all members are constants or variables, or none is and
some member is a type definition (functions are not counted). -/
def acceptsCycle (st : Checker) (cycle : List ObjId) : Bool :=
  !throughTParamList st cycle
    && (cycle.all (isValue st)
        || (cycle.all (fun o => !isValue st o) && cycle.any (isTypeDef st)))

/-- The second state differs from the first at most in the errors recorded:
`firstErr` and the errors handed to the callback. -/
def sameButErrors (a b : Checker) : Prop :=
  ∃ fe sk, b = { a with firstErr := fe, sink := sk }

/-- The header diagnostic of `cycleError` for a cycle of two or more objects that
starts at `o`. -/
def headerOf (st : Checker) (o : ObjId) : error_ :=
  newErrorf (positioner.object (st.objs o).pos) Code.InvalidDeclCycle
    (if (st.objs o).kind = ObjKind.TypeName then "invalid recursive type " ++ objName st o
     else "invalid cycle in declaration of " ++ objName st o)

/-- The diagnostic `<name> refers to` of `cycleError` for the member `o`. -/
def lineOf (st : Checker) (o : ObjId) : error_ :=
  newErrorf (positioner.object (st.objs o).pos) Code.InvalidDeclCycle
    ("\t" ++ objName st o ++ " refers to")

/-- The final diagnostic of `cycleError`, which names `o`. -/
def lastOf (st : Checker) (o : ObjId) : error_ :=
  newErrorf (positioner.object (st.objs o).pos) Code.InvalidDeclCycle ("\t" ++ objName st o)

/-- The error value delivered for one of the diagnostics above, which have a
single description at an object position. -/
def deliveredOf (st : Checker) (e : error_) : Error :=
  match e.desc with
  | d :: _ => errorAt st ((d.posn.Pos).getD NoPos) e.code d.text
  | [] => errorAt st NoPos e.code ""

/-- The test of `report` for follow-on errors does not apply to the diagnostic. -/
def keptMsg (st : Checker) (e : error_) : Prop :=
  match e.desc with
  | d :: _ => isInvalidErr (renderMsg st e.code d.text) = false
  | [] => True

/-- The second state has the same configuration, environment and recorded errors as
the first, and its objects have the same kind, name, package and position. -/
def sameNames (a b : Checker) : Prop :=
  b.conf = a.conf ∧ qualifier b = qualifier a ∧ b.env = a.env ∧ b.sink = a.sink
    ∧ b.firstErr = a.firstErr
    ∧ ∀ o, (b.objs o).pos = (a.objs o).pos ∧ (b.objs o).name = (a.objs o).name
        ∧ (b.objs o).pkg = (a.objs o).pkg ∧ (b.objs o).kind = (a.objs o).kind

/-- The diagnostics of `cycleError` for a cycle of two or more objects, in order:
the header at `start`, one line for each member in cyclic order from index `i0`,
and the final line that names `start` again. -/
def cycleGroup (st : Checker) (cycle : List ObjId) (i0 : Nat) (start : ObjId) : List error_ :=
  headerOf st start :: ((cycle.rotate i0).map (lineOf st) ++ [lastOf st start])

/-- The second state has the same object path, object map and configuration as the
first, and every object has the same colour. -/
def sameColors (a b : Checker) : Prop :=
  b.objPath = a.objPath ∧ b.objMap = a.objMap ∧ b.conf = a.conf
    ∧ ∀ o, Object_color b o = Object_color a o

/-- The call with result `r` from state `st` left the object path, the object map
and the colours alone, at every observation point and at the end, and did not call
`Object_setColor`. -/
def Frame {α : Type} (st : Checker) (r : Res α) : Prop :=
  sameColors st r.st
    ∧ ∀ m ∈ r.trace, sameColors st m.st ∧ ∀ o c, m.label ≠ Label.setColor o c

/-- The stack discipline of a call with result `r` from state `st`: the object path
is the same at the end and never shorter in between, the object map is constant,
objects that were not white keep their colour throughout, and every call of
`Object_setColor` passes a colour that is not white, namely black or the grey value
for the last index of the object path, and the object has that colour afterwards. -/
def Disciplined (st : Checker) (r : Res Unit) : Prop :=
  r.st.objPath = st.objPath
    ∧ r.st.objMap = st.objMap
    ∧ (∀ x, Object_color st x ≠ White → Object_color r.st x = Object_color st x)
    ∧ (∀ m ∈ r.trace, st.objPath <+: m.st.objPath ∧ m.st.objMap = st.objMap
        ∧ ∀ x, Object_color st x ≠ White → Object_color m.st x = Object_color st x)
    ∧ (∀ m ∈ r.trace, ∀ o c, m.label = Label.setColor o c →
        c ≠ White
        ∧ (c = Black ∨ ∃ k, k + 1 = m.st.objPath.length ∧ c = u32 (Grey + u32 k))
        ∧ Object_color m.st o = c)

/-- The number of declared objects that are still white. -/
def whiteCount (st : Checker) : Nat :=
  (st.objMap.map Prod.fst).dedup.countP fun o => decide (Object_color st o = White)

/-- The colour invariant of the object path: the object at index `k` of the path
has colour `Grey + k`, and every grey object is on the path. -/
def ColorInv (st : Checker) : Prop :=
  (∀ (k : Nat) (o : ObjId), st.objPath[k]? = some o → Object_color st o = Grey + k)
    ∧ ∀ o : ObjId, Grey ≤ Object_color st o → o ∈ st.objPath

/-- At every entry of `validCycle` recorded in the trace, the object it is entered
for is grey. -/
def EntersGrey {α : Type} (r : Res α) : Prop :=
  ∀ m ∈ r.trace, ∀ o, m.label = Label.validCycle o → Grey ≤ Object_color m.st o

/-- The colour invariant holds at every observation point of the call and at its
end, and `validCycle` is entered for grey objects only. -/
def InvRes (r : Res Unit) : Prop :=
  (∀ m ∈ r.trace, ColorInv m.st) ∧ ColorInv r.st ∧ EntersGrey r

/-- The message that `report` composes for the diagnostic: the text of the error with
the mark of an invalid tree and the link to the error code; `none` when composing
it panics. -/
def composedMsg (st : Checker) (e : error_) : Option String :=
  (e.msg st.fsetPosition).map (renderMsg st e.code)

/-- The error value that `report` builds for the diagnostic in the state `st`;
`none` when `report` panics instead (no description, no code, a nil positioner). -/
def builtError (st : Checker) (e : error_) : Option Error :=
  match e.desc with
  | [] => none
  | d0 :: _ =>
    match composedMsg st e with
    | none => none
    | some msg =>
      if e.code = Code.noCode then none else
      match spanOf d0.posn with
      | none => none
      | some span =>
        some { pos := (match spanOf st.env.errpos with
                       | some sp => sp.pos
                       | none => span.pos),
               msg := stripAnnotations msg, soft := e.soft }

/-- The test of `report` for follow-on errors applies: an error is recorded and the
first occurrence of one of the two phrases in the composed message is not at its
beginning. -/
def isFollowOn (st : Checker) (e : error_) : Bool :=
  st.firstErr.isSome && (match composedMsg st e with
                         | some msg => isInvalidErr msg
                         | none => false)

/-- The text `sub` occurs in `s` at index `i`. -/
def occursAt (s sub : String) (i : Nat) : Bool := sub.data.isPrefixOf (s.data.drop i)

/-- The state after the calls of `report` for the diagnostics of the list, in order. -/
def reportAll (st : Checker) (es : List error_) : Checker :=
  es.foldl (fun s e => (report s e).st) st

/-- The error value delivered for a diagnostic after the first error has been
recorded: none for a follow-on error. -/
def keptError (st : Checker) (e : error_) : Option Error :=
  match composedMsg st e with
  | some msg => if isInvalidErr msg then none else builtError st e
  | none => none

/-- The error values that the callback receives for a sequence of diagnostics, in
order: when no error is recorded yet the first diagnostic is delivered, and of the
others those that are not follow-on errors. -/
def deliveredAll (st : Checker) (es : List error_) : List Error :=
  if st.firstErr.isSome then es.filterMap (keptError st)
  else
    match es with
    | [] => []
    | e :: rest => (builtError st e).toList ++ rest.filterMap (keptError st)

/-- The first occurrence of `sub` in `s` is not at the beginning: `sub` does not
occur at index 0 and occurs at a later index. -/
def firstAfterStart (s sub : String) : Prop :=
  occursAt s sub 0 = false ∧ ∃ i, 0 < i ∧ occursAt s sub i = true

/-- The relation `R` holds between the state `st` in which a call starts and the
state at every observation point of the call and at its end. -/
def Keeps {α : Type} (R : Checker → Checker → Prop) (st : Checker) (r : Res α) : Prop :=
  R st r.st ∧ ∀ m ∈ r.trace, R st m.st

/-- A relation between checker states that is reflexive and transitive and that
holds when errors are recorded and when `cycleError` marks an alias name as
valid with the invalid type. -/
structure CycleStable (R : Checker → Checker → Prop) : Prop where
  refl : ∀ a, R a a
  trans : ∀ a b c, R a b → R b c → R a c
  errors : ∀ a b, sameButErrors a b → R a b
  validAlias : ∀ a o, (a.objs o).kind = ObjKind.TypeName → R a (validAlias a o Typ_Invalid)

/-- Objects that are not type names are the same in both states. -/
def sameValues (a b : Checker) : Prop :=
  ∀ o, (a.objs o).kind ≠ ObjKind.TypeName → b.objs o = a.objs o

/-- The state in which `objDecl` runs the part below its tracing block. -/
def objDeclEntry (st : Checker) (obj : ObjId) : Checker :=
  if st.conf._Trace && (st.objs obj).typ.isNone then { st with indent := st.indent + 1 } else st

/-- The first call of `report` recorded in a trace: the diagnostic and the state in
which `report` was entered. -/
def firstReport : List Moment → Option (error_ × Checker)
  | [] => none
  | m :: ms =>
    match m.label with
    | Label.report e => some (e, m.st)
    | _ => firstReport ms

/-- The first error at the end of a call that started without one is the one of the
first call of `report`: none when `report` was not called; the error value built for
the first diagnostic; and when `report` builds no error value for it the call ends
in a panic. -/
def FirstErrOf {α : Type} (r : Res α) : Prop :=
  match firstReport r.trace with
  | none => r.st.firstErr = none
  | some (e, s) =>
    match builtError s e with
    | some err => r.st.firstErr = some err
    | none => ∃ msg, r.out = Outcome.panic msg

/-- The call with result `r` from state `st` writes `firstErr` only through
`report`: a first error that is recorded is kept, and otherwise the first error at
the end is the one of the first call of `report`. -/
def FirstErrSound {α : Type} (st : Checker) (r : Res α) : Prop :=
  (∀ x, st.firstErr = some x → r.st.firstErr = some x)
    ∧ (st.firstErr = none → FirstErrOf r)

/-- Every phase of `checkFiles` writes `firstErr` only through `report`. -/
def ReportsOnly (ph : Phases) : Prop :=
  (∀ s, FirstErrSound s (ph.collectObjects s))
    ∧ (∀ s, FirstErrSound s (ph.packageObjects s))
    ∧ (∀ n s, FirstErrSound s (ph.processDelayed n s))
    ∧ (∀ s, FirstErrSound s (ph.cleanup s))
    ∧ (∀ s, FirstErrSound s (ph.initOrder s))
    ∧ (∀ s, FirstErrSound s (ph.unusedImports s))
    ∧ (∀ s, FirstErrSound s (ph.recordUntyped s))
    ∧ (∀ s, FirstErrSound s (ph.monomorph s))

/-- The state in which the body of `constDecl` starts: `iota` is the value of the
constant, the position override is unset and the value of the constant is unknown. -/
def constDeclStart (st : Checker) (obj : ObjId) : Checker :=
  Const_setVal
    { st with env := { st.env with iota := (st.objs obj).val, errpos := positioner.nil } }
    obj Value.unknown

/-- The deferred call of `constDecl`, which restores `iota` and the position
override of the state `st` in which `constDecl` was entered. -/
def constDeclRestore (st : Checker) (s : Checker) : Res Unit :=
  let s1 := { s with env := { s.env with iota := st.env.iota, errpos := st.env.errpos } }
  ⟨Outcome.ok (), s1, [⟨Label.step, s1⟩]⟩

/-- The call with result `r` from state `st` leaves the environment and the object
path as they were, and at every observation point at which the object path is that
of `st` (a point that is not inside the declaration of another object) the
environment is that of `st`. -/
def OwnEnv (st : Checker) (r : Res Unit) : Prop :=
  r.st.env = st.env ∧ r.st.objPath = st.objPath
    ∧ ∀ m ∈ r.trace, m.st.objPath = st.objPath → m.st.env = st.env

/-- The second state has the environment and the object path of the first. -/
def sameEnvPath (a b : Checker) : Prop := b.env = a.env ∧ b.objPath = a.objPath

/-- The effect is not a change of the environment. -/
def Act.keepsEnv : Act → Bool
  | Act.setEnv _ => false
  | _ => true

/-- The position of a positioner that is not nil. -/
def posOf (p : positioner) : Pos := (p.Pos).getD NoPos

/-- The continuation line for a related description: a tab, the position and `: `
when the position is valid, and the text. -/
def contLine (fsetPosition : Pos → String) (p : errorDesc) : String :=
  "\t" ++ ((if Pos_IsValid (posOf p.posn) then fsetPosition (posOf p.posn) ++ ": " else "")
    ++ p.text)

/-- The lines, each after a newline. -/
def joinLines : List String → String
  | [] => ""
  | l :: ls => "\n" ++ (l ++ joinLines ls)

/-- The lines of a text: the pieces between its newline characters. -/
def splitLines : List Char → List (List Char)
  | [] => [[]]
  | c :: cs =>
    if c = '\n' then [] :: splitLines cs
    else
      match splitLines cs with
      | l :: ls => (c :: l) :: ls
      | [] => [[c]]

/-- The names of the phases of `checkFiles`, in the order of the source. -/
def phaseNames : List String :=
  ["initFiles", "collectObjects", "packageObjects", "processDelayed", "cleanup", "initOrder",
   "unusedImports", "recordUntyped", "monomorph"]

/-- The phases of `checkFiles` entered at the observation points of a trace, in
order. -/
def entered (tr : List Moment) : List String :=
  tr.filterMap fun m =>
    match m.label with
    | Label.enter n => if n ∈ phaseNames then some n else none
    | _ => none

/-- No phase given as a parameter enters a phase of `checkFiles` itself. -/
def QuietPhases (ph : Phases) : Prop :=
  (∀ s, entered (ph.collectObjects s).trace = [])
    ∧ (∀ s, entered (ph.packageObjects s).trace = [])
    ∧ (∀ n s, entered (ph.processDelayed n s).trace = [])
    ∧ (∀ s, entered (ph.cleanup s).trace = [])
    ∧ (∀ s, entered (ph.initOrder s).trace = [])
    ∧ (∀ s, entered (ph.unusedImports s).trace = [])
    ∧ (∀ s, entered (ph.recordUntyped s).trace = [])
    ∧ (∀ s, entered (ph.monomorph s).trace = [])

/-- Every phase given as a parameter leaves the configuration as it is. -/
def KeepConf (ph : Phases) : Prop :=
  (∀ s, (ph.collectObjects s).st.conf = s.conf)
    ∧ (∀ s, (ph.packageObjects s).st.conf = s.conf)
    ∧ (∀ n s, (ph.processDelayed n s).st.conf = s.conf)
    ∧ (∀ s, (ph.cleanup s).st.conf = s.conf)
    ∧ (∀ s, (ph.initOrder s).st.conf = s.conf)

/-- The tracing block of `typInternal` around the switch `body`, which runs in the
state handed to it. -/
def traceWrap (st : Checker) (body : Checker → Option (Res Typ)) : Option (Res Typ) :=
  if st.conf._Trace then
    (body { st with indent := st.indent + 1 }).map fun r =>
      r.deferred fun s => Res.ret { s with indent := s.indent - 1 } ()
  else body st

/-- The switch of `typInternal` with the end of the function, run in the state
`st0` that the tracing block leaves. -/
def typSwitch (call : Checker → ObjId → Option (Res Unit)) (st0 : Checker) (e : TExpr)
    (def_ : Option ObjId) : Option (Res Typ) :=
  match e with
  | TExpr.bad _ _ => some (typInvalidEnd st0 def_)
  | TExpr.ident p q text acts mode t => identCase call st0 def_ p q text acts mode t
  | TExpr.selector p q text acts mode t => identCase call st0 def_ p q text acts mode t
  | TExpr.index _ _ acts t => (runActs call st0 acts).map fun r => r.bind fun _ s => Res.ret s t
  | TExpr.paren _ _ x => definedType call st0 x def_
  | TExpr.array _ _ none elt => sliceCase st0 def_ fun s => varType call s elt
  | TExpr.array _ _ (some len) elt => arrayCase call st0 def_ len fun s => varType call s elt
  | TExpr.ellipsis p q acts =>
    reportedCase call st0 def_ p q Code.InvalidDotDotDot "invalid use of \x27...\x27" acts
  | TExpr.struct _ _ acts => filledCase call st0 def_ NodeKind.Struct acts
  | TExpr.star _ _ x => starCase st0 def_ fun s => varType call s x
  | TExpr.func _ _ acts => filledCase call st0 def_ NodeKind.Signature acts
  | TExpr.interface _ _ acts => filledCase call st0 def_ NodeKind.Interface acts
  | TExpr.map _ _ key value =>
    mapCase st0 def_ key.pos key.end_ (fun s => varType call s key)
      (fun s => varType call s value)
  | TExpr.chan p q dir value => chanCase st0 def_ p q dir fun s => varType call s value
  | TExpr.other p q text acts =>
    reportedCase call st0 def_ p q Code.NotAType (text ++ " is not a type") acts

/-- The state in which the switch of `typInternal` runs: inside the tracing block
the indentation is one more. -/
def typEntry (st : Checker) : Checker :=
  if st.conf._Trace then { st with indent := st.indent + 1 } else st

/-- The result of `typInternal` when its switch is left with `rb`: the deferred call
of the tracing block takes the indentation back. -/
def typLeave (st : Checker) (rb : Res Typ) : Res Typ :=
  if st.conf._Trace then rb.deferred fun s => Res.ret { s with indent := s.indent - 1 } ()
  else rb

/-- The soft diagnostic of the delayed check of `validVarType` for the type
expression from `pos` to `end_` and the type `t`, checked in state `s`; `cmp` says
which of the two messages it carries. -/
def misplacedIface (s : Checker) (pos end_ : Pos) (t : Typ) (cmp : Bool) : error_ :=
  { newErrorf (positioner.node pos end_) Code.MisplacedConstraintIface
      ("cannot use type " ++ Typ_String s t ++
        (if cmp then " outside a type constraint: interface is (or embeds) comparable"
         else " outside a type constraint: interface contains type constraints"))
    with soft := true }

/-- The kind of type structure that `typInternal` allocates for a pointer, slice,
array, struct, function, interface, map or channel type expression. -/
def builtKind : TExpr → Option NodeKind
  | TExpr.array _ _ none _ => some NodeKind.Slice
  | TExpr.array _ _ (some _) _ => some NodeKind.Array
  | TExpr.struct _ _ _ => some NodeKind.Struct
  | TExpr.star _ _ _ => some NodeKind.Pointer
  | TExpr.func _ _ _ => some NodeKind.Signature
  | TExpr.interface _ _ _ => some NodeKind.Interface
  | TExpr.map _ _ _ _ => some NodeKind.Map
  | TExpr.chan _ _ _ _ => some NodeKind.Chan
  | _ => none

/-- The state `s1` is the state `st` after a type structure of kind `k` has been
allocated and bound as the underlying type of the type declared by `d`, and nothing
else: the structures in use before, the delayed actions, the recorded types, the
errors, the objects, the environment and the object path are as in `st`. -/
def boundOnly (st s1 : Checker) (d : ObjId) (k : NodeKind) : Prop :=
  s1.underlying = Function.update st.underlying d (Typ.composite st.nextNode)
  ∧ s1.nextNode = st.nextNode + 1 ∧ (s1.nodes st.nextNode).kind = k
  ∧ (∀ i, i ≠ st.nextNode → s1.nodes i = st.nodes i)
  ∧ s1.delayed = st.delayed ∧ s1.Types = st.Types ∧ s1.firstErr = st.firstErr
  ∧ s1.sink = st.sink ∧ s1.objs = st.objs ∧ s1.env = st.env ∧ s1.objPath = st.objPath

/-- The methods of the list `pending` that are the first occurrence of their name
among the methods `seen` followed by `pending`, in the order of the list. -/
def firstOccurrences (st : Checker) : List ObjId → List ObjId → List ObjId
  | _, [] => []
  | seen, m :: ms =>
    if seen.any (fun x => (st.objs m).name == (st.objs x).name) then
      firstOccurrences st (seen ++ [m]) ms
    else m :: firstOccurrences st (seen ++ [m]) ms

/-- The other methods of the list `pending`, in the order of the list, each with
the first method of its name among the methods `seen` followed by `pending`. -/
def laterOccurrences (st : Checker) : List ObjId → List ObjId → List (ObjId × ObjId)
  | _, [] => []
  | seen, m :: ms =>
    match seen.find? (fun x => (st.objs m).name == (st.objs x).name) with
    | some alt => (m, alt) :: laterOccurrences st (seen ++ [m]) ms
    | none => laterOccurrences st (seen ++ [m]) ms

/-- The `DuplicateMethod` diagnostic of `collectMethods` for the method `m` of the
type name `obj` when `alt` has the same name. -/
def duplicateMethodError (st : Checker) (obj m alt : ObjId) : error_ :=
  newErrorf (positioner.object (st.objs m).pos) Code.DuplicateMethod
    (if Pos_IsValid (st.objs alt).pos then
      "method " ++ (st.objs obj).name ++ "." ++ (st.objs m).name ++ " already declared at "
        ++ sprintfPos (st.objs alt).pos
     else "method " ++ (st.objs obj).name ++ "." ++ (st.objs m).name ++ " already declared")

/-- The state in which the loops of `collectMethods` for the type name `obj` of the
named type `b` run: the entry of `obj` is deleted from the pending methods and the
check of the fields is pushed as a delayed action. -/
def collectStart (st : Checker) (obj b : ObjId) : Checker :=
  (later { st with methods := st.methods.filter (fun p => decide (p.1 ≠ obj)) }
    (Closure.checkFieldUniqueness b)).1

/-- The fields of the list that are not blank and whose name is the name of one of
the methods, in the order of the list, each with the method of that name. -/
def fieldCollisions (st : Checker) (methods fields : List ObjId) : List (ObjId × ObjId) :=
  fields.filterMap fun f =>
    if (st.objs f).name = "_" then none
    else (methods.find? fun m => (st.objs f).name == (st.objs m).name).map fun m => (f, m)

/-- The diagnostics of `checkFieldUniqueness` for the field `f` and the method `m` of
the same name: `DuplicateFieldAndMethod` at the method, followed by the other
declaration at the field when the position of the field is valid. -/
def collisionErrors (st : Checker) (f m : ObjId) : List error_ :=
  newErrorf (positioner.object (st.objs m).pos) Code.DuplicateFieldAndMethod
      ("field and method with the same name " ++ (st.objs f).name)
    :: (if Pos_IsValid (st.objs f).pos then
          [newErrorf (positioner.object (st.objs f).pos) Code.DuplicateDecl
            ("\tother declaration of " ++ (st.objs f).name)]
        else [])

/-- The environment in which the declaration `d` of the object is resolved: the
zero environment with the file scope of the declaration, and with the declaration
as `decl` for a constant and a variable. -/
def declEnv (st : Checker) (obj : ObjId) (d : declInfo) : environment :=
  if (st.objs obj).kind = ObjKind.Const ∨ (st.objs obj).kind = ObjKind.Var then
    { environment.ofScope d.file with decl := some obj }
  else environment.ofScope d.file

/-- The values handed to the callback at the observation points, in order. -/
def callsOf (tr : List Moment) : List decl :=
  tr.filterMap fun m =>
    match m.label with
    | Label.call d => some d
    | _ => none

/-- The specification has a type or values of its own. -/
def hasTypeOrValues (v : ValueSpec) : Bool := v.Type_.isSome || !v.Values.isEmpty

/-- The specification if it is a value specification with a type or values. -/
def ownTypeOrValues : Spec → Option ValueSpec
  | Spec.valueSpec v => if hasTypeOrValues v then some v else none
  | _ => none

/-- The value specification with a type or values that is nearest to the end of the
list of specifications, if there is one. -/
def nearestWithTypeOrValues : List Spec → Option ValueSpec
  | [] => none
  | s :: rest =>
    match nearestWithTypeOrValues rest with
    | some v => some v
    | none => ownTypeOrValues s

/-- The type and the values taken over from a specification; no type and no values
when there is none. -/
def inheritedFrom : Option ValueSpec → Option TExpr × List Expr
  | some l => (l.Type_, l.Values)
  | none => (none, [])

/-- The variable `last` of `walkDecl` agrees with the specifications `pre` that the
loop has passed: it is the nearest of them with a type or values, or, when there is
none, nil or the zero value. -/
def lastAgrees (pre : List Spec) (last : Option ValueSpec) : Prop :=
  match last with
  | none => nearestWithTypeOrValues pre = none
  | some l =>
    nearestWithTypeOrValues pre = some l
    ∨ (nearestWithTypeOrValues pre = none ∧ l = ValueSpec.zero)

/-- What holds of a value handed to the callback for a constant specification of
the group `specs`: its `iota` is the index of the specification; with `inherited`
the specification has no type and no values and `typ` and `init` are those of the
nearest specification before it that has a type or values, none when there is no
such specification; without `inherited` they are its own. -/
def goodCall (specs : List Spec) (d : decl) : Prop :=
  match d with
  | decl.constDecl v k typ init inh =>
    ∃ n : Nat, k = (n : Int) ∧ specs[n]? = some (Spec.valueSpec v)
      ∧ (inh = true → v.Type_ = none ∧ v.Values = []
          ∧ (typ, init) = inheritedFrom (nearestWithTypeOrValues (specs.take n)))
      ∧ (inh = false → typ = v.Type_ ∧ init = v.Values)
  | _ => True

/-- The number is a Unicode scalar value: a code point that is not a surrogate. -/
def isScalar (r : Nat) : Prop := r < 0xD800 ∨ (0xDFFF < r ∧ r < 0x110000)

/-- The rune is a subscript digit, U+2080 to U+2089. -/
def isSubscriptDigit (r : Nat) : Bool := decide (0x2080 ≤ r) && decide (r ≤ 0x2089)

/-- The UTF-8 encoding of a sequence of runes. -/
def encodeRunes : List Nat → List Nat
  | [] => []
  | r :: rs => appendRune r ++ encodeRunes rs

/-- The observation points of evaluating the first part of a pointer, slice, array,
struct, function, interface, map or channel type expression, started in the state
`sp`: the element type of a slice or channel, the length of an array, the fields,
parameters or methods of a struct, function or interface type, the base type of a
pointer, the key type of a map; `none` when the evaluation does not finish. -/
def firstPart (call : Checker → ObjId → Option (Res Unit)) (sp : Checker) :
    TExpr → Option (List Moment)
  | TExpr.array _ _ none elt => (varType call sp elt).map fun r => r.trace
  | TExpr.array _ _ (some len) _ => (arrayLen call sp len).map fun r => r.trace
  | TExpr.struct _ _ acts => (runActs call sp acts).map fun r => r.trace
  | TExpr.func _ _ acts => (runActs call sp acts).map fun r => r.trace
  | TExpr.interface _ _ acts => (runActs call sp acts).map fun r => r.trace
  | TExpr.star _ _ x => (varType call sp x).map fun r => r.trace
  | TExpr.map _ _ key _ => (varType call sp key).map fun r => r.trace
  | TExpr.chan _ _ _ value => (varType call sp value).map fun r => r.trace
  | _ => none

/-! ## Theorems -/

/-- C6: `later(f)` appends the action for `f` as the last element of the delayed
queue and changes no other field of the checker; the pointer it returns is the
last element of the new queue; after any sequence of calls of `later` the queue is
the old queue followed by the actions in the order of the calls. -/
theorem later_appends_in_order (st : Checker) (f : Closure) (fs : List Closure) :
    (later st f).1 = { st with delayed := st.delayed ++ [{ f := f, desc := none }] }
    ∧ (later st f).1.delayed.getLast? = some { f := f, desc := none }
    ∧ (later st f).1.delayed[(later st f).2]? = some { f := f, desc := none }
    ∧ (later st f).2 + 1 = (later st f).1.delayed.length
    ∧ (fs.foldl (fun s g => (later s g).1) st).delayed
        = st.delayed ++ fs.map (fun g => { f := g, desc := none }) := by
  refine ⟨rfl, ?_, ?_, ?_, ?_⟩
  · simp [later]
  · simp [later]
  · simp [later]
  · induction fs generalizing st with
    | nil => simp
    | cons g gs ih =>
      rw [List.foldl_cons, ih]
      simp [later]

/-- C2: for an object that is black and has a type, `objDecl` returns normally and
leaves the whole checker state as it was (colour, type, object path, delayed queue,
environment, recorded errors), passing no observation point, so nothing is reported. -/
theorem objDecl_black_noop (fuel : Nat) (st : Checker) (obj : ObjId)
    (hc : Object_color st obj = Black) (ht : (st.objs obj).typ ≠ none) :
    objDecl (fuel + 1) st obj = some ⟨Outcome.ok (), st, []⟩ := by
  have hn : (st.objs obj).typ.isNone = false := by
    cases h : (st.objs obj).typ with
    | none => exact absurd h ht
    | some t => rfl
  simp [objDecl, objDeclBody, hc, hn, ht, White, Black, Res.ret]

theorem objDecl_black_noop_witness :
    Object_color (exChecker exBlackObjs []) 0 = Black
    ∧ ((exChecker exBlackObjs []).objs 0).typ ≠ none
    ∧ objDecl 1 (exChecker exBlackObjs []) 0
        = some ⟨Outcome.ok (), exChecker exBlackObjs [], []⟩ :=
  ⟨by decide, by decide, objDecl_black_noop 0 (exChecker exBlackObjs []) 0 (by decide) (by decide)⟩

/-! ### Facts about `report` -/

theorem spanOf_object (p : Pos) : spanOf (positioner.object p) = some ⟨p, p, p⟩ := rfl

theorem errorf_object_eq (st : Checker) (p : Pos) (code : Code) (text : String)
    (hc : code ≠ Code.noCode) :
    errorf st (positioner.object p) code text
      = Res.after [⟨Label.report (newErrorf (positioner.object p) code text), st⟩]
          (if st.firstErr.isSome && isInvalidErr (renderMsg st code text) then Res.ret st ()
           else if st.conf.hasError then Res.ret (recorded st (errorAt st p code text)) ()
           else ⟨Outcome.bailout, recorded st (errorAt st p code text), []⟩) := by
  unfold errorf report
  simp only [newErrorf, error_.msg, error_.msgTail, Option.map, spanOf_object, hc, if_false,
    String.append_empty]
  congr 1
  by_cases h1 : (st.firstErr.isSome && isInvalidErr (renderMsg st code text)) = true
  · simp [h1]
  · by_cases h2 : st.conf.hasError = true
    · simp [h1, h2, recorded, errorAt]
    · simp [h1, h2, recorded, errorAt]

/-! ### Facts about the counting loop of `validCycle` -/

theorem countCycle_spec (st : Checker) (cycle : List ObjId) (hwf : wellFormedCycle st cycle) :
    ∀ nv nd, ∃ c, countCycle st cycle nv nd = Except.ok c
      ∧ c.tparCycle = throughTParamList st cycle
      ∧ (c.tparCycle = false →
          c.nval = nv + cycle.countP (isValue st) ∧ c.ndef = nd + cycle.countP (isTypeDef st)) := by
  induction cycle with
  | nil => intro nv nd; exact ⟨⟨false, nv, nd⟩, rfl, by simp [throughTParamList], by simp⟩
  | cons o rest ih =>
    intro nv nd
    have hwf1 : wellFormedCycle st rest := fun x hx => hwf x (List.mem_cons_of_mem _ hx)
    have ho := hwf o (List.mem_cons_self _ _)
    have ihr := ih hwf1
    cases hk : (st.objs o).kind with
    | Const =>
      obtain ⟨c, h1, h2, h3⟩ := ihr (nv + 1) nd
      refine ⟨c, by simp [countCycle, hk, h1], ?_, ?_⟩
      · simp [h2, throughTParamList, isGenericName, isTypeName, hk]
      · intro hc
        have := h3 hc
        simp [isValue, isTypeDef, isTypeName, hk, this]
        omega
    | Var =>
      obtain ⟨c, h1, h2, h3⟩ := ihr (nv + 1) nd
      refine ⟨c, by simp [countCycle, hk, h1], ?_, ?_⟩
      · simp [h2, throughTParamList, isGenericName, isTypeName, hk]
      · intro hc
        have := h3 hc
        simp [isValue, isTypeDef, isTypeName, hk, this]
        omega
    | Func =>
      obtain ⟨c, h1, h2, h3⟩ := ihr nv nd
      refine ⟨c, by simp [countCycle, hk, h1], ?_, ?_⟩
      · simp [h2, throughTParamList, isGenericName, isTypeName, hk]
      · intro hc
        have := h3 hc
        simp [isValue, isTypeDef, isTypeName, hk, this]
    | Other => exact absurd hk ho.1
    | TypeName =>
      by_cases hg : (st.env.inTParamList && IsGeneric (st.objs o).typ) = true
      · refine ⟨⟨true, nv, nd⟩, by simp [countCycle, hk, hg], ?_, by simp⟩
        simp only [Bool.and_eq_true] at hg
        simp [throughTParamList, isGenericName, isTypeName, hk, hg.1, hg.2]
      · have hgen : throughTParamList st (o :: rest) = throughTParamList st rest := by
          simp only [Bool.and_eq_true, not_and, Bool.not_eq_true] at hg
          cases hin : st.env.inTParamList with
          | false => simp [throughTParamList, hin]
          | true => simp [throughTParamList, hin, isGenericName, isTypeName, hk, hg hin]
        by_cases hal : isAliasName st o = true
        · obtain ⟨c, h1, h2, h3⟩ := ihr nv nd
          refine ⟨c, ?_, by rw [hgen]; exact h2, ?_⟩
          · rw [← h1]
            cases hd : st.decl? o with
            | none =>
              simp only [isAliasName, hd] at hal
              simp [countCycle, hk, hg, hd, hal]
            | some d =>
              cases htd : d.tdecl with
              | none => exact absurd htd (ho.2 hk d hd)
              | some td =>
                simp only [isAliasName, hd, htd] at hal
                simp [countCycle, hk, hg, hd, htd, hal]
          · intro hc
            have := h3 hc
            simp [isValue, isTypeDef, isTypeName, hk, hal, this]
        · obtain ⟨c, h1, h2, h3⟩ := ihr nv (nd + 1)
          refine ⟨c, ?_, by rw [hgen]; exact h2, ?_⟩
          · rw [← h1]
            cases hd : st.decl? o with
            | none =>
              simp only [isAliasName, hd] at hal
              simp [countCycle, hk, hg, hd, hal]
            | some d =>
              cases htd : d.tdecl with
              | none => exact absurd htd (ho.2 hk d hd)
              | some td =>
                simp only [isAliasName, hd, htd] at hal
                simp [countCycle, hk, hg, hd, htd, hal]
          · intro hc
            have := h3 hc
            simp [isValue, isTypeDef, isTypeName, hk, hal, this]
            omega

theorem acceptsCycle_iff_counts (st : Checker) (cycle : List ObjId) :
    acceptsCycle st cycle = true ↔
      throughTParamList st cycle = false
        ∧ (cycle.countP (isValue st) = cycle.length
            ∨ (cycle.countP (isValue st) = 0 ∧ cycle.countP (isTypeDef st) > 0)) := by
  simp only [acceptsCycle, Bool.and_eq_true, Bool.not_eq_true', Bool.or_eq_true, List.all_eq_true,
    List.any_eq_true, List.countP_eq_length, List.countP_eq_zero, gt_iff_lt, List.countP_pos_iff,
    Bool.not_eq_true]

theorem validCycle_eq (st : Checker) (obj : ObjId) (hg : Grey ≤ Object_color st obj)
    (hs : Object_color st obj - Grey ≤ st.objPath.length)
    (hwf : wellFormedCycle st (cycleOf st obj)) :
    validCycle st obj
      = Res.after [⟨Label.validCycle obj, st⟩]
          (if acceptsCycle st (cycleOf st obj) then Res.ret st true
           else (cycleError st (cycleOf st obj)).bind fun _ s => Res.ret s false) := by
  obtain ⟨c, h1, h2, h3⟩ := countCycle_spec st (cycleOf st obj) hwf 0 0
  unfold validCycle
  congr 1
  have hg1 : ¬ Object_color st obj < Grey := Nat.not_lt.mpr hg
  have hs1 : ¬ Object_color st obj - Grey > st.objPath.length := Nat.not_lt.mpr hs
  simp only [hg1, hs1, if_false]
  unfold cycleOf at h1 h2 h3 ⊢
  rw [h1]
  simp only
  have hacc := acceptsCycle_iff_counts st (List.drop (Object_color st obj - Grey) st.objPath)
  cases ht : c.tparCycle with
  | true =>
    have hnot : acceptsCycle st (List.drop (Object_color st obj - Grey) st.objPath) = false := by
      rw [Bool.eq_false_iff]
      intro h
      rw [hacc] at h
      rw [← h2, ht] at h
      exact absurd h.1 (by simp)
    simp [hnot]
  | false =>
    obtain ⟨hv, hd⟩ := h3 ht
    simp only [Nat.zero_add] at hv hd
    rw [← h2, ht] at hacc
    by_cases hA : acceptsCycle st (List.drop (Object_color st obj - Grey) st.objPath) = true
    · rw [hA]
      rcases (hacc.1 hA).2 with h | ⟨h, h'⟩
      · simp [hv, h]
      · by_cases hl : c.nval = (List.drop (Object_color st obj - Grey) st.objPath).length
        · simp [hl]
        · have hl2 : ¬ (c.nval = st.objPath.length - (Object_color st obj - Grey)) := by
            simpa using hl
          simp [hl2, hv, hd, h, h']
    · have hA2 : acceptsCycle st (List.drop (Object_color st obj - Grey) st.objPath) = false := by
        simpa using hA
      rw [hA2]
      have hn : ¬ (List.countP (isValue st) (List.drop (Object_color st obj - Grey) st.objPath)
            = (List.drop (Object_color st obj - Grey) st.objPath).length
          ∨ (List.countP (isValue st) (List.drop (Object_color st obj - Grey) st.objPath) = 0
              ∧ List.countP (isTypeDef st) (List.drop (Object_color st obj - Grey) st.objPath) > 0)) := by
        intro h
        exact hA (hacc.2 ⟨rfl, h⟩)
      rw [← hv, ← hd] at hn
      push_neg at hn
      have hn1 : ¬ (c.nval = st.objPath.length - (Object_color st obj - Grey)) := by
        simpa using hn.1
      by_cases h0 : c.nval = 0
      · have := hn.2 h0
        have h00 : c.ndef = 0 := by omega
        have hn2 : ¬ (0 = st.objPath.length - (Object_color st obj - Grey)) := by
          rw [h0] at hn1
          exact hn1
        simp [hn2, h0, h00]
      · simp [hn1, h0]

theorem sameButErrors_refl (a : Checker) : sameButErrors a a := ⟨a.firstErr, a.sink, rfl⟩

theorem sameButErrors_trans (a b c : Checker) (h1 : sameButErrors a b) (h2 : sameButErrors b c) :
    sameButErrors a c := by
  obtain ⟨fe, sk, rfl⟩ := h1
  obtain ⟨fe2, sk2, rfl⟩ := h2
  exact ⟨fe2, sk2, rfl⟩

theorem sameButErrors_recorded (st : Checker) (err : Error) : sameButErrors st (recorded st err) :=
  ⟨_, _, rfl⟩

/-- What `errorf` does with a diagnostic of code `InvalidDeclCycle` at an object
position. -/
theorem errorf_cycle_facts (st : Checker) (p : Pos) (text : String) :
    (errorf st (positioner.object p) Code.InvalidDeclCycle text).trace
        = [⟨Label.report (newErrorf (positioner.object p) Code.InvalidDeclCycle text), st⟩]
    ∧ sameButErrors st (errorf st (positioner.object p) Code.InvalidDeclCycle text).st
    ∧ (st.conf.hasError = true →
        (errorf st (positioner.object p) Code.InvalidDeclCycle text).out = Outcome.ok ())
    ∧ (st.conf.hasError = false → st.firstErr = none →
        (errorf st (positioner.object p) Code.InvalidDeclCycle text).out = Outcome.bailout)
    ∧ (st.conf.hasError = true →
        isInvalidErr (renderMsg st Code.InvalidDeclCycle text) = false →
        (errorf st (positioner.object p) Code.InvalidDeclCycle text).st.sink
          = st.sink ++ [errorAt st p Code.InvalidDeclCycle text]
        ∧ (errorf st (positioner.object p) Code.InvalidDeclCycle text).st.firstErr
          = some (st.firstErr.getD (errorAt st p Code.InvalidDeclCycle text))) := by
  have hE := errorf_object_eq st p Code.InvalidDeclCycle text (by decide)
  by_cases h1 : (st.firstErr.isSome && isInvalidErr (renderMsg st Code.InvalidDeclCycle text)) = true
  · rw [if_pos h1] at hE
    rw [hE]
    refine ⟨rfl, sameButErrors_refl st, fun _ => rfl, ?_, ?_⟩
    · intro _ hf
      simp [hf] at h1
    · intro _ hk
      simp [hk] at h1
  · rw [if_neg h1] at hE
    by_cases h2 : st.conf.hasError = true
    · rw [if_pos h2] at hE
      rw [hE]
      refine ⟨rfl, sameButErrors_recorded st _, fun _ => rfl, ?_, ?_⟩
      · intro h; rw [h2] at h; exact absurd h (by decide)
      · intro _ _
        refine ⟨by simp [Res.after, Res.ret, recorded, h2], ?_⟩
        cases hfe : st.firstErr <;> simp [Res.after, Res.ret, recorded, hfe]
    · rw [if_neg h2] at hE
      rw [hE]
      refine ⟨rfl, sameButErrors_recorded st _, ?_, fun _ _ => rfl, ?_⟩
      · intro h; exact absurd h h2
      · intro h; exact absurd h h2

/-! ### Facts about sequencing and traces -/

theorem Res.bind_ok {α β : Type} (r : Res α) (k : α → Checker → Res β) (a : α)
    (h : r.out = Outcome.ok a) :
    r.bind k = ⟨(k a r.st).out, (k a r.st).st, r.trace ++ (k a r.st).trace⟩ := by
  unfold Res.bind
  rw [h]

theorem Res.bind_bailout {α β : Type} (r : Res α) (k : α → Checker → Res β)
    (h : r.out = Outcome.bailout) :
    r.bind k = ⟨Outcome.bailout, r.st, r.trace⟩ := by
  unfold Res.bind
  rw [h]

theorem reportsOf_append (t1 t2 : List Moment) :
    reportsOf (t1 ++ t2) = reportsOf t1 ++ reportsOf t2 := by
  simp [reportsOf, List.filterMap_append]

theorem reportsOf_report (e : error_) (s : Checker) : reportsOf [⟨Label.report e, s⟩] = [e] := rfl

/-! ### Facts about `cycleError` -/

theorem sameButErrors_fields (a b : Checker) (h : sameButErrors a b) :
    b.objs = a.objs ∧ qualifier b = qualifier a ∧ b.conf = a.conf ∧ b.env = a.env
      ∧ b.objPath = a.objPath ∧ b.objMap = a.objMap ∧ b.delayed = a.delayed
      ∧ b.brokenAliases = a.brokenAliases ∧ b.indent = a.indent := by
  obtain ⟨fe, sk, rfl⟩ := h
  exact ⟨rfl, rfl, rfl, rfl, rfl, rfl, rfl, rfl, rfl⟩

theorem objName_same (a b : Checker) (h : sameButErrors a b) (o : ObjId) :
    objName b o = objName a o := by
  obtain ⟨fe, sk, rfl⟩ := h
  rfl

theorem lineOf_same (a b : Checker) (h : sameButErrors a b) (o : ObjId) :
    lineOf b o = lineOf a o := by
  obtain ⟨fe, sk, rfl⟩ := h
  rfl

theorem lastOf_same (a b : Checker) (h : sameButErrors a b) (o : ObjId) :
    lastOf b o = lastOf a o := by
  obtain ⟨fe, sk, rfl⟩ := h
  rfl

theorem renderMsg_same (a b : Checker) (h : sameButErrors a b) (c : Code) (t : String) :
    renderMsg b c t = renderMsg a c t := by
  obtain ⟨fe, sk, rfl⟩ := h
  rfl

theorem errorAt_same (a b : Checker) (h : sameButErrors a b) (p : Pos) (c : Code) (t : String) :
    errorAt b p c t = errorAt a p c t := by
  obtain ⟨fe, sk, rfl⟩ := h
  rfl

theorem cycleErrorLoop_sink (cycle : List ObjId) (st0 : Checker)
    (hsink : st0.conf.hasError = true) :
    ∀ k st i obj name, sameButErrors st0 st → i < cycle.length → cycle[i]? = some obj →
      name = objName st0 obj →
      (cycleErrorLoop cycle k st i obj name).out
          = Outcome.ok (cycle.getD ((i + k) % cycle.length) 0,
              objName st0 (cycle.getD ((i + k) % cycle.length) 0))
      ∧ reportsOf (cycleErrorLoop cycle k st i obj name).trace
          = (List.range k).map (fun j => lineOf st0 (cycle.getD ((i + j) % cycle.length) 0))
      ∧ sameButErrors st0 (cycleErrorLoop cycle k st i obj name).st
      ∧ ((∀ o ∈ cycle, keptMsg st0 (lineOf st0 o)) →
          (cycleErrorLoop cycle k st i obj name).st.sink
            = st.sink ++ (List.range k).map
                (fun j => deliveredOf st0 (lineOf st0 (cycle.getD ((i + j) % cycle.length) 0)))) := by
  intro k
  induction k with
  | zero =>
    intro st i obj name hst hi hobj hname
    have hget : cycle.getD i 0 = obj := by
      rw [List.getD_eq_getElem?_getD, hobj]; rfl
    refine ⟨?_, rfl, hst, fun _ => by simp [cycleErrorLoop, Res.ret]⟩
    show Outcome.ok (obj, name) = _
    rw [Nat.add_zero, Nat.mod_eq_of_lt hi, hget, hname]
  | succ k ih =>
    intro st i obj name hst hi hobj hname
    have hget : cycle.getD i 0 = obj := by
      rw [List.getD_eq_getElem?_getD, hobj]; rfl
    obtain ⟨f1, f2, f3, _, f5⟩ := errorf_cycle_facts st (st.objs obj).pos
      ("\t" ++ name ++ " refers to")
    have hconf : st.conf = st0.conf := (sameButErrors_fields _ _ hst).2.2.1
    have f3' := f3 (by rw [hconf]; exact hsink)
    have hi1 : (if i + 1 ≥ cycle.length then 0 else i + 1) < cycle.length := by
      split <;> omega
    obtain ⟨obj1, hobj1⟩ : ∃ o, cycle[if i + 1 ≥ cycle.length then 0 else i + 1]? = some o :=
      ⟨_, List.getElem?_eq_getElem hi1⟩
    have hidx : ∀ j, ((if i + 1 ≥ cycle.length then 0 else i + 1) + j) % cycle.length
        = (i + (j + 1)) % cycle.length := by
      intro j
      split
      · have : i + 1 = cycle.length := by omega
        rw [show i + (j + 1) = j + cycle.length by omega, Nat.add_mod_right, Nat.zero_add]
      · rw [show i + 1 + j = i + (j + 1) by omega]
    have hst1 := sameButErrors_trans _ _ _ hst f2
    obtain ⟨g1, g2, g3, g4⟩ := ih _ _ obj1 _ hst1 hi1 hobj1 (objName_same st0 _ hst1 obj1)
    have hline : newErrorf (positioner.object (st.objs obj).pos) Code.InvalidDeclCycle
        ("\t" ++ name ++ " refers to") = lineOf st0 obj := by
      rw [hname, (sameButErrors_fields _ _ hst).1]
      rfl
    have h0 : cycle.getD ((i + 0) % cycle.length) 0 = obj := by
      rw [Nat.add_zero, Nat.mod_eq_of_lt hi, hget]
    rw [cycleErrorLoop, Res.bind_ok _ _ () f3']
    simp only [hobj1]
    refine ⟨?_, ?_, g3, ?_⟩
    · rw [g1, hidx]
    · rw [reportsOf_append, g2, f1, reportsOf_report, List.range_succ_eq_map, List.map_cons,
        List.map_map, hline, h0]
      refine congrArg _ (List.map_congr_left ?_)
      intro j _
      simp only [Function.comp_apply, hidx, Nat.succ_eq_add_one]
    · intro hk
      have hko : isInvalidErr (renderMsg st Code.InvalidDeclCycle
          ("\t" ++ name ++ " refers to")) = false := by
        have := hk obj (List.getElem?_mem hobj)
        rw [renderMsg_same st0 st hst, hname]
        simpa [keptMsg, lineOf, newErrorf] using this
      rw [g4 hk, (f5 (by rw [hconf]; exact hsink) hko).1, List.range_succ_eq_map, List.map_cons,
        List.map_map, List.append_assoc]
      have hd : errorAt st (st.objs obj).pos Code.InvalidDeclCycle
          ("\t" ++ name ++ " refers to") = deliveredOf st0 (lineOf st0 obj) := by
        rw [errorAt_same st0 st hst, hname, (sameButErrors_fields _ _ hst).1]
        rfl
      rw [hd, h0, List.singleton_append]
      refine congrArg _ (congrArg _ (List.map_congr_left ?_))
      intro j _
      simp only [Function.comp_apply, hidx, Nat.succ_eq_add_one]

/-! ### Facts about `firstInSrc` -/

theorem firstInSrcLoop_spec (posOf : ObjId → Int) :
    ∀ (ts pre : List ObjId) (fst : Nat) (o0 : ObjId), pre ≠ [] → pre[fst]? = some o0 →
      (∀ o ∈ pre, posOf o0 ≤ posOf o) →
      (∀ j oj, j < fst → pre[j]? = some oj → posOf o0 < posOf oj) →
      ∃ o1, (pre ++ ts)[firstInSrcLoop posOf ts (pre.length - 1) fst (posOf o0)]? = some o1
        ∧ (∀ o ∈ pre ++ ts, posOf o1 ≤ posOf o)
        ∧ (∀ j oj, j < firstInSrcLoop posOf ts (pre.length - 1) fst (posOf o0) →
            (pre ++ ts)[j]? = some oj → posOf o1 < posOf oj) := by
  intro ts
  induction ts with
  | nil =>
    intro pre fst o0 _ h0 hmin hstrict
    refine ⟨o0, by simpa [firstInSrcLoop] using h0, by simpa using hmin, ?_⟩
    intro j oj hj hoj
    exact hstrict j oj (by simpa [firstInSrcLoop] using hj) (by simpa using hoj)
  | cons t ts ih =>
    intro pre fst o0 hne h0 hmin hstrict
    have hlen : 0 < pre.length := List.length_pos.mpr hne
    have hfst : fst < pre.length := by
      by_contra hcon
      rw [List.getElem?_eq_none (by omega)] at h0
      exact absurd h0 (by simp)
    have hidx : pre.length - 1 + 1 = (pre ++ [t]).length - 1 := by
      simp
      omega
    have happ : pre ++ t :: ts = (pre ++ [t]) ++ ts := by simp
    have hne1 : pre ++ [t] ≠ [] := by simp
    by_cases hlt : cmpPos (posOf t) (posOf o0) < 0
    · have hlt1 : posOf t < posOf o0 := by
        unfold cmpPos at hlt
        omega
      have hnew : (pre ++ [t])[pre.length - 1 + 1]? = some t := by
        rw [show pre.length - 1 + 1 = pre.length by omega]
        simp
      have := ih (pre ++ [t]) (pre.length - 1 + 1) t hne1 hnew
        (by
          intro o ho
          rcases List.mem_append.mp ho with h | h
          · exact le_of_lt (lt_of_lt_of_le hlt1 (hmin o h))
          · simp at h
            rw [h])
        (by
          intro j oj hj hoj
          have hj1 : j < pre.length := by omega
          rw [List.getElem?_append_left hj1] at hoj
          exact lt_of_lt_of_le hlt1 (hmin oj (List.getElem?_mem hoj)))
      rw [happ]
      simp only [firstInSrcLoop, hlt, if_true]
      rw [hidx]
      rw [hidx] at this
      exact this
    · have hge : posOf o0 ≤ posOf t := by
        unfold cmpPos at hlt
        omega
      have h0' : (pre ++ [t])[fst]? = some o0 := by
        rw [List.getElem?_append_left hfst]
        exact h0
      have := ih (pre ++ [t]) fst o0 hne1 h0'
        (by
          intro o ho
          rcases List.mem_append.mp ho with h | h
          · exact hmin o h
          · simp at h
            rw [h]
            exact hge)
        (by
          intro j oj hj hoj
          have hj1 : j < pre.length := by omega
          rw [List.getElem?_append_left hj1] at hoj
          exact hstrict j oj hj hoj)
      rw [happ]
      simp only [firstInSrcLoop, hlt, if_false]
      rw [hidx]
      exact this

/-- The index that `firstInSrc` returns for a non-empty path is the first index of
an object whose position is the smallest of the path. -/
theorem firstInSrc_spec (posOf : ObjId → Int) (path : List ObjId) (hne : path ≠ []) :
    ∃ i o0, firstInSrc posOf path = some i ∧ path[i]? = some o0
      ∧ (∀ o ∈ path, posOf o0 ≤ posOf o)
      ∧ (∀ j oj, j < i → path[j]? = some oj → posOf o0 < posOf oj) := by
  cases path with
  | nil => exact absurd rfl hne
  | cons p0 rest =>
    obtain ⟨o1, h1, h2, h3⟩ := firstInSrcLoop_spec posOf rest [p0] 0 p0 (by simp) (by simp)
      (by simp) (by intro j oj hj; omega)
    exact ⟨_, o1, rfl, by simpa using h1, by simpa using h2, by simpa using h3⟩

/-! ### Cyclic order -/

theorem range_map_cyclic_eq_rotate {β : Type} (f : ObjId → β) (l : List ObjId) (i : Nat) :
    (List.range l.length).map (fun j => f (l.getD ((i + j) % l.length) 0))
      = (l.rotate i).map f := by
  apply List.ext_getElem?
  intro m
  by_cases hm : m < l.length
  · have hmod : (m + i) % l.length < l.length := Nat.mod_lt _ (by omega)
    rw [List.getElem?_map, List.getElem?_map, List.getElem?_rotate hm,
      List.getElem?_range hm, List.getElem?_eq_getElem hmod]
    simp only [Option.map_some']
    rw [Nat.add_comm i m, List.getD_eq_getElem?_getD, List.getElem?_eq_getElem hmod]
    rfl
  · have h1 : (List.range l.length).length ≤ m := by simp; omega
    have h2 : (l.rotate i).length ≤ m := by simp; omega
    rw [List.getElem?_map, List.getElem?_map, List.getElem?_eq_none h1,
      List.getElem?_eq_none h2]
    rfl

/-! ### The group of diagnostics of `cycleError` -/

theorem sameNames_refl (a : Checker) : sameNames a a :=
  ⟨rfl, rfl, rfl, rfl, rfl, fun _ => ⟨rfl, rfl, rfl, rfl⟩⟩

theorem sameNames_validAlias (st : Checker) (obj : ObjId) (t : Typ) :
    sameNames st (validAlias st obj t) := by
  refine ⟨rfl, rfl, rfl, rfl, rfl, ?_⟩
  intro o
  by_cases h : o = obj
  · subst h
    simp [validAlias, TypeName_setTyp, Object_setTyp]
  · simp [validAlias, TypeName_setTyp, Object_setTyp, Function.update_noteq h]

theorem objName_sameNames (a b : Checker) (h : sameNames a b) (o : ObjId) :
    objName b o = objName a o := by
  obtain ⟨_, hq, _, _, _, ho⟩ := h
  unfold objName
  rw [hq, (ho o).2.1, (ho o).2.2.1]

theorem lineOf_sameNames (a b : Checker) (h : sameNames a b) (o : ObjId) :
    lineOf b o = lineOf a o := by
  unfold lineOf
  rw [objName_sameNames a b h, (h.2.2.2.2.2 o).1]

theorem lastOf_sameNames (a b : Checker) (h : sameNames a b) (o : ObjId) :
    lastOf b o = lastOf a o := by
  unfold lastOf
  rw [objName_sameNames a b h, (h.2.2.2.2.2 o).1]

theorem headerOf_sameNames (a b : Checker) (h : sameNames a b) (o : ObjId) :
    headerOf b o = headerOf a o := by
  unfold headerOf
  rw [objName_sameNames a b h, (h.2.2.2.2.2 o).1, (h.2.2.2.2.2 o).2.2.2]

theorem deliveredOf_sameNames (a b : Checker) (h : sameNames a b) (e : error_) :
    deliveredOf b e = deliveredOf a e := by
  unfold deliveredOf errorAt renderMsg
  rw [h.1, h.2.2.1]

theorem keptMsg_sameNames (a b : Checker) (h : sameNames a b) (e : error_) :
    keptMsg b e ↔ keptMsg a e := by
  unfold keptMsg renderMsg
  rw [h.1]

theorem ite_errorf (c : Prop) [Decidable c] (st : Checker) (p : positioner) (code : Code)
    (t1 t2 : String) :
    (if c then errorf st p code t1 else errorf st p code t2)
      = errorf st p code (if c then t1 else t2) := by
  split <;> rfl

theorem cycleError_unfold (st : Checker) (cycle : List ObjId) (hn : 2 ≤ cycle.length)
    (i0 : Nat) (start : ObjId)
    (hfi : firstInSrc (fun o => (st.objs o).pos) cycle = some i0) (hget : cycle[i0]? = some start) :
    ∃ st1, sameNames st st1 ∧
      cycleError st cycle
        = (errorf st1 (positioner.object (st1.objs start).pos) Code.InvalidDeclCycle
            (if (st.objs start).kind = ObjKind.TypeName then "invalid recursive type " ++ objName st start
             else "invalid cycle in declaration of " ++ objName st start)).bind fun _ st2 =>
            (cycleErrorLoop cycle cycle.length st2 i0 start (objName st start)).bind fun last st3 =>
              errorf st3 (positioner.object (st3.objs last.1).pos) Code.InvalidDeclCycle
                ("\t" ++ last.2) := by
  refine ⟨if decide ((st.objs start).kind = ObjKind.TypeName) && TypeName_IsAlias start (st.objs start)
      then validAlias st start Typ_Invalid else st, ?_, ?_⟩
  · split
    · exact sameNames_validAlias st start Typ_Invalid
    · exact sameNames_refl st
  · have hlen : ¬ cycle.length = 1 := by omega
    unfold cycleError
    simp only [hfi, hget, hlen, if_false]
    by_cases hk : (st.objs start).kind = ObjKind.TypeName
    · simp [hk]
    · simp [hk]

theorem cycleError_sink (st : Checker) (cycle : List ObjId) (hn : 2 ≤ cycle.length)
    (hsink : st.conf.hasError = true) (i0 : Nat) (start : ObjId)
    (hfi : firstInSrc (fun o => (st.objs o).pos) cycle = some i0) (hget : cycle[i0]? = some start) :
    (cycleError st cycle).out = Outcome.ok ()
    ∧ reportsOf (cycleError st cycle).trace = cycleGroup st cycle i0 start
    ∧ ((∀ e ∈ cycleGroup st cycle i0 start, keptMsg st e) →
        (cycleError st cycle).st.sink
          = st.sink ++ (cycleGroup st cycle i0 start).map (deliveredOf st)) := by
  obtain ⟨st1, hsn, hce⟩ := cycleError_unfold st cycle hn i0 start hfi hget
  have hi0 : i0 < cycle.length := by
    by_contra hcon
    rw [List.getElem?_eq_none (by omega)] at hget
    exact absurd hget (by simp)
  have hsink1 : st1.conf.hasError = true := by rw [hsn.1]; exact hsink
  -- the header
  have hhdr : newErrorf (positioner.object (st1.objs start).pos) Code.InvalidDeclCycle
      (if (st.objs start).kind = ObjKind.TypeName then "invalid recursive type " ++ objName st start
       else "invalid cycle in declaration of " ++ objName st start) = headerOf st start := by
    unfold headerOf
    rw [(hsn.2.2.2.2.2 start).1]
  obtain ⟨a1, a2, a3, _, a5⟩ := errorf_cycle_facts st1 (st1.objs start).pos
    (if (st.objs start).kind = ObjKind.TypeName then "invalid recursive type " ++ objName st start
     else "invalid cycle in declaration of " ++ objName st start)
  rw [hhdr] at a1
  -- the loop
  obtain ⟨b1, b2, b3, b4⟩ := cycleErrorLoop_sink cycle st1 hsink1 cycle.length _ i0 start
    (objName st start) a2 hi0 hget (objName_sameNames st st1 hsn start).symm
  have hback : cycle.getD ((i0 + cycle.length) % cycle.length) 0 = start := by
    rw [Nat.add_mod_right, Nat.mod_eq_of_lt hi0, List.getD_eq_getElem?_getD, hget]
    rfl
  rw [hback] at b1
  rw [range_map_cyclic_eq_rotate (lineOf st1) cycle i0] at b2
  have hlines : (cycle.rotate i0).map (lineOf st1) = (cycle.rotate i0).map (lineOf st) :=
    List.map_congr_left fun o _ => lineOf_sameNames st st1 hsn o
  rw [hlines] at b2
  -- the final line
  generalize hloop : cycleErrorLoop cycle cycle.length
      (errorf st1 (positioner.object (st1.objs start).pos) Code.InvalidDeclCycle
        (if (st.objs start).kind = ObjKind.TypeName then
          "invalid recursive type " ++ objName st start
         else "invalid cycle in declaration of " ++ objName st start)).st i0 start
      (objName st start) = rl at b1 b2 b3 b4
  obtain ⟨c1, c2, c3, _, c5⟩ := errorf_cycle_facts rl.st (rl.st.objs start).pos
    ("\t" ++ objName st1 start)
  have hconf3 := (sameButErrors_fields _ _ b3).2.2.1
  have hlast : newErrorf (positioner.object (rl.st.objs start).pos)
      Code.InvalidDeclCycle ("\t" ++ objName st1 start) = lastOf st start := by
    rw [← lastOf_sameNames st st1 hsn, (sameButErrors_fields _ _ b3).1]
    rfl
  rw [hlast] at c1
  rw [hce, Res.bind_ok _ _ () (a3 hsink1)]
  simp only
  rw [hloop, Res.bind_ok _ _ _ b1]
  simp only
  refine ⟨c3 (by rw [hconf3]; exact hsink1), ?_, ?_⟩
  · rw [reportsOf_append, reportsOf_append, a1, b2, c1]
    rfl
  · intro hk
    have hk1 : ∀ o ∈ cycle, keptMsg st1 (lineOf st1 o) := by
      intro o ho
      rw [keptMsg_sameNames st st1 hsn, lineOf_sameNames st st1 hsn]
      apply hk
      simp only [cycleGroup, List.mem_cons, List.mem_append, List.mem_map, List.mem_singleton]
      exact Or.inr (Or.inl ⟨o, (List.mem_rotate).mpr ho, rfl⟩)
    have hkh : isInvalidErr (renderMsg st1 Code.InvalidDeclCycle
        (if (st.objs start).kind = ObjKind.TypeName then
          "invalid recursive type " ++ objName st start
         else "invalid cycle in declaration of " ++ objName st start)) = false := by
      have := hk (headerOf st start) (by simp [cycleGroup])
      rw [← keptMsg_sameNames st st1 hsn] at this
      simpa [keptMsg, headerOf, newErrorf] using this
    have hkl : isInvalidErr (renderMsg rl.st Code.InvalidDeclCycle ("\t" ++ objName st1 start))
        = false := by
      have := hk (lastOf st start) (by simp [cycleGroup])
      rw [← keptMsg_sameNames st st1 hsn] at this
      rw [renderMsg_same st1 _ b3, objName_sameNames st st1 hsn]
      simpa [keptMsg, lastOf, newErrorf] using this
    rw [(c5 (by rw [hconf3]; exact hsink1) hkl).1, b4 hk1, (a5 hsink1 hkh).1, hsn.2.2.2.1]
    rw [range_map_cyclic_eq_rotate (fun o => deliveredOf st1 (lineOf st1 o)) cycle i0]
    simp only [cycleGroup, List.map_cons, List.map_append, List.map_map, List.append_assoc,
      List.singleton_append, List.cons_append, List.nil_append, List.map_nil]
    congr 1
    congr 1
    · rw [← deliveredOf_sameNames st st1 hsn, ← headerOf_sameNames st st1 hsn]
      unfold deliveredOf headerOf newErrorf
      simp only [positioner.Pos, Option.getD_some]
      rw [objName_sameNames st st1 hsn, (hsn.2.2.2.2.2 start).2.2.2]
    · congr 1
      · apply List.map_congr_left
        intro o _
        simp only [Function.comp_apply]
        rw [deliveredOf_sameNames st st1 hsn, lineOf_sameNames st st1 hsn]
      · congr 1
        rw [errorAt_same st1 _ b3, (sameButErrors_fields _ _ b3).1,
          ← deliveredOf_sameNames st st1 hsn, ← lastOf_sameNames st st1 hsn]
        rfl

theorem Res.bind_trace {α β : Type} (r : Res α) (k : α → Checker → Res β) :
    ∃ t, (r.bind k).trace = r.trace ++ t := by
  unfold Res.bind
  cases r.out with
  | ok a => exact ⟨_, rfl⟩
  | bailout => exact ⟨[], by simp⟩
  | panic m => exact ⟨[], by simp⟩

/-- For a non-empty cycle `cycleError` hands a diagnostic of code `InvalidDeclCycle`
to `report`; it returns normally when an error callback is configured, and is left
by the bailout panic when none is and no error was recorded before. -/
theorem cycleError_rejects (st : Checker) (cycle : List ObjId) (hne : cycle ≠ []) :
    (∃ e ∈ reportsOf (cycleError st cycle).trace, e.code = Code.InvalidDeclCycle)
    ∧ (st.conf.hasError = true → (cycleError st cycle).out = Outcome.ok ())
    ∧ (st.conf.hasError = false → st.firstErr = none →
        (cycleError st cycle).out = Outcome.bailout) := by
  obtain ⟨i0, start, hfi, hget, _, _⟩ := firstInSrc_spec (fun o => (st.objs o).pos) cycle hne
  by_cases hlen : cycle.length = 1
  · have hsn : sameNames st (if decide ((st.objs start).kind = ObjKind.TypeName)
          && TypeName_IsAlias start (st.objs start)
        then validAlias st start Typ_Invalid else st) := by
      split
      · exact sameNames_validAlias st start Typ_Invalid
      · exact sameNames_refl st
    have hce : cycleError st cycle
        = errorf (if decide ((st.objs start).kind = ObjKind.TypeName)
              && TypeName_IsAlias start (st.objs start)
            then validAlias st start Typ_Invalid else st)
          (positioner.object ((if decide ((st.objs start).kind = ObjKind.TypeName)
              && TypeName_IsAlias start (st.objs start)
            then validAlias st start Typ_Invalid else st).objs start).pos) Code.InvalidDeclCycle
          (if (st.objs start).kind = ObjKind.TypeName then
            "invalid recursive type: " ++ objName st start ++ " refers to itself"
           else "invalid cycle in declaration: " ++ objName st start ++ " refers to itself") := by
      unfold cycleError
      simp only [hfi, hget, hlen, if_true]
      by_cases hk : (st.objs start).kind = ObjKind.TypeName
      · simp [hk]
      · simp [hk]
    generalize (if decide ((st.objs start).kind = ObjKind.TypeName)
          && TypeName_IsAlias start (st.objs start)
        then validAlias st start Typ_Invalid else st) = st1 at hsn hce
    obtain ⟨a1, _, a3, a4, _⟩ := errorf_cycle_facts st1 (st1.objs start).pos
      (if (st.objs start).kind = ObjKind.TypeName then
        "invalid recursive type: " ++ objName st start ++ " refers to itself"
       else "invalid cycle in declaration: " ++ objName st start ++ " refers to itself")
    rw [hce]
    refine ⟨⟨_, by rw [a1, reportsOf_report]; exact List.mem_singleton_self _, rfl⟩, ?_, ?_⟩
    · intro h; exact a3 (by rw [hsn.1]; exact h)
    · intro h hf; exact a4 (by rw [hsn.1]; exact h) (by rw [hsn.2.2.2.2.1]; exact hf)
  · have hn : 2 ≤ cycle.length := by
      have := List.length_pos.mpr hne
      omega
    obtain ⟨st1, hsn, hce⟩ := cycleError_unfold st cycle hn i0 start hfi hget
    obtain ⟨a1, _, a3, a4, _⟩ := errorf_cycle_facts st1 (st1.objs start).pos
      (if (st.objs start).kind = ObjKind.TypeName then "invalid recursive type " ++ objName st start
       else "invalid cycle in declaration of " ++ objName st start)
    refine ⟨?_, ?_, ?_⟩
    · obtain ⟨t, ht⟩ := Res.bind_trace
        (errorf st1 (positioner.object (st1.objs start).pos) Code.InvalidDeclCycle
          (if (st.objs start).kind = ObjKind.TypeName then
            "invalid recursive type " ++ objName st start
           else "invalid cycle in declaration of " ++ objName st start))
        (fun _ st2 => (cycleErrorLoop cycle cycle.length st2 i0 start (objName st start)).bind
          fun last st3 =>
            errorf st3 (positioner.object (st3.objs last.1).pos) Code.InvalidDeclCycle
              ("\t" ++ last.2))
      rw [hce, ht, a1, reportsOf_append, reportsOf_report]
      exact ⟨_, List.mem_append_left _ (List.mem_singleton_self _), rfl⟩
    · intro h
      exact (cycleError_sink st cycle hn h i0 start hfi hget).1
    · intro h hf
      rw [hce, Res.bind_bailout _ _ (a4 (by rw [hsn.1]; exact h) (by rw [hsn.2.2.2.2.1]; exact hf))]

/-- When the cycle of a grey object is well formed, not empty and not acceptable,
`validCycle` hands a diagnostic of code `InvalidDeclCycle` to `report` and does not
return true: it returns false with an error callback, and is left by the bailout
panic without one (when no error was recorded before). -/
theorem validCycle_rejects (st : Checker) (obj : ObjId) (hg : Grey ≤ Object_color st obj)
    (hs : Object_color st obj - Grey ≤ st.objPath.length)
    (hwf : wellFormedCycle st (cycleOf st obj)) (hne : cycleOf st obj ≠ [])
    (hacc : acceptsCycle st (cycleOf st obj) = false) :
    (∃ e ∈ reportsOf (validCycle st obj).trace, e.code = Code.InvalidDeclCycle)
    ∧ (st.conf.hasError = true → (validCycle st obj).out = Outcome.ok false)
    ∧ (st.conf.hasError = false → st.firstErr = none →
        (validCycle st obj).out = Outcome.bailout)
    ∧ (validCycle st obj).out ≠ Outcome.ok true := by
  obtain ⟨⟨e, he, hcode⟩, h2, h3⟩ := cycleError_rejects st (cycleOf st obj) hne
  rw [validCycle_eq st obj hg hs hwf, hacc]
  simp only [Bool.false_eq_true, if_false]
  obtain ⟨t, ht⟩ := Res.bind_trace (cycleError st (cycleOf st obj))
    (fun (_ : Unit) s => (Res.ret s false : Res Bool))
  refine ⟨⟨e, ?_, hcode⟩, ?_, ?_, ?_⟩
  · show e ∈ reportsOf (_ ++ _)
    rw [ht, reportsOf_append, reportsOf_append]
    exact List.mem_append_right _ (List.mem_append_left _ he)
  · intro h
    show (Res.bind _ _).out = _
    rw [Res.bind_ok _ _ () (h2 h)]
    rfl
  · intro h hf
    show (Res.bind _ _).out = _
    rw [Res.bind_bailout _ _ (h3 h hf)]
  · show (Res.bind _ _).out ≠ _
    unfold Res.bind
    cases (cycleError st (cycleOf st obj)).out with
    | ok a => simp [Res.ret]
    | bailout => simp
    | panic m => simp

theorem validCycle_accepts (st : Checker) (obj : ObjId) (hg : Grey ≤ Object_color st obj)
    (hs : Object_color st obj - Grey ≤ st.objPath.length)
    (hwf : wellFormedCycle st (cycleOf st obj))
    (hacc : acceptsCycle st (cycleOf st obj) = true) :
    validCycle st obj = ⟨Outcome.ok true, st, [⟨Label.validCycle obj, st⟩]⟩ := by
  rw [validCycle_eq st obj hg hs hwf, hacc]
  rfl

/-! ### The cycle validity law -/

/-- C8: when all members of the cycle of a grey object are constants or variables,
`validCycle` returns true and leaves the checker state as it was; the only
observation point is its own entry, so nothing is handed to `report`. -/
theorem validCycle_values_accepted (st : Checker) (obj : ObjId)
    (hg : Grey ≤ Object_color st obj) (hs : Object_color st obj - Grey ≤ st.objPath.length)
    (hall : ∀ o ∈ cycleOf st obj, isValue st o = true) :
    validCycle st obj = ⟨Outcome.ok true, st, [⟨Label.validCycle obj, st⟩]⟩
    ∧ reportsOf (validCycle st obj).trace = [] := by
  have hwf : wellFormedCycle st (cycleOf st obj) := by
    intro o ho
    have := hall o ho
    simp only [isValue, Bool.or_eq_true, decide_eq_true_eq] at this
    rcases this with h | h <;> simp [h]
  have hacc : acceptsCycle st (cycleOf st obj) = true := by
    have hgen : (cycleOf st obj).any (isGenericName st) = false := by
      rw [List.any_eq_false]
      intro o ho
      have := hall o ho
      simp only [isValue, Bool.or_eq_true, decide_eq_true_eq] at this
      rcases this with h | h <;> simp [isGenericName, isTypeName, h]
    have hval : (cycleOf st obj).all (isValue st) = true := by
      rw [List.all_eq_true]
      exact hall
    simp [acceptsCycle, throughTParamList, hgen, hval]
  have h := validCycle_accepts st obj hg hs hwf hacc
  exact ⟨h, by rw [h]; rfl⟩

theorem validCycle_values_accepted_witness :
    Grey ≤ Object_color exConstCycle 0
    ∧ Object_color exConstCycle 0 - Grey ≤ exConstCycle.objPath.length
    ∧ (∀ o ∈ cycleOf exConstCycle 0, isValue exConstCycle o = true)
    ∧ validCycle exConstCycle 0
        = ⟨Outcome.ok true, exConstCycle, [⟨Label.validCycle 0, exConstCycle⟩]⟩
    ∧ reportsOf (validCycle exConstCycle 0).trace = [] :=
  ⟨by decide, by decide, by decide,
    validCycle_values_accepted exConstCycle 0 (by decide) (by decide) (by decide)⟩

/-- C1, as amended: for the non-empty, well-formed cycle of a grey object,
`validCycle` returns true, with the state unchanged and nothing reported, if and
only if the cycle does not go through a type parameter list (a generic type name
while the checker is inside one) and either every member is a constant or variable,
or no member is and some member is a type definition, functions not being counted.
In every other case it hands an `InvalidDeclCycle` diagnostic to `report` and
returns false when an error callback is configured, and is left by the bailout
panic when none is. -/
theorem validCycle_accepts_iff (st : Checker) (obj : ObjId)
    (hg : Grey ≤ Object_color st obj) (hs : Object_color st obj - Grey ≤ st.objPath.length)
    (hwf : wellFormedCycle st (cycleOf st obj)) (hne : cycleOf st obj ≠ []) :
    ((validCycle st obj).out = Outcome.ok true ↔
        ¬ (st.env.inTParamList = true ∧ ∃ o ∈ cycleOf st obj, isGenericName st o = true)
        ∧ ((∀ o ∈ cycleOf st obj, isValue st o = true)
            ∨ ((∀ o ∈ cycleOf st obj, isValue st o = false)
                ∧ ∃ o ∈ cycleOf st obj, isTypeDef st o = true)))
    ∧ ((validCycle st obj).out = Outcome.ok true →
        validCycle st obj = ⟨Outcome.ok true, st, [⟨Label.validCycle obj, st⟩]⟩
        ∧ reportsOf (validCycle st obj).trace = [])
    ∧ ((validCycle st obj).out ≠ Outcome.ok true →
        (∃ e ∈ reportsOf (validCycle st obj).trace, e.code = Code.InvalidDeclCycle)
        ∧ (st.conf.hasError = true → (validCycle st obj).out = Outcome.ok false)
        ∧ (st.conf.hasError = false → st.firstErr = none →
            (validCycle st obj).out = Outcome.bailout)) := by
  have hiff : acceptsCycle st (cycleOf st obj) = true ↔
      ¬ (st.env.inTParamList = true ∧ ∃ o ∈ cycleOf st obj, isGenericName st o = true)
        ∧ ((∀ o ∈ cycleOf st obj, isValue st o = true)
            ∨ ((∀ o ∈ cycleOf st obj, isValue st o = false)
                ∧ ∃ o ∈ cycleOf st obj, isTypeDef st o = true)) := by
    simp only [acceptsCycle, throughTParamList, Bool.and_eq_true, Bool.not_eq_true',
      Bool.or_eq_true, List.all_eq_true, List.any_eq_true, Bool.and_eq_false_iff, not_and,
      not_exists, Bool.not_eq_true]
    constructor
    · rintro ⟨h1, h2⟩
      refine ⟨?_, h2⟩
      intro hin o ho
      rcases h1 with h | h
      · rw [hin] at h; exact absurd h (by decide)
      · rw [List.any_eq_false] at h
        simpa using h o ho
    · rintro ⟨h1, h2⟩
      refine ⟨?_, h2⟩
      cases hin : st.env.inTParamList with
      | false => exact Or.inl rfl
      | true =>
        refine Or.inr ?_
        rw [List.any_eq_false]
        intro o ho
        simpa using h1 hin o ho
  by_cases hacc : acceptsCycle st (cycleOf st obj) = true
  · have h := validCycle_accepts st obj hg hs hwf hacc
    refine ⟨⟨fun _ => hiff.1 hacc, fun _ => by rw [h]⟩, fun _ => ⟨h, by rw [h]; rfl⟩, ?_⟩
    intro hcon
    rw [h] at hcon
    exact absurd rfl hcon
  · have hacc' : acceptsCycle st (cycleOf st obj) = false := by simpa using hacc
    obtain ⟨r1, r2, r3, r4⟩ := validCycle_rejects st obj hg hs hwf hne hacc'
    refine ⟨⟨fun h => absurd h r4, fun h => absurd (hiff.2 h) hacc⟩, fun h => absurd h r4, ?_⟩
    intro _
    exact ⟨r1, r2, r3⟩

theorem validCycle_accepts_iff_witness :
    Grey ≤ Object_color exAliasCycle 0
    ∧ cycleOf exAliasCycle 0 = [0, 1]
    ∧ (validCycle exAliasCycle 0).out ≠ Outcome.ok true
    ∧ ((validCycle exAliasCycle 0).out ≠ Outcome.ok true →
        (∃ e ∈ reportsOf (validCycle exAliasCycle 0).trace, e.code = Code.InvalidDeclCycle)
        ∧ (exAliasCycle.conf.hasError = true →
            (validCycle exAliasCycle 0).out = Outcome.ok false)
        ∧ (exAliasCycle.conf.hasError = false → exAliasCycle.firstErr = none →
            (validCycle exAliasCycle 0).out = Outcome.bailout)) :=
  ⟨by decide, by decide, by decide,
    (validCycle_accepts_iff exAliasCycle 0 (by decide) (by decide)
      (by intro o ho; have : o = 0 ∨ o = 1 := by simpa [cycleOf, exAliasCycle, Object_color, exChecker, exObj, Grey] using ho
          rcases this with h | h <;> subst h <;> decide)
      (by decide)).2.2⟩

/-- The claim C1 fails for a cycle with a function: the cycle of the type
definition `T` and the function `f` has a member that is not a type name and is
not made of constants and variables, and `validCycle` returns true and reports
nothing. -/
theorem validCycle_accepts_cycle_with_function :
    cycleOf exMixedCycle 0 = [0, 1]
    ∧ ¬ (∀ o ∈ cycleOf exMixedCycle 0, isValue exMixedCycle o = true)
    ∧ ¬ ((∀ o ∈ cycleOf exMixedCycle 0, isTypeName exMixedCycle o = true)
          ∧ ∃ o ∈ cycleOf exMixedCycle 0, isTypeDef exMixedCycle o = true)
    ∧ (validCycle exMixedCycle 0).out = Outcome.ok true
    ∧ reportsOf (validCycle exMixedCycle 0).trace = [] := by
  refine ⟨by decide, by decide, by decide, by decide, by decide⟩

/-- C7, as amended: when the non-empty cycle of a grey object consists only of
alias type names, `validCycle` does not accept it: it hands an `InvalidDeclCycle`
diagnostic to `report`, and it returns false when an error callback is configured;
when none is (and no error was recorded before) the report unwinds with the bailout
panic and `validCycle` does not return. -/
theorem validCycle_alias_cycle_rejected (st : Checker) (obj : ObjId)
    (hg : Grey ≤ Object_color st obj) (hs : Object_color st obj - Grey ≤ st.objPath.length)
    (hne : cycleOf st obj ≠ [])
    (hall : ∀ o ∈ cycleOf st obj, isTypeName st o = true ∧ isAliasName st o = true) :
    (∃ e ∈ reportsOf (validCycle st obj).trace, e.code = Code.InvalidDeclCycle)
    ∧ (st.conf.hasError = true → (validCycle st obj).out = Outcome.ok false)
    ∧ (st.conf.hasError = false → st.firstErr = none →
        (validCycle st obj).out = Outcome.bailout)
    ∧ (validCycle st obj).out ≠ Outcome.ok true := by
  have hwf : wellFormedCycle st (cycleOf st obj) := by
    intro o ho
    obtain ⟨h1, h2⟩ := hall o ho
    simp only [isTypeName, decide_eq_true_eq] at h1
    refine ⟨by simp [h1], ?_⟩
    intro _ d hd htd
    simp [isAliasName, hd, htd] at h2
  have hacc : acceptsCycle st (cycleOf st obj) = false := by
    obtain ⟨o0, ho0⟩ := List.exists_mem_of_ne_nil _ hne
    have hnv : ∀ o ∈ cycleOf st obj, isValue st o = false := by
      intro o ho
      have h1 := (hall o ho).1
      simp only [isTypeName, decide_eq_true_eq] at h1
      simp [isValue, h1]
    have h1 : (cycleOf st obj).all (isValue st) = false := by
      rw [List.all_eq_false]
      exact ⟨o0, ho0, by simp [hnv o0 ho0]⟩
    have h2 : (cycleOf st obj).any (isTypeDef st) = false := by
      rw [List.any_eq_false]
      intro o ho
      simp [isTypeDef, (hall o ho).2]
    simp [acceptsCycle, h1, h2]
  exact validCycle_rejects st obj hg hs hwf hne hacc

theorem validCycle_alias_cycle_rejected_witness :
    Grey ≤ Object_color exAliasCycle 0
    ∧ cycleOf exAliasCycle 0 ≠ []
    ∧ (∀ o ∈ cycleOf exAliasCycle 0,
        isTypeName exAliasCycle o = true ∧ isAliasName exAliasCycle o = true)
    ∧ (∃ e ∈ reportsOf (validCycle exAliasCycle 0).trace, e.code = Code.InvalidDeclCycle)
    ∧ (validCycle exAliasCycle 0).out ≠ Outcome.ok true :=
  ⟨by decide, by decide, by decide,
    (validCycle_alias_cycle_rejected exAliasCycle 0 (by decide) (by decide) (by decide)
      (by decide)).1,
    (validCycle_alias_cycle_rejected exAliasCycle 0 (by decide) (by decide) (by decide)
      (by decide)).2.2.2⟩

/-- The claim C7 fails without an error callback: for the alias cycle
`type A = B; type B = A` in a checker whose configuration has no callback,
`validCycle` does not return false; it is left by the bailout panic, with the
diagnostic recorded as the first error. -/
theorem validCycle_alias_cycle_bails_out :
    (∀ o ∈ cycleOf exAliasCycleBailout 0,
      isTypeName exAliasCycleBailout o = true ∧ isAliasName exAliasCycleBailout o = true)
    ∧ (validCycle exAliasCycleBailout 0).out = Outcome.bailout
    ∧ (validCycle exAliasCycleBailout 0).out ≠ Outcome.ok false
    ∧ (validCycle exAliasCycleBailout 0).st.firstErr.isSome = true := by
  refine ⟨by decide, by decide, by decide, by decide⟩

/-- C9, as amended: when the checker is inside a type parameter list and the
well-formed cycle of a grey object contains a type name with a generic type,
`validCycle` does not accept the cycle, whatever its other members are: it hands an
`InvalidDeclCycle` diagnostic to `report`, and it returns false when an error
callback is configured; when none is (and no error was recorded before) the report
unwinds with the bailout panic and `validCycle` does not return. -/
theorem validCycle_tparam_cycle_rejected (st : Checker) (obj : ObjId)
    (hg : Grey ≤ Object_color st obj) (hs : Object_color st obj - Grey ≤ st.objPath.length)
    (hwf : wellFormedCycle st (cycleOf st obj))
    (hin : st.env.inTParamList = true)
    (hgen : ∃ o ∈ cycleOf st obj, isGenericName st o = true) :
    (∃ e ∈ reportsOf (validCycle st obj).trace, e.code = Code.InvalidDeclCycle)
    ∧ (st.conf.hasError = true → (validCycle st obj).out = Outcome.ok false)
    ∧ (st.conf.hasError = false → st.firstErr = none →
        (validCycle st obj).out = Outcome.bailout)
    ∧ (validCycle st obj).out ≠ Outcome.ok true := by
  obtain ⟨o0, ho0, hgo⟩ := hgen
  have hne : cycleOf st obj ≠ [] := List.ne_nil_of_mem ho0
  have hacc : acceptsCycle st (cycleOf st obj) = false := by
    have h1 : (cycleOf st obj).any (isGenericName st) = true := by
      rw [List.any_eq_true]
      exact ⟨o0, ho0, hgo⟩
    simp [acceptsCycle, throughTParamList, hin, h1]
  exact validCycle_rejects st obj hg hs hwf hne hacc

theorem validCycle_tparam_cycle_rejected_witness :
    Grey ≤ Object_color exGenericCycle 0
    ∧ exGenericCycle.env.inTParamList = true
    ∧ (∃ o ∈ cycleOf exGenericCycle 0, isGenericName exGenericCycle o = true)
    ∧ (∃ o ∈ cycleOf exGenericCycle 0, isTypeDef exGenericCycle o = true)
    ∧ (exGenericCycle.conf.hasError = true → (validCycle exGenericCycle 0).out = Outcome.ok false)
    ∧ (validCycle exGenericCycle 0).out ≠ Outcome.ok true :=
  ⟨by decide, by decide, by decide, by decide,
    (validCycle_tparam_cycle_rejected exGenericCycle 0 (by decide) (by decide)
      (by intro o ho
          have : o = 0 := by simpa [cycleOf, exGenericCycle, Object_color, exChecker, exObj, Grey] using ho
          subst this
          decide)
      (by decide) (by decide)).2.1,
    (validCycle_tparam_cycle_rejected exGenericCycle 0 (by decide) (by decide)
      (by intro o ho
          have : o = 0 := by simpa [cycleOf, exGenericCycle, Object_color, exChecker, exObj, Grey] using ho
          subst this
          decide)
      (by decide) (by decide)).2.2.2⟩

/-- The claim C9 fails without an error callback: for the generic type `T` that is
reached again inside its own type parameter list, in a checker whose configuration
has no callback, `validCycle` does not return false; it is left by the bailout
panic. -/
theorem validCycle_tparam_cycle_bails_out :
    exGenericCycleBailout.env.inTParamList = true
    ∧ (∃ o ∈ cycleOf exGenericCycleBailout 0, isGenericName exGenericCycleBailout o = true)
    ∧ (validCycle exGenericCycleBailout 0).out = Outcome.bailout
    ∧ (validCycle exGenericCycleBailout 0).out ≠ Outcome.ok false := by
  refine ⟨by decide, by decide, by decide, by decide⟩

/-! ### The diagnostics of an invalid cycle -/

/-- C10: for a cycle of `n ≥ 2` objects and a checker with an error callback,
`cycleError` returns normally and hands to `report`, in this order: a header
diagnostic at the position of `start`, the member at the index found by
`firstInSrc`, whose position is the smallest of the cycle; then one diagnostic
`<name> refers to` for each member, in cyclic path order from `start` (the cycle
rotated to start there, so each member once and `n` lines in all); then a final
diagnostic that names `start` again. Each of them has the code `InvalidDeclCycle`.
When none of them is dropped by the test of `report` for follow-on errors, the
callback receives exactly these diagnostics, in this order, and with no position
override in force the header is delivered at the position of `start`. -/
theorem cycleError_emits_cycle_group (st : Checker) (cycle : List ObjId)
    (hn : 2 ≤ cycle.length) (hsink : st.conf.hasError = true) :
    ∃ i0 start,
      firstInSrc (fun o => (st.objs o).pos) cycle = some i0
      ∧ cycle[i0]? = some start
      ∧ (∀ o ∈ cycle, (st.objs start).pos ≤ (st.objs o).pos)
      ∧ (cycleError st cycle).out = Outcome.ok ()
      ∧ reportsOf (cycleError st cycle).trace
          = headerOf st start :: ((cycle.rotate i0).map (lineOf st) ++ [lastOf st start])
      ∧ (headerOf st start).desc.map (fun d => d.posn) = [positioner.object (st.objs start).pos]
      ∧ (cycle.rotate i0).Perm cycle
      ∧ ((cycle.rotate i0).map (lineOf st)).length = cycle.length
      ∧ (cycle.rotate i0).head? = some start
      ∧ (∀ e ∈ reportsOf (cycleError st cycle).trace, e.code = Code.InvalidDeclCycle)
      ∧ ((∀ e ∈ cycleGroup st cycle i0 start, keptMsg st e) →
          (cycleError st cycle).st.sink
            = st.sink ++ (cycleGroup st cycle i0 start).map (deliveredOf st))
      ∧ (st.env.errpos = positioner.nil →
          (deliveredOf st (headerOf st start)).pos = (st.objs start).pos) := by
  have hne : cycle ≠ [] := by
    intro h
    rw [h] at hn
    simp at hn
  obtain ⟨i0, start, hfi, hget, hmin, _⟩ := firstInSrc_spec (fun o => (st.objs o).pos) cycle hne
  obtain ⟨h1, h2, h3⟩ := cycleError_sink st cycle hn hsink i0 start hfi hget
  have hi0 : i0 < cycle.length := by
    by_contra hcon
    rw [List.getElem?_eq_none (by omega)] at hget
    exact absurd hget (by simp)
  refine ⟨i0, start, hfi, hget, hmin, h1, h2, rfl, List.rotate_perm cycle i0, by simp,
    by rw [List.head?_rotate hi0]; exact hget, ?_, h3, ?_⟩
  · intro e he
    rw [h2] at he
    simp only [cycleGroup, List.mem_cons, List.mem_append, List.mem_map,
      List.not_mem_nil, or_false] at he
    rcases he with h | ⟨o, _, h⟩ | h
    · rw [h]; rfl
    · rw [← h]; rfl
    · rw [h]; rfl
  · intro hpos
    simp [deliveredOf, headerOf, newErrorf, errorAt, hpos, spanOf, positioner.Pos]

theorem cycleError_emits_cycle_group_witness :
    2 ≤ [0, 1].length ∧ exAliasCycle.conf.hasError = true
    ∧ ∃ i0 start,
      firstInSrc (fun o => (exAliasCycle.objs o).pos) [0, 1] = some i0
      ∧ [0, 1][i0]? = some start
      ∧ (∀ o ∈ [0, 1], (exAliasCycle.objs start).pos ≤ (exAliasCycle.objs o).pos)
      ∧ (cycleError exAliasCycle [0, 1]).out = Outcome.ok ()
      ∧ reportsOf (cycleError exAliasCycle [0, 1]).trace
          = headerOf exAliasCycle start
              :: (([0, 1].rotate i0).map (lineOf exAliasCycle) ++ [lastOf exAliasCycle start])
      ∧ (headerOf exAliasCycle start).desc.map (fun d => d.posn)
          = [positioner.object (exAliasCycle.objs start).pos]
      ∧ ([0, 1].rotate i0).Perm [0, 1]
      ∧ (([0, 1].rotate i0).map (lineOf exAliasCycle)).length = [0, 1].length
      ∧ ([0, 1].rotate i0).head? = some start
      ∧ (∀ e ∈ reportsOf (cycleError exAliasCycle [0, 1]).trace, e.code = Code.InvalidDeclCycle)
      ∧ ((∀ e ∈ cycleGroup exAliasCycle [0, 1] i0 start, keptMsg exAliasCycle e) →
          (cycleError exAliasCycle [0, 1]).st.sink
            = exAliasCycle.sink ++ (cycleGroup exAliasCycle [0, 1] i0 start).map
                (deliveredOf exAliasCycle))
      ∧ (exAliasCycle.env.errpos = positioner.nil →
          (deliveredOf exAliasCycle (headerOf exAliasCycle start)).pos
            = (exAliasCycle.objs start).pos) :=
  ⟨by decide, by decide, cycleError_emits_cycle_group exAliasCycle [0, 1] (by decide) (by decide)⟩

/-! ### Calls that leave the colours alone -/

theorem sameColors_refl (a : Checker) : sameColors a a := ⟨rfl, rfl, rfl, fun _ => rfl⟩

theorem sameColors_trans (a b c : Checker) (h1 : sameColors a b) (h2 : sameColors b c) :
    sameColors a c :=
  ⟨h2.1.trans h1.1, h2.2.1.trans h1.2.1, h2.2.2.1.trans h1.2.2.1,
    fun o => (h2.2.2.2 o).trans (h1.2.2.2 o)⟩

theorem sameColors_of_sameButErrors (a b : Checker) (h : sameButErrors a b) : sameColors a b := by
  obtain ⟨fe, sk, rfl⟩ := h
  exact ⟨rfl, rfl, rfl, fun _ => rfl⟩

theorem sameColors_setTyp (st : Checker) (obj : ObjId) (t : Typ) :
    sameColors st (Object_setTyp st obj t) := by
  refine ⟨rfl, rfl, rfl, ?_⟩
  intro o
  by_cases h : o = obj
  · subst h
    simp [Object_setTyp, Object_color]
  · simp [Object_setTyp, Object_color, Function.update_noteq h]

theorem sameColors_validAlias (st : Checker) (obj : ObjId) (t : Typ) :
    sameColors st (validAlias st obj t) := by
  unfold validAlias
  exact sameColors_trans _ _ _ ⟨rfl, rfl, rfl, fun _ => rfl⟩ (sameColors_setTyp _ obj t)

theorem Frame_ret {α : Type} (st s : Checker) (a : α) (h : sameColors st s) :
    Frame st (Res.ret s a) :=
  ⟨h, fun m hm => absurd hm (List.not_mem_nil m)⟩

theorem Frame_fail {α : Type} (st s : Checker) (msg : String) (h : sameColors st s) :
    Frame st (Res.fail s msg : Res α) :=
  ⟨h, fun m hm => absurd hm (List.not_mem_nil m)⟩

theorem Frame_mono {α : Type} (a b : Checker) (r : Res α) (hab : sameColors a b)
    (h : Frame b r) : Frame a r :=
  ⟨sameColors_trans _ _ _ hab h.1,
    fun m hm => ⟨sameColors_trans _ _ _ hab (h.2 m hm).1, (h.2 m hm).2⟩⟩

theorem Frame_bind {α β : Type} (st : Checker) (r : Res α) (k : α → Checker → Res β)
    (hr : Frame st r) (hk : ∀ a, Frame r.st (k a r.st)) : Frame st (r.bind k) := by
  unfold Res.bind
  cases hout : r.out with
  | ok a =>
    have h2 := Frame_mono st r.st _ hr.1 (hk a)
    refine ⟨h2.1, ?_⟩
    intro m hm
    rcases List.mem_append.mp hm with h | h
    · exact hr.2 m h
    · exact h2.2 m h
  | bailout => exact hr
  | panic msg => exact hr

theorem Frame_after {α : Type} (st : Checker) (r : Res α) (l : Label) (s : Checker)
    (hs : sameColors st s) (hl : ∀ o c, l ≠ Label.setColor o c) (hr : Frame st r) :
    Frame st (Res.after [⟨l, s⟩] r) := by
  refine ⟨hr.1, ?_⟩
  intro m hm
  rcases List.mem_append.mp hm with h | h
  · rw [List.mem_singleton] at h
    subst h
    exact ⟨hs, hl⟩
  · exact hr.2 m h

theorem Frame_report (st : Checker) (e : error_) : Frame st (report st e) := by
  unfold report
  apply Frame_after st _ _ st (sameColors_refl st) (by intro o c h; cases h)
  split
  · exact Frame_fail st st _ (sameColors_refl st)
  · split
    · exact Frame_fail st st _ (sameColors_refl st)
    · split
      · exact Frame_fail st st _ (sameColors_refl st)
      · simp only
        split
        · exact Frame_fail st st _ (sameColors_refl st)
        · split
          · exact Frame_ret st st _ (sameColors_refl st)
          · split
            · exact Frame_ret st _ _ ⟨rfl, rfl, rfl, fun _ => rfl⟩
            · exact ⟨⟨rfl, rfl, rfl, fun _ => rfl⟩, fun m hm => absurd hm (List.not_mem_nil m)⟩

theorem Frame_errorf (st : Checker) (p : positioner) (c : Code) (t : String) :
    Frame st (errorf st p c t) := Frame_report st _

theorem Frame_cycleErrorLoop (cycle : List ObjId) :
    ∀ n st i obj name, Frame st (cycleErrorLoop cycle n st i obj name) := by
  intro n
  induction n with
  | zero => intro st i obj name; exact Frame_ret st st (obj, name) (sameColors_refl st)
  | succ n ih =>
    intro st i obj name
    rw [cycleErrorLoop]
    apply Frame_bind st _ _ (Frame_errorf st _ _ _)
    intro _
    simp only
    split
    · exact Frame_fail _ _ _ (sameColors_refl _)
    · exact ih _ _ _ _

theorem Frame_cycleError_core (st st1 : Checker) (h : sameColors st st1) (cycle : List ObjId)
    (i : Nat) (obj : ObjId) (name0 : String) (isT : Bool) :
    Frame st
      (if cycle.length = 1 then
        if isT then
          errorf st1 (positioner.object (st1.objs obj).pos) Code.InvalidDeclCycle
            ("invalid recursive type: " ++ name0 ++ " refers to itself")
        else
          errorf st1 (positioner.object (st1.objs obj).pos) Code.InvalidDeclCycle
            ("invalid cycle in declaration: " ++ name0 ++ " refers to itself")
      else
        (if isT then
          errorf st1 (positioner.object (st1.objs obj).pos) Code.InvalidDeclCycle
            ("invalid recursive type " ++ name0)
        else
          errorf st1 (positioner.object (st1.objs obj).pos) Code.InvalidDeclCycle
            ("invalid cycle in declaration of " ++ name0)).bind
        fun _ st2 =>
          (cycleErrorLoop cycle cycle.length st2 i obj name0).bind fun last st3 =>
            errorf st3 (positioner.object (st3.objs last.1).pos) Code.InvalidDeclCycle
              ("\t" ++ last.2)) := by
  apply Frame_mono _ _ _ h
  by_cases hl : cycle.length = 1
  · rw [if_pos hl]
    cases isT
    · exact Frame_errorf _ _ _ _
    · exact Frame_errorf _ _ _ _
  · rw [if_neg hl]
    apply Frame_bind
    · cases isT
      · exact Frame_errorf _ _ _ _
      · exact Frame_errorf _ _ _ _
    · intro _
      apply Frame_bind _ _ _ (Frame_cycleErrorLoop cycle _ _ _ _ _)
      intro last
      exact Frame_errorf _ _ _ _

theorem Frame_cycleError (st : Checker) (cycle : List ObjId) : Frame st (cycleError st cycle) := by
  unfold cycleError
  split
  · exact Frame_fail st st _ (sameColors_refl st)
  · split
    · exact Frame_fail st st _ (sameColors_refl st)
    · rename_i _ i _ _ obj _
      have hst1 : sameColors st (if (decide ((st.objs obj).kind = ObjKind.TypeName)
            && TypeName_IsAlias obj (st.objs obj)) = true
          then validAlias st obj Typ_Invalid else st) := by
        split
        · exact sameColors_validAlias st obj Typ_Invalid
        · exact sameColors_refl st
      exact Frame_cycleError_core st _ hst1 cycle i obj (objName st obj)
        (decide ((st.objs obj).kind = ObjKind.TypeName))

theorem Frame_validCycle (st : Checker) (obj : ObjId) : Frame st (validCycle st obj) := by
  unfold validCycle
  apply Frame_after st _ _ st (sameColors_refl st) (by intro o c h; cases h)
  split
  · exact Frame_fail st st _ (sameColors_refl st)
  · simp only
    split
    · exact Frame_fail st st _ (sameColors_refl st)
    · split
      · exact Frame_fail st st _ (sameColors_refl st)
      · split
        · exact Frame_ret st st _ (sameColors_refl st)
        · split
          · exact Frame_ret st st _ (sameColors_refl st)
          · apply Frame_bind st _ _ (Frame_cycleError st _)
            intro _
            exact Frame_ret _ _ _ (sameColors_refl _)

theorem Frame_assertTyp (s : Checker) (obj : ObjId) :
    Frame s (if (s.objs obj).typ.isNone = true
      then (⟨Outcome.panic "assertion failed", s, [⟨Label.step, s⟩]⟩ : Res Unit)
      else ⟨Outcome.ok (), s, [⟨Label.step, s⟩]⟩) := by
  split
  · refine ⟨sameColors_refl s, ?_⟩
    intro m hm
    rw [List.mem_singleton] at hm
    subst hm
    exact ⟨sameColors_refl s, by intro o c h; cases h⟩
  · refine ⟨sameColors_refl s, ?_⟩
    intro m hm
    rw [List.mem_singleton] at hm
    subst hm
    exact ⟨sameColors_refl s, by intro o c h; cases h⟩

theorem Frame_objDeclGrey (st : Checker) (obj : ObjId) : Frame st (objDeclGrey st obj) := by
  unfold objDeclGrey
  simp only
  split
  · apply Frame_bind st _ _ (Frame_validCycle st obj)
    intro valid
    split
    · exact Frame_mono _ _ _ (sameColors_setTyp _ obj _) (Frame_assertTyp _ obj)
    · exact Frame_assertTyp _ obj
  · apply Frame_bind st _ _ (Frame_validCycle st obj)
    intro valid
    split
    · exact Frame_mono _ _ _ (sameColors_setTyp _ obj _) (Frame_assertTyp _ obj)
    · exact Frame_assertTyp _ obj
  · apply Frame_bind st _ _ (Frame_validCycle st obj)
    intro valid
    split
    · exact Frame_mono _ _ _ (sameColors_setTyp _ obj _) (Frame_assertTyp _ obj)
    · exact Frame_assertTyp _ obj
  · apply Frame_bind st _ _ (Frame_validCycle st obj)
    intro _
    exact Frame_assertTyp _ obj
  · exact Frame_fail st st _ (sameColors_refl st)

/-! ### The stack discipline of `objDecl` -/

theorem Disciplined_of_Frame (st : Checker) (r : Res Unit) (h : Frame st r) :
    Disciplined st r := by
  obtain ⟨⟨h1, h2, _, h4⟩, hm⟩ := h
  refine ⟨h1, h2, fun x _ => h4 x, ?_, ?_⟩
  · intro m hmem
    obtain ⟨⟨m1, m2, _, m4⟩, _⟩ := hm m hmem
    exact ⟨by rw [m1], m2, fun x _ => m4 x⟩
  · intro m hmem o c hl
    exact absurd hl ((hm m hmem).2 o c)

theorem Disciplined_mono (a b : Checker) (r : Res Unit) (hab : sameColors a b)
    (h : Disciplined b r) : Disciplined a r := by
  obtain ⟨p1, p2, _, p4⟩ := hab
  obtain ⟨h1, h2, h3, h4, h5⟩ := h
  have hnw : ∀ x, Object_color a x ≠ White → Object_color b x ≠ White := by
    intro x hx
    rw [p4 x]
    exact hx
  refine ⟨h1.trans p1, h2.trans p2, ?_, ?_, h5⟩
  · intro x hx
    rw [h3 x (hnw x hx), p4 x]
  · intro m hm
    obtain ⟨m1, m2, m3⟩ := h4 m hm
    refine ⟨by rw [← p1]; exact m1, m2.trans p2, ?_⟩
    intro x hx
    rw [m3 x (hnw x hx), p4 x]

/-- Two calls one after the other keep the discipline, however control leaves. -/
theorem Disciplined_seq (a : Checker) (r1 r2 : Res Unit) (out : Outcome Unit)
    (h1 : Disciplined a r1) (h2 : Disciplined r1.st r2) :
    Disciplined a ⟨out, r2.st, r1.trace ++ r2.trace⟩ := by
  obtain ⟨a1, a2, a3, a4, a5⟩ := h1
  obtain ⟨b1, b2, b3, b4, b5⟩ := h2
  have hnw : ∀ x, Object_color a x ≠ White → Object_color r1.st x ≠ White := by
    intro x hx
    rw [a3 x hx]
    exact hx
  refine ⟨b1.trans a1, b2.trans a2, ?_, ?_, ?_⟩
  · intro x hx
    show Object_color r2.st x = _
    rw [b3 x (hnw x hx), a3 x hx]
  · intro m hm
    rcases List.mem_append.mp hm with h | h
    · exact a4 m h
    · obtain ⟨m1, m2, m3⟩ := b4 m h
      refine ⟨by rw [← a1]; exact m1, m2.trans a2, ?_⟩
      intro x hx
      rw [m3 x (hnw x hx), a3 x hx]
  · intro m hm
    rcases List.mem_append.mp hm with h | h
    · exact a5 m h
    · exact b5 m h

theorem Disciplined_deferred (a : Checker) (r : Res Unit) (d : Checker → Res Unit)
    (h1 : Disciplined a r) (h2 : Disciplined r.st (d r.st)) : Disciplined a (r.deferred d) :=
  Disciplined_seq a r (d r.st) _ h1 h2

theorem Disciplined_pending (st : Checker) (msg : String) :
    Disciplined st (Res.fail st msg) :=
  Disciplined_of_Frame st _ (Frame_fail st st msg (sameColors_refl st))

theorem Frame_step (st s : Checker) (out : Outcome Unit) (h : sameColors st s) :
    Frame st (⟨out, s, [⟨Label.step, s⟩]⟩ : Res Unit) := by
  refine ⟨h, ?_⟩
  intro m hm
  rw [List.mem_singleton] at hm
  subst hm
  exact ⟨h, by intro o c hl; cases hl⟩

theorem Disciplined_execAct (call : Checker → ObjId → Option (Res Unit)) (bound : Nat)
    (hcall : ∀ s o r, s.objPath.length ≤ bound → call s o = some r → Disciplined s r)
    (st : Checker) (a : Act) (r : Res Unit) (hb : st.objPath.length ≤ bound)
    (h : execAct call st a = some r) : Disciplined st r := by
  cases a with
  | use o => exact hcall st o r hb h
  | setTyp o t =>
    simp only [execAct, Option.some.injEq] at h
    subst h
    exact Disciplined_of_Frame st _ (Frame_step st _ _ (sameColors_setTyp st o t))
  | errorf at_ code text soft =>
    simp only [execAct, Option.some.injEq] at h
    subst h
    have hf := Frame_report st { newErrorf at_ code text with soft := soft }
    apply Disciplined_of_Frame
    refine ⟨hf.1, ?_⟩
    intro m hm
    rcases List.mem_append.mp hm with h1 | h1
    · exact hf.2 m h1
    · rw [List.mem_singleton] at h1
      subst h1
      exact ⟨hf.1, by intro o c hl; cases hl⟩
  | later f =>
    simp only [execAct, Option.some.injEq] at h
    subst h
    exact Disciplined_of_Frame st _ (Frame_step st _ _ ⟨rfl, rfl, rfl, fun _ => rfl⟩)
  | setEnv e =>
    simp only [execAct, Option.some.injEq] at h
    subst h
    exact Disciplined_of_Frame st _ (Frame_step st _ _ ⟨rfl, rfl, rfl, fun _ => rfl⟩)
  | fail msg =>
    simp only [execAct, Option.some.injEq] at h
    subst h
    exact Disciplined_pending st msg

theorem Disciplined_runActs (call : Checker → ObjId → Option (Res Unit)) (bound : Nat)
    (hcall : ∀ s o r, s.objPath.length ≤ bound → call s o = some r → Disciplined s r) :
    ∀ (acts : List Act) (st : Checker) (r : Res Unit), st.objPath.length ≤ bound →
      runActs call st acts = some r → Disciplined st r := by
  intro acts
  induction acts with
  | nil =>
    intro st r _ h
    simp only [runActs, Option.some.injEq] at h
    subst h
    exact Disciplined_of_Frame st _ (Frame_ret st st () (sameColors_refl st))
  | cons a rest ih =>
    intro st r hb h
    rw [runActs] at h
    cases h1 : execAct call st a with
    | none => rw [h1] at h; exact absurd h (by simp)
    | some r1 =>
      rw [h1] at h
      have hd1 := Disciplined_execAct call bound hcall st a r1 hb h1
      cases hout : r1.out with
      | ok u =>
        simp only [hout] at h
        cases h2 : runActs call r1.st rest with
        | none => rw [h2] at h; exact absurd h (by simp)
        | some r2 =>
          rw [h2] at h
          simp only [Option.map_some', Option.some.injEq] at h
          subst h
          have hb1 : r1.st.objPath.length ≤ bound := by rw [hd1.1]; exact hb
          exact Disciplined_seq st r1 r2 _ hd1 (ih r1.st r2 hb1 h2)
      | bailout =>
        simp only [hout, Option.some.injEq] at h
        subst h
        exact hd1
      | panic msg =>
        simp only [hout, Option.some.injEq] at h
        subst h
        exact hd1

theorem Disciplined_objDeclResolve (call : Checker → ObjId → Option (Res Unit)) (bound : Nat)
    (hcall : ∀ s o r, s.objPath.length ≤ bound → call s o = some r → Disciplined s r)
    (st : Checker) (obj : ObjId) (r : Res Unit) (hb : st.objPath.length ≤ bound)
    (h : objDeclResolve call st obj = some r) : Disciplined st r := by
  unfold objDeclResolve at h
  cases hd : st.decl? obj with
  | none =>
    simp only [hd, Option.some.injEq] at h
    subst h
    exact Disciplined_pending st _
  | some d =>
    simp only [hd] at h
    have hrun : ∀ (s : Checker) (rb : Res Unit), sameColors st s →
        runActs call s d.body = some rb → Disciplined st rb := by
      intro s rb hs hrb
      exact Disciplined_mono st s rb hs
        (Disciplined_runActs call bound hcall d.body s rb (by rw [hs.1]; exact hb) hrb)
    have hbody : ∀ rb, (match (st.objs obj).kind with
        | ObjKind.Const => runActs call
            { st with env := { environment.ofScope d.file with decl := some obj } } d.body
        | ObjKind.Var => runActs call
            { st with env := { environment.ofScope d.file with decl := some obj } } d.body
        | ObjKind.TypeName => runActs call { st with env := environment.ofScope d.file } d.body
        | ObjKind.Func => runActs call { st with env := environment.ofScope d.file } d.body
        | ObjKind.Other => some (Res.fail { st with env := environment.ofScope d.file }
            "unreachable")) = some rb → Disciplined st rb := by
      intro rb hrb
      cases hk : (st.objs obj).kind with
      | Const =>
        simp only [hk] at hrb
        exact hrun _ rb (by exact ⟨rfl, rfl, rfl, fun _ => rfl⟩) hrb
      | Var =>
        simp only [hk] at hrb
        exact hrun _ rb (by exact ⟨rfl, rfl, rfl, fun _ => rfl⟩) hrb
      | TypeName =>
        simp only [hk] at hrb
        exact hrun _ rb (by exact ⟨rfl, rfl, rfl, fun _ => rfl⟩) hrb
      | Func =>
        simp only [hk] at hrb
        exact hrun _ rb (by exact ⟨rfl, rfl, rfl, fun _ => rfl⟩) hrb
      | Other =>
        simp only [hk, Option.some.injEq] at hrb
        subst hrb
        exact Disciplined_of_Frame st _ (Frame_fail st _ _ ⟨rfl, rfl, rfl, fun _ => rfl⟩)
    cases hb2 : (match (st.objs obj).kind with
        | ObjKind.Const => runActs call
            { st with env := { environment.ofScope d.file with decl := some obj } } d.body
        | ObjKind.Var => runActs call
            { st with env := { environment.ofScope d.file with decl := some obj } } d.body
        | ObjKind.TypeName => runActs call { st with env := environment.ofScope d.file } d.body
        | ObjKind.Func => runActs call { st with env := environment.ofScope d.file } d.body
        | ObjKind.Other => some (Res.fail { st with env := environment.ofScope d.file }
            "unreachable")) with
    | none =>
      rw [hb2] at h
      exact absurd h (by simp)
    | some rb =>
      rw [hb2] at h
      simp only [Option.map_some', Option.some.injEq] at h
      subst h
      apply Disciplined_deferred st rb _ (hbody rb hb2)
      exact Disciplined_of_Frame _ _ (Frame_step _ _ _ ⟨rfl, rfl, rfl, fun _ => rfl⟩)

theorem popBlack_eq (s : Checker) (pre : List ObjId) (obj : ObjId)
    (h : s.objPath = pre ++ [obj]) :
    popBlack s = ⟨Outcome.ok (), Object_setColor { s with objPath := pre } obj Black,
      [⟨Label.setColor obj Black, Object_setColor { s with objPath := pre } obj Black⟩]⟩ := by
  unfold popBlack pop
  simp [h]

theorem push_snd (st : Checker) (obj : ObjId) : (push st obj).2 = st.objPath.length := by
  simp [push]

theorem Object_color_setColor_same (s : Checker) (obj : ObjId) (c : Color) :
    Object_color (Object_setColor s obj c) obj = c := by
  simp [Object_color, Object_setColor]

theorem Object_color_setColor_other (s : Checker) (obj x : ObjId) (c : Color) (h : x ≠ obj) :
    Object_color (Object_setColor s obj c) x = Object_color s x := by
  simp [Object_color, Object_setColor, Function.update_noteq h]

theorem grey_of_short_path (n : Nat) (h : n + 3 ≤ 4294967296) : u32 (Grey + u32 n) = Grey + n := by
  unfold u32 Grey
  omega

/-- The white case of `objDecl`: push and paint, the resolution, pop and paint
black. -/
theorem Disciplined_white (st : Checker) (obj : ObjId) (rb : Res Unit)
    (hw : Object_color st obj = White) (hlen : st.objPath.length + 3 ≤ 4294967296)
    (hrb : Disciplined
      (Object_setColor (push st obj).1 obj (u32 (Grey + u32 (push st obj).2))) rb) :
    Disciplined st
      (Res.after [⟨Label.setColor obj (u32 (Grey + u32 (push st obj).2)),
          Object_setColor (push st obj).1 obj (u32 (Grey + u32 (push st obj).2))⟩]
        (rb.deferred popBlack)) := by
  have hc : u32 (Grey + u32 (push st obj).2) = Grey + st.objPath.length := by
    rw [push_snd, grey_of_short_path _ hlen]
  rw [hc] at hrb ⊢
  obtain ⟨b1, b2, b3, b4, b5⟩ := hrb
  have hp2 : (Object_setColor (push st obj).1 obj (Grey + st.objPath.length)).objPath
      = st.objPath ++ [obj] := rfl
  have hrbpath : rb.st.objPath = st.objPath ++ [obj] := b1.trans hp2
  have hcne : Grey + st.objPath.length ≠ White := by
    simp [Grey, White]
  have hcol2 : ∀ x, Object_color st x ≠ White →
      Object_color (Object_setColor (push st obj).1 obj (Grey + st.objPath.length)) x
        = Object_color st x := by
    intro x hx
    have hxo : x ≠ obj := by
      intro hxo
      rw [hxo] at hx
      exact hx hw
    rw [Object_color_setColor_other _ _ _ _ hxo]
    rfl
  have hnw2 : ∀ x, Object_color st x ≠ White →
      Object_color (Object_setColor (push st obj).1 obj (Grey + st.objPath.length)) x ≠ White := by
    intro x hx
    rw [hcol2 x hx]
    exact hx
  rw [show rb.deferred popBlack
      = ⟨rb.out, Object_setColor { rb.st with objPath := st.objPath } obj Black,
          rb.trace ++ [⟨Label.setColor obj Black,
            Object_setColor { rb.st with objPath := st.objPath } obj Black⟩]⟩ by
    unfold Res.deferred
    rw [popBlack_eq rb.st st.objPath obj hrbpath]]
  refine ⟨rfl, b2, ?_, ?_, ?_⟩
  · intro x hx
    have hxo : x ≠ obj := by
      intro hxo
      rw [hxo] at hx
      exact hx hw
    show Object_color (Object_setColor _ obj Black) x = _
    rw [Object_color_setColor_other _ _ _ _ hxo]
    show Object_color rb.st x = _
    rw [b3 x (hnw2 x hx), hcol2 x hx]
  · intro m hm
    simp only [Res.after, List.singleton_append, List.mem_cons, List.mem_append,
      List.mem_singleton, List.not_mem_nil, or_false] at hm
    rcases hm with h | h | h
    · subst h
      exact ⟨List.prefix_append _ _, rfl, hcol2⟩
    · obtain ⟨m1, m2, m3⟩ := b4 m h
      refine ⟨(List.prefix_append _ _).trans (by rw [← hp2]; exact m1), m2, ?_⟩
      intro x hx
      rw [m3 x (hnw2 x hx), hcol2 x hx]
    · subst h
      refine ⟨List.prefix_refl _, b2, ?_⟩
      intro x hx
      have hxo : x ≠ obj := by
        intro hxo
        rw [hxo] at hx
        exact hx hw
      show Object_color (Object_setColor _ obj Black) x = _
      rw [Object_color_setColor_other _ _ _ _ hxo]
      show Object_color rb.st x = _
      rw [b3 x (hnw2 x hx), hcol2 x hx]
  · intro m hm o c hl
    simp only [Res.after, List.singleton_append, List.mem_cons, List.mem_append,
      List.mem_singleton, List.not_mem_nil, or_false] at hm
    rcases hm with h | h | h
    · subst h
      simp only [Label.setColor.injEq] at hl
      obtain ⟨rfl, rfl⟩ := hl
      refine ⟨hcne, Or.inr ⟨st.objPath.length, by simp [push, Object_setColor], ?_⟩,
        Object_color_setColor_same _ _ _⟩
      rw [grey_of_short_path _ hlen]
    · exact b5 m h o c hl
    · subst h
      simp only [Label.setColor.injEq] at hl
      obtain ⟨rfl, rfl⟩ := hl
      exact ⟨by decide, Or.inl rfl, Object_color_setColor_same _ _ _⟩

theorem Disciplined_objDeclBody (call : Checker → ObjId → Option (Res Unit)) (bound : Nat)
    (hcall : ∀ s o r, s.objPath.length ≤ bound → call s o = some r → Disciplined s r)
    (st : Checker) (obj : ObjId) (r : Res Unit) (hb : st.objPath.length + 1 ≤ bound)
    (hb32 : bound + 2 ≤ 4294967296) (h : objDeclBody call st obj = some r) :
    Disciplined st r := by
  unfold objDeclBody at h
  by_cases h1 : Object_color st obj = White ∧ (st.objs obj).typ ≠ none
  · rw [if_pos h1] at h
    simp only [Option.some.injEq] at h
    subst h
    refine ⟨rfl, rfl, ?_, ?_, ?_⟩
    · intro x hx
      have hxo : x ≠ obj := by
        intro hxo
        rw [hxo] at hx
        exact hx h1.1
      exact Object_color_setColor_other _ _ _ _ hxo
    · intro m hm
      rw [List.mem_singleton] at hm
      subst hm
      refine ⟨List.prefix_refl _, rfl, ?_⟩
      intro x hx
      have hxo : x ≠ obj := by
        intro hxo
        rw [hxo] at hx
        exact hx h1.1
      exact Object_color_setColor_other _ _ _ _ hxo
    · intro m hm o c hl
      rw [List.mem_singleton] at hm
      subst hm
      simp only [Label.setColor.injEq] at hl
      obtain ⟨rfl, rfl⟩ := hl
      exact ⟨by decide, Or.inl rfl, Object_color_setColor_same _ _ _⟩
  · rw [if_neg h1] at h
    by_cases h2 : Object_color st obj = White
    · rw [if_pos h2] at h
      by_cases h3 : (st.objs obj).typ ≠ none
      · exact absurd ⟨h2, h3⟩ h1
      · rw [if_neg h3] at h
        simp only at h
        cases hres : objDeclResolve call
            (Object_setColor (push st obj).1 obj (u32 (Grey + u32 (push st obj).2))) obj with
        | none =>
          rw [hres] at h
          exact absurd h (by simp)
        | some rb =>
          rw [hres] at h
          simp only [Option.map_some', Option.some.injEq] at h
          subst h
          apply Disciplined_white st obj rb h2 (by omega)
          apply Disciplined_objDeclResolve call bound hcall _ obj rb _ hres
          show (st.objPath ++ [obj]).length ≤ bound
          simp
          omega
    · rw [if_neg h2] at h
      by_cases h3 : Object_color st obj = Black
      · rw [if_pos h3] at h
        split at h
        · simp only [Option.some.injEq] at h
          subst h
          exact Disciplined_pending st _
        · simp only [Option.some.injEq] at h
          subst h
          exact Disciplined_of_Frame st _ (Frame_ret st st () (sameColors_refl st))
      · rw [if_neg h3] at h
        simp only [Option.some.injEq] at h
        subst h
        exact Disciplined_of_Frame st _ (Frame_objDeclGrey st obj)

/-- Every call of `objDecl` on an object path that leaves room for its nested calls
keeps the stack discipline. -/
theorem Disciplined_objDecl :
    ∀ (fuel : Nat) (st : Checker) (obj : ObjId) (r : Res Unit),
      st.objPath.length + fuel + 2 ≤ 4294967296 → objDecl fuel st obj = some r →
      Disciplined st r := by
  intro fuel
  induction fuel with
  | zero =>
    intro st obj r _ h
    simp [objDecl] at h
  | succ fuel ih =>
    intro st obj r hb h
    have hcall : ∀ s o r, s.objPath.length ≤ 4294967294 - fuel → objDecl fuel s o = some r →
        Disciplined s r := by
      intro s o r hs hr
      exact ih s o r (by omega) hr
    rw [objDecl] at h
    simp only at h
    split at h
    · cases hbody : objDeclBody (objDecl fuel) { st with indent := st.indent + 1 } obj with
      | none =>
        rw [hbody] at h
        exact absurd h (by simp)
      | some rb =>
        rw [hbody] at h
        simp only [Option.map_some', Option.some.injEq] at h
        subst h
        have hd := Disciplined_objDeclBody (objDecl fuel) (4294967294 - fuel) hcall
          { st with indent := st.indent + 1 } obj rb
          (by show st.objPath.length + 1 ≤ _; omega) (by omega) hbody
        apply Disciplined_mono st { st with indent := st.indent + 1 } _ ⟨rfl, rfl, rfl, fun _ => rfl⟩
        apply Disciplined_deferred _ rb _ hd
        exact Disciplined_of_Frame _ _ (Frame_ret _ _ _ ⟨rfl, rfl, rfl, fun _ => rfl⟩)
    · exact Disciplined_objDeclBody (objDecl fuel) (4294967294 - fuel) hcall st obj r
        (by omega) (by omega) h

/-! ### The colours passed to `Object_setColor` -/

theorem objDecl_white_head (fuel : Nat) (st : Checker) (obj : ObjId) (r : Res Unit)
    (hw : Object_color st obj = White) (ht : (st.objs obj).typ = none)
    (h : objDecl (fuel + 1) st obj = some r) :
    ∃ s, r.trace.head? = some ⟨Label.setColor obj (u32 (Grey + u32 st.objPath.length)), s⟩
      ∧ s.objPath = st.objPath ++ [obj]
      ∧ Object_color s obj = u32 (Grey + u32 st.objPath.length) := by
  have hbody : ∀ (s0 : Checker) (rb : Res Unit), Object_color s0 obj = White →
      (s0.objs obj).typ = none → s0.objPath = st.objPath →
      objDeclBody (objDecl fuel) s0 obj = some rb →
      ∃ s, rb.trace.head? = some ⟨Label.setColor obj (u32 (Grey + u32 st.objPath.length)), s⟩
        ∧ s.objPath = st.objPath ++ [obj]
        ∧ Object_color s obj = u32 (Grey + u32 st.objPath.length) := by
    intro s0 rb hw0 ht0 hp0 hb
    unfold objDeclBody at hb
    have h1 : ¬ (Object_color s0 obj = White ∧ (s0.objs obj).typ ≠ none) := by
      intro hcon
      exact hcon.2 ht0
    rw [if_neg h1, if_pos hw0, if_neg (by simp [ht0])] at hb
    simp only at hb
    cases hres : objDeclResolve (objDecl fuel)
        (Object_setColor (push s0 obj).1 obj (u32 (Grey + u32 (push s0 obj).2))) obj with
    | none =>
      rw [hres] at hb
      exact absurd hb (by simp)
    | some rr =>
      rw [hres] at hb
      simp only [Option.map_some', Option.some.injEq] at hb
      subst hb
      refine ⟨Object_setColor (push s0 obj).1 obj (u32 (Grey + u32 (push s0 obj).2)), ?_, ?_, ?_⟩
      · show some _ = some _
        rw [push_snd, hp0]
      · show s0.objPath ++ [obj] = _
        rw [hp0]
      · rw [Object_color_setColor_same, push_snd, hp0]
  rw [objDecl] at h
  simp only at h
  split at h
  · cases hb : objDeclBody (objDecl fuel) { st with indent := st.indent + 1 } obj with
    | none =>
      rw [hb] at h
      exact absurd h (by simp)
    | some rb =>
      rw [hb] at h
      simp only [Option.map_some', Option.some.injEq] at h
      subst h
      obtain ⟨s, h1, h2, h3⟩ := hbody { st with indent := st.indent + 1 } rb hw ht rfl hb
      refine ⟨s, ?_, h2, h3⟩
      show (rb.trace ++ _).head? = _
      cases htr : rb.trace with
      | nil => rw [htr] at h1; exact absurd h1 (by simp)
      | cons m ms => rw [htr] at h1; simpa using h1
  · exact hbody st r hw ht rfl h

theorem objDecl_white_leaf (fuel : Nat) (st : Checker) (obj : ObjId) (d : declInfo)
    (hw : Object_color st obj = White) (ht : (st.objs obj).typ = none)
    (hd : st.decl? obj = some d) (hbody : d.body = []) :
    ∃ r, objDecl (fuel + 1) st obj = some r := by
  have hres : ∀ s : Checker, s.decl? obj = some d →
      ∃ rr, objDeclResolve (objDecl fuel) s obj = some rr := by
    intro s hs
    unfold objDeclResolve
    simp only [hs, hbody]
    cases (s.objs obj).kind <;> simp [runActs]
  have hb : ∀ s0 : Checker, Object_color s0 obj = White → (s0.objs obj).typ = none →
      s0.decl? obj = some d → ∃ rb, objDeclBody (objDecl fuel) s0 obj = some rb := by
    intro s0 hw0 ht0 hd0
    unfold objDeclBody
    have h1 : ¬ (Object_color s0 obj = White ∧ (s0.objs obj).typ ≠ none) := by
      intro hcon
      exact hcon.2 ht0
    rw [if_neg h1, if_pos hw0, if_neg (by simp [ht0])]
    simp only
    obtain ⟨rr, hrr⟩ := hres
      (Object_setColor (push s0 obj).1 obj (u32 (Grey + u32 (push s0 obj).2))) hd0
    rw [hrr]
    exact ⟨_, rfl⟩
  rw [objDecl]
  simp only
  split
  · obtain ⟨rb, hrb⟩ := hb { st with indent := st.indent + 1 } hw ht hd
    rw [hrb]
    exact ⟨_, rfl⟩
  · exact hb st hw ht hd

/-- C5: in a call of `objDecl` whose object path, with its nested calls, stays
below `2 ^ 32 - 2` entries (a longer path needs as many nested calls and is not
reached), every call of `Object_setColor` passes a colour different from white: the
colour is black, or it is `Grey` plus the index returned by `push` (the last index of
the path after the push) in 32-bit unsigned arithmetic; the object has that colour
afterwards. -/
theorem objDecl_setColor_not_white (fuel : Nat) (st : Checker) (obj : ObjId) (r : Res Unit)
    (hb : st.objPath.length + fuel + 2 ≤ 4294967296) (h : objDecl fuel st obj = some r) :
    ∀ m ∈ r.trace, ∀ o c, m.label = Label.setColor o c →
      c ≠ White
      ∧ (c = Black ∨ ∃ k, k + 1 = m.st.objPath.length ∧ c = u32 (Grey + u32 k))
      ∧ Object_color m.st o = c :=
  (Disciplined_objDecl fuel st obj r hb h).2.2.2.2

theorem objDecl_setColor_not_white_witness :
    exWhiteConsts.objPath.length + 3 + 2 ≤ 4294967296
    ∧ ∃ r, objDecl 3 exWhiteConsts 0 = some r
      ∧ (r.trace.map fun m => m.label)
          = [Label.setColor 0 2, Label.setColor 1 3, Label.step, Label.step,
             Label.setColor 1 1, Label.step, Label.step, Label.setColor 0 1]
      ∧ ∀ m ∈ r.trace, ∀ o c, m.label = Label.setColor o c →
          c ≠ White
          ∧ (c = Black ∨ ∃ k, k + 1 = m.st.objPath.length ∧ c = u32 (Grey + u32 k))
          ∧ Object_color m.st o = c := by
  refine ⟨by decide, ?_⟩
  cases h : objDecl 3 exWhiteConsts 0 with
  | none =>
    have : (objDecl 3 exWhiteConsts 0).isSome = true := by decide
    rw [h] at this
    exact absurd this (by decide)
  | some r =>
    have hl : ((objDecl 3 exWhiteConsts 0).map fun r => r.trace.map fun m => m.label)
        = some [Label.setColor 0 2, Label.setColor 1 3, Label.step, Label.step,
             Label.setColor 1 1, Label.step, Label.step, Label.setColor 0 1] := by decide
    rw [h] at hl
    exact ⟨r, rfl, by simpa using hl,
      objDecl_setColor_not_white 3 exWhiteConsts 0 r (by decide) h⟩

/-! ### The white case of `objDecl` -/

theorem objDeclBody_white (call : Checker → ObjId → Option (Res Unit)) (bound : Nat)
    (hcall : ∀ s o r, s.objPath.length ≤ bound → call s o = some r → Disciplined s r)
    (st : Checker) (obj : ObjId) (r : Res Unit) (hb : st.objPath.length + 1 ≤ bound)
    (hb32 : bound + 2 ≤ 4294967296)
    (hw : Object_color st obj = White) (ht : (st.objs obj).typ = none)
    (h : objDeclBody call st obj = some r) :
    ∃ s2 body sLast,
      r.trace = ⟨Label.setColor obj (Grey + st.objPath.length), s2⟩
          :: (body ++ [⟨Label.setColor obj Black, sLast⟩])
      ∧ s2.objPath = st.objPath ++ [obj]
      ∧ Object_color s2 obj = Grey + st.objPath.length
      ∧ (∀ m ∈ body, (st.objPath ++ [obj]) <+: m.st.objPath
          ∧ Object_color m.st obj = Grey + st.objPath.length)
      ∧ sLast.objPath = st.objPath ∧ Object_color sLast obj = Black
      ∧ r.st = sLast := by
  unfold objDeclBody at h
  have h1 : ¬ (Object_color st obj = White ∧ (st.objs obj).typ ≠ none) := by
    intro hcon
    exact hcon.2 ht
  rw [if_neg h1, if_pos hw, if_neg (by simp [ht])] at h
  simp only at h
  have hc : u32 (Grey + u32 (push st obj).2) = Grey + st.objPath.length := by
    rw [push_snd, grey_of_short_path _ (by omega)]
  rw [hc] at h
  cases hres : objDeclResolve call (Object_setColor (push st obj).1 obj
      (Grey + st.objPath.length)) obj with
  | none =>
    rw [hres] at h
    exact absurd h (by simp)
  | some rr =>
    rw [hres] at h
    simp only [Option.map_some', Option.some.injEq] at h
    subst h
    have hd := Disciplined_objDeclResolve call bound hcall _ obj rr
      (by show (st.objPath ++ [obj]).length ≤ bound; simp; omega) hres
    obtain ⟨b1, _, _, b4, _⟩ := hd
    have hp2 : (Object_setColor (push st obj).1 obj (Grey + st.objPath.length)).objPath
        = st.objPath ++ [obj] := rfl
    have hcne : Object_color (Object_setColor (push st obj).1 obj (Grey + st.objPath.length)) obj
        ≠ White := by
      rw [Object_color_setColor_same]
      simp [Grey, White]
    refine ⟨_, rr.trace, Object_setColor { rr.st with objPath := st.objPath } obj Black,
      ?_, hp2, Object_color_setColor_same _ _ _, ?_, rfl, Object_color_setColor_same _ _ _, ?_⟩
    · show _ :: ((rr.deferred popBlack).trace) = _
      unfold Res.deferred
      rw [popBlack_eq rr.st st.objPath obj (b1.trans hp2)]
    · intro m hm
      obtain ⟨m1, _, m3⟩ := b4 m hm
      exact ⟨by rw [← hp2]; exact m1,
        by rw [m3 obj hcne, Object_color_setColor_same]⟩
    · show (rr.deferred popBlack).st = _
      unfold Res.deferred
      rw [popBlack_eq rr.st st.objPath obj (b1.trans hp2)]

/-! ### Termination of `objDecl` -/

theorem countP_lt_of_imp {α : Type} (p q : α → Bool) (l : List α)
    (himp : ∀ x ∈ l, p x = true → q x = true) (a : α) (ha : a ∈ l) (hq : q a = true)
    (hp : p a = false) : l.countP p < l.countP q := by
  induction l with
  | nil => exact absurd ha (List.not_mem_nil a)
  | cons x xs ih =>
    have himp1 : ∀ y ∈ xs, p y = true → q y = true :=
      fun y hy => himp y (List.mem_cons_of_mem _ hy)
    have hle : xs.countP p ≤ xs.countP q := List.countP_mono_left himp1
    rcases List.mem_cons.mp ha with h | h
    · subst h
      rw [List.countP_cons_of_pos _ _ hq, List.countP_cons_of_neg _ _ (by simp [hp])]
      omega
    · have hlt := ih himp1 h
      by_cases hpx : p x = true
      · rw [List.countP_cons_of_pos _ _ hpx,
          List.countP_cons_of_pos _ _ (himp x (List.mem_cons_self _ _) hpx)]
        omega
      · rw [List.countP_cons_of_neg _ _ hpx]
        by_cases hqx : q x = true
        · rw [List.countP_cons_of_pos _ _ hqx]
          omega
        · rw [List.countP_cons_of_neg _ _ hqx]
          exact hlt

theorem mem_keys_of_lookup (l : List (ObjId × declInfo)) (obj : ObjId) (d : declInfo)
    (h : l.lookup obj = some d) : obj ∈ l.map Prod.fst := by
  rw [List.lookup_eq_some_iff] at h
  obtain ⟨l1, l2, rfl, _⟩ := h
  simp

theorem whiteCount_le (a b : Checker) (hm : b.objMap = a.objMap)
    (hc : ∀ x, Object_color a x ≠ White → Object_color b x = Object_color a x) :
    whiteCount b ≤ whiteCount a := by
  unfold whiteCount
  rw [hm]
  apply List.countP_mono_left
  intro x _ hx
  simp only [decide_eq_true_eq] at hx ⊢
  by_contra hcon
  rw [hc x hcon] at hx
  exact hcon hx

theorem whiteCount_lt (a b : Checker) (obj : ObjId) (d : declInfo) (hm : b.objMap = a.objMap)
    (hc : ∀ x, Object_color a x ≠ White → Object_color b x = Object_color a x)
    (hd : a.decl? obj = some d) (hw : Object_color a obj = White)
    (hnw : Object_color b obj ≠ White) : whiteCount b < whiteCount a := by
  unfold whiteCount
  rw [hm]
  apply countP_lt_of_imp _ _ _ _ obj
  · rw [List.mem_dedup]
    exact mem_keys_of_lookup _ _ _ hd
  · simpa using hw
  · simpa using hnw
  · intro x _ hx
    simp only [decide_eq_true_eq] at hx ⊢
    by_contra hcon
    rw [hc x hcon] at hx
    exact hcon hx

theorem whiteCount_sameColors (a b : Checker) (h : sameColors a b) :
    whiteCount b = whiteCount a := by
  unfold whiteCount
  rw [h.2.1]
  congr 1
  funext x
  rw [h.2.2.2 x]

theorem whiteCount_Disciplined (st : Checker) (r : Res Unit) (h : Disciplined st r) :
    whiteCount r.st ≤ whiteCount st :=
  whiteCount_le st r.st h.2.1 h.2.2.1

theorem execAct_terminates (fuel : Nat)
    (ih : ∀ (st : Checker) (obj : ObjId), whiteCount st < fuel →
      st.objPath.length + fuel + 2 ≤ 4294967296 → ∃ r, objDecl fuel st obj = some r)
    (st : Checker) (a : Act) (hwc : whiteCount st < fuel)
    (hb : st.objPath.length + fuel + 2 ≤ 4294967296) :
    ∃ r, execAct (objDecl fuel) st a = some r := by
  cases a with
  | use o => exact ih st o hwc hb
  | setTyp o t => exact ⟨_, rfl⟩
  | errorf at_ code text soft => exact ⟨_, rfl⟩
  | later f => exact ⟨_, rfl⟩
  | setEnv e => exact ⟨_, rfl⟩
  | fail msg => exact ⟨_, rfl⟩

theorem runActs_terminates (fuel : Nat)
    (ih : ∀ (st : Checker) (obj : ObjId), whiteCount st < fuel →
      st.objPath.length + fuel + 2 ≤ 4294967296 → ∃ r, objDecl fuel st obj = some r) :
    ∀ (acts : List Act) (st : Checker), whiteCount st < fuel →
      st.objPath.length + fuel + 2 ≤ 4294967296 → ∃ r, runActs (objDecl fuel) st acts = some r := by
  intro acts
  induction acts with
  | nil => intro st _ _; exact ⟨_, rfl⟩
  | cons a rest ihl =>
    intro st hwc hb
    obtain ⟨r1, hr1⟩ := execAct_terminates fuel ih st a hwc hb
    have hd : Disciplined st r1 :=
      Disciplined_execAct (objDecl fuel) (4294967294 - fuel)
        (fun s o r hs hr => Disciplined_objDecl fuel s o r (by omega) hr) st a r1 (by omega) hr1
    rw [runActs, hr1]
    simp only
    cases hout : r1.out with
    | ok u =>
      obtain ⟨r2, hr2⟩ := ihl r1.st
        (lt_of_le_of_lt (whiteCount_Disciplined st r1 hd) hwc) (by rw [hd.1]; exact hb)
      simp only [hr2]
      exact ⟨_, rfl⟩
    | bailout => exact ⟨_, rfl⟩
    | panic msg => exact ⟨_, rfl⟩

theorem objDeclResolve_terminates (fuel : Nat)
    (ih : ∀ (st : Checker) (obj : ObjId), whiteCount st < fuel →
      st.objPath.length + fuel + 2 ≤ 4294967296 → ∃ r, objDecl fuel st obj = some r)
    (st : Checker) (obj : ObjId)
    (hwc : ∀ d, st.decl? obj = some d → whiteCount st < fuel)
    (hb : st.objPath.length + fuel + 2 ≤ 4294967296) :
    ∃ r, objDeclResolve (objDecl fuel) st obj = some r := by
  unfold objDeclResolve
  cases hd : st.decl? obj with
  | none => exact ⟨_, rfl⟩
  | some d =>
    have hrun : ∀ s : Checker, sameColors st s → ∃ rb, runActs (objDecl fuel) s d.body = some rb := by
      intro s hs
      apply runActs_terminates fuel ih d.body s
      · rw [whiteCount_sameColors st s hs]
        exact hwc d hd
      · rw [hs.1]
        exact hb
    simp only
    cases hk : (st.objs obj).kind with
    | Const =>
      obtain ⟨rb, hrb⟩ := hrun { st with env := { environment.ofScope d.file with decl := some obj } }
        ⟨rfl, rfl, rfl, fun _ => rfl⟩
      simp only [hrb]
      exact ⟨_, rfl⟩
    | Var =>
      obtain ⟨rb, hrb⟩ := hrun { st with env := { environment.ofScope d.file with decl := some obj } }
        ⟨rfl, rfl, rfl, fun _ => rfl⟩
      simp only [hrb]
      exact ⟨_, rfl⟩
    | TypeName =>
      obtain ⟨rb, hrb⟩ := hrun { st with env := environment.ofScope d.file }
        ⟨rfl, rfl, rfl, fun _ => rfl⟩
      simp only [hrb]
      exact ⟨_, rfl⟩
    | Func =>
      obtain ⟨rb, hrb⟩ := hrun { st with env := environment.ofScope d.file }
        ⟨rfl, rfl, rfl, fun _ => rfl⟩
      simp only [hrb]
      exact ⟨_, rfl⟩
    | Other => exact ⟨_, rfl⟩

theorem objDeclBody_terminates (fuel : Nat)
    (ih : ∀ (st : Checker) (obj : ObjId), whiteCount st < fuel →
      st.objPath.length + fuel + 2 ≤ 4294967296 → ∃ r, objDecl fuel st obj = some r)
    (st : Checker) (obj : ObjId) (hwc : whiteCount st < fuel + 1)
    (hb : st.objPath.length + (fuel + 1) + 2 ≤ 4294967296) :
    ∃ r, objDeclBody (objDecl fuel) st obj = some r := by
  unfold objDeclBody
  by_cases h1 : Object_color st obj = White ∧ (st.objs obj).typ ≠ none
  · rw [if_pos h1]
    exact ⟨_, rfl⟩
  · rw [if_neg h1]
    by_cases h2 : Object_color st obj = White
    · rw [if_pos h2]
      by_cases h3 : (st.objs obj).typ ≠ none
      · rw [if_pos h3]
        exact ⟨_, rfl⟩
      · rw [if_neg h3]
        simp only
        have hc : u32 (Grey + u32 (push st obj).2) = Grey + st.objPath.length := by
          rw [push_snd, grey_of_short_path _ (by omega)]
        rw [hc]
        obtain ⟨rr, hrr⟩ := objDeclResolve_terminates fuel ih
          (Object_setColor (push st obj).1 obj (Grey + st.objPath.length)) obj
          (by
            intro d hd
            have hlt := whiteCount_lt st
              (Object_setColor (push st obj).1 obj (Grey + st.objPath.length)) obj d rfl
              (by
                intro x hx
                have hxo : x ≠ obj := by
                  intro hxo
                  rw [hxo] at hx
                  exact hx h2
                rw [Object_color_setColor_other _ _ _ _ hxo]
                rfl)
              hd h2
              (by rw [Object_color_setColor_same]; simp [Grey, White])
            omega)
          (by show (st.objPath ++ [obj]).length + fuel + 2 ≤ _; simp; omega)
        rw [hrr]
        exact ⟨_, rfl⟩
    · rw [if_neg h2]
      by_cases h3 : Object_color st obj = Black
      · rw [if_pos h3]
        split <;> exact ⟨_, rfl⟩
      · rw [if_neg h3]
        exact ⟨_, rfl⟩

/-- With more fuel than there are white declared objects, `objDecl` finishes. -/
theorem objDecl_terminates :
    ∀ (fuel : Nat) (st : Checker) (obj : ObjId), whiteCount st < fuel →
      st.objPath.length + fuel + 2 ≤ 4294967296 → ∃ r, objDecl fuel st obj = some r := by
  intro fuel
  induction fuel with
  | zero => intro st obj h _; exact absurd h (Nat.not_lt_zero _)
  | succ fuel ih =>
    intro st obj hwc hb
    rw [objDecl]
    simp only
    split
    · obtain ⟨rb, hrb⟩ := objDeclBody_terminates fuel ih { st with indent := st.indent + 1 } obj
        (by
          have := whiteCount_sameColors st { st with indent := st.indent + 1 }
            ⟨rfl, rfl, rfl, fun _ => rfl⟩
          rw [this]
          exact hwc) hb
      rw [hrb]
      exact ⟨_, rfl⟩
    · exact objDeclBody_terminates fuel ih st obj hwc hb

/-- C3: for a white object without a type, on an object path that leaves room for
the nested calls, `objDecl` finishes when given more fuel than there are white
declared objects, and every finished call, however control leaves it (normal
return, bailout or another panic), has this shape: first the object is pushed on
the object path and painted with the grey colour `Grey + index`; at every
observation point while its declaration is resolved the object path still extends
the old path followed by the object and the object still has that grey colour;
last the object is popped and painted black. At the end the object path is the one
before the call and the object is black. -/
theorem objDecl_white_push_pop (fuel : Nat) (st : Checker) (obj : ObjId)
    (hw : Object_color st obj = White) (ht : (st.objs obj).typ = none)
    (hb : st.objPath.length + (fuel + 1) + 2 ≤ 4294967296) :
    (whiteCount st < fuel + 1 → ∃ r, objDecl (fuel + 1) st obj = some r)
    ∧ ∀ r, objDecl (fuel + 1) st obj = some r →
      ∃ s2 body sLast,
        r.trace = ⟨Label.setColor obj (Grey + st.objPath.length), s2⟩
            :: (body ++ [⟨Label.setColor obj Black, sLast⟩])
        ∧ Grey ≤ Grey + st.objPath.length
        ∧ s2.objPath = st.objPath ++ [obj]
        ∧ Object_color s2 obj = Grey + st.objPath.length
        ∧ (∀ m ∈ body, (st.objPath ++ [obj]) <+: m.st.objPath
            ∧ Object_color m.st obj = Grey + st.objPath.length)
        ∧ sLast.objPath = st.objPath ∧ Object_color sLast obj = Black
        ∧ r.st.objPath = st.objPath ∧ Object_color r.st obj = Black := by
  refine ⟨fun hwc => objDecl_terminates (fuel + 1) st obj hwc hb, ?_⟩
  intro r h
  have hcall : ∀ s o r, s.objPath.length ≤ 4294967294 - fuel → objDecl fuel s o = some r →
      Disciplined s r := by
    intro s o r hs hr
    exact Disciplined_objDecl fuel s o r (by omega) hr
  rw [objDecl] at h
  simp only at h
  split at h
  · cases hbody : objDeclBody (objDecl fuel) { st with indent := st.indent + 1 } obj with
    | none =>
      rw [hbody] at h
      exact absurd h (by simp)
    | some rb =>
      rw [hbody] at h
      simp only [Option.map_some', Option.some.injEq] at h
      subst h
      obtain ⟨s2, body, sLast, h1, h2, h3, h4, h5, h6, h7⟩ :=
        objDeclBody_white (objDecl fuel) (4294967294 - fuel) hcall
          { st with indent := st.indent + 1 } obj rb
          (by show st.objPath.length + 1 ≤ _; omega) (by omega) hw ht hbody
      refine ⟨s2, body, sLast, ?_, Nat.le_add_right _ _, h2, h3, h4, h5, h6, ?_, ?_⟩
      · show rb.trace ++ [] = _
        rw [List.append_nil]
        exact h1
      · show rb.st.objPath = _
        rw [h7]
        exact h5
      · show Object_color rb.st obj = _
        rw [h7]
        exact h6
  · obtain ⟨s2, body, sLast, h1, h2, h3, h4, h5, h6, h7⟩ :=
      objDeclBody_white (objDecl fuel) (4294967294 - fuel) hcall st obj r
        (by omega) (by omega) hw ht h
    exact ⟨s2, body, sLast, h1, Nat.le_add_right _ _, h2, h3, h4, h5, h6,
      by rw [h7]; exact h5, by rw [h7]; exact h6⟩

theorem objDecl_white_push_pop_witness :
    Object_color exWhiteFailing 0 = White
    ∧ (exWhiteFailing.objs 0).typ = none
    ∧ ∃ r, objDecl 2 exWhiteFailing 0 = some r
      ∧ r.out = Outcome.bailout
      ∧ ∃ s2 body sLast,
        r.trace = ⟨Label.setColor 0 (Grey + exWhiteFailing.objPath.length), s2⟩
            :: (body ++ [⟨Label.setColor 0 Black, sLast⟩])
        ∧ Grey ≤ Grey + exWhiteFailing.objPath.length
        ∧ s2.objPath = exWhiteFailing.objPath ++ [0]
        ∧ Object_color s2 0 = Grey + exWhiteFailing.objPath.length
        ∧ (∀ m ∈ body, (exWhiteFailing.objPath ++ [0]) <+: m.st.objPath
            ∧ Object_color m.st 0 = Grey + exWhiteFailing.objPath.length)
        ∧ sLast.objPath = exWhiteFailing.objPath ∧ Object_color sLast 0 = Black
        ∧ r.st.objPath = exWhiteFailing.objPath ∧ Object_color r.st 0 = Black := by
  refine ⟨by decide, by decide, ?_⟩
  obtain ⟨r, hr⟩ := (objDecl_white_push_pop 1 exWhiteFailing 0 (by decide) (by decide)
    (by decide)).1 (by decide)
  have hout : ((objDecl 2 exWhiteFailing 0).map fun r => r.out) = some Outcome.bailout := by
    decide
  rw [hr] at hout
  exact ⟨r, hr, by simpa using hout,
    (objDecl_white_push_pop 1 exWhiteFailing 0 (by decide) (by decide) (by decide)).2 r hr⟩

/-! ### The colour invariant -/

theorem ColorInv_sameColors (a b : Checker) (h : sameColors a b) (ha : ColorInv a) :
    ColorInv b := by
  obtain ⟨h1, _, _, h4⟩ := h
  refine ⟨?_, ?_⟩
  · intro k o hk
    rw [h1] at hk
    rw [h4 o]
    exact ha.1 k o hk
  · intro o ho
    rw [h4 o] at ho
    rw [h1]
    exact ha.2 o ho

/-- Under the colour invariant the colour of a grey object gives its index on the
object path, so the cycle read off the path is not empty and starts with it. -/
theorem ColorInv_cycle (s : Checker) (o : ObjId) (hinv : ColorInv s)
    (hg : Grey ≤ Object_color s o) :
    s.objPath[Object_color s o - Grey]? = some o
      ∧ cycleOf s o ≠ [] ∧ (cycleOf s o).head? = some o := by
  obtain ⟨k, hk⟩ := List.getElem?_of_mem (hinv.2 o hg)
  have hc := hinv.1 k o hk
  have hidx : Object_color s o - Grey = k := by
    rw [hc]
    exact Nat.add_sub_cancel_left Grey k
  have hhead : (cycleOf s o).head? = some o := by
    unfold cycleOf
    rw [hidx, List.head?_drop]
    exact hk
  refine ⟨by rw [hidx]; exact hk, ?_, hhead⟩
  intro hnil
  rw [hnil] at hhead
  exact absurd hhead (by simp)

theorem report_trace (st : Checker) (e : error_) :
    (report st e).trace = [⟨Label.report e, st⟩] := by
  unfold report
  show [_] ++ _ = _
  split
  · rfl
  · split
    · rfl
    · split
      · rfl
      · simp only
        split
        · rfl
        · split
          · rfl
          · split <;> rfl

theorem EntersGrey_nil {α : Type} (r : Res α) (h : r.trace = []) : EntersGrey r := by
  intro m hm
  rw [h] at hm
  exact absurd hm (List.not_mem_nil m)

theorem EntersGrey_report (st : Checker) (e : error_) : EntersGrey (report st e) := by
  intro m hm o hl
  rw [report_trace, List.mem_singleton] at hm
  subst hm
  cases hl

theorem EntersGrey_bind {α β : Type} (r : Res α) (k : α → Checker → Res β)
    (hr : EntersGrey r) (hk : ∀ a, EntersGrey (k a r.st)) : EntersGrey (r.bind k) := by
  unfold Res.bind
  cases hout : r.out with
  | ok a =>
    intro m hm
    rcases List.mem_append.mp hm with h | h
    · exact hr m h
    · exact hk a m h
  | bailout => exact hr
  | panic msg => exact hr

theorem EntersGrey_cycleErrorLoop (cycle : List ObjId) :
    ∀ n st i obj name, EntersGrey (cycleErrorLoop cycle n st i obj name) := by
  intro n
  induction n with
  | zero => intro st i obj name; exact EntersGrey_nil _ rfl
  | succ n ih =>
    intro st i obj name
    rw [cycleErrorLoop]
    apply EntersGrey_bind _ _ (EntersGrey_report _ _)
    intro _
    simp only
    split
    · exact EntersGrey_nil _ rfl
    · exact ih _ _ _ _

theorem EntersGrey_cycleError (st : Checker) (cycle : List ObjId) :
    EntersGrey (cycleError st cycle) := by
  unfold cycleError
  split
  · exact EntersGrey_nil _ rfl
  · split
    · exact EntersGrey_nil _ rfl
    · simp only
      split
      · split
        · exact EntersGrey_report _ _
        · exact EntersGrey_report _ _
      · apply EntersGrey_bind
        · split
          · exact EntersGrey_report _ _
          · exact EntersGrey_report _ _
        · intro _
          apply EntersGrey_bind _ _ (EntersGrey_cycleErrorLoop cycle _ _ _ _ _)
          intro last
          exact EntersGrey_report _ _

theorem EntersGrey_validCycle (st : Checker) (obj : ObjId) (hg : Grey ≤ Object_color st obj) :
    EntersGrey (validCycle st obj) := by
  have hinner : ∀ (r : Res Bool), EntersGrey r →
      EntersGrey (Res.after [⟨Label.validCycle obj, st⟩] r) := by
    intro r hr m hm o hl
    rcases List.mem_append.mp hm with h | h
    · rw [List.mem_singleton] at h
      subst h
      simp only [Label.validCycle.injEq] at hl
      subst hl
      exact hg
    · exact hr m h o hl
  unfold validCycle
  apply hinner
  split
  · exact EntersGrey_nil _ rfl
  · simp only
    split
    · exact EntersGrey_nil _ rfl
    · split
      · exact EntersGrey_nil _ rfl
      · split
        · exact EntersGrey_nil _ rfl
        · split
          · exact EntersGrey_nil _ rfl
          · apply EntersGrey_bind _ _ (EntersGrey_cycleError st _)
            intro _
            exact EntersGrey_nil _ rfl

theorem EntersGrey_step (s : Checker) (out : Outcome Unit) :
    EntersGrey (⟨out, s, [⟨Label.step, s⟩]⟩ : Res Unit) := by
  intro m hm o hl
  rw [List.mem_singleton] at hm
  subst hm
  cases hl

theorem EntersGrey_objDeclGrey (st : Checker) (obj : ObjId) (hg : Grey ≤ Object_color st obj) :
    EntersGrey (objDeclGrey st obj) := by
  unfold objDeclGrey
  simp only
  split
  · apply EntersGrey_bind _ _ (EntersGrey_validCycle st obj hg)
    intro valid
    split <;> split <;> exact EntersGrey_step _ _
  · apply EntersGrey_bind _ _ (EntersGrey_validCycle st obj hg)
    intro valid
    split <;> split <;> exact EntersGrey_step _ _
  · apply EntersGrey_bind _ _ (EntersGrey_validCycle st obj hg)
    intro valid
    split <;> split <;> exact EntersGrey_step _ _
  · apply EntersGrey_bind _ _ (EntersGrey_validCycle st obj hg)
    intro _
    split <;> exact EntersGrey_step _ _
  · exact EntersGrey_nil _ rfl

theorem ColorInv_push (st : Checker) (obj : ObjId) (hinv : ColorInv st)
    (hw : Object_color st obj = White) :
    ColorInv (Object_setColor (push st obj).1 obj (Grey + st.objPath.length)) := by
  have hpath : (Object_setColor (push st obj).1 obj (Grey + st.objPath.length)).objPath
      = st.objPath ++ [obj] := rfl
  have hother : ∀ x, x ≠ obj →
      Object_color (Object_setColor (push st obj).1 obj (Grey + st.objPath.length)) x
        = Object_color st x := by
    intro x hx
    rw [Object_color_setColor_other _ _ _ _ hx]
    rfl
  refine ⟨?_, ?_⟩
  · intro k o hk
    rw [hpath] at hk
    by_cases hlt : k < st.objPath.length
    · rw [List.getElem?_append_left hlt] at hk
      have hc := hinv.1 k o hk
      have hne : o ≠ obj := by
        intro h
        rw [h, hw] at hc
        have hc' : (0 : Nat) = 2 + k := hc
        omega
      rw [hother o hne]
      exact hc
    · have hle : st.objPath.length ≤ k := Nat.le_of_not_lt hlt
      rw [List.getElem?_append_right hle] at hk
      have hk0 : k - st.objPath.length = 0 := by
        by_contra hcon
        rw [List.getElem?_eq_none (by simp; omega)] at hk
        exact absurd hk (by simp)
      rw [hk0] at hk
      simp only [List.getElem?_cons_zero, Option.some.injEq] at hk
      subst hk
      rw [Object_color_setColor_same]
      have : k = st.objPath.length := by omega
      rw [this]
  · intro o ho
    rw [hpath]
    by_cases hne : o = obj
    · rw [hne]
      simp
    · rw [hother o hne] at ho
      exact List.mem_append_left _ (hinv.2 o ho)

theorem ColorInv_pop (s : Checker) (pre : List ObjId) (obj : ObjId) (hinv : ColorInv s)
    (hpath : s.objPath = pre ++ [obj]) :
    ColorInv (Object_setColor { s with objPath := pre } obj Black) := by
  have hobj : Object_color s obj = Grey + pre.length := by
    apply hinv.1
    rw [hpath]
    exact List.getElem?_concat_length pre obj
  have hother : ∀ x, x ≠ obj →
      Object_color (Object_setColor { s with objPath := pre } obj Black) x = Object_color s x := by
    intro x hx
    rw [Object_color_setColor_other _ _ _ _ hx]
    rfl
  refine ⟨?_, ?_⟩
  · intro k o hk
    have hk' : pre[k]? = some o := hk
    have hlt : k < pre.length := by
      by_contra hcon
      rw [List.getElem?_eq_none (by omega)] at hk'
      exact absurd hk' (by simp)
    have hc : Object_color s o = Grey + k := by
      apply hinv.1
      rw [hpath, List.getElem?_append_left hlt]
      exact hk'
    have hne : o ≠ obj := by
      intro h
      rw [h, hobj] at hc
      have hc' : (2 : Nat) + pre.length = 2 + k := hc
      omega
    rw [hother o hne]
    exact hc
  · intro o ho
    show o ∈ pre
    by_cases hne : o = obj
    · rw [hne, Object_color_setColor_same] at ho
      simp [Grey, Black] at ho
    · rw [hother o hne] at ho
      have hm := hinv.2 o ho
      rw [hpath] at hm
      rcases List.mem_append.mp hm with h | h
      · exact h
      · rw [List.mem_singleton] at h
        exact absurd h hne

theorem ColorInv_blacken (st : Checker) (obj : ObjId) (hinv : ColorInv st)
    (hw : Object_color st obj = White) : ColorInv (Object_setColor st obj Black) := by
  have hother : ∀ x, x ≠ obj →
      Object_color (Object_setColor st obj Black) x = Object_color st x :=
    fun x hx => Object_color_setColor_other _ _ _ _ hx
  refine ⟨?_, ?_⟩
  · intro k o hk
    have hc := hinv.1 k o hk
    have hne : o ≠ obj := by
      intro h
      rw [h, hw] at hc
      have hc' : (0 : Nat) = 2 + k := hc
      omega
    rw [hother o hne]
    exact hc
  · intro o ho
    by_cases hne : o = obj
    · rw [hne, Object_color_setColor_same] at ho
      simp [Grey, Black] at ho
    · rw [hother o hne] at ho
      exact hinv.2 o ho

theorem InvRes_of_Frame (st : Checker) (r : Res Unit) (hf : Frame st r) (hinv : ColorInv st)
    (hg : EntersGrey r) : InvRes r :=
  ⟨fun m hm => ColorInv_sameColors st m.st (hf.2 m hm).1 hinv,
    ColorInv_sameColors st r.st hf.1 hinv, hg⟩

theorem InvRes_seq (r1 r2 : Res Unit) (out : Outcome Unit) (h1 : InvRes r1) (h2 : InvRes r2) :
    InvRes ⟨out, r2.st, r1.trace ++ r2.trace⟩ := by
  refine ⟨?_, h2.2.1, ?_⟩
  · intro m hm
    rcases List.mem_append.mp hm with h | h
    · exact h1.1 m h
    · exact h2.1 m h
  · intro m hm
    rcases List.mem_append.mp hm with h | h
    · exact h1.2.2 m h
    · exact h2.2.2 m h

theorem InvRes_execAct (call : Checker → ObjId → Option (Res Unit)) (bound : Nat)
    (hcall : ∀ s o r, s.objPath.length ≤ bound → ColorInv s → call s o = some r → InvRes r)
    (st : Checker) (a : Act) (r : Res Unit) (hb : st.objPath.length ≤ bound)
    (hinv : ColorInv st) (h : execAct call st a = some r) : InvRes r := by
  cases a with
  | use o => exact hcall st o r hb hinv h
  | setTyp o t =>
    simp only [execAct, Option.some.injEq] at h
    subst h
    exact InvRes_of_Frame st _ (Frame_step st _ _ (sameColors_setTyp st o t)) hinv
      (EntersGrey_step _ _)
  | errorf at_ code text soft =>
    simp only [execAct, Option.some.injEq] at h
    subst h
    have hf := Frame_report st { newErrorf at_ code text with soft := soft }
    refine ⟨?_, ColorInv_sameColors st _ hf.1 hinv, ?_⟩
    · intro m hm
      rcases List.mem_append.mp hm with h1 | h1
      · exact ColorInv_sameColors st _ (hf.2 m h1).1 hinv
      · rw [List.mem_singleton] at h1
        subst h1
        exact ColorInv_sameColors st _ hf.1 hinv
    · intro m hm o hl
      rcases List.mem_append.mp hm with h1 | h1
      · exact EntersGrey_report _ _ m h1 o hl
      · rw [List.mem_singleton] at h1
        subst h1
        cases hl
  | later f =>
    simp only [execAct, Option.some.injEq] at h
    subst h
    exact InvRes_of_Frame st _ (Frame_step st _ _ ⟨rfl, rfl, rfl, fun _ => rfl⟩) hinv
      (EntersGrey_step _ _)
  | setEnv e =>
    simp only [execAct, Option.some.injEq] at h
    subst h
    exact InvRes_of_Frame st _ (Frame_step st _ _ ⟨rfl, rfl, rfl, fun _ => rfl⟩) hinv
      (EntersGrey_step _ _)
  | fail msg =>
    simp only [execAct, Option.some.injEq] at h
    subst h
    exact InvRes_of_Frame st _ (Frame_fail st st msg (sameColors_refl st)) hinv
      (EntersGrey_nil _ rfl)

theorem InvRes_runActs (call : Checker → ObjId → Option (Res Unit)) (bound : Nat)
    (hcallD : ∀ s o r, s.objPath.length ≤ bound → call s o = some r → Disciplined s r)
    (hcall : ∀ s o r, s.objPath.length ≤ bound → ColorInv s → call s o = some r → InvRes r) :
    ∀ (acts : List Act) (st : Checker) (r : Res Unit), st.objPath.length ≤ bound →
      ColorInv st → runActs call st acts = some r → InvRes r := by
  intro acts
  induction acts with
  | nil =>
    intro st r _ hinv h
    simp only [runActs, Option.some.injEq] at h
    subst h
    exact InvRes_of_Frame st _ (Frame_ret st st () (sameColors_refl st)) hinv
      (EntersGrey_nil _ rfl)
  | cons a rest ih =>
    intro st r hb hinv h
    rw [runActs] at h
    cases h1 : execAct call st a with
    | none => rw [h1] at h; exact absurd h (by simp)
    | some r1 =>
      rw [h1] at h
      have hd1 := Disciplined_execAct call bound hcallD st a r1 hb h1
      have hi1 := InvRes_execAct call bound hcall st a r1 hb hinv h1
      cases hout : r1.out with
      | ok u =>
        simp only [hout] at h
        cases h2 : runActs call r1.st rest with
        | none => rw [h2] at h; exact absurd h (by simp)
        | some r2 =>
          rw [h2] at h
          simp only [Option.map_some', Option.some.injEq] at h
          subst h
          have hb1 : r1.st.objPath.length ≤ bound := by rw [hd1.1]; exact hb
          exact InvRes_seq r1 r2 _ hi1 (ih r1.st r2 hb1 hi1.2.1 h2)
      | bailout =>
        simp only [hout, Option.some.injEq] at h
        subst h
        exact hi1
      | panic msg =>
        simp only [hout, Option.some.injEq] at h
        subst h
        exact hi1

theorem InvRes_objDeclResolve (call : Checker → ObjId → Option (Res Unit)) (bound : Nat)
    (hcallD : ∀ s o r, s.objPath.length ≤ bound → call s o = some r → Disciplined s r)
    (hcall : ∀ s o r, s.objPath.length ≤ bound → ColorInv s → call s o = some r → InvRes r)
    (st : Checker) (obj : ObjId) (r : Res Unit) (hb : st.objPath.length ≤ bound)
    (hinv : ColorInv st) (h : objDeclResolve call st obj = some r) : InvRes r := by
  unfold objDeclResolve at h
  cases hd : st.decl? obj with
  | none =>
    simp only [hd, Option.some.injEq] at h
    subst h
    exact InvRes_of_Frame st _ (Frame_fail st st _ (sameColors_refl st)) hinv
      (EntersGrey_nil _ rfl)
  | some d =>
    simp only [hd] at h
    have hrun : ∀ (s : Checker) (rb : Res Unit), sameColors st s →
        runActs call s d.body = some rb → InvRes rb := by
      intro s rb hs hrb
      exact InvRes_runActs call bound hcallD hcall d.body s rb (by rw [hs.1]; exact hb)
        (ColorInv_sameColors st s hs hinv) hrb
    have hbody : ∀ rb, (match (st.objs obj).kind with
        | ObjKind.Const => runActs call
            { st with env := { environment.ofScope d.file with decl := some obj } } d.body
        | ObjKind.Var => runActs call
            { st with env := { environment.ofScope d.file with decl := some obj } } d.body
        | ObjKind.TypeName => runActs call { st with env := environment.ofScope d.file } d.body
        | ObjKind.Func => runActs call { st with env := environment.ofScope d.file } d.body
        | ObjKind.Other => some (Res.fail { st with env := environment.ofScope d.file }
            "unreachable")) = some rb → InvRes rb := by
      intro rb hrb
      cases hk : (st.objs obj).kind with
      | Const =>
        simp only [hk] at hrb
        exact hrun _ rb (by exact ⟨rfl, rfl, rfl, fun _ => rfl⟩) hrb
      | Var =>
        simp only [hk] at hrb
        exact hrun _ rb (by exact ⟨rfl, rfl, rfl, fun _ => rfl⟩) hrb
      | TypeName =>
        simp only [hk] at hrb
        exact hrun _ rb (by exact ⟨rfl, rfl, rfl, fun _ => rfl⟩) hrb
      | Func =>
        simp only [hk] at hrb
        exact hrun _ rb (by exact ⟨rfl, rfl, rfl, fun _ => rfl⟩) hrb
      | Other =>
        simp only [hk, Option.some.injEq] at hrb
        subst hrb
        exact InvRes_of_Frame st _ (Frame_fail st _ _ ⟨rfl, rfl, rfl, fun _ => rfl⟩) hinv
          (EntersGrey_nil _ rfl)
    cases hb2 : (match (st.objs obj).kind with
        | ObjKind.Const => runActs call
            { st with env := { environment.ofScope d.file with decl := some obj } } d.body
        | ObjKind.Var => runActs call
            { st with env := { environment.ofScope d.file with decl := some obj } } d.body
        | ObjKind.TypeName => runActs call { st with env := environment.ofScope d.file } d.body
        | ObjKind.Func => runActs call { st with env := environment.ofScope d.file } d.body
        | ObjKind.Other => some (Res.fail { st with env := environment.ofScope d.file }
            "unreachable")) with
    | none =>
      rw [hb2] at h
      exact absurd h (by simp)
    | some rb =>
      rw [hb2] at h
      simp only [Option.map_some', Option.some.injEq] at h
      subst h
      have hrb := hbody rb hb2
      apply InvRes_seq rb _ _ hrb
      exact InvRes_of_Frame rb.st _ (Frame_step _ _ _ ⟨rfl, rfl, rfl, fun _ => rfl⟩) hrb.2.1
        (EntersGrey_step _ _)

theorem grey_of_not_white_black (c : Nat) (h0 : c ≠ 0) (h1 : c ≠ 1) : 2 ≤ c := by omega

theorem InvRes_objDeclBody (call : Checker → ObjId → Option (Res Unit)) (bound : Nat)
    (hcallD : ∀ s o r, s.objPath.length ≤ bound → call s o = some r → Disciplined s r)
    (hcall : ∀ s o r, s.objPath.length ≤ bound → ColorInv s → call s o = some r → InvRes r)
    (st : Checker) (obj : ObjId) (r : Res Unit) (hb : st.objPath.length + 1 ≤ bound)
    (hb32 : bound + 2 ≤ 4294967296) (hinv : ColorInv st)
    (h : objDeclBody call st obj = some r) : InvRes r := by
  unfold objDeclBody at h
  by_cases h1 : Object_color st obj = White ∧ (st.objs obj).typ ≠ none
  · rw [if_pos h1] at h
    simp only [Option.some.injEq] at h
    subst h
    have hi := ColorInv_blacken st obj hinv h1.1
    refine ⟨?_, hi, ?_⟩
    · intro m hm
      rw [List.mem_singleton] at hm
      subst hm
      exact hi
    · intro m hm o hl
      rw [List.mem_singleton] at hm
      subst hm
      cases hl
  · rw [if_neg h1] at h
    by_cases h2 : Object_color st obj = White
    · rw [if_pos h2] at h
      by_cases h3 : (st.objs obj).typ ≠ none
      · exact absurd ⟨h2, h3⟩ h1
      · rw [if_neg h3] at h
        simp only at h
        have hc : u32 (Grey + u32 (push st obj).2) = Grey + st.objPath.length := by
          rw [push_snd, grey_of_short_path _ (by omega)]
        rw [hc] at h
        cases hres : objDeclResolve call
            (Object_setColor (push st obj).1 obj (Grey + st.objPath.length)) obj with
        | none =>
          rw [hres] at h
          exact absurd h (by simp)
        | some rr =>
          rw [hres] at h
          simp only [Option.map_some', Option.some.injEq] at h
          subst h
          have hlen2 : (Object_setColor (push st obj).1 obj
              (Grey + st.objPath.length)).objPath.length ≤ bound := by
            show (st.objPath ++ [obj]).length ≤ bound
            simp
            omega
          have hi2 := ColorInv_push st obj hinv h2
          have hd := Disciplined_objDeclResolve call bound hcallD _ obj rr hlen2 hres
          have hir := InvRes_objDeclResolve call bound hcallD hcall _ obj rr hlen2 hi2 hres
          have hpath : rr.st.objPath = st.objPath ++ [obj] := hd.1
          have hfin := ColorInv_pop rr.st st.objPath obj hir.2.1 hpath
          rw [show Res.after [⟨Label.setColor obj (Grey + st.objPath.length),
                Object_setColor (push st obj).1 obj (Grey + st.objPath.length)⟩]
              (rr.deferred popBlack)
              = ⟨rr.out, Object_setColor { rr.st with objPath := st.objPath } obj Black,
                  [⟨Label.setColor obj (Grey + st.objPath.length),
                    Object_setColor (push st obj).1 obj (Grey + st.objPath.length)⟩]
                  ++ (rr.trace ++ [⟨Label.setColor obj Black,
                    Object_setColor { rr.st with objPath := st.objPath } obj Black⟩])⟩ by
            unfold Res.after Res.deferred
            rw [popBlack_eq rr.st st.objPath obj hpath]]
          refine ⟨?_, hfin, ?_⟩
          · intro m hm
            simp only [List.singleton_append, List.mem_cons, List.mem_append,
              List.not_mem_nil, or_false] at hm
            rcases hm with h | h | h
            · subst h; exact hi2
            · exact hir.1 m h
            · subst h; exact hfin
          · intro m hm o hl
            simp only [List.singleton_append, List.mem_cons, List.mem_append,
              List.not_mem_nil, or_false] at hm
            rcases hm with h | h | h
            · subst h; cases hl
            · exact hir.2.2 m h o hl
            · subst h; cases hl
    · rw [if_neg h2] at h
      by_cases h3 : Object_color st obj = Black
      · rw [if_pos h3] at h
        split at h
        · simp only [Option.some.injEq] at h
          subst h
          exact InvRes_of_Frame st _ (Frame_fail st st _ (sameColors_refl st)) hinv
            (EntersGrey_nil _ rfl)
        · simp only [Option.some.injEq] at h
          subst h
          exact InvRes_of_Frame st _ (Frame_ret st st () (sameColors_refl st)) hinv
            (EntersGrey_nil _ rfl)
      · rw [if_neg h3] at h
        simp only [Option.some.injEq] at h
        subst h
        have hg : Grey ≤ Object_color st obj := grey_of_not_white_black _ h2 h3
        exact InvRes_of_Frame st _ (Frame_objDeclGrey st obj) hinv
          (EntersGrey_objDeclGrey st obj hg)

theorem InvRes_objDecl :
    ∀ (fuel : Nat) (st : Checker) (obj : ObjId) (r : Res Unit),
      st.objPath.length + fuel + 2 ≤ 4294967296 → ColorInv st → objDecl fuel st obj = some r →
      InvRes r := by
  intro fuel
  induction fuel with
  | zero =>
    intro st obj r _ _ h
    simp [objDecl] at h
  | succ fuel ih =>
    intro st obj r hb hinv h
    have hcallD : ∀ s o r, s.objPath.length ≤ 4294967294 - fuel → objDecl fuel s o = some r →
        Disciplined s r := by
      intro s o r hs hr
      exact Disciplined_objDecl fuel s o r (by omega) hr
    have hcall : ∀ s o r, s.objPath.length ≤ 4294967294 - fuel → ColorInv s →
        objDecl fuel s o = some r → InvRes r := by
      intro s o r hs hi hr
      exact ih s o r (by omega) hi hr
    rw [objDecl] at h
    simp only at h
    split at h
    · cases hbody : objDeclBody (objDecl fuel) { st with indent := st.indent + 1 } obj with
      | none =>
        rw [hbody] at h
        exact absurd h (by simp)
      | some rb =>
        rw [hbody] at h
        simp only [Option.map_some', Option.some.injEq] at h
        subst h
        have hi := InvRes_objDeclBody (objDecl fuel) (4294967294 - fuel) hcallD hcall
          { st with indent := st.indent + 1 } obj rb
          (by show st.objPath.length + 1 ≤ _; omega) (by omega)
          (ColorInv_sameColors st _ ⟨rfl, rfl, rfl, fun _ => rfl⟩ hinv) hbody
        apply InvRes_seq rb _ _ hi
        exact InvRes_of_Frame rb.st _ (Frame_ret _ _ _ ⟨rfl, rfl, rfl, fun _ => rfl⟩) hi.2.1
          (EntersGrey_nil _ rfl)
    · exact InvRes_objDeclBody (objDecl fuel) (4294967294 - fuel) hcallD hcall st obj r
        (by omega) (by omega) hinv h

/-- C4: `objDecl` keeps the colour invariant of the object path. If in the state
before the call the object at index `k` of the object path has colour `Grey + k`
and every grey object is on the path, and the path leaves room for the nested
calls below `2 ^ 32 - 2` entries, then the same holds at every observation point
of the call and at its end; and whenever `validCycle` is entered during the call
for an object `o`, that object is grey, `objPath[color(o) - Grey]` is `o`, and the
cycle `objPath[color(o) - Grey:]` is not empty and starts with `o`. -/
theorem objDecl_keeps_color_invariant (fuel : Nat) (st : Checker) (obj : ObjId) (r : Res Unit)
    (hb : st.objPath.length + fuel + 2 ≤ 4294967296) (hinv : ColorInv st)
    (h : objDecl fuel st obj = some r) :
    (∀ m ∈ r.trace, ColorInv m.st)
    ∧ ColorInv r.st
    ∧ ∀ m ∈ r.trace, ∀ o, m.label = Label.validCycle o →
        Grey ≤ Object_color m.st o
        ∧ m.st.objPath[Object_color m.st o - Grey]? = some o
        ∧ cycleOf m.st o ≠ []
        ∧ (cycleOf m.st o).head? = some o := by
  obtain ⟨h1, h2, h3⟩ := InvRes_objDecl fuel st obj r hb hinv h
  refine ⟨h1, h2, ?_⟩
  intro m hm o hl
  have hg := h3 m hm o hl
  exact ⟨hg, ColorInv_cycle m.st o (h1 m hm) hg⟩

theorem objDecl_keeps_color_invariant_witness :
    exWhiteCycle.objPath.length + 3 + 2 ≤ 4294967296
    ∧ ColorInv exWhiteCycle
    ∧ ∃ r, objDecl 3 exWhiteCycle 0 = some r
      ∧ (r.trace.map fun m => m.label)
          = [Label.setColor 0 2, Label.setColor 1 3, Label.validCycle 0, Label.step,
             Label.step, Label.setColor 1 1, Label.step, Label.setColor 0 1]
      ∧ (∀ m ∈ r.trace, ColorInv m.st)
      ∧ ColorInv r.st
      ∧ ∀ m ∈ r.trace, ∀ o, m.label = Label.validCycle o →
          Grey ≤ Object_color m.st o
          ∧ m.st.objPath[Object_color m.st o - Grey]? = some o
          ∧ cycleOf m.st o ≠ []
          ∧ (cycleOf m.st o).head? = some o := by
  have hinv : ColorInv exWhiteCycle := by
    refine ⟨?_, ?_⟩
    · intro k o hk
      simp [exWhiteCycle, exChecker] at hk
    · intro o ho
      have hw : Object_color exWhiteCycle o = White := by
        by_cases h : o = 0 <;> simp [Object_color, exWhiteCycle, exChecker, exObj, h]
      rw [hw] at ho
      exact absurd ho (by decide)
  refine ⟨by decide, hinv, ?_⟩
  cases h : objDecl 3 exWhiteCycle 0 with
  | none =>
    have : (objDecl 3 exWhiteCycle 0).isSome = true := by decide
    rw [h] at this
    exact absurd this (by decide)
  | some r =>
    have hl : ((objDecl 3 exWhiteCycle 0).map fun r => r.trace.map fun m => m.label)
        = some [Label.setColor 0 2, Label.setColor 1 3, Label.validCycle 0, Label.step,
             Label.step, Label.setColor 1 1, Label.step, Label.setColor 0 1] := by decide
    rw [h] at hl
    exact ⟨r, rfl, by simpa using hl,
      objDecl_keeps_color_invariant 3 exWhiteCycle 0 r (by decide) hinv h⟩

/-- What `report` does with a diagnostic for which it builds an error value: a
follow-on error is dropped, any other is recorded and handed to the callback or
ends the pass. -/
theorem report_of_built (st : Checker) (e : error_) (err : Error)
    (h : builtError st e = some err) :
    report st e =
      ⟨(if isFollowOn st e then Outcome.ok ()
        else if st.conf.hasError then Outcome.ok () else Outcome.bailout),
       (if isFollowOn st e then st else recorded st err),
       [⟨Label.report e, st⟩]⟩ := by
  unfold builtError composedMsg at h
  unfold report isFollowOn composedMsg
  cases hd : e.desc with
  | nil => simp [hd] at h
  | cons d0 ds =>
    simp only [hd] at h ⊢
    cases hm : e.msg st.fsetPosition with
    | none => simp [hm] at h
    | some msg0 =>
      simp only [hm, Option.map_some'] at h ⊢
      by_cases hc : e.code = Code.noCode
      · simp [hc] at h
      · rw [if_neg hc] at h ⊢
        cases hs : spanOf d0.posn with
        | none => simp [hs] at h
        | some span =>
          simp only [hs, Option.some.injEq] at h ⊢
          by_cases hf : (st.firstErr.isSome && isInvalidErr (renderMsg st e.code msg0)) = true
          · simp only [hf, if_true]
            rfl
          · simp only [hf, if_false, Bool.false_eq_true]
            subst h
            by_cases hh : st.conf.hasError = true
            · simp only [hh, if_true, recorded, Res.after, Res.ret, List.append_nil]
            · simp only [hh, if_false, recorded, Res.after, Bool.false_eq_true, List.append_nil]

/-- A call of `report` keeps a first error that is recorded, whatever the diagnostic. -/
theorem report_keeps_firstErr (st : Checker) (e : error_) (x : Error)
    (h : st.firstErr = some x) : (report st e).st.firstErr = some x := by
  unfold report
  simp only [Res.after, Res.fail, Res.ret]
  split
  · exact h
  · split
    · exact h
    · split
      · exact h
      · split
        · exact h
        · split
          · exact h
          · split
            · simp [h]
            · simp [h]

/-- A sequence of calls of `report` keeps a first error that is recorded. -/
theorem reportAll_keeps_firstErr (es : List error_) (st : Checker) (x : Error)
    (h : st.firstErr = some x) : (reportAll st es).firstErr = some x := by
  induction es generalizing st with
  | nil => exact h
  | cons e es ih => exact ih (report st e).st (report_keeps_firstErr st e x h)

/-- The first error recorded by a call of `report` from a state without one. -/
theorem report_sets_firstErr (st : Checker) (e : error_) (err : Error)
    (hn : st.firstErr = none) (h : builtError st e = some err) :
    (report st e).st.firstErr = some err := by
  rw [report_of_built st e err h]
  have hf : isFollowOn st e = false := by simp [isFollowOn, hn]
  simp [hf, recorded, hn]

/-- C12: once a first error is recorded no call of `report` changes it, whatever
the diagnostic; from a state without a first error (as `initFiles` leaves it), the
call of `report` for a diagnostic records the error value built for it, and after
any further calls of `report` the first error is still that value. -/
theorem report_first_error_wins (st : Checker) (e : error_) (es : List error_) :
    (∀ x, st.firstErr = some x → (report st e).st.firstErr = some x)
    ∧ (∀ err, st.firstErr = none → builtError st e = some err →
        (report st e).st.firstErr = some err
        ∧ (reportAll st (e :: es)).firstErr = some err) := by
  refine ⟨fun x hx => report_keeps_firstErr st e x hx, fun err hn h => ?_⟩
  have h1 := report_sets_firstErr st e err hn h
  exact ⟨h1, reportAll_keeps_firstErr es _ err h1⟩

theorem report_first_error_wins_witness :
    (reportAll exEmpty [exFirst, exSecond]).firstErr = some ⟨5, "undefined: x", false⟩ :=
  ((report_first_error_wins exEmpty exFirst [exSecond]).2 ⟨5, "undefined: x", false⟩ rfl
    (by decide)).2

theorem composedMsg_same (a b : Checker) (e : error_) (h : sameButErrors a b) :
    composedMsg b e = composedMsg a e := by
  obtain ⟨fe, sk, rfl⟩ := h
  rfl

theorem builtError_same (a b : Checker) (e : error_) (h : sameButErrors a b) :
    builtError b e = builtError a e := by
  obtain ⟨fe, sk, rfl⟩ := h
  rfl

theorem composedMsg_of_built (st : Checker) (e : error_) (err : Error)
    (h : builtError st e = some err) : ∃ msg, composedMsg st e = some msg := by
  unfold builtError at h
  cases hd : e.desc with
  | nil => simp [hd] at h
  | cons d0 ds =>
    simp only [hd] at h
    cases hm : composedMsg st e with
    | none => simp [hm] at h
    | some msg => exact ⟨msg, rfl⟩

theorem reportAll_sink_some (st : Checker) (hcb : st.conf.hasError = true) :
    ∀ (es : List error_) (s : Checker), sameButErrors st s → s.firstErr.isSome = true →
      (∀ e ∈ es, (builtError st e).isSome = true) →
      (reportAll s es).sink = s.sink ++ es.filterMap (keptError st) := by
  intro es
  induction es with
  | nil => intro s _ _ _; simp [reportAll]
  | cons e es ih =>
    intro s hs hf hwf
    obtain ⟨err, herr⟩ := Option.isSome_iff_exists.mp (hwf e (List.mem_cons_self _ _))
    have herr' : builtError s e = some err := by rw [builtError_same st s e hs]; exact herr
    obtain ⟨msg, hmsg⟩ := composedMsg_of_built st e err herr
    have hmsg' : composedMsg s e = some msg := by rw [composedMsg_same st s e hs]; exact hmsg
    have hconf : s.conf.hasError = true := by
      obtain ⟨fe, sk, rfl⟩ := hs
      exact hcb
    have hrest : ∀ e' ∈ es, (builtError st e').isSome = true :=
      fun e' he' => hwf e' (List.mem_cons_of_mem _ he')
    have hstep : reportAll s (e :: es) = reportAll (report s e).st es := rfl
    rw [hstep, report_of_built s e err herr']
    by_cases hinv : isInvalidErr msg = true
    · have hfo : isFollowOn s e = true := by simp [isFollowOn, hf, hmsg', hinv]
      simp only [hfo, if_true]
      rw [ih s hs hf hrest]
      simp [List.filterMap_cons, keptError, hmsg, hinv]
    · have hfo : isFollowOn s e = false := by simp [isFollowOn, hmsg', hinv]
      simp only [hfo, if_false, Bool.false_eq_true]
      rw [ih (recorded s err) (sameButErrors_trans _ _ _ hs (sameButErrors_recorded s err))
        (by cases h : s.firstErr <;> simp [recorded, h]) hrest]
      simp [List.filterMap_cons, keptError, hmsg, hinv, herr, recorded, hconf]

/-- C14 (amended): with an error callback, `report` returns normally for every
diagnostic for which it builds an error value, and after a sequence of such calls
the callback has received, once each and in the order of the calls, the error values
of the diagnostics that are not dropped as follow-on errors: the first diagnostic
when no error was recorded before, and every later one whose composed message does
not pass the test for follow-on errors. -/
theorem report_callback_delivers_kept (st : Checker) (es : List error_)
    (hcb : st.conf.hasError = true) (hwf : ∀ e ∈ es, (builtError st e).isSome = true) :
    (∀ e ∈ es, ∀ s, sameButErrors st s → (report s e).out = Outcome.ok ())
    ∧ (reportAll st es).sink = st.sink ++ deliveredAll st es := by
  constructor
  · intro e he s hs
    obtain ⟨err, herr⟩ := Option.isSome_iff_exists.mp (hwf e he)
    have herr' : builtError s e = some err := by rw [builtError_same st s e hs]; exact herr
    have hconf : s.conf.hasError = true := by
      obtain ⟨fe, sk, rfl⟩ := hs
      exact hcb
    rw [report_of_built s e err herr']
    simp [hconf]
  · unfold deliveredAll
    by_cases hf : st.firstErr.isSome = true
    · rw [if_pos hf]
      exact reportAll_sink_some st hcb es st ⟨_, _, rfl⟩ hf hwf
    · rw [if_neg hf]
      cases es with
      | nil => simp [reportAll]
      | cons e rest =>
        obtain ⟨err, herr⟩ := Option.isSome_iff_exists.mp (hwf e (List.mem_cons_self _ _))
        have hstep : reportAll st (e :: rest) = reportAll (report st e).st rest := rfl
        have hfo : isFollowOn st e = false := by
          simp only [Bool.not_eq_true] at hf
          simp [isFollowOn, hf]
        have hnone : st.firstErr = none := by
          cases h : st.firstErr with
          | none => rfl
          | some x => simp [h] at hf
        rw [hstep, report_of_built st e err herr]
        simp only [hfo, if_false, Bool.false_eq_true]
        rw [reportAll_sink_some st hcb rest (recorded st err) (sameButErrors_recorded st err)
          (by simp [recorded, hnone]) (fun e' he' => hwf e' (List.mem_cons_of_mem _ he'))]
        simp [recorded, hcb, herr]

theorem report_callback_delivers_kept_witness :
    (reportAll exEmpty [exFirst, exFollowOn, exSecond]).sink
      = [⟨5, "undefined: x", false⟩, ⟨9, "undefined: y", false⟩] :=
  (report_callback_delivers_kept exEmpty [exFirst, exFollowOn, exSecond] rfl (by decide)).2

/-- C14 (counterexample): with an error callback and a first error recorded, the
diagnostic `cannot convert x (invalid operand)` passed to `report` is not handed to
the callback: the list of delivered errors is the same after the call. -/
theorem report_callback_drops_follow_on :
    exRecorded.conf.hasError = true
    ∧ (report exRecorded exFollowOn).out = Outcome.ok ()
    ∧ (report exRecorded exFollowOn).st.sink = exRecorded.sink := by
  decide

/-- What `stringsIndexAux` returns: `-1` when `sub` occurs nowhere, and otherwise the
least index of an occurrence, counted from `k`. -/
theorem stringsIndexAux_spec (sub : List Char) : ∀ (l : List Char) (k : Nat),
    (stringsIndexAux sub l k = -1 ∧ ∀ j, sub.isPrefixOf (l.drop j) = false)
    ∨ ∃ j : Nat, stringsIndexAux sub l k = ((k + j : Nat) : Int)
        ∧ sub.isPrefixOf (l.drop j) = true
        ∧ ∀ j', j' < j → sub.isPrefixOf (l.drop j') = false := by
  intro l
  induction l with
  | nil =>
    intro k
    by_cases hs : sub = []
    · right
      refine ⟨0, ?_, ?_, ?_⟩
      · simp [stringsIndexAux, hs]
      · simp [hs]
      · intro j' hj'; omega
    · left
      refine ⟨by simp [stringsIndexAux, hs], fun j => ?_⟩
      cases sub with
      | nil => exact absurd rfl hs
      | cons a t => simp [List.isPrefixOf]
  | cons c cs ih =>
    intro k
    by_cases hp : sub.isPrefixOf (c :: cs) = true
    · right
      refine ⟨0, ?_, ?_, ?_⟩
      · simp [stringsIndexAux, hp]
      · simpa using hp
      · intro j' hj'; omega
    · have hp' : sub.isPrefixOf (c :: cs) = false := Bool.eq_false_iff.mpr hp
      have hstep : stringsIndexAux sub (c :: cs) k = stringsIndexAux sub cs (k + 1) := by
        simp [stringsIndexAux, hp']
      rcases ih (k + 1) with ⟨h1, h2⟩ | ⟨j, h1, h2, h3⟩
      · left
        refine ⟨by rw [hstep]; exact h1, fun j => ?_⟩
        cases j with
        | zero => simpa using hp'
        | succ j => simpa using h2 j
      · right
        refine ⟨j + 1, ?_, ?_, ?_⟩
        · rw [hstep, h1]
          push_cast
          omega
        · simpa using h2
        · intro j' hj'
          cases j' with
          | zero => simpa using hp'
          | succ j' => simpa using h3 j' (by omega)

/-- The test `strings.Index(s, sub) > 0` holds exactly when the first occurrence of
`sub` in `s` is not at the beginning. -/
theorem stringsIndex_pos_iff (s sub : String) :
    stringsIndex s sub > 0 ↔ firstAfterStart s sub := by
  unfold stringsIndex firstAfterStart occursAt
  rcases stringsIndexAux_spec sub.data s.data 0 with ⟨h1, h2⟩ | ⟨j, h1, h2, h3⟩
  · rw [h1]
    constructor
    · intro h; omega
    · rintro ⟨_, i, _, hi⟩
      rw [h2 i] at hi
      exact absurd hi (by simp)
  · rw [h1]
    constructor
    · intro h
      have hj : 0 < j := by omega
      exact ⟨h3 0 hj, j, hj, h2⟩
    · rintro ⟨h0, _⟩
      have hj : j ≠ 0 := by
        intro hj0
        rw [hj0] at h2
        rw [h2] at h0
        exact absurd h0 (by simp)
      omega

theorem isInvalidErr_iff (msg : String) :
    isInvalidErr msg = true
      ↔ firstAfterStart msg "invalid operand" ∨ firstAfterStart msg "invalid type" := by
  unfold isInvalidErr
  rw [Bool.or_eq_true, decide_eq_true_iff, decide_eq_true_iff, stringsIndex_pos_iff,
    stringsIndex_pos_iff]

/-- C15 (amended): for a diagnostic for which `report` builds an error value,
`report` drops it (it returns normally, the callback has received nothing more and
`firstErr` is as before) if and only if an error has already been recorded and, for
`invalid operand` or for `invalid type`, the first occurrence of the phrase in the
composed message is not at the beginning of the message; when no error is recorded
yet the diagnostic is not dropped but recorded as the first error. -/
theorem report_drops_iff_follow_on (st : Checker) (e : error_) (err : Error) (msg : String)
    (h : builtError st e = some err) (hm : composedMsg st e = some msg) :
    (((report st e).out = Outcome.ok () ∧ (report st e).st.sink = st.sink
        ∧ (report st e).st.firstErr = st.firstErr)
      ↔ (st.firstErr.isSome = true
          ∧ (firstAfterStart msg "invalid operand" ∨ firstAfterStart msg "invalid type")))
    ∧ (st.firstErr = none → (report st e).st.firstErr = some err) := by
  refine ⟨?_, fun hn => report_sets_firstErr st e err hn h⟩
  rw [← isInvalidErr_iff, report_of_built st e err h]
  have hfo : isFollowOn st e = (st.firstErr.isSome && isInvalidErr msg) := by
    simp [isFollowOn, hm]
  by_cases hf : isFollowOn st e = true
  · simp only [hf, if_true, true_and]
    rw [hfo, Bool.and_eq_true] at hf
    exact ⟨fun _ => hf, fun _ => trivial⟩
  · have hf' : isFollowOn st e = false := by simpa using hf
    simp only [hf', if_false, Bool.false_eq_true]
    constructor
    · rintro ⟨h1, h2, _⟩
      by_cases hcb : st.conf.hasError = true
      · simp [recorded, hcb] at h2
      · simp [hcb] at h1
    · rintro ⟨h1, h2⟩
      rw [hfo, h1, h2] at hf'
      exact absurd hf' (by simp)

theorem report_drops_iff_follow_on_witness :
    (report exRecorded exFollowOn).out = Outcome.ok ()
      ∧ (report exRecorded exFollowOn).st.sink = exRecorded.sink
      ∧ (report exRecorded exFollowOn).st.firstErr = exRecorded.firstErr :=
  (report_drops_iff_follow_on exRecorded exFollowOn
    ⟨9, "cannot convert x (invalid operand)", false⟩ "cannot convert x (invalid operand)"
    (by decide) (by decide)).1.2
    ⟨by decide, Or.inl ⟨by decide, 18, by decide, by decide⟩⟩

/-- C15 (counterexample): an error is recorded and the composed message
`invalid type T in conversion to invalid type U` contains `invalid type` at index 32,
which is greater than 0, yet `report` does not drop the diagnostic: it hands it to
the callback. -/
theorem report_keeps_message_with_phrase_at_start :
    exRecorded.firstErr.isSome = true
    ∧ composedMsg exRecorded exRepeated
        = some "invalid type T in conversion to invalid type U"
    ∧ (0 < 32 ∧ occursAt "invalid type T in conversion to invalid type U" "invalid type" 32 = true)
    ∧ (report exRecorded exRepeated).st.sink
        = exRecorded.sink ++ [⟨9, "invalid type T in conversion to invalid type U", false⟩] := by
  decide

/-- C16: for two checker states that differ only in whether the error callback is
set, both without a recorded error, the error value that `report` records in
`firstErr` for a diagnostic is the same in both, it is the value handed to the
callback in the state with a callback, and without a callback the call ends with the
bailout. -/
theorem report_same_error_in_both_modes (a b : Checker) (e : error_) (err : Error)
    (ha : a.conf.hasError = true)
    (hb : b = { a with conf := { a.conf with hasError := false } })
    (hn : a.firstErr = none) (h : builtError a e = some err) :
    (report a e).st.firstErr = some err
    ∧ (report b e).st.firstErr = some err
    ∧ (report a e).st.sink = a.sink ++ [err]
    ∧ (report a e).out = Outcome.ok ()
    ∧ (report b e).out = Outcome.bailout
    ∧ (report b e).st.sink = b.sink := by
  have hbuilt : builtError b e = some err := by rw [hb]; exact h
  have hnb : b.firstErr = none := by rw [hb]; exact hn
  have hcb : b.conf.hasError = false := by rw [hb]
  have hfa : isFollowOn a e = false := by simp [isFollowOn, hn]
  have hfb : isFollowOn b e = false := by simp [isFollowOn, hnb]
  refine ⟨report_sets_firstErr a e err hn h, report_sets_firstErr b e err hnb hbuilt, ?_, ?_, ?_, ?_⟩
  · rw [report_of_built a e err h]; simp [hfa, recorded, ha]
  · rw [report_of_built a e err h]; simp [hfa, ha]
  · rw [report_of_built b e err hbuilt]; simp [hfb, hcb]
  · rw [report_of_built b e err hbuilt]; simp [hfb, recorded, hcb]

theorem report_same_error_in_both_modes_witness :
    (report exEmpty exFirst).st.firstErr = some ⟨5, "undefined: x", false⟩
    ∧ (report { exEmpty with conf := { exEmpty.conf with hasError := false } } exFirst).st.firstErr
        = some ⟨5, "undefined: x", false⟩ :=
  have h := report_same_error_in_both_modes exEmpty
    { exEmpty with conf := { exEmpty.conf with hasError := false } } exFirst
    ⟨5, "undefined: x", false⟩ rfl rfl rfl (by decide)
  ⟨h.1, h.2.1⟩

theorem Keeps_ret {α : Type} (R : Checker → Checker → Prop) (st s : Checker) (a : α)
    (h : R st s) : Keeps R st (Res.ret s a) :=
  ⟨h, fun m hm => absurd hm (List.not_mem_nil m)⟩

theorem Keeps_fail {α : Type} (R : Checker → Checker → Prop) (st s : Checker) (msg : String)
    (h : R st s) : Keeps R st (Res.fail s msg : Res α) :=
  ⟨h, fun m hm => absurd hm (List.not_mem_nil m)⟩

theorem Keeps_mono {α : Type} (R : Checker → Checker → Prop)
    (htrans : ∀ a b c, R a b → R b c → R a c) (a b : Checker) (r : Res α) (hab : R a b)
    (h : Keeps R b r) : Keeps R a r :=
  ⟨htrans _ _ _ hab h.1, fun m hm => htrans _ _ _ hab (h.2 m hm)⟩

theorem Keeps_bind {α β : Type} (R : Checker → Checker → Prop)
    (htrans : ∀ a b c, R a b → R b c → R a c) (st : Checker) (r : Res α)
    (k : α → Checker → Res β) (hr : Keeps R st r) (hk : ∀ a, Keeps R r.st (k a r.st)) :
    Keeps R st (r.bind k) := by
  unfold Res.bind
  cases hout : r.out with
  | ok a =>
    have h2 := Keeps_mono R htrans st r.st _ hr.1 (hk a)
    refine ⟨h2.1, ?_⟩
    intro m hm
    rcases List.mem_append.mp hm with h | h
    · exact hr.2 m h
    · exact h2.2 m h
  | bailout => exact hr
  | panic msg => exact hr

theorem Keeps_after {α : Type} (R : Checker → Checker → Prop) (st : Checker) (r : Res α)
    (ms : List Moment) (hms : ∀ m ∈ ms, R st m.st) (hr : Keeps R st r) :
    Keeps R st (Res.after ms r) := by
  refine ⟨hr.1, ?_⟩
  intro m hm
  rcases List.mem_append.mp hm with h | h
  · exact hms m h
  · exact hr.2 m h

theorem Keeps_deferred {α : Type} (R : Checker → Checker → Prop)
    (htrans : ∀ a b c, R a b → R b c → R a c) (st : Checker) (r : Res α)
    (d : Checker → Res Unit) (hr : Keeps R st r) (hd : Keeps R r.st (d r.st)) :
    Keeps R st (r.deferred d) := by
  have h2 := Keeps_mono R htrans st r.st _ hr.1 hd
  refine ⟨h2.1, ?_⟩
  intro m hm
  rcases List.mem_append.mp hm with h | h
  · exact hr.2 m h
  · exact h2.2 m h

/-- The state after `report` differs from the state before at most in the errors
recorded. -/
theorem report_sameButErrors (st : Checker) (e : error_) : sameButErrors st (report st e).st := by
  unfold report
  simp only [Res.after, Res.fail, Res.ret]
  split
  · exact sameButErrors_refl st
  · split
    · exact sameButErrors_refl st
    · split
      · exact sameButErrors_refl st
      · split
        · exact sameButErrors_refl st
        · split
          · exact sameButErrors_refl st
          · split
            · exact ⟨_, _, rfl⟩
            · exact ⟨_, _, rfl⟩

theorem Keeps_report (R : Checker → Checker → Prop) (hR : CycleStable R) (st : Checker)
    (e : error_) : Keeps R st (report st e) := by
  refine ⟨hR.errors _ _ (report_sameButErrors st e), ?_⟩
  intro m hm
  rw [report_trace, List.mem_singleton] at hm
  subst hm
  exact hR.refl st

theorem Keeps_errorf (R : Checker → Checker → Prop) (hR : CycleStable R) (st : Checker)
    (p : positioner) (c : Code) (t : String) : Keeps R st (errorf st p c t) :=
  Keeps_report R hR st _

theorem Keeps_cycleErrorLoop (R : Checker → Checker → Prop) (hR : CycleStable R)
    (cycle : List ObjId) :
    ∀ n st i obj name, Keeps R st (cycleErrorLoop cycle n st i obj name) := by
  intro n
  induction n with
  | zero => intro st i obj name; exact Keeps_ret R st st (obj, name) (hR.refl st)
  | succ n ih =>
    intro st i obj name
    rw [cycleErrorLoop]
    apply Keeps_bind R hR.trans st _ _ (Keeps_errorf R hR st _ _ _)
    intro _
    simp only
    split
    · exact Keeps_fail R _ _ _ (hR.refl _)
    · exact ih _ _ _ _

theorem Keeps_cycleError_core (R : Checker → Checker → Prop) (hR : CycleStable R)
    (st st1 : Checker) (h : R st st1) (cycle : List ObjId)
    (i : Nat) (obj : ObjId) (name0 : String) (isT : Bool) :
    Keeps R st
      (if cycle.length = 1 then
        if isT then
          errorf st1 (positioner.object (st1.objs obj).pos) Code.InvalidDeclCycle
            ("invalid recursive type: " ++ name0 ++ " refers to itself")
        else
          errorf st1 (positioner.object (st1.objs obj).pos) Code.InvalidDeclCycle
            ("invalid cycle in declaration: " ++ name0 ++ " refers to itself")
      else
        (if isT then
          errorf st1 (positioner.object (st1.objs obj).pos) Code.InvalidDeclCycle
            ("invalid recursive type " ++ name0)
        else
          errorf st1 (positioner.object (st1.objs obj).pos) Code.InvalidDeclCycle
            ("invalid cycle in declaration of " ++ name0)).bind
        fun _ st2 =>
          (cycleErrorLoop cycle cycle.length st2 i obj name0).bind fun last st3 =>
            errorf st3 (positioner.object (st3.objs last.1).pos) Code.InvalidDeclCycle
              ("\t" ++ last.2)) := by
  apply Keeps_mono R hR.trans st st1 _ h
  split
  · split
    · exact Keeps_errorf R hR _ _ _ _
    · exact Keeps_errorf R hR _ _ _ _
  · apply Keeps_bind R hR.trans
    · split
      · exact Keeps_errorf R hR _ _ _ _
      · exact Keeps_errorf R hR _ _ _ _
    · intro _
      apply Keeps_bind R hR.trans _ _ _ (Keeps_cycleErrorLoop R hR _ _ _ _ _ _)
      intro _
      exact Keeps_errorf R hR _ _ _ _

theorem Keeps_cycleError (R : Checker → Checker → Prop) (hR : CycleStable R) (st : Checker)
    (cycle : List ObjId) : Keeps R st (cycleError st cycle) := by
  unfold cycleError
  split
  · exact Keeps_fail R st st _ (hR.refl st)
  · split
    · exact Keeps_fail R st st _ (hR.refl st)
    · rename_i _ i _ _ obj _
      have hst1 : R st (if (decide ((st.objs obj).kind = ObjKind.TypeName)
            && TypeName_IsAlias obj (st.objs obj)) = true
          then validAlias st obj Typ_Invalid else st) := by
        split
        · rename_i hc
          rw [Bool.and_eq_true, decide_eq_true_iff] at hc
          exact hR.validAlias st obj hc.1
        · exact hR.refl st
      exact Keeps_cycleError_core R hR st _ hst1 cycle i obj _ _

theorem Keeps_validCycle (R : Checker → Checker → Prop) (hR : CycleStable R) (st : Checker)
    (obj : ObjId) : Keeps R st (validCycle st obj) := by
  unfold validCycle
  apply Keeps_after R st _ _ (by
    intro m hm
    rw [List.mem_singleton] at hm
    subst hm
    exact hR.refl st)
  split
  · exact Keeps_fail R st st _ (hR.refl st)
  · simp only
    split
    · exact Keeps_fail R st st _ (hR.refl st)
    · split
      · exact Keeps_fail R st st _ (hR.refl st)
      · split
        · exact Keeps_ret R st st _ (hR.refl st)
        · split
          · exact Keeps_ret R st st _ (hR.refl st)
          · apply Keeps_bind R hR.trans st _ _ (Keeps_cycleError R hR st _)
            intro _
            exact Keeps_ret R _ _ _ (hR.refl _)

theorem CycleStable_sameValues : CycleStable sameValues where
  refl := fun a o _ => rfl
  trans := fun a b c h1 h2 o ho => by
    have hb := h1 o ho
    rw [h2 o (by rw [hb]; exact ho), hb]
  errors := fun a b h o _ => by
    obtain ⟨fe, sk, rfl⟩ := h
    rfl
  validAlias := fun a o hk x hx => by
    have hne : x ≠ o := by
      intro hxo
      rw [hxo] at hx
      exact hx hk
    simp [validAlias, TypeName_setTyp, Object_setTyp, Function.update_noteq hne]

theorem objDeclBody_grey (call : Checker → ObjId → Option (Res Unit)) (s : Checker) (obj : ObjId)
    (hg : Grey ≤ Object_color s obj) : objDeclBody call s obj = some (objDeclGrey s obj) := by
  have h0 : ¬ Object_color s obj = White := by
    intro h
    rw [h] at hg
    exact absurd hg (by decide)
  have h1 : ¬ Object_color s obj = Black := by
    intro h
    rw [h] at hg
    exact absurd hg (by decide)
  unfold objDeclBody
  rw [if_neg (fun h => h0 h.1), if_neg h0, if_neg h1]

theorem assertTyp_st (s : Checker) (obj : ObjId) :
    (if (s.objs obj).typ.isNone = true
      then (⟨Outcome.panic "assertion failed", s, [⟨Label.step, s⟩]⟩ : Res Unit)
      else ⟨Outcome.ok (), s, [⟨Label.step, s⟩]⟩).st = s := by
  split <;> rfl

/-- The grey case of `objDecl` when `validCycle` returns false: a constant, a variable
and a type name get the invalid type, a function keeps its type. -/
theorem objDeclGrey_rejected (s : Checker) (obj : ObjId)
    (hrej : (validCycle s obj).out = Outcome.ok false) :
    (((s.objs obj).kind = ObjKind.Const ∨ (s.objs obj).kind = ObjKind.Var
        ∨ (s.objs obj).kind = ObjKind.TypeName) →
      ((objDeclGrey s obj).st.objs obj).typ = some Typ_Invalid)
    ∧ ((s.objs obj).kind = ObjKind.Func →
        ((objDeclGrey s obj).st.objs obj).typ = (s.objs obj).typ) := by
  have hval := (Keeps_validCycle sameValues CycleStable_sameValues s obj).1
  unfold objDeclGrey
  cases hk : (s.objs obj).kind with
  | Const =>
    refine ⟨fun _ => ?_, fun h => by cases h⟩
    simp only [Res.bind_ok _ _ false hrej, Bool.not_false, Bool.true_or, if_true]
    rw [assertTyp_st]
    simp [Const_setTyp, Object_setTyp]
  | Var =>
    refine ⟨fun _ => ?_, fun h => by cases h⟩
    simp only [Res.bind_ok _ _ false hrej, Bool.not_false, Bool.true_or, if_true]
    rw [assertTyp_st]
    simp [Var_setTyp, Object_setTyp]
  | TypeName =>
    refine ⟨fun _ => ?_, fun h => by cases h⟩
    simp only [Res.bind_ok _ _ false hrej, Bool.not_false, if_true]
    rw [assertTyp_st]
    simp [TypeName_setTyp, Object_setTyp]
  | Func =>
    refine ⟨fun h => (by rcases h with h | h | h <;> cases h), fun _ => ?_⟩
    simp only [Res.bind_ok _ _ false hrej]
    rw [assertTyp_st, hval obj (by rw [hk]; decide)]
  | Other =>
    exact ⟨fun h => (by rcases h with h | h | h <;> cases h), fun h => (by cases h)⟩

/-- The grey case of `objDecl` when `validCycle`, called in the state in which
`objDecl` reaches it, returns false. -/
theorem objDecl_grey_of_rejected (fuel : Nat) (st : Checker) (obj : ObjId)
    (hg : Grey ≤ Object_color st obj)
    (hrej : (validCycle (objDeclEntry st obj) obj).out = Outcome.ok false) :
    ∃ r, objDecl (fuel + 1) st obj = some r
      ∧ (((st.objs obj).kind = ObjKind.Const ∨ (st.objs obj).kind = ObjKind.Var
            ∨ (st.objs obj).kind = ObjKind.TypeName) →
          (r.st.objs obj).typ = some Typ_Invalid)
      ∧ ((st.objs obj).kind = ObjKind.Func → (r.st.objs obj).typ = (st.objs obj).typ)
      ∧ Object_color r.st obj = Object_color st obj ∧ r.st.objPath = st.objPath
      ∧ ∀ m ∈ r.trace, Object_color m.st obj = Object_color st obj
          ∧ m.st.objPath = st.objPath := by
  have key : ∀ s0 : Checker, s0.objs = st.objs → s0.objPath = st.objPath →
      (validCycle s0 obj).out = Outcome.ok false →
      (((st.objs obj).kind = ObjKind.Const ∨ (st.objs obj).kind = ObjKind.Var
            ∨ (st.objs obj).kind = ObjKind.TypeName) →
          ((objDeclGrey s0 obj).st.objs obj).typ = some Typ_Invalid)
      ∧ ((st.objs obj).kind = ObjKind.Func →
          ((objDeclGrey s0 obj).st.objs obj).typ = (st.objs obj).typ)
      ∧ Object_color (objDeclGrey s0 obj).st obj = Object_color st obj
      ∧ (objDeclGrey s0 obj).st.objPath = st.objPath
      ∧ ∀ m ∈ (objDeclGrey s0 obj).trace, Object_color m.st obj = Object_color st obj
          ∧ m.st.objPath = st.objPath := by
    intro s0 ho hp hr
    have hfr := Frame_objDeclGrey s0 obj
    have hty := objDeclGrey_rejected s0 obj hr
    have hc : Object_color s0 obj = Object_color st obj := by
      unfold Object_color
      rw [ho]
    rw [ho] at hty
    refine ⟨hty.1, hty.2, ?_, ?_, ?_⟩
    · rw [hfr.1.2.2.2 obj, hc]
    · rw [hfr.1.1, hp]
    · intro m hm
      rw [(hfr.2 m hm).1.2.2.2 obj, (hfr.2 m hm).1.1, hc, hp]
      exact ⟨rfl, rfl⟩
  rw [objDecl]
  simp only
  unfold objDeclEntry at hrej
  by_cases ht : (st.conf._Trace && (st.objs obj).typ.isNone) = true
  · rw [if_pos ht] at hrej
    rw [if_pos ht, objDeclBody_grey _ { st with indent := st.indent + 1 } obj hg]
    simp only [Option.map_some']
    obtain ⟨k1, k2, k3, k4, k5⟩ := key { st with indent := st.indent + 1 } rfl rfl hrej
    refine ⟨_, rfl, k1, k2, k3, k4, ?_⟩
    intro m hm
    have hm' : m ∈ (objDeclGrey { st with indent := st.indent + 1 } obj).trace := by
      simpa [Res.deferred, Res.ret] using hm
    exact k5 m hm'
  · rw [if_neg ht] at hrej
    rw [if_neg ht, objDeclBody_grey _ _ obj hg]
    obtain ⟨k1, k2, k3, k4, k5⟩ := key st rfl rfl hrej
    exact ⟨_, rfl, k1, k2, k3, k4, k5⟩

/-- With an error callback `validCycle`, called in the state in which `objDecl`
reaches it, returns false for a cycle that it does not accept. -/
theorem validCycle_entry_rejects (st : Checker) (obj : ObjId)
    (hg : Grey ≤ Object_color st obj) (hs : Object_color st obj - Grey ≤ st.objPath.length)
    (hwf : wellFormedCycle st (cycleOf st obj))
    (hacc : acceptsCycle st (cycleOf st obj) = false) (hcb : st.conf.hasError = true) :
    (validCycle (objDeclEntry st obj) obj).out = Outcome.ok false := by
  have hne : cycleOf st obj ≠ [] := by
    intro h
    rw [h] at hacc
    simp [acceptsCycle, throughTParamList] at hacc
  have hi : ∃ i, objDeclEntry st obj = { st with indent := i } := by
    unfold objDeclEntry
    split
    · exact ⟨_, rfl⟩
    · exact ⟨st.indent, rfl⟩
  obtain ⟨i, hi⟩ := hi
  rw [hi]
  exact (validCycle_rejects { st with indent := i } obj hg hs hwf hne hacc).2.1 hcb

/-- C11 (amended): when `objDecl` is called on a grey object whose cycle `validCycle`
does not accept, and an error callback is configured, `objDecl` returns a result in
which the type of a constant, a variable or a type name is the invalid type and the
type of a function is what it was; the colour of the object and the object path are
the same at the end and at every observation point of the call. -/
theorem objDecl_grey_rejected_cycle (fuel : Nat) (st : Checker) (obj : ObjId)
    (hg : Grey ≤ Object_color st obj) (hs : Object_color st obj - Grey ≤ st.objPath.length)
    (hwf : wellFormedCycle st (cycleOf st obj))
    (hacc : acceptsCycle st (cycleOf st obj) = false) (hcb : st.conf.hasError = true) :
    ∃ r, objDecl (fuel + 1) st obj = some r
      ∧ (((st.objs obj).kind = ObjKind.Const ∨ (st.objs obj).kind = ObjKind.Var
            ∨ (st.objs obj).kind = ObjKind.TypeName) →
          (r.st.objs obj).typ = some Typ_Invalid)
      ∧ ((st.objs obj).kind = ObjKind.Func → (r.st.objs obj).typ = (st.objs obj).typ)
      ∧ Object_color r.st obj = Object_color st obj ∧ r.st.objPath = st.objPath
      ∧ ∀ m ∈ r.trace, Object_color m.st obj = Object_color st obj
          ∧ m.st.objPath = st.objPath :=
  objDecl_grey_of_rejected fuel st obj hg (validCycle_entry_rejects st obj hg hs hwf hacc hcb)

theorem objDecl_grey_rejected_cycle_witness :
    ∃ r, objDecl 1 exAliasCycle 0 = some r
      ∧ (r.st.objs 0).typ = some Typ_Invalid
      ∧ Object_color r.st 0 = 2 ∧ r.st.objPath = [0, 1] := by
  obtain ⟨r, h1, h2, _, h4, h5, _⟩ :=
    objDecl_grey_rejected_cycle 0 exAliasCycle 0 (by decide) (by decide)
      (by
        intro o ho
        have ho2 : o = 0 ∨ o = 1 := by simpa [cycleOf, exAliasCycle, Object_color, exChecker,
          exObj, Grey] using ho
        rcases ho2 with rfl | rfl
        · exact ⟨by decide, fun _ d hd => by
            have h0 : exAliasCycle.decl? 0 = some ⟨some 1, some ⟨15⟩, [Act.use 1]⟩ := rfl
            rw [h0] at hd
            cases hd
            decide⟩
        · exact ⟨by decide, fun _ d hd => by
            have h1 : exAliasCycle.decl? 1 = some ⟨some 1, some ⟨25⟩, [Act.use 0]⟩ := rfl
            rw [h1] at hd
            cases hd
            decide⟩)
      (by decide) (by decide)
  exact ⟨r, h1, h2 (Or.inr (Or.inr rfl)), h4, h5⟩

/-- C11 (counterexample): without an error callback, `objDecl` for the grey type
name `A` of the cycle `A`, `B` of alias declarations, which `validCycle` rejects,
ends in the bailout of the cycle diagnostic: the type of `A` is still nil, not the
invalid type. -/
theorem objDecl_grey_rejected_bails_out :
    exAliasCycleBailout.conf.hasError = false
    ∧ Object_color exAliasCycleBailout 0 = Grey
    ∧ (exAliasCycleBailout.objs 0).kind = ObjKind.TypeName
    ∧ acceptsCycle exAliasCycleBailout (cycleOf exAliasCycleBailout 0) = false
    ∧ (objDecl 1 exAliasCycleBailout 0).map (fun r => (r.out, (r.st.objs 0).typ))
      = some (Outcome.bailout, none) := by
  decide

theorem firstReport_append (t1 t2 : List Moment) :
    firstReport (t1 ++ t2) = (firstReport t1).orElse fun _ => firstReport t2 := by
  induction t1 with
  | nil => rfl
  | cons m ms ih =>
    simp only [List.cons_append, firstReport]
    split
    · rfl
    · exact ih

theorem firstReport_eq_none_iff (t : List Moment) : firstReport t = none ↔ reportsOf t = [] := by
  induction t with
  | nil => simp [firstReport, reportsOf]
  | cons m ms ih =>
    obtain ⟨l, s⟩ := m
    unfold reportsOf at ih ⊢
    cases l <;> simp [firstReport, List.filterMap_cons, ih]

theorem FirstErrSound_ret {α : Type} (st s : Checker) (a : α) (h : s.firstErr = st.firstErr) :
    FirstErrSound st (Res.ret s a) := by
  refine ⟨fun x hx => by rw [← hx]; exact h, fun hn => ?_⟩
  show s.firstErr = none
  rw [h, hn]

theorem FirstErrSound_report (st : Checker) (e : error_) : FirstErrSound st (report st e) := by
  refine ⟨fun x hx => report_keeps_firstErr st e x hx, fun hn => ?_⟩
  unfold FirstErrOf
  rw [report_trace]
  simp only [firstReport]
  cases hb : builtError st e with
  | some err => exact report_sets_firstErr st e err hn hb
  | none =>
    simp only
    unfold builtError composedMsg at hb
    unfold report
    simp only [Res.after, Res.fail]
    cases hd : e.desc with
    | nil => exact ⟨_, rfl⟩
    | cons d0 ds =>
      simp only [hd] at hb ⊢
      cases hm : e.msg st.fsetPosition with
      | none => exact ⟨_, rfl⟩
      | some msg0 =>
        simp only [hm, Option.map_some'] at hb ⊢
        by_cases hc : e.code = Code.noCode
        · rw [if_pos hc]; exact ⟨_, rfl⟩
        · rw [if_neg hc] at hb ⊢
          cases hs : spanOf d0.posn with
          | none => exact ⟨_, rfl⟩
          | some span => simp [hs] at hb

theorem FirstErrSound_bind {α β : Type} (st : Checker) (r : Res α) (k : α → Checker → Res β)
    (hr : FirstErrSound st r) (hk : ∀ a, FirstErrSound r.st (k a r.st)) :
    FirstErrSound st (r.bind k) := by
  unfold Res.bind
  cases hout : r.out with
  | ok a =>
    refine ⟨fun x hx => (hk a).1 x (hr.1 x hx), fun hn => ?_⟩
    have h1 := hr.2 hn
    unfold FirstErrOf at h1 ⊢
    simp only [firstReport_append]
    cases hf : firstReport r.trace with
    | none =>
      rw [hf] at h1
      simp only [Option.orElse]
      exact (hk a).2 h1
    | some p =>
      obtain ⟨e, s⟩ := p
      rw [hf] at h1
      simp only [Option.orElse] at h1 ⊢
      cases hb : builtError s e with
      | some err =>
        rw [hb] at h1
        exact (hk a).1 err h1
      | none =>
        rw [hb] at h1
        obtain ⟨msg, hmsg⟩ := h1
        rw [hout] at hmsg
        cases hmsg
  | bailout =>
    refine ⟨hr.1, fun hn => ?_⟩
    have h1 := hr.2 hn
    unfold FirstErrOf at h1 ⊢
    simp only
    cases hf : firstReport r.trace with
    | none => rw [hf] at h1; exact h1
    | some p =>
      obtain ⟨e, s⟩ := p
      rw [hf] at h1
      simp only at h1 ⊢
      cases hb : builtError s e with
      | some err => rw [hb] at h1; exact h1
      | none =>
        rw [hb] at h1
        obtain ⟨msg, hmsg⟩ := h1
        rw [hout] at hmsg
        cases hmsg
  | panic m =>
    refine ⟨hr.1, fun hn => ?_⟩
    have h1 := hr.2 hn
    unfold FirstErrOf at h1 ⊢
    simp only
    cases hf : firstReport r.trace with
    | none => rw [hf] at h1; exact h1
    | some p =>
      obtain ⟨e, s⟩ := p
      rw [hf] at h1
      simp only at h1 ⊢
      cases hb : builtError s e with
      | some err => rw [hb] at h1; exact h1
      | none => exact ⟨m, rfl⟩

theorem FirstErrSound_enterPhase (name : String) (f : Checker → Res Unit) (st s : Checker)
    (h : FirstErrSound st (f s)) : FirstErrSound st (enterPhase name f s) := by
  refine ⟨h.1, fun hn => ?_⟩
  have h1 := h.2 hn
  unfold FirstErrOf at h1 ⊢
  exact h1

theorem FirstErrSound_mono {α : Type} (a b : Checker) (r : Res α) (hab : b.firstErr = a.firstErr)
    (h : FirstErrSound b r) : FirstErrSound a r :=
  ⟨fun x hx => h.1 x (by rw [hab]; exact hx), fun hn => h.2 (by rw [hab]; exact hn)⟩

theorem FirstErrSound_initFilesLoop :
    ∀ (files : List File) (st : Checker), FirstErrSound st (initFilesLoop st files) := by
  intro files
  induction files with
  | nil => intro st; exact FirstErrSound_ret st st () rfl
  | cons file rest ih =>
    intro st
    rw [initFilesLoop]
    simp only
    split
    · apply FirstErrSound_bind
      · split
        · exact FirstErrSound_ret st _ () rfl
        · exact FirstErrSound_report st _
      · intro _
        refine FirstErrSound_mono _ _ _ ?_ (ih _)
        rfl
    · split
      · refine FirstErrSound_mono _ _ _ ?_ (ih _)
        rfl
      · apply FirstErrSound_bind
        · exact FirstErrSound_report st _
        · intro _
          exact ih _

theorem FirstErrSound_ite {α : Type} (c : Prop) [Decidable c] (st : Checker) (a b : Res α)
    (ha : FirstErrSound st a) (hb : FirstErrSound st b) :
    FirstErrSound st (if c then a else b) := by
  split
  · exact ha
  · exact hb

theorem FirstErrSound_checkFilesBody (ph : Phases) (hph : ReportsOnly ph) (st : Checker)
    (files : List File) :
    FirstErrSound
      { st with files := [], firstErr := none, methods := [], delayed := [], objPath := [] }
      (checkFilesBody ph st files) := by
  obtain ⟨h1, h2, h3, h4, h5, h6, h7, h8⟩ := hph
  unfold checkFilesBody
  apply FirstErrSound_bind _ _ _
    (FirstErrSound_enterPhase _ _ _ _ (FirstErrSound_initFilesLoop files _))
  intro _
  apply FirstErrSound_bind _ _ _ (FirstErrSound_enterPhase _ _ _ _ (h1 _))
  intro _
  apply FirstErrSound_bind _ _ _ (FirstErrSound_enterPhase _ _ _ _ (h2 _))
  intro _
  apply FirstErrSound_bind _ _ _ (FirstErrSound_enterPhase _ _ _ _ (h3 0 _))
  intro _
  apply FirstErrSound_bind _ _ _ (FirstErrSound_enterPhase _ _ _ _ (h4 _))
  intro _
  apply FirstErrSound_bind _ _ _ (FirstErrSound_enterPhase _ _ _ _ (h5 _))
  intro _
  apply FirstErrSound_bind _ _ _ (FirstErrSound_ite _ _ _ _
    (FirstErrSound_enterPhase _ _ _ _ (h6 _)) (FirstErrSound_ret _ _ () rfl))
  intro _
  apply FirstErrSound_bind _ _ _ (FirstErrSound_enterPhase _ _ _ _ (h7 _))
  intro _
  apply FirstErrSound_bind _ _ _ (FirstErrSound_ite _ _ _ _
    (FirstErrSound_enterPhase _ _ _ _ (h8 _)) (FirstErrSound_ret _ _ () rfl))
  intro _
  exact FirstErrSound_ret _ _ () rfl

theorem checkFiles_eq (ph : Phases) (st : Checker) (files : List File) (hpkg : st.pkg.ptr ≠ Unsafe.ptr)
    (hcgo : (st.conf.FakeImportC && st.conf.go115UsesCgo) = false) :
    checkFiles ph st files = handleBailout (checkFilesBody ph st files) := by
  unfold checkFiles
  rw [if_neg hpkg, if_neg (by rw [hcgo]; simp)]

theorem handleBailout_fields (r : Res Unit) :
    (handleBailout r).st = r.st ∧ (handleBailout r).trace = r.trace := by
  unfold handleBailout
  cases r.out <;> exact ⟨rfl, rfl⟩

theorem ReportsOnly_exPhases : ReportsOnly exPhases :=
  ⟨fun s => FirstErrSound_ret s s () rfl, fun s => FirstErrSound_report s _,
   fun _ s => FirstErrSound_ret s s () rfl, fun s => FirstErrSound_ret s s () rfl,
   fun s => FirstErrSound_ret s s () rfl, fun s => FirstErrSound_ret s s () rfl,
   fun s => FirstErrSound_ret s s () rfl, fun s => FirstErrSound_ret s s () rfl⟩

/-- C13: without an error callback, a call of `report` from a state without a
recorded error, for a diagnostic for which it builds an error value, records that
value in `firstErr` and ends in the bailout, so that a continuation sequenced after
it does not run. When the body of `checkFiles` is left by the bailout, `checkFiles`
returns normally with the value of `firstErr`; when its phases write `firstErr` only
through `report` and it does not end in a panic, that value is the error built for
the first diagnostic reported since `initFiles`; it returns nil only if `report` was
not called; a panic other than the bailout goes on through `checkFiles`. -/
theorem checkFiles_returns_first_error (ph : Phases) (st : Checker) (files : List File)
    (hph : ReportsOnly ph) :
    (∀ (s : Checker) (e : error_) (err : Error) (k : Unit → Checker → Res Unit),
        s.conf.hasError = false → s.firstErr = none → builtError s e = some err →
        (report s e).out = Outcome.bailout ∧ (report s e).st.firstErr = some err
          ∧ (report s e).bind k = ⟨Outcome.bailout, (report s e).st, (report s e).trace⟩)
    ∧ (st.pkg.ptr ≠ Unsafe.ptr → (st.conf.FakeImportC && st.conf.go115UsesCgo) = false →
        (checkFilesBody ph st files).out = Outcome.bailout →
        (checkFiles ph st files).out
          = Outcome.ok ((checkFilesBody ph st files).st.firstErr.map CheckError.first))
    ∧ (∀ e s err, firstReport (checkFiles ph st files).trace = some (e, s) →
        builtError s e = some err → (∀ msg, (checkFiles ph st files).out ≠ Outcome.panic msg) →
        (checkFiles ph st files).out = Outcome.ok (some (CheckError.first err)))
    ∧ ((checkFiles ph st files).out = Outcome.ok none →
        reportsOf (checkFiles ph st files).trace = [])
    ∧ (st.pkg.ptr ≠ Unsafe.ptr → (st.conf.FakeImportC && st.conf.go115UsesCgo) = false →
        ∀ msg, (checkFilesBody ph st files).out = Outcome.panic msg →
          (checkFiles ph st files).out = Outcome.panic msg) := by
  have hbody : FirstErrOf (checkFilesBody ph st files) :=
    (FirstErrSound_checkFilesBody ph hph st files).2 rfl
  refine ⟨?_, ?_, ?_, ?_, ?_⟩
  · intro s e err k hcb hn hb
    have hfo : isFollowOn s e = false := by simp [isFollowOn, hn]
    have hout : (report s e).out = Outcome.bailout := by
      rw [report_of_built s e err hb]; simp [hfo, hcb]
    exact ⟨hout, report_sets_firstErr s e err hn hb, Res.bind_bailout _ _ hout⟩
  · intro hpkg hcgo hout
    rw [checkFiles_eq ph st files hpkg hcgo]
    unfold handleBailout
    rw [hout]
  · intro e s err hfr hb hnp
    by_cases hpkg : st.pkg.ptr = Unsafe.ptr
    · simp [checkFiles, hpkg, Res.ret, firstReport] at hfr
    · by_cases hcgo : (st.conf.FakeImportC && st.conf.go115UsesCgo) = true
      · simp only [checkFiles, if_neg hpkg, hcgo, if_true, Res.ret, firstReport] at hfr
        cases hfr
      · have hcgo' : (st.conf.FakeImportC && st.conf.go115UsesCgo) = false := by
          simpa using hcgo
        rw [checkFiles_eq ph st files hpkg hcgo'] at hfr hnp ⊢
        rw [(handleBailout_fields _).2] at hfr
        unfold FirstErrOf at hbody
        rw [hfr] at hbody
        simp only [hb] at hbody
        unfold handleBailout at hnp ⊢
        cases hout : (checkFilesBody ph st files).out with
        | ok a => simp only [hbody, Option.map_some']
        | bailout => simp only [hbody, Option.map_some']
        | panic m =>
          rw [hout] at hnp
          exact absurd rfl (hnp m)
  · intro hnil
    by_cases hpkg : st.pkg.ptr = Unsafe.ptr
    · simp [checkFiles, hpkg, Res.ret, reportsOf]
    · by_cases hcgo : (st.conf.FakeImportC && st.conf.go115UsesCgo) = true
      · simp [checkFiles, if_neg hpkg, hcgo, Res.ret] at hnil
      · have hcgo' : (st.conf.FakeImportC && st.conf.go115UsesCgo) = false := by
          simpa using hcgo
        rw [checkFiles_eq ph st files hpkg hcgo'] at hnil ⊢
        rw [(handleBailout_fields _).2, ← firstReport_eq_none_iff]
        have hfe : (checkFilesBody ph st files).st.firstErr = none := by
          unfold handleBailout at hnil
          cases hout : (checkFilesBody ph st files).out with
          | ok a =>
            rw [hout] at hnil
            simp only [Outcome.ok.injEq, Option.map_eq_none'] at hnil
            exact hnil
          | bailout =>
            rw [hout] at hnil
            simp only [Outcome.ok.injEq, Option.map_eq_none'] at hnil
            exact hnil
          | panic m =>
            rw [hout] at hnil
            cases hnil
        have hnp : ∀ msg, (checkFilesBody ph st files).out ≠ Outcome.panic msg := by
          intro msg hmsg
          unfold handleBailout at hnil
          rw [hmsg] at hnil
          cases hnil
        unfold FirstErrOf at hbody
        cases hf : firstReport (checkFilesBody ph st files).trace with
        | none => rfl
        | some p =>
          obtain ⟨e, s⟩ := p
          rw [hf] at hbody
          simp only at hbody
          cases hb : builtError s e with
          | some err =>
            rw [hb] at hbody
            rw [hfe] at hbody
            cases hbody
          | none =>
            rw [hb] at hbody
            obtain ⟨msg, hmsg⟩ := hbody
            exact absurd hmsg (hnp msg)
  · intro hpkg hcgo msg hout
    rw [checkFiles_eq ph st files hpkg hcgo]
    unfold handleBailout
    rw [hout]

theorem checkFiles_returns_first_error_witness :
    (checkFiles exPhases exEmptyBailout [exFile]).out
      = Outcome.ok (some (CheckError.first ⟨5, "undefined: x", false⟩)) :=
  (checkFiles_returns_first_error exPhases exEmptyBailout [exFile] ReportsOnly_exPhases).2.2.1
    (newErrorf (positioner.atPos 5) (Code.code 1) "undefined: x")
    { exEmptyBailout with files := [exFile] } ⟨5, "undefined: x", false⟩
    rfl (by decide) (fun msg h => by cases h)

theorem Keeps_step (R : Checker → Checker → Prop) (st s : Checker) (out : Outcome Unit)
    (h : R st s) : Keeps R st (⟨out, s, [⟨Label.step, s⟩]⟩ : Res Unit) := by
  refine ⟨h, ?_⟩
  intro m hm
  rw [List.mem_singleton] at hm
  subst hm
  exact h

theorem Keeps_objDeclGrey (R : Checker → Checker → Prop) (hR : CycleStable R)
    (hset : ∀ a o t, R a (Object_setTyp a o t)) (st : Checker) (obj : ObjId) :
    Keeps R st (objDeclGrey st obj) := by
  have hassert : ∀ s : Checker, Keeps R s
      (if (s.objs obj).typ.isNone = true
        then (⟨Outcome.panic "assertion failed", s, [⟨Label.step, s⟩]⟩ : Res Unit)
        else ⟨Outcome.ok (), s, [⟨Label.step, s⟩]⟩) := by
    intro s
    split
    · exact Keeps_step R s s _ (hR.refl s)
    · exact Keeps_step R s s _ (hR.refl s)
  unfold objDeclGrey
  simp only
  split
  · apply Keeps_bind R hR.trans st _ _ (Keeps_validCycle R hR st obj)
    intro valid
    split
    · exact Keeps_mono R hR.trans _ _ _ (hset _ obj _) (hassert _)
    · exact hassert _
  · apply Keeps_bind R hR.trans st _ _ (Keeps_validCycle R hR st obj)
    intro valid
    split
    · exact Keeps_mono R hR.trans _ _ _ (hset _ obj _) (hassert _)
    · exact hassert _
  · apply Keeps_bind R hR.trans st _ _ (Keeps_validCycle R hR st obj)
    intro valid
    split
    · exact Keeps_mono R hR.trans _ _ _ (hset _ obj _) (hassert _)
    · exact hassert _
  · apply Keeps_bind R hR.trans st _ _ (Keeps_validCycle R hR st obj)
    intro _
    exact hassert _
  · exact Keeps_fail R st st _ (hR.refl st)

theorem varType_eq (call : Checker → ObjId → Option (Res Unit)) (st : Checker) (e : TExpr) :
    varType call st e = (typInternal call st e none).map (varTypeAfter e) := by
  unfold varType definedType
  rw [Option.map_map]
  rfl

/-- The function `typInternal` is its switch inside its tracing block, and the
evaluations of the parts are `definedType` and `varType`. -/
theorem typInternal_eq (call : Checker → ObjId → Option (Res Unit)) (st : Checker)
    (e : TExpr) (def_ : Option ObjId) :
    typInternal call st e def_ = traceWrap st fun st0 => typSwitch call st0 e def_ := by
  have hv : ∀ x, (fun s => varType call s x)
      = fun s => (typInternal call s x none).map (varTypeAfter x) :=
    fun x => funext fun s => varType_eq call s x
  cases e with
  | array p q len elt =>
    cases len <;>
    · rw [typInternal]
      unfold traceWrap typSwitch
      simp only [hv]
      split <;> rfl
  | _ =>
    rw [typInternal]
    unfold traceWrap typSwitch
    simp only [hv, definedType]
    split <;> rfl

theorem constDecl_eq (call : Checker → ObjId → Option (Res Unit)) (st : Checker) (obj : ObjId)
    (typ_ : Option TExpr) (init : Option Expr) (inherited : Bool) (assign : List Act)
    (hnil : (st.objs obj).typ = none) :
    constDecl call st obj typ_ init inherited assign
      = (constDeclBody call (constDeclStart st obj) obj typ_ init inherited assign).map
          fun r => r.deferred (constDeclRestore st) := by
  unfold constDecl
  rw [if_neg (by simp [hnil])]
  rfl

/-- With an error callback, `errorf` at a positioner that is not nil and with an
error code returns normally, and the state differs at most in the errors recorded. -/
theorem errorf_callback (s : Checker) (at_ : positioner) (code : Code) (text : String)
    (hcb : s.conf.hasError = true) (hc : code ≠ Code.noCode) (hat : at_ ≠ positioner.nil) :
    (errorf s at_ code text).out = Outcome.ok ()
    ∧ sameButErrors s (errorf s at_ code text).st
    ∧ (errorf s at_ code text).trace = [⟨Label.report (newErrorf at_ code text), s⟩] := by
  have hb : ∃ err, builtError s (newErrorf at_ code text) = some err := by
    have hm : composedMsg s (newErrorf at_ code text) = some (renderMsg s code text) := by
      simp [composedMsg, newErrorf, error_.msg, error_.msgTail]
    have hsp : ∃ sp, spanOf at_ = some sp := by
      cases at_ with
      | nil => exact absurd rfl hat
      | atPos p => exact ⟨_, rfl⟩
      | posSpan a b c => exact ⟨_, rfl⟩
      | node a b => exact ⟨_, rfl⟩
      | operand x =>
        cases x with
        | none => exact ⟨_, rfl⟩
        | some y => exact ⟨_, rfl⟩
      | object p => exact ⟨_, rfl⟩
    obtain ⟨sp, hsp⟩ := hsp
    unfold builtError
    rw [hm]
    simp only [newErrorf, hsp]
    rw [if_neg hc]
    exact ⟨_, rfl⟩
  obtain ⟨err, herr⟩ := hb
  refine ⟨?_, report_sameButErrors s _, report_trace s _⟩
  unfold errorf
  rw [report_of_built s _ err herr]
  simp [hcb]

theorem reportsOf_step (s : Checker) : reportsOf [⟨Label.step, s⟩] = [] := rfl

/-- C18 (amended): in `constDecl`, whatever the nested calls of `objDecl` do, with an
explicit type whose evaluation returns the type `t`: the value of the constant is set
to the unknown constant before the type is evaluated. If `t` is not a constant type
and either an error callback is configured or the underlying type of `t` is the
invalid type, `constDecl` returns normally, the type of the constant is the invalid
type, its value is the one it has after the evaluation of the type, the result does
not depend on the initializer, and after the diagnostics of the type evaluation it
reports one `InvalidConstType` diagnostic when the underlying type of `t` is not the
invalid type and nothing otherwise. If `t` is a constant type, the constant has
exactly the type `t` in the state in which the rest of `constDecl`, the
initialization, starts. -/
theorem constDecl_explicit_type (call : Checker → ObjId → Option (Res Unit)) (st : Checker)
    (obj : ObjId) (te : TExpr)
    (init : Option Expr) (inherited : Bool) (assign : List Act) (rt : Res Typ) (t : Typ)
    (hnil : (st.objs obj).typ = none)
    (ht : typ call (constDeclStart st obj) te = some rt)
    (hout : rt.out = Outcome.ok t) :
    ((constDeclStart st obj).objs obj).val = some Value.unknown
    ∧ (IsConstType rt.st t = false →
      (rt.st.conf.hasError = true ∨ Under rt.st t = Typ_Invalid) →
      ∃ r, constDecl call st obj (some te) init inherited assign = some r
        ∧ r.out = Outcome.ok ()
        ∧ (r.st.objs obj).typ = some Typ_Invalid
        ∧ (r.st.objs obj).val = (rt.st.objs obj).val
        ∧ (∀ init' inherited' assign',
            constDecl call st obj (some te) init' inherited' assign' = some r)
        ∧ reportsOf r.trace
            = reportsOf rt.trace
              ++ (if Under rt.st t ≠ Typ_Invalid then
                    [newErrorf (positioner.node te.pos te.end_) Code.InvalidConstType
                      ("invalid constant type " ++ Typ_String rt.st t)]
                  else []))
    ∧ (IsConstType rt.st t = true →
        constDecl call st obj (some te) init inherited assign
          = (constDeclInit call (Const_setTyp rt.st obj t) obj init inherited
              assign).map
              (fun r => (Res.after (rt.trace ++ [⟨Label.step, Const_setTyp rt.st obj t⟩])
                r).deferred (constDeclRestore st))
        ∧ ((Const_setTyp rt.st obj t).objs obj).typ = some t) := by
  refine ⟨by simp [constDeclStart, Const_setVal], ?_, ?_⟩
  · intro hnc hmode
    have hbody : ∀ init' inherited' assign',
        constDeclBody call (constDeclStart st obj) obj (some te) init' inherited' assign'
          = some (Res.after rt.trace
              ((if Under rt.st t ≠ Typ_Invalid then
                  errorf rt.st (positioner.node te.pos te.end_) Code.InvalidConstType
                    ("invalid constant type " ++ Typ_String rt.st t)
                else Res.ret rt.st ()).bind fun _ s =>
                  let s1 := Const_setTyp s obj Typ_Invalid
                  ⟨Outcome.ok (), s1, [⟨Label.step, s1⟩]⟩)) := by
      intro init' inherited' assign'
      unfold constDeclBody
      simp only [ht, hout, hnc, Bool.not_false, if_true]
    have hall : ∀ init' inherited' assign',
        constDecl call st obj (some te) init' inherited' assign'
          = some ((Res.after rt.trace
              ((if Under rt.st t ≠ Typ_Invalid then
                  errorf rt.st (positioner.node te.pos te.end_) Code.InvalidConstType
                    ("invalid constant type " ++ Typ_String rt.st t)
                else Res.ret rt.st ()).bind fun _ s =>
                  let s1 := Const_setTyp s obj Typ_Invalid
                  ⟨Outcome.ok (), s1, [⟨Label.step, s1⟩]⟩)).deferred (constDeclRestore st)) := by
      intro init' inherited' assign'
      rw [constDecl_eq _ _ _ _ _ _ _ hnil, hbody]
      rfl
    refine ⟨_, hall init inherited assign, ?_, ?_, ?_, hall, ?_⟩
    · by_cases hu : Under rt.st t = Typ_Invalid
      · simp [hu, Res.deferred, Res.after, Res.bind, Res.ret, constDeclRestore]
      · have hcb : rt.st.conf.hasError = true := by
          rcases hmode with h | h
          · exact h
          · exact absurd h hu
        obtain ⟨h1, _, _⟩ := errorf_callback rt.st (positioner.node te.pos te.end_)
          Code.InvalidConstType ("invalid constant type " ++ Typ_String rt.st t) hcb
          (by decide) (by simp)
        simp [hu, Res.deferred, Res.after, Res.bind_ok _ _ () h1, constDeclRestore]
    · by_cases hu : Under rt.st t = Typ_Invalid
      · simp [hu, Res.deferred, Res.after, Res.bind, Res.ret, constDeclRestore, Const_setTyp,
          Object_setTyp]
      · have hcb : rt.st.conf.hasError = true := by
          rcases hmode with h | h
          · exact h
          · exact absurd h hu
        obtain ⟨h1, _, _⟩ := errorf_callback rt.st (positioner.node te.pos te.end_)
          Code.InvalidConstType ("invalid constant type " ++ Typ_String rt.st t) hcb
          (by decide) (by simp)
        simp [hu, Res.deferred, Res.after, Res.bind_ok _ _ () h1, constDeclRestore, Const_setTyp,
          Object_setTyp]
    · by_cases hu : Under rt.st t = Typ_Invalid
      · simp [hu, Res.deferred, Res.after, Res.bind, Res.ret, constDeclRestore, Const_setTyp,
          Object_setTyp]
      · have hcb : rt.st.conf.hasError = true := by
          rcases hmode with h | h
          · exact h
          · exact absurd h hu
        obtain ⟨h1, h2, _⟩ := errorf_callback rt.st (positioner.node te.pos te.end_)
          Code.InvalidConstType ("invalid constant type " ++ Typ_String rt.st t) hcb
          (by decide) (by simp)
        have hobjs := (sameButErrors_fields _ _ h2).1
        simp [hu, Res.deferred, Res.after, Res.bind_ok _ _ () h1, constDeclRestore, Const_setTyp,
          Object_setTyp, hobjs]
    · by_cases hu : Under rt.st t = Typ_Invalid
      · simp [hu, Res.deferred, Res.after, Res.bind, Res.ret, constDeclRestore, reportsOf_append,
          reportsOf_step]
        rfl
      · have hcb : rt.st.conf.hasError = true := by
          rcases hmode with h | h
          · exact h
          · exact absurd h hu
        obtain ⟨h1, _, h3⟩ := errorf_callback rt.st (positioner.node te.pos te.end_)
          Code.InvalidConstType ("invalid constant type " ++ Typ_String rt.st t) hcb
          (by decide) (by simp)
        simp [hu, Res.deferred, Res.after, Res.bind_ok _ _ () h1, constDeclRestore,
          reportsOf_append, reportsOf_step, h3]
        rfl
  · intro hc
    refine ⟨?_, by simp [Const_setTyp, Object_setTyp]⟩
    rw [constDecl_eq _ _ _ _ _ _ _ hnil]
    unfold constDeclBody
    simp only [ht, hout, hc, Bool.not_true, Bool.false_eq_true, if_false, Option.map_map]
    rfl

theorem constDecl_explicit_type_witness :
    ∃ r, constDecl (objDecl 1) exWhiteConst 0 (some exSliceType) (some exOne) false [] = some r
      ∧ r.out = Outcome.ok ()
      ∧ (r.st.objs 0).typ = some Typ_Invalid
      ∧ (r.st.objs 0).val = some Value.unknown := by
  obtain ⟨rt, hrt⟩ : ∃ rt, typ (objDecl 1) (constDeclStart exWhiteConst 0) exSliceType
      = some rt := ⟨_, rfl⟩
  have hv : (rt.st.objs 0).val = some Value.unknown := by
    have h : (typ (objDecl 1) (constDeclStart exWhiteConst 0) exSliceType).map
        (fun r => (r.st.objs 0).val) = some (some Value.unknown) := by decide
    rw [hrt] at h
    exact Option.some.inj h
  have ho : rt.out = Outcome.ok (Typ.composite 0) := by
    have h : (typ (objDecl 1) (constDeclStart exWhiteConst 0) exSliceType).map
        (fun r => r.out) = some (Outcome.ok (Typ.composite 0)) := by decide
    rw [hrt] at h
    exact Option.some.inj h
  have hc : rt.st.conf.hasError = true := by
    have h : (typ (objDecl 1) (constDeclStart exWhiteConst 0) exSliceType).map
        (fun r => r.st.conf.hasError) = some true := by decide
    rw [hrt] at h
    exact Option.some.inj h
  have hk : IsConstType rt.st (Typ.composite 0) = false := by
    have h : (typ (objDecl 1) (constDeclStart exWhiteConst 0) exSliceType).map
        (fun r => IsConstType r.st (Typ.composite 0)) = some false := by decide
    rw [hrt] at h
    exact Option.some.inj h
  obtain ⟨r, h1, h2, h3, h4, _⟩ :=
    (constDecl_explicit_type (objDecl 1) exWhiteConst 0 exSliceType (some exOne) false [] rt
      (Typ.composite 0) rfl hrt ho).2.1 hk (Or.inl hc)
  exact ⟨r, h1, h2, h3, by rw [h4, hv]⟩

/-- C18 (counterexample): without an error callback, `constDecl` for the constant
`c` with the explicit type `[]int`, whose evaluation returns a slice type, which is
not a constant type and whose underlying type is not the invalid type, ends in the
bailout of the `InvalidConstType` diagnostic, and the type of the constant is still
nil. -/
theorem constDecl_bails_out_before_invalid_type :
    exWhiteConstBailout.conf.hasError = false
    ∧ (typ (objDecl 1) (constDeclStart exWhiteConstBailout 0) exSliceType).map (fun r => r.out)
      = some (Outcome.ok (Typ.composite 0))
    ∧ IsConstType exWhiteConstBailout (Typ.composite 0) = false
    ∧ (constDecl (objDecl 1) exWhiteConstBailout 0 (some exSliceType) (some exOne) false []).map
        (fun r => (r.out, (r.st.objs 0).typ, reportsOf r.trace))
      = some (Outcome.bailout, none,
          [newErrorf (positioner.node 20 25) Code.InvalidConstType
            "invalid constant type []int"]) := by
  decide

/-- The loop of `varDecl` that spreads the type of `obj`: afterwards the variables of
the list have the type of `obj`, the others are as before. -/
theorem spreadTyp_typ (obj : ObjId) (t : Option Typ) :
    ∀ (vs : List ObjId) (st : Checker), (st.objs obj).typ = t →
      ∀ v, ((spreadTyp obj st vs).objs v).typ = if v ∈ vs then t else (st.objs v).typ := by
  intro vs
  induction vs with
  | nil => intro st _ v; simp [spreadTyp]
  | cons w ws ih =>
    intro st ht v
    rw [spreadTyp]
    have hobj : (({ st with objs :=
        (Function.update st.objs w ({ st.objs w with typ := (st.objs obj).typ })) } :
        Checker).objs obj).typ = t := by
      by_cases h : obj = w
      · subst h
        simp [ht]
      · simp [Function.update_noteq h, ht]
    rw [ih _ hobj v]
    by_cases hv : v ∈ ws
    · simp [hv]
    · by_cases hvw : v = w
      · subst hvw
        simp [hv, ht]
      · simp [hv, hvw, Function.update_noteq hvw]

/-- C19: in `varDecl` with an explicit type whose evaluation returns the type `t`,
with an initializer and a left-hand side that is not a single variable, `initVars`
is entered in the state in which, after `obj` has been given the type `t`, the loop
over the left-hand side has run: in that state every variable of the left-hand side
and `obj` have exactly the type `t`, and nothing else of `varDecl` runs between the
evaluation of the type and that state. -/
theorem varDecl_spreads_explicit_type (call : Checker → ObjId → Option (Res Unit))
    (st : Checker) (obj : ObjId) (vs : List ObjId) (te : TExpr) (e : Expr) (assign : List Act)
    (rt : Res Typ) (t : Typ)
    (hnil : (st.objs obj).typ = none) (hlen : vs.length ≠ 1)
    (ht : varType call st te = some rt) (hout : rt.out = Outcome.ok t) :
    varDecl call st obj (some vs) (some te) (some e) assign
        = (initVars call (spreadTyp obj (Var_setTyp rt.st obj t) vs) e assign).map
            (Res.after (rt.trace ++ [⟨Label.step, Var_setTyp rt.st obj t⟩]))
    ∧ (∀ r, initVars call (spreadTyp obj (Var_setTyp rt.st obj t) vs) e assign = some r →
        r.trace.head?
          = some ⟨Label.enter "initVars", spreadTyp obj (Var_setTyp rt.st obj t) vs⟩)
    ∧ (∀ v ∈ vs, ((spreadTyp obj (Var_setTyp rt.st obj t) vs).objs v).typ = some t)
    ∧ ((spreadTyp obj (Var_setTyp rt.st obj t) vs).objs obj).typ = some t := by
  have hobj : ((Var_setTyp rt.st obj t).objs obj).typ = some t := by
    simp [Var_setTyp, Object_setTyp]
  have hsp := spreadTyp_typ obj (some t) vs (Var_setTyp rt.st obj t) hobj
  refine ⟨?_, ?_, ?_, ?_⟩
  · unfold varDecl
    rw [if_neg (by simp [hnil])]
    unfold varDeclType
    simp only [ht, Option.map_some', Res.bind_ok _ _ t hout]
    unfold varDeclInit
    simp only [hlen, if_false, Option.isSome_some, if_true]
  · intro r hr
    unfold initVars at hr
    cases hb : runActs call (spreadTyp obj (Var_setTyp rt.st obj t) vs) (e.acts ++ assign) with
    | none => rw [hb] at hr; exact absurd hr (by simp)
    | some rb =>
      rw [hb] at hr
      simp only [Option.map_some', Option.some.injEq] at hr
      subst hr
      rfl
  · intro v hv
    rw [hsp v, if_pos hv]
  · rw [hsp obj]
    split
    · rfl
    · exact hobj

theorem varDecl_spreads_explicit_type_witness :
    ((spreadTyp 0 (Var_setTyp exTwoVarsTyped 0 (Typ.basic "int")) [0, 1]).objs 1).typ
      = some (Typ.basic "int") :=
  (varDecl_spreads_explicit_type (objDecl 1) exTwoVars 0 [0, 1] exIntType exCall []
    ⟨Outcome.ok (Typ.basic "int"), exTwoVarsTyped,
      [⟨Label.step, exTwoVars⟩,
       ⟨Label.step, recordTypeAndValue exTwoVars exIntType (Typ.basic "int")⟩,
       ⟨Label.step, exTwoVarsTyped⟩]⟩
    (Typ.basic "int") rfl (by decide) rfl rfl).2.2.1 1 (by decide)

/-- C20 (amended): in `varDecl` without an explicit type, with an initializer and a
left-hand side that is not a single variable, `initVars` is entered in the very state
in which `varDecl` was entered: no type has been assigned to any variable before the
shared initializer is evaluated by `initVars`. -/
theorem varDecl_untyped_enters_initVars_unchanged (call : Checker → ObjId → Option (Res Unit))
    (st : Checker) (obj : ObjId) (vs : List ObjId) (e : Expr) (assign : List Act)
    (hnil : (st.objs obj).typ = none) (hlen : vs.length ≠ 1) :
    varDecl call st obj (some vs) none (some e) assign = initVars call st e assign
    ∧ (∀ r, initVars call st e assign = some r →
        r.trace.head? = some ⟨Label.enter "initVars", st⟩) := by
  constructor
  · unfold varDecl
    rw [if_neg (by simp [hnil])]
    unfold varDeclType varDeclInit
    simp only [Res.ret, hlen, if_false, Option.isSome_none, Bool.false_eq_true]
    cases initVars call st e assign with
    | none => rfl
    | some r => rfl
  · intro r hr
    unfold initVars at hr
    cases hb : runActs call st (e.acts ++ assign) with
    | none => rw [hb] at hr; exact absurd hr (by simp)
    | some rb =>
      rw [hb] at hr
      simp only [Option.map_some', Option.some.injEq] at hr
      subst hr
      rfl

theorem varDecl_untyped_enters_initVars_unchanged_witness :
    varDecl (objDecl 1) exTwoVars 0 (some [0, 1]) none (some exCall) []
      = initVars (objDecl 1) exTwoVars exCall [] :=
  (varDecl_untyped_enters_initVars_unchanged (objDecl 1) exTwoVars 0 [0, 1] exCall [] rfl
    (by decide)).1

/-- C20 (counterexample): in `varDecl` for `var a, b int = f()`, called for `a`, the
variable `b`, which has no type when `varDecl` is entered, has the type `int` in the
state in which `initVars` is entered, before the shared initializer is evaluated. -/
theorem varDecl_types_other_variable_before_initVars :
    (exTwoVars.objs 1).typ = none
    ∧ (varDecl (objDecl 1) exTwoVars 0 (some [0, 1]) (some exIntType) (some exCall) []).map
        (fun r => r.trace.filterMap fun m =>
          if m.label = Label.enter "initVars" then some (m.st.objs 1).typ else none)
      = some [some (Typ.basic "int")] := by
  decide

theorem CycleStable_sameEnvPath : CycleStable sameEnvPath where
  refl := fun _ => ⟨rfl, rfl⟩
  trans := fun a b c h1 h2 => ⟨h2.1.trans h1.1, h2.2.trans h1.2⟩
  errors := fun a b h => by
    obtain ⟨fe, sk, rfl⟩ := h
    exact ⟨rfl, rfl⟩
  validAlias := fun a o _ => ⟨rfl, rfl⟩

theorem OwnEnv_of_Keeps (st : Checker) (r : Res Unit) (h : Keeps sameEnvPath st r) :
    OwnEnv st r :=
  ⟨h.1.1, h.1.2, fun m hm _ => (h.2 m hm).1⟩

theorem OwnEnv_seq (st : Checker) (r1 r2 : Res Unit) (out : Outcome Unit)
    (h1 : OwnEnv st r1) (h2 : OwnEnv r1.st r2) :
    OwnEnv st ⟨out, r2.st, r1.trace ++ r2.trace⟩ := by
  obtain ⟨a1, a2, a3⟩ := h1
  obtain ⟨b1, b2, b3⟩ := h2
  refine ⟨b1.trans a1, b2.trans a2, ?_⟩
  intro m hm hp
  rcases List.mem_append.mp hm with h | h
  · exact a3 m h hp
  · exact (b3 m h (hp.trans a2.symm)).trans a1

theorem objDeclResolve_env (call : Checker → ObjId → Option (Res Unit)) (st : Checker)
    (obj : ObjId) (r : Res Unit) (h : objDeclResolve call st obj = some r) :
    r.st.env = st.env := by
  unfold objDeclResolve at h
  cases hd : st.decl? obj with
  | none =>
    simp only [hd, Option.some.injEq] at h
    subst h
    rfl
  | some d =>
    simp only [hd] at h
    rw [Option.map_eq_some'] at h
    obtain ⟨rb, _, hrb⟩ := h
    subst hrb
    rfl

theorem OwnEnv_objDeclBody (call : Checker → ObjId → Option (Res Unit)) (bound : Nat)
    (hcall : ∀ s o r, s.objPath.length ≤ bound → call s o = some r → Disciplined s r)
    (st : Checker) (obj : ObjId) (r : Res Unit) (hb : st.objPath.length + 1 ≤ bound)
    (h : objDeclBody call st obj = some r) : OwnEnv st r := by
  unfold objDeclBody at h
  split at h
  · simp only [Option.some.injEq] at h
    subst h
    refine ⟨rfl, rfl, ?_⟩
    intro m hm _
    rw [List.mem_singleton] at hm
    subst hm
    rfl
  · split at h
    · split at h
      · simp only [Option.some.injEq] at h
        subst h
        exact ⟨rfl, rfl, fun m hm => absurd hm (List.not_mem_nil m)⟩
      · simp only at h
        cases hres : objDeclResolve call
            (Object_setColor (push st obj).1 obj (u32 (Grey + u32 (push st obj).2))) obj with
        | none => rw [hres] at h; exact absurd h (by simp)
        | some rr =>
          rw [hres] at h
          simp only [Option.map_some', Option.some.injEq] at h
          subst h
          have hp2 : (Object_setColor (push st obj).1 obj
              (u32 (Grey + u32 (push st obj).2))).objPath = st.objPath ++ [obj] := rfl
          have hd := Disciplined_objDeclResolve call bound hcall _ obj rr
            (by rw [hp2, List.length_append]; exact hb) hres
          have henv := objDeclResolve_env call _ obj rr hres
          have hpath : rr.st.objPath = st.objPath ++ [obj] := hd.1.trans hp2
          have hlong : ∀ p : List ObjId, st.objPath ++ [obj] <+: p → p ≠ st.objPath := by
            intro p hp heq
            have := hp.length_le
            rw [heq, List.length_append] at this
            simp at this
          have hpop := popBlack_eq rr.st st.objPath obj hpath
          unfold Res.after Res.deferred
          simp only [hpop]
          refine ⟨henv, rfl, ?_⟩
          intro m hm hmp
          rcases List.mem_append.mp hm with h1 | h1
          · rw [List.mem_singleton] at h1
            subst h1
            exact absurd hmp (hlong _ (by rw [hp2]))
          · rcases List.mem_append.mp h1 with h2 | h2
            · have := (hd.2.2.2.1 m h2).1
              rw [hp2] at this
              exact absurd hmp (hlong _ this)
            · rw [List.mem_singleton] at h2
              subst h2
              exact henv
    · split at h
      · split at h
        · simp only [Option.some.injEq] at h
          subst h
          exact ⟨rfl, rfl, fun m hm => absurd hm (List.not_mem_nil m)⟩
        · simp only [Option.some.injEq] at h
          subst h
          exact ⟨rfl, rfl, fun m hm => absurd hm (List.not_mem_nil m)⟩
      · simp only [Option.some.injEq] at h
        subst h
        exact OwnEnv_of_Keeps st _
          (Keeps_objDeclGrey sameEnvPath CycleStable_sameEnvPath (fun _ _ _ => ⟨rfl, rfl⟩) st obj)

/-- Checking a declaration leaves the environment and the object path as they were,
on every way out, and changes the environment only while the object path is longer,
that is inside the declaration of the object. -/
theorem OwnEnv_objDecl (fuel : Nat) (st : Checker) (obj : ObjId) (r : Res Unit)
    (hb : st.objPath.length + fuel + 2 ≤ 4294967296) (h : objDecl fuel st obj = some r) :
    OwnEnv st r := by
  cases fuel with
  | zero => simp [objDecl] at h
  | succ fuel =>
    have hcall : ∀ s o r, s.objPath.length ≤ 4294967294 - fuel → objDecl fuel s o = some r →
        Disciplined s r := by
      intro s o r hs hr
      exact Disciplined_objDecl fuel s o r (by omega) hr
    rw [objDecl] at h
    simp only at h
    split at h
    · cases hbody : objDeclBody (objDecl fuel) { st with indent := st.indent + 1 } obj with
      | none => rw [hbody] at h; exact absurd h (by simp)
      | some rb =>
        rw [hbody] at h
        simp only [Option.map_some', Option.some.injEq] at h
        subst h
        have ho := OwnEnv_objDeclBody (objDecl fuel) (4294967294 - fuel) hcall
          { st with indent := st.indent + 1 } obj rb
          (by show st.objPath.length + 1 ≤ _; omega) hbody
        obtain ⟨o1, o2, o3⟩ := ho
        refine ⟨o1, o2, ?_⟩
        intro m hm hp
        have hm' : m ∈ rb.trace := by simpa [Res.deferred, Res.ret] using hm
        exact o3 m hm' hp
    · exact OwnEnv_objDeclBody (objDecl fuel) (4294967294 - fuel) hcall st obj r (by omega) h

theorem OwnEnv_execAct (fuel : Nat) (st : Checker) (a : Act) (r : Res Unit)
    (hb : st.objPath.length + fuel + 2 ≤ 4294967296) (ha : a.keepsEnv = true)
    (h : execAct (objDecl fuel) st a = some r) : OwnEnv st r := by
  cases a with
  | use o => exact OwnEnv_objDecl fuel st o r hb h
  | setTyp o t =>
    simp only [execAct, Option.some.injEq] at h
    subst h
    exact OwnEnv_of_Keeps st _ (Keeps_step sameEnvPath st _ _ ⟨rfl, rfl⟩)
  | errorf at_ code text soft =>
    simp only [execAct, Option.some.injEq] at h
    subst h
    have hk := Keeps_report sameEnvPath CycleStable_sameEnvPath st
      { newErrorf at_ code text with soft := soft }
    refine ⟨hk.1.1, hk.1.2, ?_⟩
    intro m hm _
    rcases List.mem_append.mp hm with h1 | h1
    · exact (hk.2 m h1).1
    · rw [List.mem_singleton] at h1
      subst h1
      exact hk.1.1
  | later f =>
    simp only [execAct, Option.some.injEq] at h
    subst h
    exact OwnEnv_of_Keeps st _ (Keeps_step sameEnvPath st _ _ ⟨rfl, rfl⟩)
  | setEnv e => simp [Act.keepsEnv] at ha
  | fail msg =>
    simp only [execAct, Option.some.injEq] at h
    subst h
    exact ⟨rfl, rfl, fun m hm => absurd hm (List.not_mem_nil m)⟩

theorem OwnEnv_runActs (fuel : Nat) :
    ∀ (acts : List Act) (st : Checker) (r : Res Unit),
      st.objPath.length + fuel + 2 ≤ 4294967296 → (∀ a ∈ acts, a.keepsEnv = true) →
      runActs (objDecl fuel) st acts = some r → OwnEnv st r := by
  intro acts
  induction acts with
  | nil =>
    intro st r _ _ h
    simp only [runActs, Option.some.injEq] at h
    subst h
    exact ⟨rfl, rfl, fun m hm => absurd hm (List.not_mem_nil m)⟩
  | cons a rest ih =>
    intro st r hb hacts h
    rw [runActs] at h
    cases ha : execAct (objDecl fuel) st a with
    | none => rw [ha] at h; exact absurd h (by simp)
    | some r1 =>
      rw [ha] at h
      have h1 := OwnEnv_execAct fuel st a r1 hb (hacts a (List.mem_cons_self _ _)) ha
      simp only at h
      cases hout : r1.out with
      | ok u =>
        rw [hout] at h
        simp only at h
        cases hr2 : runActs (objDecl fuel) r1.st rest with
        | none => rw [hr2] at h; exact absurd h (by simp)
        | some r2 =>
          rw [hr2] at h
          simp only [Option.map_some', Option.some.injEq] at h
          subst h
          exact OwnEnv_seq st r1 r2 _ h1
            (ih r1.st r2 (by rw [h1.2.1]; exact hb)
              (fun a' ha' => hacts a' (List.mem_cons_of_mem _ ha')) hr2)
      | bailout =>
        rw [hout] at h
        simp only [Option.some.injEq] at h
        subst h
        exact h1
      | panic m =>
        rw [hout] at h
        simp only [Option.some.injEq] at h
        subst h
        exact h1

/-- The position of the error value that `report` builds: that of the position
override when it is set, that of the first description otherwise. -/
theorem builtError_pos (s : Checker) (d : error_) (err : Error) (h : builtError s d = some err) :
    (∀ sp, spanOf s.env.errpos = some sp → err.pos = sp.pos)
    ∧ (spanOf s.env.errpos = none → ∀ d0 ds sp, d.desc = d0 :: ds →
        spanOf d0.posn = some sp → err.pos = sp.pos) := by
  unfold builtError at h
  cases hd : d.desc with
  | nil => simp [hd] at h
  | cons d0 ds =>
    simp only [hd] at h
    cases hm : composedMsg s d with
    | none => simp [hm] at h
    | some msg =>
      simp only [hm] at h
      by_cases hc : d.code = Code.noCode
      · simp [hc] at h
      · rw [if_neg hc] at h
        cases hs : spanOf d0.posn with
        | none => simp [hs] at h
        | some span =>
          simp only [hs, Option.some.injEq] at h
          subst h
          constructor
          · intro sp hsp
            simp only [hsp]
          · intro hnone d0' ds' sp' hd' hsp'
            simp only [List.cons.injEq] at hd'
            rw [← hd'.1, hs] at hsp'
            simp only [Option.some.injEq] at hsp'
            simp only [hnone, hsp']

theorem OwnEnv_after_enter (name : String) (st : Checker) (r : Res Unit) (h : OwnEnv st r) :
    OwnEnv st (Res.after [⟨Label.enter name, st⟩] r) := by
  refine ⟨h.1, h.2.1, ?_⟩
  intro m hm hp
  rcases List.mem_append.mp hm with h1 | h1
  · rw [List.mem_singleton] at h1
    subst h1
    rfl
  · exact h.2.2 m h1 hp

theorem OwnEnv_constDeclInit (fuel : Nat) (s : Checker) (obj : ObjId) (e : Expr)
    (inherited : Bool) (assign : List Act) (r : Res Unit)
    (hb : s.objPath.length + fuel + 2 ≤ 4294967296)
    (hacts : ∀ a ∈ e.acts ++ assign, a.keepsEnv = true)
    (h : constDeclInit (objDecl fuel) s obj (some e) inherited assign = some r) :
    OwnEnv (if inherited
      then { s with env := { s.env with errpos := positioner.atPos (s.objs obj).pos } }
      else s) r := by
  have hpath : (if inherited
      then { s with env := { s.env with errpos := positioner.atPos (s.objs obj).pos } }
      else s).objPath = s.objPath := by
    split <;> rfl
  unfold constDeclInit at h
  simp only at h
  generalize hs1 : (if inherited = true
      then { s with env := { s.env with errpos := positioner.atPos (s.objs obj).pos } }
      else s) = s1 at h hpath ⊢
  unfold expr at h
  cases hr1 : runActs (objDecl fuel) s1 e.acts with
  | none => rw [hr1] at h; exact absurd h (by simp)
  | some rb =>
    rw [hr1] at h
    simp only [Option.map_some'] at h
    have h1 := OwnEnv_after_enter "expr" s1 rb
      (OwnEnv_runActs fuel e.acts s1 rb (by rw [hpath]; exact hb)
        (fun a ha => hacts a (List.mem_append_left _ ha)) hr1)
    cases hout : rb.out with
    | ok u =>
      have hout' : (Res.after [⟨Label.enter "expr", s1⟩] rb).out = Outcome.ok u := hout
      simp only [hout'] at h
      unfold initConst at h
      cases hr2 : runActs (objDecl fuel) rb.st assign with
      | none =>
        have hr2' : runActs (objDecl fuel) (Res.after [⟨Label.enter "expr", s1⟩] rb).st assign
            = none := hr2
        rw [hr2'] at h
        exact absurd h (by simp)
      | some r2 =>
        have hr2' : runActs (objDecl fuel) (Res.after [⟨Label.enter "expr", s1⟩] rb).st assign
            = some r2 := hr2
        rw [hr2'] at h
        simp only [Option.map_some', Option.some.injEq] at h
        subst h
        have h2 := OwnEnv_after_enter "initConst" rb.st r2
          (OwnEnv_runActs fuel assign rb.st r2
            (by
              have hp1 : rb.st.objPath = s1.objPath := h1.2.1
              rw [hp1, hpath]
              exact hb)
            (fun a ha => hacts a (List.mem_append_right _ ha)) hr2)
        exact OwnEnv_seq s1 _ _ _ h1 h2
    | bailout =>
      have hout' : (Res.after [⟨Label.enter "expr", s1⟩] rb).out = Outcome.bailout := hout
      simp only [hout', Option.some.injEq] at h
      subst h
      exact h1
    | panic msg =>
      have hout' : (Res.after [⟨Label.enter "expr", s1⟩] rb).out = Outcome.panic msg := hout
      simp only [hout', Option.some.injEq] at h
      subst h
      exact h1

/-- C17 (amended): `constDecl` without an explicit type enters the check of the
initializer with the position override unset. When the check of the initializer and
the initialization start in a state with the override unset, every diagnostic that
is reported while the object path is as at the start, that is not inside the
declaration of another object that is resolved on the way, has in its error value
the position of the identifier of the constant when the initializer is inherited,
and the position of its own first description when it is not. -/
theorem constDecl_inherited_positions (fuel : Nat) (st : Checker) (obj : ObjId) (e : Expr)
    (inherited : Bool) (assign : List Act) (hnil : (st.objs obj).typ = none) :
    constDecl (objDecl fuel) st obj none (some e) inherited assign
        = (constDeclInit (objDecl fuel) (constDeclStart st obj) obj (some e) inherited
            assign).map (fun r => r.deferred (constDeclRestore st))
    ∧ (constDeclStart st obj).env.errpos = positioner.nil
    ∧ ((constDeclStart st obj).objs obj).pos = (st.objs obj).pos
    ∧ ∀ (s : Checker) (r : Res Unit), s.env.errpos = positioner.nil →
        s.objPath.length + fuel + 2 ≤ 4294967296 →
        (∀ a ∈ e.acts ++ assign, a.keepsEnv = true) →
        constDeclInit (objDecl fuel) s obj (some e) inherited assign = some r →
        ∀ m ∈ r.trace, ∀ d err, m.label = Label.report d → m.st.objPath = s.objPath →
          builtError m.st d = some err →
          (inherited = true → err.pos = (s.objs obj).pos)
          ∧ (inherited = false → ∀ d0 ds sp, d.desc = d0 :: ds →
              spanOf d0.posn = some sp → err.pos = sp.pos) := by
  refine ⟨constDecl_eq _ _ _ _ _ _ _ hnil, rfl, ?_, ?_⟩
  · simp [constDeclStart, Const_setVal]
  · intro s r hpos hb hacts h m hm d err _ hp hbuilt
    have ho := OwnEnv_constDeclInit fuel s obj e inherited assign r hb hacts h
    have hbp := builtError_pos m.st d err hbuilt
    cases inherited with
    | true =>
      simp only [if_true] at ho
      have henv := ho.2.2 m hm hp
      refine ⟨fun _ => ?_, fun hf => (by cases hf)⟩
      have hsp : spanOf m.st.env.errpos
          = some ⟨(s.objs obj).pos, (s.objs obj).pos, (s.objs obj).pos⟩ := by
        rw [henv]
        rfl
      exact hbp.1 _ hsp
    | false =>
      simp only [Bool.false_eq_true, if_false] at ho
      have henv := ho.2.2 m hm hp
      refine ⟨fun hf => (by cases hf), fun _ => ?_⟩
      have hsp : spanOf m.st.env.errpos = none := by
        rw [henv, hpos]
        rfl
      exact hbp.2 hsp

theorem constDecl_inherited_positions_witness :
    (⟨10, "constant overflow", false⟩ : Error).pos = ((constDeclStart exWhiteConst 0).objs 0).pos :=
  ((constDecl_inherited_positions 1 exWhiteConst 0 exOverflow true [] rfl).2.2.2
    (constDeclStart exWhiteConst 0) _ rfl (by simp [constDeclStart, Const_setVal, exWhiteConst, exChecker])
    (by decide) rfl _ (List.mem_cons_of_mem _ (List.mem_cons_self _ _))
    (newErrorf (positioner.atPos 22) (Code.code 3) "constant overflow")
    ⟨10, "constant overflow", false⟩ rfl rfl (by decide)).1 rfl

/-- C17 (counterexample): for the constant `c` at position 10 with the inherited
initializer `y0 + 1`, the diagnostic `undefined: y` that is reported while `constDecl`
checks that initializer (in the declaration of `y0`, which the check resolves) is
delivered at position 50, not at the position of `c`. -/
theorem constDecl_inherited_nested_position :
    (exInherited.objs 0).pos = 10
    ∧ (constDecl (objDecl 2) exInherited 0 none (some exInheritedInit) true []).map
        (fun r => r.st.sink) = some [⟨50, "undefined: y", false⟩] := by
  decide

theorem error_msgTail_eq (fs : Pos → String) :
    ∀ ds : List errorDesc, (∀ p ∈ ds, p.posn ≠ positioner.nil) →
      error_.msgTail fs ds = some (joinLines (ds.map (contLine fs))) := by
  intro ds
  induction ds with
  | nil => intro _; rfl
  | cons p ps ih =>
    intro h
    have hp : ∃ pos, p.posn.Pos = some pos := by
      have hne := h p (List.mem_cons_self _ _)
      cases hq : p.posn with
      | nil => exact absurd hq hne
      | atPos q => exact ⟨_, rfl⟩
      | posSpan a b c => exact ⟨_, rfl⟩
      | node a b => exact ⟨_, rfl⟩
      | operand x =>
        cases x with
        | none => exact ⟨_, rfl⟩
        | some y => exact ⟨_, rfl⟩
      | object q => exact ⟨_, rfl⟩
    obtain ⟨pos, hpos⟩ := hp
    have hposOf : posOf p.posn = pos := by simp [posOf, hpos]
    rw [error_.msgTail, hpos]
    simp only [ih (fun q hq => h q (List.mem_cons_of_mem _ hq)), Option.map_some',
      List.map_cons, joinLines, contLine, hposOf]
    have hnt : ("\n\t" : String) = "\n" ++ "\t" := by decide
    rw [hnt]
    simp only [String.append_assoc]

theorem splitLines_no_newline (a : List Char) (h : '\n' ∉ a) : splitLines a = [a] := by
  induction a with
  | nil => rfl
  | cons c cs ih =>
    have hc : c ≠ '\n' := fun hc => h (by rw [hc]; exact List.mem_cons_self _ _)
    have hcs : '\n' ∉ cs := fun hm => h (List.mem_cons_of_mem _ hm)
    simp [splitLines, hc, ih hcs]

theorem splitLines_append (a b : List Char) (h : '\n' ∉ a) :
    splitLines (a ++ '\n' :: b) = a :: splitLines b := by
  induction a with
  | nil => simp [splitLines]
  | cons c cs ih =>
    have hc : c ≠ '\n' := fun hc => h (by rw [hc]; exact List.mem_cons_self _ _)
    have hcs : '\n' ∉ cs := fun hm => h (List.mem_cons_of_mem _ hm)
    simp [splitLines, hc, ih hcs]

theorem splitLines_joinLines (a : List Char) (ha : '\n' ∉ a) :
    ∀ ls : List String, (∀ l ∈ ls, '\n' ∉ l.data) →
      splitLines (a ++ (joinLines ls).data) = a :: ls.map String.data := by
  intro ls
  induction ls generalizing a with
  | nil =>
    intro _
    simp [joinLines, splitLines_no_newline a ha]
  | cons l ls ih =>
    intro h
    have hl := h l (List.mem_cons_self _ _)
    have hstep : (joinLines (l :: ls)).data = '\n' :: (l.data ++ (joinLines ls).data) := by
      simp [joinLines, String.data_append]
    rw [hstep, splitLines_append a _ ha, ih l.data hl (fun x hx => h x (List.mem_cons_of_mem _ hx))]
    rfl

/-- C30: for an error without descriptions `error_.msg` is `no error`. For an error
with descriptions `d0 :: ds`, the positioners of `ds` not being nil, it is the text
of `d0` followed, for each description of `ds` in order, by a newline, a tab, the
position of the description and `: ` when that position is valid, and the text of
the description. When no text and no printed position contains a newline, the lines
of the message are the text of `d0` and one line for each description of `ds`, which
starts with a tab. -/
theorem error_msg_lines (fs : Pos → String) (err : error_) :
    (err.desc = [] → err.msg fs = some "no error")
    ∧ ∀ d0 ds, err.desc = d0 :: ds → (∀ p ∈ ds, p.posn ≠ positioner.nil) →
        err.msg fs = some (d0.text ++ joinLines (ds.map (contLine fs)))
        ∧ ((∀ p ∈ d0 :: ds, '\n' ∉ p.text.data) → (∀ q, '\n' ∉ (fs q).data) →
            ∀ msg, err.msg fs = some msg →
              splitLines msg.data = d0.text.data :: ds.map (fun p => (contLine fs p).data)
              ∧ ∀ p ∈ ds, (contLine fs p).data.head? = some '\t') := by
  constructor
  · intro h
    unfold error_.msg
    rw [h]
  · intro d0 ds hd hpos
    have hmsg : err.msg fs = some (d0.text ++ joinLines (ds.map (contLine fs))) := by
      unfold error_.msg
      rw [hd]
      simp only [error_msgTail_eq fs ds hpos, Option.map_some']
    refine ⟨hmsg, ?_⟩
    intro htext hfs msg hm
    rw [hmsg] at hm
    simp only [Option.some.injEq] at hm
    subst hm
    constructor
    · rw [String.data_append, splitLines_joinLines _ (htext d0 (List.mem_cons_self _ _))]
      · simp [List.map_map, Function.comp_def]
      · intro l hl
        rw [List.mem_map] at hl
        obtain ⟨p, hp, rfl⟩ := hl
        have hpt := htext p (List.mem_cons_of_mem _ hp)
        unfold contLine
        split
        · simp [String.data_append, hpt, hfs]
        · simp [String.data_append, hpt]
    · intro p _
      simp [contLine, String.data_append]

theorem error_msg_lines_witness :
    exTwoDescs.msg (fun _ => "f.go:3:1")
      = some "x redeclared\n\tf.go:3:1: other declaration of x" :=
  ((error_msg_lines (fun _ => "f.go:3:1") exTwoDescs).2 ⟨positioner.atPos 5, "x redeclared"⟩
    [⟨positioner.atPos 9, "other declaration of x"⟩] rfl (by decide)).1

/-- C27: a type set is the set of all types (`IsAll`) if and only if it has no
methods, its term list denotes all types and it is not flagged comparable; it is
fully described by its methods (`IsMethodSet`) if and only if its term list denotes
all types and it is not flagged comparable; so `IsAll` implies `IsMethodSet` and an
empty method list. -/
theorem typeSet_IsAll_iff (s : _TypeSet) :
    (s.IsAll = true ↔ s.methods = [] ∧ s.terms.isAll = true ∧ s.comparable = false)
    ∧ (s.IsMethodSet = true ↔ s.terms.isAll = true ∧ s.comparable = false)
    ∧ (s.IsAll = true → s.IsMethodSet = true ∧ s.methods = []) := by
  have hm : s.IsMethodSet = true ↔ s.terms.isAll = true ∧ s.comparable = false := by
    unfold _TypeSet.IsMethodSet
    cases s.comparable <;> simp
  have ha : s.IsAll = true ↔ s.methods = [] ∧ s.terms.isAll = true ∧ s.comparable = false := by
    unfold _TypeSet.IsAll
    rw [Bool.and_eq_true, hm, decide_eq_true_iff, List.length_eq_zero]
    tauto
  refine ⟨ha, hm, fun h => ?_⟩
  rw [ha] at h
  exact ⟨hm.mpr ⟨h.2.1, h.2.2⟩, h.1⟩

theorem entered_append (a b : List Moment) : entered (a ++ b) = entered a ++ entered b := by
  unfold entered
  rw [List.filterMap_append]

theorem entered_report (st : Checker) (e : error_) : entered (report st e).trace = [] := by
  rw [report_trace]
  rfl

theorem Res.bind_ok_inv {α β : Type} (r : Res α) (k : α → Checker → Res β) (b : β)
    (h : (r.bind k).out = Outcome.ok b) :
    ∃ a, r.out = Outcome.ok a ∧ (k a r.st).out = Outcome.ok b
      ∧ (r.bind k).trace = r.trace ++ (k a r.st).trace ∧ (r.bind k).st = (k a r.st).st := by
  unfold Res.bind at h ⊢
  cases hout : r.out with
  | ok a =>
    rw [hout] at h
    exact ⟨a, rfl, h, rfl, rfl⟩
  | bailout => rw [hout] at h; cases h
  | panic m => rw [hout] at h; cases h

theorem entered_bind_sublist {α β : Type} (r : Res α) (k : α → Checker → Res β)
    (L1 L2 : List String) (h1 : (entered r.trace).Sublist L1)
    (h2 : ∀ a, (entered (k a r.st).trace).Sublist L2) :
    (entered (r.bind k).trace).Sublist (L1 ++ L2) := by
  unfold Res.bind
  cases hout : r.out with
  | ok a =>
    simp only [entered_append]
    exact List.Sublist.append h1 (h2 a)
  | bailout => exact h1.trans (List.sublist_append_left L1 L2)
  | panic m => exact h1.trans (List.sublist_append_left L1 L2)

theorem entered_initFilesLoop :
    ∀ (files : List File) (st : Checker), entered (initFilesLoop st files).trace = [] := by
  intro files
  induction files with
  | nil => intro st; rfl
  | cons file rest ih =>
    intro st
    have hb : ∀ (r : Res Unit) (k : Unit → Checker → Res Unit), entered r.trace = [] →
        (∀ a s, entered (k a s).trace = []) → entered (r.bind k).trace = [] := by
      intro r k h1 h2
      unfold Res.bind
      cases r.out with
      | ok a => simp only [entered_append, h1, h2, List.append_nil]
      | bailout => exact h1
      | panic m => exact h1
    rw [initFilesLoop]
    simp only
    split
    · apply hb
      · split
        · rfl
        · exact entered_report _ _
      · intro _ s
        exact ih _
    · split
      · exact ih _
      · apply hb
        · exact entered_report _ _
        · intro _ s
          exact ih _

theorem entered_enterPhase (name : String) (f : Checker → Res Unit) (s : Checker)
    (hn : name ∈ phaseNames) (hq : entered (f s).trace = []) :
    entered (enterPhase name f s).trace = [name] := by
  unfold enterPhase Res.after
  simp only [entered_append, hq, List.append_nil]
  simp [entered, hn]

theorem entered_nil_label (tr : List Moment) (h : entered tr = []) :
    ∀ m ∈ tr, ∀ n ∈ phaseNames, m.label ≠ Label.enter n := by
  intro m hm n hn hl
  unfold entered at h
  rw [List.filterMap_eq_nil_iff] at h
  have := h m hm
  rw [hl] at this
  simp [hn] at this

/-- A property of observation points that holds outside the entries of the phases
and at each entry of a phase, under the condition of the source for the two phases
that can be skipped, holds throughout the body of `checkFiles`. -/
theorem checkFilesBody_moments (P : Moment → Prop) (ph : Phases) (hq : QuietPhases ph)
    (hother : ∀ m : Moment, (∀ n ∈ phaseNames, m.label ≠ Label.enter n) → P m)
    (hplain : ∀ n s, n ≠ "unusedImports" → n ≠ "monomorph" → P ⟨Label.enter n, s⟩)
    (hunused : ∀ s : Checker, s.conf.DisableUnusedImportCheck = false →
      P ⟨Label.enter "unusedImports", s⟩)
    (hmono : ∀ s : Checker, s.firstErr = none → P ⟨Label.enter "monomorph", s⟩)
    (st : Checker) (files : List File) :
    ∀ m ∈ (checkFilesBody ph st files).trace, P m := by
  obtain ⟨q1, q2, q3, q4, q5, q6, q7, q8⟩ := hq
  have hbind : ∀ (r : Res Unit) (k : Unit → Checker → Res Unit), (∀ m ∈ r.trace, P m) →
      (∀ a, ∀ m ∈ (k a r.st).trace, P m) → ∀ m ∈ (r.bind k).trace, P m := by
    intro r k h1 h2 m hm
    unfold Res.bind at hm
    cases hout : r.out with
    | ok a =>
      rw [hout] at hm
      rcases List.mem_append.mp hm with h | h
      · exact h1 m h
      · exact h2 a m h
    | bailout => rw [hout] at hm; exact h1 m hm
    | panic msg => rw [hout] at hm; exact h1 m hm
  have hphase : ∀ (n : String) (f : Checker → Res Unit) (s : Checker),
      P ⟨Label.enter n, s⟩ → entered (f s).trace = [] →
      ∀ m ∈ (enterPhase n f s).trace, P m := by
    intro n f s hp hqf m hm
    rcases List.mem_append.mp hm with h | h
    · rw [List.mem_singleton] at h
      subst h
      exact hp
    · exact hother m (entered_nil_label _ hqf m h)
  have hite : ∀ (c : Prop) [Decidable c] (a b : Res Unit), (c → ∀ m ∈ a.trace, P m) →
      (¬ c → ∀ m ∈ b.trace, P m) → ∀ m ∈ (if c then a else b).trace, P m := by
    intro c _ a b ha hb
    split
    · rename_i hc; exact ha hc
    · rename_i hc; exact hb hc
  unfold checkFilesBody
  apply hbind _ _ (hphase _ _ _ (hplain _ _ (by decide) (by decide))
    (entered_initFilesLoop files _))
  intro _
  apply hbind _ _ (hphase _ _ _ (hplain _ _ (by decide) (by decide)) (q1 _))
  intro _
  apply hbind _ _ (hphase _ _ _ (hplain _ _ (by decide) (by decide)) (q2 _))
  intro _
  apply hbind _ _ (hphase _ _ _ (hplain _ _ (by decide) (by decide)) (q3 0 _))
  intro _
  apply hbind _ _ (hphase _ _ _ (hplain _ _ (by decide) (by decide)) (q4 _))
  intro _
  apply hbind _ _ (hphase _ _ _ (hplain _ _ (by decide) (by decide)) (q5 _))
  intro _
  apply hbind _ _ (hite _ _ _
    (fun hc => hphase _ _ _ (hunused _ (by simpa using hc)) (q6 _))
    (fun _ m hm => absurd hm (List.not_mem_nil m)))
  intro _
  apply hbind _ _ (hphase _ _ _ (hplain _ _ (by decide) (by decide)) (q7 _))
  intro _
  apply hbind _ _ (hite _ _ _
    (fun hc => hphase _ _ _ (hmono _ (by simpa using hc)) (q8 _))
    (fun _ m hm => absurd hm (List.not_mem_nil m)))
  intro _ m hm
  exact absurd hm (List.not_mem_nil m)

theorem entered_checkFilesBody_sublist (ph : Phases) (hq : QuietPhases ph) (st : Checker)
    (files : List File) : (entered (checkFilesBody ph st files).trace).Sublist phaseNames := by
  obtain ⟨q1, q2, q3, q4, q5, q6, q7, q8⟩ := hq
  have hph : ∀ (n : String) (f : Checker → Res Unit) (s : Checker), n ∈ phaseNames →
      entered (f s).trace = [] → (entered (enterPhase n f s).trace).Sublist [n] := by
    intro n f s hn hqf
    rw [entered_enterPhase n f s hn hqf]
  have hite : ∀ (c : Prop) [Decidable c] (n : String) (f : Checker → Res Unit) (s : Checker),
      n ∈ phaseNames → entered (f s).trace = [] →
      (entered (if c then enterPhase n f s else Res.ret s ()).trace).Sublist [n] := by
    intro c _ n f s hn hqf
    split
    · exact hph n f s hn hqf
    · exact List.nil_sublist _
  unfold checkFilesBody
  show List.Sublist _ (["initFiles"] ++ (["collectObjects"] ++ (["packageObjects"]
    ++ (["processDelayed"] ++ (["cleanup"] ++ (["initOrder"] ++ (["unusedImports"]
    ++ (["recordUntyped"] ++ (["monomorph"] ++ [])))))))))
  apply entered_bind_sublist _ _ _ _ (hph _ _ _ (by decide) (entered_initFilesLoop files _))
  intro _
  apply entered_bind_sublist _ _ _ _ (hph _ _ _ (by decide) (q1 _))
  intro _
  apply entered_bind_sublist _ _ _ _ (hph _ _ _ (by decide) (q2 _))
  intro _
  apply entered_bind_sublist _ _ _ _ (hph _ _ _ (by decide) (q3 0 _))
  intro _
  apply entered_bind_sublist _ _ _ _ (hph _ _ _ (by decide) (q4 _))
  intro _
  apply entered_bind_sublist _ _ _ _ (hph _ _ _ (by decide) (q5 _))
  intro _
  apply entered_bind_sublist _ _ _ _ (hite _ _ _ _ (by decide) (q6 _))
  intro _
  apply entered_bind_sublist _ _ _ _ (hph _ _ _ (by decide) (q7 _))
  intro _
  apply entered_bind_sublist _ _ _ _ (hite _ _ _ _ (by decide) (q8 _))
  intro _
  exact List.nil_sublist _

theorem peel_phase (n : String) (f : Checker → Res Unit) (s : Checker)
    (k : Unit → Checker → Res Unit) (hn : n ∈ phaseNames) (hq : entered (f s).trace = [])
    (hok : ((enterPhase n f s).bind k).out = Outcome.ok ()) :
    (k () (f s).st).out = Outcome.ok ()
    ∧ entered ((enterPhase n f s).bind k).trace = n :: entered (k () (f s).st).trace
    ∧ ((enterPhase n f s).bind k).st = (k () (f s).st).st
    ∧ ∀ m ∈ (k () (f s).st).trace, m ∈ ((enterPhase n f s).bind k).trace := by
  obtain ⟨a, _, h2, h3, h4⟩ := Res.bind_ok_inv _ _ _ hok
  refine ⟨h2, ?_, h4, ?_⟩
  · rw [h3, entered_append, entered_enterPhase n f s hn hq]
    rfl
  · intro m hm
    rw [h3]
    exact List.mem_append_right _ hm

theorem peel_skip (s : Checker) (k : Unit → Checker → Res Unit)
    (hok : ((Res.ret s ()).bind k).out = Outcome.ok ()) :
    (k () s).out = Outcome.ok ()
    ∧ entered ((Res.ret s ()).bind k).trace = entered (k () s).trace
    ∧ ((Res.ret s ()).bind k).st = (k () s).st :=
  ⟨hok, rfl, rfl⟩

theorem initFilesLoop_conf :
    ∀ (files : List File) (st : Checker), (initFilesLoop st files).st.conf = st.conf := by
  intro files
  induction files with
  | nil => intro st; rfl
  | cons file rest ih =>
    intro st
    have hb : ∀ (r : Res Unit) (k : Unit → Checker → Res Unit), r.st.conf = st.conf →
        (∀ a s, (k a s).st.conf = s.conf) → (r.bind k).st.conf = st.conf := by
      intro r k h1 h2
      unfold Res.bind
      cases r.out with
      | ok a => exact (h2 a r.st).trans h1
      | bailout => exact h1
      | panic m => exact h1
    rw [initFilesLoop]
    simp only
    split
    · apply hb
      · split
        · rfl
        · exact (sameButErrors_fields _ _ (report_sameButErrors st _)).2.2.1
      · intro _ s
        exact ih _
    · split
      · exact ih _
      · apply hb
        · exact (sameButErrors_fields _ _ (report_sameButErrors st _)).2.2.1
        · intro _ s
          exact ih _

/-- When the body of `checkFiles` returns normally, the phases entered are the six
phases up to `initOrder`, then `unusedImports` unless the check is disabled, then
`recordUntyped`, then `monomorph`, which is left out only if an error is recorded. -/
theorem entered_checkFilesBody_ok (ph : Phases) (hq : QuietPhases ph) (hk : KeepConf ph)
    (st : Checker) (files : List File)
    (hok : (checkFilesBody ph st files).out = Outcome.ok ()) :
    ∃ mo, entered (checkFilesBody ph st files).trace
        = ["initFiles", "collectObjects", "packageObjects", "processDelayed", "cleanup",
            "initOrder"]
          ++ (if st.conf.DisableUnusedImportCheck then [] else ["unusedImports"])
          ++ ["recordUntyped"] ++ mo
      ∧ (mo = ["monomorph"] ∨ (mo = [] ∧ (checkFilesBody ph st files).st.firstErr ≠ none)) := by
  obtain ⟨q1, q2, q3, q4, q5, q6, q7, q8⟩ := hq
  obtain ⟨k1, k2, k3, k4, k5⟩ := hk
  unfold checkFilesBody at hok ⊢
  obtain ⟨hok1, e1, s1, _⟩ := peel_phase _ _ _ _ (by decide) (entered_initFilesLoop files _) hok
  rw [e1, s1]
  have c1 : (initFiles st files).st.conf = st.conf := initFilesLoop_conf files _
  generalize (initFiles st files).st = x1 at hok1 c1 ⊢
  try simp only at hok1 ⊢
  obtain ⟨hok2, e2, s2, _⟩ := peel_phase _ _ _ _ (by decide) (q1 _) hok1
  rw [e2, s2]
  have c2 : (ph.collectObjects x1).st.conf = st.conf := (k1 x1).trans c1
  generalize (ph.collectObjects x1).st = x2 at hok2 c2 ⊢
  try simp only at hok2 ⊢
  obtain ⟨hok3, e3, s3, _⟩ := peel_phase _ _ _ _ (by decide) (q2 _) hok2
  rw [e3, s3]
  have c3 : (ph.packageObjects x2).st.conf = st.conf := (k2 x2).trans c2
  generalize (ph.packageObjects x2).st = x3 at hok3 c3 ⊢
  try simp only at hok3 ⊢
  obtain ⟨hok4, e4, s4, _⟩ := peel_phase _ _ _ _ (by decide) (q3 0 _) hok3
  rw [e4, s4]
  have c4 : (ph.processDelayed 0 x3).st.conf = st.conf := (k3 0 x3).trans c3
  generalize (ph.processDelayed 0 x3).st = x4 at hok4 c4 ⊢
  try simp only at hok4 ⊢
  obtain ⟨hok5, e5, s5, _⟩ := peel_phase _ _ _ _ (by decide) (q4 _) hok4
  rw [e5, s5]
  have c5 : (ph.cleanup x4).st.conf = st.conf := (k4 x4).trans c4
  generalize (ph.cleanup x4).st = x5 at hok5 c5 ⊢
  try simp only at hok5 ⊢
  obtain ⟨hok6, e6, s6, _⟩ := peel_phase _ _ _ _ (by decide) (q5 _) hok5
  rw [e6, s6]
  have c6 : (ph.initOrder x5).st.conf = st.conf := (k5 x5).trans c5
  generalize (ph.initOrder x5).st = x6 at hok6 c6 ⊢
  try simp only at hok6 ⊢
  rw [c6] at hok6 ⊢
  have tail : ∀ (x7 : Checker) (k : Unit → Checker → Res Unit),
      k = (fun _ s8 =>
        (if s8.firstErr.isNone then enterPhase "monomorph" ph.monomorph s8
          else Res.ret s8 ()).bind fun _ s9 =>
            Res.ret { s9 with pkgComplete := true, brokenAliases := [] } ()) →
      ((enterPhase "recordUntyped" ph.recordUntyped x7).bind k).out = Outcome.ok () →
      ∃ mo, entered ((enterPhase "recordUntyped" ph.recordUntyped x7).bind k).trace
          = "recordUntyped" :: mo
        ∧ (mo = ["monomorph"]
          ∨ (mo = [] ∧ ((enterPhase "recordUntyped" ph.recordUntyped x7).bind k).st.firstErr
              ≠ none)) := by
    intro x7 k hkdef hk7
    obtain ⟨hok8, e8, s8, _⟩ := peel_phase _ _ _ _ (by decide) (q7 _) hk7
    rw [e8, s8]
    subst hkdef
    try simp only at hok8 ⊢
    generalize (ph.recordUntyped x7).st = x8 at hok8 ⊢
    by_cases hfe : x8.firstErr.isNone = true
    · rw [if_pos hfe] at hok8 ⊢
      obtain ⟨_, e9, _, _⟩ := peel_phase _ _ _ _ (by decide) (q8 _) hok8
      exact ⟨["monomorph"], by rw [e9]; rfl, Or.inl rfl⟩
    · rw [if_neg hfe] at hok8 ⊢
      refine ⟨[], rfl, Or.inr ⟨rfl, ?_⟩⟩
      show x8.firstErr ≠ none
      intro hn
      rw [hn] at hfe
      exact hfe rfl
  by_cases hflag : st.conf.DisableUnusedImportCheck = true
  · simp only [hflag, Bool.not_true, Bool.false_eq_true, if_false, if_true] at hok6 ⊢
    obtain ⟨h2, h3, h4⟩ := peel_skip _ _ hok6
    rw [h3, h4]
    obtain ⟨mo, hmo, hcase⟩ := tail x6 _ rfl h2
    exact ⟨mo, by rw [hmo]; rfl, hcase⟩
  · have hflag' : st.conf.DisableUnusedImportCheck = false := by simpa using hflag
    simp only [hflag', Bool.not_false, if_true, Bool.false_eq_true, if_false] at hok6 ⊢
    obtain ⟨hok7, e7, s7, _⟩ := peel_phase _ _ _ _ (by decide) (q6 _) hok6
    rw [e7, s7]
    try simp only at hok7 ⊢
    obtain ⟨mo, hmo, hcase⟩ := tail _ _ rfl hok7
    exact ⟨mo, by rw [hmo]; rfl, hcase⟩

theorem QuietPhases_exPhases : QuietPhases exPhases :=
  ⟨fun _ => rfl, fun s => entered_report s _, fun _ _ => rfl, fun _ => rfl, fun _ => rfl,
   fun _ => rfl, fun _ => rfl, fun _ => rfl⟩

/-- C29: the phases that `checkFiles` enters are, in this order and each at most
once, among `initFiles`, `collectObjects`, `packageObjects`, `processDelayed`,
`cleanup`, `initOrder`, `unusedImports`, `recordUntyped`, `monomorph`;
`unusedImports` is entered only with the check not disabled and `monomorph` only
with no error recorded; when no phase is left by a panic or the bailout and the
phases keep the configuration, all of them are entered, except `unusedImports`
exactly when the check is disabled and `monomorph` only if an error is recorded. -/
theorem checkFiles_phase_order (ph : Phases) (st : Checker) (files : List File)
    (hq : QuietPhases ph) :
    (entered (checkFiles ph st files).trace).Sublist phaseNames
    ∧ (∀ m ∈ (checkFiles ph st files).trace, m.label = Label.enter "unusedImports" →
        m.st.conf.DisableUnusedImportCheck = false)
    ∧ (∀ m ∈ (checkFiles ph st files).trace, m.label = Label.enter "monomorph" →
        m.st.firstErr = none)
    ∧ (KeepConf ph → st.pkg.ptr ≠ Unsafe.ptr →
        (st.conf.FakeImportC && st.conf.go115UsesCgo) = false →
        (checkFilesBody ph st files).out = Outcome.ok () →
        ∃ mo, entered (checkFiles ph st files).trace
            = ["initFiles", "collectObjects", "packageObjects", "processDelayed", "cleanup",
                "initOrder"]
              ++ (if st.conf.DisableUnusedImportCheck then [] else ["unusedImports"])
              ++ ["recordUntyped"] ++ mo
          ∧ (mo = ["monomorph"]
            ∨ (mo = [] ∧ (checkFiles ph st files).st.firstErr ≠ none))) := by
  have htr : (checkFiles ph st files).trace = []
      ∨ (checkFiles ph st files).trace = (checkFilesBody ph st files).trace := by
    unfold checkFiles
    split
    · exact Or.inl rfl
    · split
      · exact Or.inl rfl
      · exact Or.inr (handleBailout_fields _).2
  refine ⟨?_, ?_, ?_, ?_⟩
  · rcases htr with h | h
    · rw [h]
      exact List.nil_sublist _
    · rw [h]
      exact entered_checkFilesBody_sublist ph hq st files
  · intro m hm hl
    rcases htr with h | h
    · rw [h] at hm
      exact absurd hm (List.not_mem_nil m)
    · rw [h] at hm
      exact checkFilesBody_moments
        (fun m => m.label = Label.enter "unusedImports" →
          m.st.conf.DisableUnusedImportCheck = false) ph hq
        (fun m hne hl => absurd hl (hne _ (by decide)))
        (fun n s h1 _ hl => by
          simp only [Label.enter.injEq] at hl
          exact absurd hl h1)
        (fun s hs _ => hs)
        (fun s _ hl => by
          simp only [Label.enter.injEq] at hl
          exact absurd hl (by decide))
        st files m hm hl
  · intro m hm hl
    rcases htr with h | h
    · rw [h] at hm
      exact absurd hm (List.not_mem_nil m)
    · rw [h] at hm
      exact checkFilesBody_moments
        (fun m => m.label = Label.enter "monomorph" → m.st.firstErr = none) ph hq
        (fun m hne hl => absurd hl (hne _ (by decide)))
        (fun n s _ h2 hl => by
          simp only [Label.enter.injEq] at hl
          exact absurd hl h2)
        (fun s _ hl => by
          simp only [Label.enter.injEq] at hl
          exact absurd hl (by decide))
        (fun s hs _ => hs)
        st files m hm hl
  · intro hk hpkg hcgo hok
    rw [checkFiles_eq ph st files hpkg hcgo, (handleBailout_fields _).2,
      (handleBailout_fields _).1]
    exact entered_checkFilesBody_ok ph hq hk st files hok

theorem KeepConf_exPhases : KeepConf exPhases :=
  ⟨fun _ => rfl,
   fun s => (sameButErrors_fields _ _ (report_sameButErrors s _)).2.2.1,
   fun _ _ => rfl, fun _ => rfl, fun _ => rfl⟩

theorem checkFiles_phase_order_witness :
    ∃ mo, entered (checkFiles exPhases exEmpty [exFile]).trace
        = ["initFiles", "collectObjects", "packageObjects", "processDelayed", "cleanup",
            "initOrder"]
          ++ (if exEmpty.conf.DisableUnusedImportCheck then [] else ["unusedImports"])
          ++ ["recordUntyped"] ++ mo
      ∧ (mo = ["monomorph"]
        ∨ (mo = [] ∧ (checkFiles exPhases exEmpty [exFile]).st.firstErr ≠ none)) :=
  (checkFiles_phase_order exPhases exEmpty [exFile] QuietPhases_exPhases).2.2.2
    KeepConf_exPhases (by decide) (by decide) (by decide)

theorem definedTypeAfter_ok (e : TExpr) (r : Res Typ) (t1 : Typ)
    (h : (definedTypeAfter e r).out = Outcome.ok t1) :
    IsGeneric (some t1) = false
    ∧ (definedTypeAfter e r).st.Types.getLast? = some ((e.pos, e.end_), t1) := by
  unfold definedTypeAfter at h ⊢
  obtain ⟨t, hrt, hk, _, hst⟩ := Res.bind_ok_inv r _ t1 h
  rw [hst]
  clear hst h
  by_cases hty : IsTyped t = true
  · simp only [hty, Bool.not_true, Bool.false_eq_true, if_false] at hk ⊢
    obtain ⟨t2, h2, hk2, _, hst2⟩ := Res.bind_ok_inv _ _ t1 hk
    rw [hst2]
    simp only [Outcome.ok.injEq] at hk2
    subst hk2
    refine ⟨?_, by simp [recordTypeAndValue]⟩
    by_cases hg : IsGeneric (some t) = true
    · rw [if_pos hg] at h2
      obtain ⟨_, _, h3, _, _⟩ := Res.bind_ok_inv _ _ t2 h2
      simp only [Res.ret, Outcome.ok.injEq] at h3
      subst h3
      rfl
    · rw [if_neg hg] at h2
      simp only [Res.ret, Outcome.ok.injEq] at h2
      subst h2
      simpa using hg
  · simp only [hty, Bool.not_false, if_true, Res.fail] at hk
    cases hk

/-- C24 (amended): when `typInternal` returns the typed type `t` for the expression:
if `t` is not generic, `definedType` returns `t`, records it for the expression and
reports nothing of its own; if `t` is generic and an error callback is configured,
`definedType` reports one `WrongTypeArgCount` diagnostic at the expression, returns
the invalid type and records the invalid type for the expression. Whenever
`definedType`, `typ` or `varType` returns a type, that type is not generic, and for
`definedType` it is the type recorded last, for the expression. -/
theorem definedType_never_generic (call : Checker → ObjId → Option (Res Unit))
    (st : Checker) (e : TExpr) (def_ : Option ObjId) (rt : Res Typ) (t : Typ)
    (ht : typInternal call st e def_ = some rt) (hout : rt.out = Outcome.ok t)
    (htyped : IsTyped t = true) :
    (IsGeneric (some t) = false →
      ∃ r, definedType call st e def_ = some r ∧ r.out = Outcome.ok t
        ∧ r.st = recordTypeAndValue rt.st e t
        ∧ reportsOf r.trace = reportsOf rt.trace)
    ∧ (IsGeneric (some t) = true → rt.st.conf.hasError = true →
      ∃ r, definedType call st e def_ = some r ∧ r.out = Outcome.ok Typ_Invalid
        ∧ r.st.Types = rt.st.Types ++ [((e.pos, e.end_), Typ_Invalid)]
        ∧ reportsOf r.trace = reportsOf rt.trace
            ++ [newErrorf (positioner.node e.pos e.end_) Code.WrongTypeArgCount
                ("cannot use generic type " ++ Typ_String rt.st t ++ " without instantiation")])
    ∧ (∀ r t1, definedType call st e def_ = some r → r.out = Outcome.ok t1 →
        IsGeneric (some t1) = false ∧ r.st.Types.getLast? = some ((e.pos, e.end_), t1))
    ∧ (∀ r t1, typ call st e = some r → r.out = Outcome.ok t1 → IsGeneric (some t1) = false)
    ∧ (∀ r t1, varType call st e = some r → r.out = Outcome.ok t1 →
        IsGeneric (some t1) = false) := by
  have hdef : ∀ (d : Option ObjId) r t1, definedType call st e d = some r →
      r.out = Outcome.ok t1 →
      IsGeneric (some t1) = false ∧ r.st.Types.getLast? = some ((e.pos, e.end_), t1) := by
    intro d r t1 h1 h2
    unfold definedType at h1
    rw [Option.map_eq_some'] at h1
    obtain ⟨ra, _, rfl⟩ := h1
    exact definedTypeAfter_ok e ra t1 h2
  refine ⟨?_, ?_, hdef def_, fun r t1 h1 h2 => (hdef none r t1 h1 h2).1, ?_⟩
  · intro hg
    have heq : definedTypeAfter e rt
        = ⟨Outcome.ok t, recordTypeAndValue rt.st e t,
            rt.trace ++ [⟨Label.step, recordTypeAndValue rt.st e t⟩]⟩ := by
      unfold definedTypeAfter
      rw [Res.bind_ok _ _ t hout]
      simp only [htyped, Bool.not_true, Bool.false_eq_true, if_false, hg]
      rfl
    refine ⟨definedTypeAfter e rt, by simp [definedType, ht], ?_, ?_, ?_⟩
    · rw [heq]
    · rw [heq]
    · rw [heq]
      simp [reportsOf_append, reportsOf_step]
  · intro hg hcb
    obtain ⟨h1, h2, h3⟩ := errorf_callback rt.st (positioner.node e.pos e.end_)
      Code.WrongTypeArgCount
      ("cannot use generic type " ++ Typ_String rt.st t ++ " without instantiation") hcb
      (by decide) (by simp)
    obtain ⟨fe, sk, hsk⟩ := h2
    have heq : definedTypeAfter e rt
        = ⟨Outcome.ok Typ_Invalid,
            recordTypeAndValue { rt.st with firstErr := fe, sink := sk } e Typ_Invalid,
            rt.trace ++ ([⟨Label.report (newErrorf (positioner.node e.pos e.end_)
                Code.WrongTypeArgCount
                ("cannot use generic type " ++ Typ_String rt.st t ++ " without instantiation")),
                rt.st⟩]
              ++ [⟨Label.step,
                recordTypeAndValue { rt.st with firstErr := fe, sink := sk } e Typ_Invalid⟩])⟩ := by
      unfold definedTypeAfter
      rw [Res.bind_ok _ _ t hout]
      simp only [htyped, Bool.not_true, Bool.false_eq_true, if_false, hg, if_true]
      rw [Res.bind_ok _ _ () h1]
      simp only [h3, hsk]
      rfl
    refine ⟨definedTypeAfter e rt, by simp [definedType, ht], ?_, ?_, ?_⟩
    · rw [heq]
    · rw [heq]
      rfl
    · rw [heq]
      simp only [reportsOf_append, reportsOf_step, reportsOf_report, List.append_nil]
  · intro r t1 h1 h2
    unfold varType at h1
    rw [Option.map_eq_some'] at h1
    obtain ⟨rd, hrd, rfl⟩ := h1
    obtain ⟨t2, h3, h4, _, _⟩ := Res.bind_ok_inv rd _ t1 h2
    obtain ⟨_, _, h5, _, _⟩ := Res.bind_ok_inv _ _ t1 h4
    simp only [Res.ret, Outcome.ok.injEq] at h5
    subst h5
    exact (hdef none rd t2 hrd h3).1

theorem definedType_never_generic_witness :
    ∃ r, definedType (objDecl 1) exGeneric exGenericName none = some r
      ∧ r.out = Outcome.ok Typ_Invalid
      ∧ r.st.Types = exGeneric.Types ++ [((20, 21), Typ_Invalid)]
      ∧ reportsOf r.trace = [newErrorf (positioner.node 20 21) Code.WrongTypeArgCount
          "cannot use generic type T without instantiation"] :=
  (definedType_never_generic (objDecl 1) exGeneric exGenericName none
    ⟨Outcome.ok (Typ.named 0 true), exGeneric, [⟨Label.step, exGeneric⟩]⟩ (Typ.named 0 true)
    rfl rfl rfl).2.1 rfl rfl

/-- C24 (counterexample): without an error callback, `definedType` for the name of
the generic type `T` reports the `WrongTypeArgCount` diagnostic and ends in the
bailout: it does not return the invalid type, and no type is recorded for the
expression. -/
theorem definedType_generic_bails_out :
    exGenericBailout.conf.hasError = false
    ∧ (typInternal (objDecl 1) exGenericBailout exGenericName none).map (fun r => r.out)
      = some (Outcome.ok (Typ.named 0 true))
    ∧ IsGeneric (some (Typ.named 0 true)) = true
    ∧ (definedType (objDecl 1) exGenericBailout exGenericName none).map
        (fun r => (r.out, r.st.Types, reportsOf r.trace))
      = some (Outcome.bailout, [],
          [newErrorf (positioner.node 20 21) Code.WrongTypeArgCount
            "cannot use generic type T without instantiation"]) := by
  decide

theorem traceWrap_eq (st : Checker) (body : Checker → Option (Res Typ)) :
    traceWrap st body = (body (typEntry st)).map (typLeave st) := by
  unfold traceWrap typEntry typLeave
  split
  · rfl
  · simp

theorem typLeave_facts (st : Checker) (rb : Res Typ) :
    (typLeave st rb).out = rb.out ∧ (typLeave st rb).trace = rb.trace
    ∧ (typLeave st rb).st
        = if st.conf._Trace then { rb.st with indent := rb.st.indent - 1 } else rb.st := by
  unfold typLeave
  split
  · simp [Res.deferred, Res.ret]
  · simp

theorem typInvalidEnd_facts (s : Checker) (def_ : Option ObjId) :
    (typInvalidEnd s def_).out = Outcome.ok Typ_Invalid
    ∧ (∀ d, def_ = some d → (typInvalidEnd s def_).st.underlying d = Typ_Invalid)
    ∧ reportsOf (typInvalidEnd s def_).trace = [] := by
  refine ⟨rfl, ?_, rfl⟩
  intro d hd
  subst hd
  simp [typInvalidEnd, setUnderlying]

/-- C26 (amended): for an identifier (`sel` false) or a qualified name (`sel` true)
whose resolution returns normally: if the operand is a type expression,
`typInternal` returns exactly its type, binds it as the underlying type of `def` and
reports nothing of its own; if the operand is invalid, it returns the invalid type,
binds it as the underlying type of `def` and reports nothing of its own; in the
other modes, with an error callback configured, it reports one `NotAType`
diagnostic at the operand, returns the invalid type and binds it as the underlying
type of `def`. -/
theorem typInternal_name (call : Checker → ObjId → Option (Res Unit)) (st : Checker)
    (sel : Bool) (p q : Pos) (text : String) (acts : List Act) (mode : operandMode) (t : Typ)
    (def_ : Option ObjId) (ra : Res Unit)
    (hra : runActs call (typEntry st) acts = some ra) (hok : ra.out = Outcome.ok ()) :
    (mode = operandMode.typexpr →
      ∃ r, typInternal call st
          (if sel then TExpr.selector p q text acts mode t else TExpr.ident p q text acts mode t)
          def_ = some r
        ∧ r.out = Outcome.ok t ∧ (∀ d, def_ = some d → r.st.underlying d = t)
        ∧ reportsOf r.trace = reportsOf ra.trace)
    ∧ (mode = operandMode.invalid →
      ∃ r, typInternal call st
          (if sel then TExpr.selector p q text acts mode t else TExpr.ident p q text acts mode t)
          def_ = some r
        ∧ r.out = Outcome.ok Typ_Invalid
        ∧ (∀ d, def_ = some d → r.st.underlying d = Typ_Invalid)
        ∧ reportsOf r.trace = reportsOf ra.trace)
    ∧ (mode ≠ operandMode.typexpr → mode ≠ operandMode.invalid → ra.st.conf.hasError = true →
      ∃ r, typInternal call st
          (if sel then TExpr.selector p q text acts mode t else TExpr.ident p q text acts mode t)
          def_ = some r
        ∧ r.out = Outcome.ok Typ_Invalid
        ∧ (∀ d, def_ = some d → r.st.underlying d = Typ_Invalid)
        ∧ reportsOf r.trace = reportsOf ra.trace
            ++ [newErrorf (positioner.operand (some (p, q))) Code.NotAType
                (text ++ if mode = operandMode.novalue then " used as type"
                  else " is not a type")]) := by
  have heq : typInternal call st
      (if sel then TExpr.selector p q text acts mode t else TExpr.ident p q text acts mode t)
      def_ = some (typLeave st (ra.bind fun _ s => identAfter s def_ p q text mode t)) := by
    rw [typInternal_eq, traceWrap_eq]
    cases sel <;> simp [typSwitch, identCase, hra]
  have hun : ∀ (rb : Res Typ) (d : ObjId), (typLeave st rb).st.underlying d = rb.st.underlying d := by
    intro rb d
    rw [(typLeave_facts st rb).2.2]
    split <;> rfl
  have hbind : ∀ k : Unit → Checker → Res Typ,
      ra.bind k = ⟨(k () ra.st).out, (k () ra.st).st, ra.trace ++ (k () ra.st).trace⟩ :=
    fun k => Res.bind_ok ra k () hok
  have herr : ∀ msg : String, ra.st.conf.hasError = true →
      ((errorf ra.st (positioner.operand (some (p, q))) Code.NotAType msg).bind
          fun _ s1 => typInvalidEnd s1 def_).out = Outcome.ok Typ_Invalid
      ∧ (∀ d, def_ = some d →
          ((errorf ra.st (positioner.operand (some (p, q))) Code.NotAType msg).bind
            fun _ s1 => typInvalidEnd s1 def_).st.underlying d = Typ_Invalid)
      ∧ reportsOf ((errorf ra.st (positioner.operand (some (p, q))) Code.NotAType msg).bind
          fun _ s1 => typInvalidEnd s1 def_).trace
        = [newErrorf (positioner.operand (some (p, q))) Code.NotAType msg] := by
    intro msg hcb
    obtain ⟨h1, _, h3⟩ := errorf_callback ra.st (positioner.operand (some (p, q)))
      Code.NotAType msg hcb (by decide) (by simp)
    rw [Res.bind_ok _ _ () h1]
    refine ⟨rfl, ?_, ?_⟩
    · intro d hd
      exact (typInvalidEnd_facts _ def_).2.1 d hd
    · simp only [h3, reportsOf_append, reportsOf_report, (typInvalidEnd_facts _ def_).2.2,
        List.append_nil]
  refine ⟨?_, ?_, ?_⟩
  · intro hm
    subst hm
    refine ⟨_, heq, ?_, ?_, ?_⟩
    · rw [(typLeave_facts st _).1, hbind]
      rfl
    · intro d hd
      subst hd
      rw [hun, hbind]
      simp [identAfter, setUnderlying]
    · rw [(typLeave_facts st _).2.1, hbind]
      simp [identAfter, reportsOf_append, reportsOf_step]
  · intro hm
    subst hm
    refine ⟨_, heq, ?_, ?_, ?_⟩
    · rw [(typLeave_facts st _).1, hbind]
      rfl
    · intro d hd
      rw [hun, hbind]
      exact (typInvalidEnd_facts _ def_).2.1 d hd
    · rw [(typLeave_facts st _).2.1, hbind]
      simp [identAfter, reportsOf_append, (typInvalidEnd_facts _ def_).2.2]
  · intro h1 h2 hcb
    refine ⟨_, heq, ?_, ?_, ?_⟩
    · rw [(typLeave_facts st _).1, hbind]
      cases mode with
      | typexpr => exact absurd rfl h1
      | invalid => exact absurd rfl h2
      | novalue => exact (herr _ hcb).1
      | value => exact (herr _ hcb).1
    · intro d hd
      rw [hun, hbind]
      cases mode with
      | typexpr => exact absurd rfl h1
      | invalid => exact absurd rfl h2
      | novalue => exact (herr _ hcb).2.1 d hd
      | value => exact (herr _ hcb).2.1 d hd
    · rw [(typLeave_facts st _).2.1, hbind, reportsOf_append]
      cases mode with
      | typexpr => exact absurd rfl h1
      | invalid => exact absurd rfl h2
      | novalue =>
        simp only [identAfter, (herr _ hcb).2.2]
        rfl
      | value =>
        simp only [identAfter, (herr _ hcb).2.2]
        rfl

theorem typInternal_name_witness :
    ∃ r, typInternal (objDecl 1) exEmpty exValueName (some 5) = some r
      ∧ r.out = Outcome.ok Typ_Invalid
      ∧ r.st.underlying 5 = Typ_Invalid
      ∧ reportsOf r.trace
        = [newErrorf (positioner.operand (some (20, 21))) Code.NotAType "x is not a type"] := by
  obtain ⟨r, h1, h2, h3, h4⟩ :=
    (typInternal_name (objDecl 1) exEmpty false 20 21 "x" [] operandMode.value
      (Typ.basic "int") (some 5) ⟨Outcome.ok (), exEmpty, []⟩ rfl rfl).2.2
      (by decide) (by decide) rfl
  exact ⟨r, h1, h2, h3 5 rfl, h4⟩

/-- C26 (counterexample): without an error callback, `typInternal` for the
identifier `x`, which denotes a variable, reports the `NotAType` diagnostic and ends
in the bailout: it does not return the invalid type, and the underlying type of
`def` (object 5) is still `int`, not the invalid type. -/
theorem typInternal_name_bails_out :
    exBoundBailout.conf.hasError = false
    ∧ exBoundBailout.underlying 5 = Typ.basic "int"
    ∧ (typInternal (objDecl 1) exBoundBailout exValueName (some 5)).map
        (fun r => (r.out, r.st.underlying 5, reportsOf r.trace))
      = some (Outcome.bailout, Typ.basic "int",
          [newErrorf (positioner.operand (some (20, 21))) Code.NotAType "x is not a type"]) := by
  decide

/-- C28: `validVarType` returns normally and reports nothing; for a type parameter
it leaves the checker as it is, and for any other type it appends exactly one
delayed action. When that action runs in a state `s`: if the underlying type of the
type is an interface whose type set is not a pure method set, it reports exactly one
diagnostic, which is soft, has the code `MisplacedConstraintIface`, is placed at the
type expression and carries the message about `comparable` when the type set is
flagged comparable and the message about type constraints otherwise; in every other
case it reports nothing. -/
theorem validVarType_delays_check (st s : Checker) (e : TExpr) (t : Typ)
    (other : Nat → Checker → Res Unit) :
    (validVarType st e t).out = Outcome.ok ()
    ∧ reportsOf (validVarType st e t).trace = []
    ∧ (isTypeParam t = true → (validVarType st e t).st = st)
    ∧ (isTypeParam t = false →
        (validVarType st e t).st
          = { st with delayed := st.delayed
                ++ [{ f := Closure.validVarType e.pos e.end_ t, desc := none }] })
    ∧ (∀ n, Under s t = Typ.composite n → (s.nodes n).kind = NodeKind.Interface →
        (computeInterfaceTypeSet s e.pos n).IsMethodSet = false →
        reportsOf (runClosure other s (Closure.validVarType e.pos e.end_ t)).trace
          = [misplacedIface s e.pos e.end_ t (computeInterfaceTypeSet s e.pos n).comparable])
    ∧ ((¬ ∃ n, Under s t = Typ.composite n ∧ (s.nodes n).kind = NodeKind.Interface
          ∧ (computeInterfaceTypeSet s e.pos n).IsMethodSet = false) →
        reportsOf (runClosure other s (Closure.validVarType e.pos e.end_ t)).trace = []) := by
  refine ⟨?_, ?_, ?_, ?_, ?_, ?_⟩
  · unfold validVarType
    split <;> rfl
  · unfold validVarType
    split <;> rfl
  · intro h
    unfold validVarType
    rw [if_pos h]
    rfl
  · intro h
    unfold validVarType
    rw [if_neg (by simp [h])]
    rfl
  · intro n hu hk hm
    simp only [runClosure, validVarTypeCheck, hu, hk, if_true, hm, Bool.not_false]
    cases hc : (computeInterfaceTypeSet s e.pos n).comparable with
    | true =>
      simp only [if_true, softErrorf, report_trace, reportsOf_report, misplacedIface]
    | false =>
      simp only [Bool.false_eq_true, if_false, softErrorf, report_trace, reportsOf_report,
        misplacedIface]
  · intro hno
    simp only [runClosure, validVarTypeCheck]
    split
    · rename_i n hu
      split
      · rename_i hk
        split
        · rename_i hm
          exact absurd ⟨n, hu, hk, by simpa using hm⟩ hno
        · rfl
      · rfl
    · rfl

theorem setUnderlying_nodes (s : Checker) (d : Option ObjId) (t : Typ) :
    (setUnderlying s d t).nodes = s.nodes ∧ (setUnderlying s d t).nextNode = s.nextNode := by
  cases d <;> exact ⟨rfl, rfl⟩

theorem typEntry_nodes (st : Checker) :
    (typEntry st).nodes = st.nodes ∧ (typEntry st).nextNode = st.nextNode := by
  unfold typEntry
  split <;> exact ⟨rfl, rfl⟩

theorem allocBound_facts (s : Checker) (d : Option ObjId) (k : NodeKind) :
    (allocBound s d k).2 = s.nextNode ∧ (allocBound s d k).1.nextNode = s.nextNode + 1
    ∧ (allocBound s d k).1.nodes s.nextNode = TypeNode.zero k := by
  refine ⟨rfl, ?_, ?_⟩
  · unfold allocBound
    simp only [(setUnderlying_nodes _ _ _).2]
    rfl
  · unfold allocBound
    simp only [(setUnderlying_nodes _ _ _).1]
    simp [newNode]

theorem seqO_ok {α β : Type} (x : Option (Res α)) (k : α → Checker → Option (Res β))
    (r : Res α) (a : α) (hx : x = some r) (ha : r.out = Outcome.ok a) :
    seqO x k = (k a r.st).map (Res.after r.trace) := by
  subst hx
  simp [seqO, Res.bindO, ha]

/-- C23: for a map type expression whose key and element types are evaluated with a
normal return, whatever the nested calls of `objDecl` do: `typInternal` returns the
map type, the structure allocated by the call; its diagnostics are those of the
evaluation of the key followed by those of the evaluation of the element, it reports
none of its own; the delayed actions are those that were pending after the
evaluation of the element followed by the check of the key. When the two evaluations
leave the map structure as it is, the structure has at the end the kind of a map, the
key type and the element type. When the delayed action runs in a state in which the
map has the key type `tk`, it reports nothing if `tk` is comparable and exactly one
`IncomparableMapKey` diagnostic at the key expression otherwise. -/
theorem typInternal_map_key_check (call : Checker → ObjId → Option (Res Unit))
    (st : Checker) (p q : Pos) (key value : TExpr) (def_ : Option ObjId)
    (rk rv : Res Typ) (tk tv : Typ)
    (hk : varType call (allocBound (typEntry st) def_ NodeKind.Map).1 key = some rk)
    (hkok : rk.out = Outcome.ok tk)
    (hv : varType call (setKey rk.st st.nextNode tk) value = some rv)
    (hvok : rv.out = Outcome.ok tv) :
    ∃ r, typInternal call st (TExpr.map p q key value) def_ = some r
      ∧ r.out = Outcome.ok (Typ.composite st.nextNode)
      ∧ reportsOf r.trace = reportsOf rk.trace ++ reportsOf rv.trace
      ∧ r.st.delayed
        = rv.st.delayed ++ [{ f := Closure.mapKey st.nextNode key.pos key.end_, desc := none }]
      ∧ (rk.st.nodes st.nextNode
            = (allocBound (typEntry st) def_ NodeKind.Map).1.nodes st.nextNode →
          rv.st.nodes st.nextNode = (setKey rk.st st.nextNode tk).nodes st.nextNode →
          r.st.nodes st.nextNode
            = { kind := NodeKind.Map, len := 0, elem := some tv, base := none, key := some tk,
                dir := 0 })
      ∧ ∀ (other : Nat → Checker → Res Unit) (s : Checker), (s.nodes st.nextNode).key = some tk →
          reportsOf (runClosure other s (Closure.mapKey st.nextNode key.pos key.end_)).trace
            = if Comparable s tk then []
              else [newErrorf (positioner.node key.pos key.end_) Code.IncomparableMapKey
                ("invalid map key type " ++ Typ_String s tk
                  ++ if isTypeParam tk then " (missing comparable constraint)" else "")] := by
  obtain ⟨he1, he2⟩ := typEntry_nodes st
  obtain ⟨hn, hn1, hnode1⟩ := allocBound_facts (typEntry st) def_ NodeKind.Map
  rw [he2] at hn hn1 hnode1
  have heq : typInternal call st (TExpr.map p q key value) def_
      = some (typLeave st
          (Res.after [⟨Label.step, (allocBound (typEntry st) def_ NodeKind.Map).1⟩]
            (Res.after rk.trace
              (Res.after [⟨Label.step, setKey rk.st st.nextNode tk⟩]
                (Res.after rv.trace
                  ⟨Outcome.ok (Typ.composite st.nextNode),
                    (later (setElem rv.st st.nextNode tv)
                      (Closure.mapKey st.nextNode key.pos key.end_)).1,
                    [⟨Label.step, setElem rv.st st.nextNode tv⟩,
                     ⟨Label.step, (later (setElem rv.st st.nextNode tv)
                      (Closure.mapKey st.nextNode key.pos key.end_)).1⟩]⟩))))) := by
    rw [typInternal_eq, traceWrap_eq]
    simp only [typSwitch, mapCase, hn]
    rw [seqO_ok _ _ rk tk hk hkok]
    rw [seqO_ok _ _ rv tv hv hvok]
    simp only [Option.map_some']
  refine ⟨_, heq, ?_, ?_, ?_, ?_, ?_⟩
  · rw [(typLeave_facts st _).1]
    rfl
  · rw [(typLeave_facts st _).2.1]
    simp [Res.after, reportsOf_append, reportsOf_step, reportsOf]
  · rw [(typLeave_facts st _).2.2]
    split <;> rfl
  · intro hnk hnv
    have hrkn : rk.st.nodes st.nextNode = TypeNode.zero NodeKind.Map := by
      rw [hnk, hnode1]
    have hrvn : rv.st.nodes st.nextNode
        = { TypeNode.zero NodeKind.Map with key := some tk } := by
      rw [hnv]
      simp [setKey, hrkn]
    rw [(typLeave_facts st _).2.2]
    have : (later (setElem rv.st st.nextNode tv)
        (Closure.mapKey st.nextNode key.pos key.end_)).1.nodes st.nextNode
        = { kind := NodeKind.Map, len := 0, elem := some tv, base := none, key := some tk,
            dir := 0 } := by
      simp [later, setElem, hrvn, TypeNode.zero]
    split <;> exact this
  · intro other s hs
    simp only [runClosure, mapKeyCheck, hs]
    cases hc : Comparable s tk with
    | true => simp [Res.ret, reportsOf]
    | false =>
      simp only [Bool.not_false, if_true, Bool.false_eq_true, if_false, errorf, report_trace,
        reportsOf_report]

theorem typInternal_map_key_check_witness :
    ∃ r, typInternal (objDecl 1) exEmpty exMapType none = some r
      ∧ r.out = Outcome.ok (Typ.composite 0)
      ∧ reportsOf r.trace = []
      ∧ r.st.delayed
        = [{ f := Closure.validVarType 26 29 (Typ.basic "int"), desc := none },
           { f := Closure.validVarType 24 29 (Typ.composite 1), desc := none },
           { f := Closure.validVarType 30 33 (Typ.basic "int"), desc := none },
           { f := Closure.mapKey 0 24 29, desc := none }]
      ∧ r.st.nodes 0
        = { kind := NodeKind.Map, len := 0, elem := some (Typ.basic "int"), base := none,
            key := some (Typ.composite 1), dir := 0 } := by
  obtain ⟨r, h1, h2, h3, h4, h5, _⟩ :=
    typInternal_map_key_check (objDecl 1) exEmpty 20 33
      (TExpr.array 24 29 none (TExpr.ident 26 29 "int" [] operandMode.typexpr (Typ.basic "int")))
      (TExpr.ident 30 33 "int" [] operandMode.typexpr (Typ.basic "int")) none
      _ _ (Typ.composite 1) (Typ.basic "int") rfl rfl rfl rfl
  exact ⟨r, h1, h2, h3, h4, h5 rfl rfl⟩

theorem typEntry_fields (st : Checker) : ∃ i, typEntry st = { st with indent := i } := by
  unfold typEntry
  split
  · exact ⟨_, rfl⟩
  · exact ⟨st.indent, rfl⟩

theorem boundOnly_allocBound (st : Checker) (d : ObjId) (k : NodeKind) :
    boundOnly st (allocBound (typEntry st) (some d) k).1 d k := by
  obtain ⟨j, hj⟩ := typEntry_fields st
  rw [hj]
  refine ⟨rfl, rfl, by simp [allocBound, setUnderlying, newNode, TypeNode.zero], ?_,
    rfl, rfl, rfl, rfl, rfl, rfl, rfl⟩
  intro i hi
  simp [allocBound, setUnderlying, newNode, Function.update_noteq hi]

theorem seqO_some_inv {α β : Type} (x : Option (Res α)) (k : α → Checker → Option (Res β))
    (r : Res β) (h : seqO x k = some r) :
    ∃ rx rest, x = some rx ∧ r.trace = rx.trace ++ rest := by
  unfold seqO at h
  cases hx : x with
  | none => rw [hx] at h; cases h
  | some rx =>
    rw [hx] at h
    simp only [Option.some_bind, Res.bindO] at h
    cases ho : rx.out with
    | ok a =>
      rw [ho] at h
      simp only at h
      rw [Option.map_eq_some'] at h
      obtain ⟨r2, _, rfl⟩ := h
      exact ⟨rx, r2.trace, rfl, rfl⟩
    | bailout =>
      rw [ho] at h
      simp only [Option.some.injEq] at h
      subst h
      exact ⟨rx, [], rfl, (List.append_nil _).symm⟩
    | panic m =>
      rw [ho] at h
      simp only [Option.some.injEq] at h
      subst h
      exact ⟨rx, [], rfl, (List.append_nil _).symm⟩

theorem boundOnly_star (st : Checker) (d : ObjId) :
    boundOnly st
      (setUnderlying (setBase (newNode (typEntry st) NodeKind.Pointer).1
        (newNode (typEntry st) NodeKind.Pointer).2 Typ_Invalid) (some d)
        (Typ.composite (newNode (typEntry st) NodeKind.Pointer).2)) d NodeKind.Pointer := by
  obtain ⟨j, hj⟩ := typEntry_fields st
  rw [hj]
  refine ⟨rfl, rfl, by simp [setUnderlying, setBase, newNode, TypeNode.zero], ?_,
    rfl, rfl, rfl, rfl, rfl, rfl, rfl⟩
  intro i hi
  simp [setUnderlying, setBase, newNode, Function.update_noteq hi]

/-- C25: for a pointer, slice, array, struct, function, interface, map or channel
type expression evaluated for the type declared by `d`, whatever the nested calls of
`objDecl` do: the first observation point of `typInternal` is the binding, in a state
in which a type structure of the kind of the expression, not in use before, has been
allocated and bound as the underlying type of `d` and nothing else has happened. The
evaluation of the first part of the expression comes after it: it starts in the state
of the binding or in a state observed after the binding, and its observation points
follow. Only for a channel of unknown direction whose diagnostic does not return is
no part evaluated at all. -/
theorem typInternal_binds_before_parts (call : Checker → ObjId → Option (Res Unit))
    (st : Checker) (e : TExpr)
    (k : NodeKind) (d : ObjId) (r : Res Typ) (hk : builtKind e = some k)
    (h : typInternal call st e (some d) = some r) :
    ∃ s1 tail, r.trace = ⟨Label.step, s1⟩ :: tail ∧ boundOnly st s1 d k
      ∧ ((∃ pre sp t1 rest, tail = pre ++ t1 ++ rest ∧ firstPart call sp e = some t1
            ∧ ((pre = [] ∧ sp = s1) ∨ ∃ pre0, pre = pre0 ++ [⟨Label.step, sp⟩]))
          ∨ ((∃ p q dir v, e = TExpr.chan p q dir v) ∧ ∀ t, r.out ≠ Outcome.ok t)) := by
  rw [typInternal_eq, traceWrap_eq, Option.map_eq_some'] at h
  obtain ⟨rb, hrb, rfl⟩ := h
  rw [(typLeave_facts st rb).1, (typLeave_facts st rb).2.1]
  have hseq : ∀ {α : Type} (B : Checker) (x : Option (Res α))
      (kk : α → Checker → Option (Res Typ)),
      boundOnly st B d k → firstPart call B e = x.map (fun r => r.trace) →
      (seqO x kk).map (Res.after [⟨Label.step, B⟩]) = some rb →
      ∃ s1 tail, rb.trace = ⟨Label.step, s1⟩ :: tail ∧ boundOnly st s1 d k
        ∧ ((∃ pre sp t1 rest, tail = pre ++ t1 ++ rest ∧ firstPart call sp e = some t1
              ∧ ((pre = [] ∧ sp = s1) ∨ ∃ pre0, pre = pre0 ++ [⟨Label.step, sp⟩]))
            ∨ ((∃ p q dir v, e = TExpr.chan p q dir v) ∧ ∀ t, rb.out ≠ Outcome.ok t)) := by
    intro α B x kk hB hfp hx
    rw [Option.map_eq_some'] at hx
    obtain ⟨r1, h1, rfl⟩ := hx
    obtain ⟨rx, rest, hxs, htr⟩ := seqO_some_inv x kk r1 h1
    refine ⟨B, r1.trace, rfl, hB, Or.inl ⟨[], B, rx.trace, rest, ?_, ?_, Or.inl ⟨rfl, rfl⟩⟩⟩
    · rw [htr]
      rfl
    · rw [hfp, hxs]
      rfl
  have hfill : ∀ (kd : NodeKind) (acts : List Act), kd = k →
      firstPart call (allocBound (typEntry st) (some d) kd).1 e
        = (runActs call (allocBound (typEntry st) (some d) kd).1 acts).map (fun r => r.trace) →
      filledCase call (typEntry st) (some d) kd acts = some rb →
      ∃ s1 tail, rb.trace = ⟨Label.step, s1⟩ :: tail ∧ boundOnly st s1 d k
        ∧ ((∃ pre sp t1 rest, tail = pre ++ t1 ++ rest ∧ firstPart call sp e = some t1
              ∧ ((pre = [] ∧ sp = s1) ∨ ∃ pre0, pre = pre0 ++ [⟨Label.step, sp⟩]))
            ∨ ((∃ p q dir v, e = TExpr.chan p q dir v) ∧ ∀ t, rb.out ≠ Outcome.ok t)) := by
    intro kd acts hkd hfp hx
    subst hkd
    unfold filledCase at hx
    simp only at hx
    rw [Option.map_eq_some'] at hx
    obtain ⟨ra, hra, rfl⟩ := hx
    obtain ⟨t, ht⟩ := Res.bind_trace ra
      (fun (_ : Unit) s => Res.ret s (Typ.composite (allocBound (typEntry st) (some d) kd).2))
    refine ⟨_, _, rfl, boundOnly_allocBound st d kd,
      Or.inl ⟨[], _, ra.trace, t, ?_, ?_, Or.inl ⟨rfl, rfl⟩⟩⟩
    · rw [ht]
      rfl
    · rw [hfp, hra]
      rfl
  cases e with
  | array p q len elt =>
    cases len with
    | none =>
      simp only [builtKind, Option.some.injEq] at hk
      subst hk
      exact hseq _ _ _ (boundOnly_allocBound st d _) rfl hrb
    | some l =>
      simp only [builtKind, Option.some.injEq] at hk
      subst hk
      exact hseq _ _ _ (boundOnly_allocBound st d _) rfl hrb
  | struct p q acts =>
    simp only [builtKind, Option.some.injEq] at hk
    exact hfill _ acts hk rfl hrb
  | func p q acts =>
    simp only [builtKind, Option.some.injEq] at hk
    exact hfill _ acts hk rfl hrb
  | interface p q acts =>
    simp only [builtKind, Option.some.injEq] at hk
    exact hfill _ acts hk rfl hrb
  | star p q x =>
    simp only [builtKind, Option.some.injEq] at hk
    subst hk
    exact hseq _ _ _ (boundOnly_star st d) rfl hrb
  | map p q key value =>
    simp only [builtKind, Option.some.injEq] at hk
    subst hk
    exact hseq _ _ _ (boundOnly_allocBound st d _) rfl hrb
  | chan p q dir value =>
    simp only [builtKind, Option.some.injEq] at hk
    subst hk
    simp only [typSwitch, chanCase] at hrb
    rw [Option.map_eq_some'] at hrb
    obtain ⟨r1, h1, rfl⟩ := hrb
    refine ⟨_, r1.trace, rfl, boundOnly_allocBound st d _, ?_⟩
    generalize (if dir = ast_SEND ||| ast_RECV then
        Res.ret (allocBound (typEntry st) (some d) NodeKind.Chan).1 SendRecv
      else if dir = ast_SEND then
        Res.ret (allocBound (typEntry st) (some d) NodeKind.Chan).1 SendOnly
      else if dir = ast_RECV then
        Res.ret (allocBound (typEntry st) (some d) NodeKind.Chan).1 RecvOnly
      else (errorf (allocBound (typEntry st) (some d) NodeKind.Chan).1 (positioner.node p q)
        Code.InvalidSyntaxTree ("unknown channel direction " ++ toString dir)).bind
          fun _ s => Res.ret s SendRecv) = rd at h1
    unfold Res.bindO at h1
    cases ho : rd.out with
    | ok dd =>
      rw [ho] at h1
      simp only at h1
      rw [Option.map_eq_some'] at h1
      obtain ⟨r2, h2, rfl⟩ := h1
      rw [Option.map_eq_some'] at h2
      obtain ⟨r3, h3, rfl⟩ := h2
      obtain ⟨rx, rest, hxs, htr⟩ := seqO_some_inv _ _ r3 h3
      refine Or.inl ⟨rd.trace ++ [⟨Label.step,
        setDir rd.st (allocBound (typEntry st) (some d) NodeKind.Chan).2 dd⟩], _, rx.trace, rest,
        ?_, ?_, Or.inr ⟨rd.trace, rfl⟩⟩
      · simp only [Res.after, htr, List.append_assoc]
      · simp only [firstPart, hxs]
        rfl
    | bailout =>
      rw [ho] at h1
      simp only [Option.some.injEq] at h1
      subst h1
      exact Or.inr ⟨⟨p, q, dir, value, rfl⟩, fun t ht => by cases ht⟩
    | panic m =>
      rw [ho] at h1
      simp only [Option.some.injEq] at h1
      subst h1
      exact Or.inr ⟨⟨p, q, dir, value, rfl⟩, fun t ht => by cases ht⟩
  | _ => simp [builtKind] at hk

theorem typInternal_binds_before_parts_witness :
    ∃ r s1 tail, typInternal (objDecl 1) exEmpty exStarType (some 5) = some r
      ∧ r.trace = ⟨Label.step, s1⟩ :: tail ∧ boundOnly exEmpty s1 5 NodeKind.Pointer := by
  obtain ⟨s1, tail, h1, h2, _⟩ :=
    typInternal_binds_before_parts (objDecl 1) exEmpty exStarType
      NodeKind.Pointer 5 _ rfl rfl
  exact ⟨_, s1, tail, rfl, h1, h2⟩

theorem lookup_map_name (st : Checker) (k : String) :
    ∀ seen : List ObjId, List.lookup k (seen.map fun x => ((st.objs x).name, x))
      = seen.find? (fun x => k == (st.objs x).name) := by
  intro seen
  induction seen with
  | nil => rfl
  | cons x xs ih =>
    simp only [List.map_cons, List.lookup_cons, List.find?_cons]
    cases k == (st.objs x).name <;> simp [ih]

theorem find_name_append (st : Checker) (k : String) (seen : List ObjId) (m : ObjId) :
    (seen ++ [m]).find? (fun x => k == (st.objs x).name)
      = (seen.find? (fun x => k == (st.objs x).name)).or
          (if k == (st.objs m).name then some m else none) := by
  rw [List.find?_append]
  congr 1
  simp only [List.find?_cons, List.find?_nil]
  cases k == (st.objs m).name <;> rfl

theorem lookup_append_one (mset : objset) (k n : String) (m : ObjId) :
    List.lookup k (mset ++ [(n, m)])
      = (List.lookup k mset).or (if k == n then some m else none) := by
  induction mset with
  | nil =>
    simp only [List.nil_append, List.lookup_cons, List.lookup_nil, Option.none_or]
    cases k == n <;> rfl
  | cons p ps ih =>
    obtain ⟨a, b⟩ := p
    simp only [List.cons_append, List.lookup_cons]
    cases k == a
    · exact ih
    · rfl

theorem insertExisting_distinct (st : Checker) :
    ∀ (ms pre : List ObjId), ((pre ++ ms).map fun x => (st.objs x).name).Nodup →
      (∀ m ∈ ms, (st.objs m).name ≠ "_") →
      insertExisting st ms (pre.map fun x => ((st.objs x).name, x))
        = some ((pre ++ ms).map fun x => ((st.objs x).name, x)) := by
  intro ms
  induction ms with
  | nil =>
    intro pre _ _
    simp [insertExisting]
  | cons m ms ih =>
    intro pre hnd hnb
    have hm : (st.objs m).name ≠ "_" := hnb m (List.mem_cons_self _ _)
    have hnone : List.lookup (st.objs m).name (pre.map fun x => ((st.objs x).name, x)) = none := by
      rw [lookup_map_name, List.find?_eq_none]
      intro x hx hxe
      have hxe2 : (st.objs m).name = (st.objs x).name := by simpa using hxe
      rw [List.map_append, List.map_cons, List.nodup_append] at hnd
      exact hnd.2.2 (List.mem_map_of_mem _ hx) (by rw [← hxe2]; exact List.mem_cons_self _ _)
    rw [insertExisting, if_neg hm]
    simp only [objset_insert, hnone]
    have h2 := ih (pre ++ [m]) (by simpa using hnd)
      (fun x hx => hnb x (List.mem_cons_of_mem _ hx))
    simpa using h2

theorem insertExisting_congr (s st : Checker) (h : s.objs = st.objs) :
    ∀ (ms : List ObjId) (acc : objset), insertExisting s ms acc = insertExisting st ms acc := by
  intro ms
  induction ms with
  | nil => intro acc; rfl
  | cons m ms ih =>
    intro acc
    rw [insertExisting, insertExisting, h]
    simp only [objset_insert, h]
    split
    · rfl
    · cases List.lookup (st.objs m).name acc with
      | none => exact ih _
      | some alt => rfl

theorem occurrences_length (st : Checker) :
    ∀ (ms seen : List ObjId),
      (firstOccurrences st seen ms).length + (laterOccurrences st seen ms).length = ms.length := by
  intro ms
  induction ms with
  | nil => intro seen; rfl
  | cons m ms ih =>
    intro seen
    rw [firstOccurrences, laterOccurrences]
    cases hf : seen.find? (fun x => (st.objs m).name == (st.objs x).name) with
    | none =>
      have hany : seen.any (fun x => (st.objs m).name == (st.objs x).name) = false := by
        rw [List.find?_eq_none] at hf
        rw [Bool.eq_false_iff]
        intro h
        rw [List.any_eq_true] at h
        obtain ⟨x, hx, hp⟩ := h
        exact hf x hx hp
      simp only [hany, Bool.false_eq_true, if_false, List.length_cons]
      have := ih (seen ++ [m])
      omega
    | some alt =>
      have hany : seen.any (fun x => (st.objs m).name == (st.objs x).name) = true := by
        rw [List.any_eq_true]
        exact ⟨alt, List.mem_of_find?_eq_some hf,
          List.find?_some (p := fun x => (st.objs m).name == (st.objs x).name) hf⟩
      simp only [hany, if_true, List.length_cons]
      have := ih (seen ++ [m])
      omega

theorem collectMethodsLoop_spec (st : Checker) (obj b : ObjId) :
    ∀ (ms : List ObjId) (s : Checker) (mset : objset) (seen : List ObjId),
      s.objs = st.objs → s.conf.hasError = true →
      (∀ k, List.lookup k mset = seen.find? (fun x => k == (st.objs x).name)) →
      (∀ x ∈ s.namedMethods b, x ∈ seen) →
      (∀ m ∈ ms, (st.objs m).name ≠ "_") →
      (collectMethodsLoop obj (some b) s mset ms).out = Outcome.ok ()
      ∧ (collectMethodsLoop obj (some b) s mset ms).st.namedMethods b
          = s.namedMethods b ++ firstOccurrences st seen ms
      ∧ reportsOf (collectMethodsLoop obj (some b) s mset ms).trace
          = (laterOccurrences st seen ms).map
              (fun p => duplicateMethodError st obj p.1 p.2) := by
  intro ms
  induction ms with
  | nil =>
    intro s mset seen _ _ _ _ _
    simp [collectMethodsLoop, firstOccurrences, laterOccurrences, Res.ret, reportsOf]
  | cons m ms ih =>
    intro s mset seen hobjs hcb hinv hsub hnb
    have hm : (st.objs m).name ≠ "_" := hnb m (List.mem_cons_self _ _)
    have hnb2 : ∀ x ∈ ms, (st.objs x).name ≠ "_" := fun x hx => hnb x (List.mem_cons_of_mem _ hx)
    rw [collectMethodsLoop, hobjs, if_neg hm]
    simp only [objset_insert, hobjs]
    cases hl : List.lookup (st.objs m).name mset with
    | some alt =>
      have hf : seen.find? (fun x => (st.objs m).name == (st.objs x).name) = some alt := by
        rw [← hinv, hl]
      have hany : seen.any (fun x => (st.objs m).name == (st.objs x).name) = true := by
        rw [List.any_eq_true]
        exact ⟨alt, List.mem_of_find?_eq_some hf,
          List.find?_some (p := fun x => (st.objs m).name == (st.objs x).name) hf⟩
      simp only []
      have hmerge : (if Pos_IsValid (st.objs alt).pos = true then
            errorf s (positioner.object (st.objs m).pos) Code.DuplicateMethod
              ("method " ++ (st.objs obj).name ++ "." ++ (st.objs m).name ++ " already declared at "
                ++ sprintfPos (st.objs alt).pos)
          else
            errorf s (positioner.object (st.objs m).pos) Code.DuplicateMethod
              ("method " ++ (st.objs obj).name ++ "." ++ (st.objs m).name ++ " already declared"))
          = report s (duplicateMethodError st obj m alt) := by
        unfold duplicateMethodError errorf
        split <;> rfl
      rw [hmerge]
      obtain ⟨h1, h2, h3⟩ := errorf_callback s (positioner.object (st.objs m).pos)
        Code.DuplicateMethod
        (if Pos_IsValid (st.objs alt).pos then
          "method " ++ (st.objs obj).name ++ "." ++ (st.objs m).name ++ " already declared at "
            ++ sprintfPos (st.objs alt).pos
         else "method " ++ (st.objs obj).name ++ "." ++ (st.objs m).name ++ " already declared")
        hcb (by decide) (by simp)
      change (report s (duplicateMethodError st obj m alt)).out = _ at h1
      change sameButErrors s (report s (duplicateMethodError st obj m alt)).st at h2
      change (report s (duplicateMethodError st obj m alt)).trace = _ at h3
      obtain ⟨fe, sk, hs1⟩ := h2
      rw [Res.bind_ok _ _ () h1]
      have hrec := ih (report s (duplicateMethodError st obj m alt)).st mset (seen ++ [m])
        (by rw [hs1]; exact hobjs) (by rw [hs1]; exact hcb)
        (by
          intro k
          rw [find_name_append, hinv k]
          by_cases hk : (k == (st.objs m).name) = true
          · have hke : k = (st.objs m).name := by simpa using hk
            rw [hke, hf]
            rfl
          · simp [hk])
        (by
          intro x hx
          rw [hs1] at hx
          exact List.mem_append_left _ (hsub x hx))
        hnb2
      obtain ⟨r1, r2, r3⟩ := hrec
      refine ⟨r1, ?_, ?_⟩
      · show (collectMethodsLoop obj (some b) _ mset ms).st.namedMethods b = _
        rw [r2, hs1, firstOccurrences, if_pos hany]
      · show reportsOf (_ ++ (collectMethodsLoop obj (some b) _ mset ms).trace) = _
        rw [reportsOf_append, r3, h3, reportsOf_report, laterOccurrences, hf]
        rfl
    | none =>
      have hf : seen.find? (fun x => (st.objs m).name == (st.objs x).name) = none := by
        rw [← hinv, hl]
      have hany : seen.any (fun x => (st.objs m).name == (st.objs x).name) = false := by
        rw [List.find?_eq_none] at hf
        rw [Bool.eq_false_iff]
        intro h
        rw [List.any_eq_true] at h
        obtain ⟨x, hx, hp⟩ := h
        exact hf x hx hp
      have hadd : Named_AddMethod s b m
          = { s with namedMethods :=
                Function.update s.namedMethods b (s.namedMethods b ++ [m]) } := by
        unfold Named_AddMethod
        rw [if_neg]
        intro h
        rw [List.any_eq_true] at h
        obtain ⟨x, hx, hp⟩ := h
        rw [List.find?_eq_none] at hf
        rw [hobjs] at hp
        have hp2 : (st.objs x).name = (st.objs m).name := by simpa using hp
        exact hf x (hsub x hx) (by simp [hp2])
      simp only []
      rw [hadd]
      have hrec := ih
        ({ s with namedMethods := Function.update s.namedMethods b (s.namedMethods b ++ [m]) })
        (mset ++ [((st.objs m).name, m)]) (seen ++ [m]) hobjs hcb
        (by
          intro k
          rw [find_name_append, lookup_append_one, hinv k])
        (by
          intro x hx
          simp only [Function.update_same] at hx
          rcases List.mem_append.mp hx with h | h
          · exact List.mem_append_left _ (hsub x h)
          · exact List.mem_append_right _ h)
        hnb2
      obtain ⟨r1, r2, r3⟩ := hrec
      refine ⟨r1, ?_, ?_⟩
      · simp only [Res.after, r2, Function.update_same, firstOccurrences, hany,
          Bool.false_eq_true, if_false, List.append_assoc, List.singleton_append]
      · simp only [Res.after, reportsOf_append, reportsOf_step, r3, laterOccurrences, hf,
          List.nil_append]

/-- C21 (amended): for a type name `obj` of a defined type `b` whose declaration is
not an alias declaration, with an error callback configured, non-blank names of the
methods and distinct names of the methods that the type has already: `collectMethods`
returns normally; the methods of the type are afterwards the methods it had followed
by exactly those pending methods that are the first occurrence of their name among
the methods it had followed by the pending list, in list order; the diagnostics are
exactly one `DuplicateMethod` diagnostic for each other pending method, at that
method, in list order; and the number of methods added plus the number of
diagnostics is the number of pending methods. -/
theorem collectMethods_first_occurrences (st : Checker) (obj b : ObjId) (g : Bool)
    (methods : List ObjId) (d : declInfo) (td : TypeSpec)
    (hm : st.methods.lookup obj = some methods) (hd : st.decl? obj = some d)
    (htd : d.tdecl = some td) (hassign : Pos_IsValid td.Assign = false)
    (htyp : (st.objs obj).typ = some (Typ.named b g)) (hcb : st.conf.hasError = true)
    (hnb : ∀ m ∈ methods, (st.objs m).name ≠ "_")
    (hnbe : ∀ m ∈ st.namedMethods b, (st.objs m).name ≠ "_")
    (hnd : ((st.namedMethods b).map fun x => (st.objs x).name).Nodup) :
    (collectMethods st obj).out = Outcome.ok ()
    ∧ (collectMethods st obj).st.namedMethods b
        = st.namedMethods b ++ firstOccurrences st (st.namedMethods b) methods
    ∧ reportsOf (collectMethods st obj).trace
        = (laterOccurrences st (st.namedMethods b) methods).map
            (fun p => duplicateMethodError st obj p.1 p.2)
    ∧ (firstOccurrences st (st.namedMethods b) methods).length
        + (reportsOf (collectMethods st obj).trace).length = methods.length := by
  have hins := insertExisting_distinct st (st.namedMethods b) [] (by simpa using hnd) hnbe
  simp only [List.map_nil, List.nil_append] at hins
  have heq : collectMethods st obj
      = Res.after [⟨Label.step, collectStart st obj b⟩]
          (collectMethodsLoop obj (some b) (collectStart st obj b)
            ((st.namedMethods b).map fun x => ((st.objs x).name, x)) methods) := by
    unfold collectMethods
    simp only [hm]
    have hd2 : Checker.decl?
        ({ st with methods := st.methods.filter (fun p => decide (p.1 ≠ obj)) }) obj
        = some d := hd
    simp only [hd2, htd, hassign, Bool.false_eq_true, if_false, htyp]
    have hins2 : insertExisting (collectStart st obj b)
        ((collectStart st obj b).namedMethods b) []
        = some ((st.namedMethods b).map fun x => ((st.objs x).name, x)) := by
      rw [insertExisting_congr (collectStart st obj b) st rfl]
      exact hins
    unfold collectStart at hins2 ⊢
    rw [hins2]
  obtain ⟨h1, h2, h3⟩ := collectMethodsLoop_spec st obj b methods (collectStart st obj b)
    ((st.namedMethods b).map fun x => ((st.objs x).name, x)) (st.namedMethods b)
    rfl hcb (fun k => lookup_map_name st k _) (fun x hx => hx) hnb
  have h4 : reportsOf (collectMethods st obj).trace
      = (laterOccurrences st (st.namedMethods b) methods).map
          (fun p => duplicateMethodError st obj p.1 p.2) := by
    rw [heq]
    simp only [Res.after, reportsOf_append, reportsOf_step, List.nil_append]
    exact h3
  refine ⟨?_, ?_, h4, ?_⟩
  · rw [heq]
    exact h1
  · rw [heq]
    exact h2
  · rw [h4, List.length_map]
    exact occurrences_length st methods _

theorem collectMethods_first_occurrences_witness :
    (collectMethods exMethods 0).out = Outcome.ok ()
    ∧ (collectMethods exMethods 0).st.namedMethods 0 = [1, 3]
    ∧ reportsOf (collectMethods exMethods 0).trace
        = [newErrorf (positioner.object 40) Code.DuplicateMethod
            "method T.m already declared at %!s(token.Pos=30)"] := by
  obtain ⟨h1, h2, h3, _⟩ :=
    collectMethods_first_occurrences exMethods 0 0 false [1, 2, 3] ⟨none, some ⟨0⟩, []⟩ ⟨0⟩
      rfl rfl rfl rfl rfl rfl (by decide) (by decide) (by decide)
  exact ⟨h1, h2, h3⟩

/-- C21 (counterexample): without an error callback, `collectMethods` for the type
`T` with the pending methods `m`, `m` and `n` ends in the bailout of the
`DuplicateMethod` diagnostic for the second `m`: the method `n`, the first of its
name, is not added, and the one method added and the one diagnostic do not make up
the three pending methods. -/
theorem collectMethods_bails_out_at_duplicate :
    exMethodsBailout.conf.hasError = false
    ∧ exMethodsBailout.methods.lookup 0 = some [1, 2, 3]
    ∧ firstOccurrences exMethodsBailout (exMethodsBailout.namedMethods 0) [1, 2, 3] = [1, 3]
    ∧ (collectMethods exMethodsBailout 0).out = Outcome.bailout
    ∧ (collectMethods exMethodsBailout 0).st.namedMethods 0 = [1]
    ∧ (reportsOf (collectMethods exMethodsBailout 0).trace).length = 1 := by
  decide

theorem checkFieldsLoop_spec (st : Checker) (methods : List ObjId)
    (hmf : ∀ m ∈ methods, (st.objs m).kind = ObjKind.Func) :
    ∀ (fields : List ObjId) (s : Checker) (mset : objset) (prev : List ObjId),
      s.objs = st.objs → s.conf.hasError = true →
      (∀ k, List.lookup k mset = (methods ++ prev).find? (fun x => k == (st.objs x).name)) →
      ((prev ++ fields.filter fun f => decide ((st.objs f).name ≠ "_")).map
        fun x => (st.objs x).name).Nodup →
      (checkFieldsLoop s mset fields).out = Outcome.ok ()
      ∧ reportsOf (checkFieldsLoop s mset fields).trace
          = (fieldCollisions st methods fields).flatMap (fun p => collisionErrors st p.1 p.2) := by
  intro fields
  induction fields with
  | nil =>
    intro s mset prev _ _ _ _
    exact ⟨rfl, rfl⟩
  | cons f rest ih =>
    intro s mset prev hobjs hcb hinv hnd
    rw [checkFieldsLoop, hobjs]
    by_cases hb : (st.objs f).name = "_"
    · rw [if_neg (by simp [hb])]
      have hnd2 : ((prev ++ rest.filter fun f => decide ((st.objs f).name ≠ "_")).map
          fun x => (st.objs x).name).Nodup := by
        simpa [List.filter_cons, hb] using hnd
      obtain ⟨r1, r2⟩ := ih s mset prev hobjs hcb hinv hnd2
      refine ⟨r1, ?_⟩
      rw [r2]
      simp [fieldCollisions, hb]
    · rw [if_pos hb]
      have hfil : (f :: rest).filter (fun f => decide ((st.objs f).name ≠ "_"))
          = f :: rest.filter (fun f => decide ((st.objs f).name ≠ "_")) := by
        simp [List.filter_cons, hb]
      rw [hfil] at hnd
      have hprev : prev.find? (fun x => (st.objs f).name == (st.objs x).name) = none := by
        rw [List.find?_eq_none]
        intro x hx hxe
        have hxe2 : (st.objs f).name = (st.objs x).name := by simpa using hxe
        rw [List.map_append, List.map_cons, List.nodup_append] at hnd
        exact hnd.2.2 (List.mem_map_of_mem _ hx) (by rw [← hxe2]; exact List.mem_cons_self _ _)
      have hlook : List.lookup (st.objs f).name mset
          = methods.find? (fun x => (st.objs f).name == (st.objs x).name) := by
        rw [hinv, List.find?_append, hprev, Option.or_none]
      simp only [objset_insert, hobjs, hlook]
      cases hf : methods.find? (fun x => (st.objs f).name == (st.objs x).name) with
      | some alt =>
        have hfunc : (st.objs alt).kind = ObjKind.Func := hmf alt (List.mem_of_find?_eq_some hf)
        simp only []
        rw [if_neg (by simp [hfunc])]
        obtain ⟨h1, h2, h3⟩ := errorf_callback s (positioner.object (st.objs alt).pos)
          Code.DuplicateFieldAndMethod
          ("field and method with the same name " ++ (st.objs f).name) hcb (by decide)
          (by simp)
        obtain ⟨fe, sk, hs1⟩ := h2
        rw [Res.bind_ok _ _ () h1]
        have hnd2 : ((prev ++ rest.filter fun f => decide ((st.objs f).name ≠ "_")).map
            fun x => (st.objs x).name).Nodup := by
          rw [List.map_append, List.map_cons] at hnd
          rw [List.map_append]
          exact List.Nodup.sublist
            (List.Sublist.append_left (List.sublist_cons_self _ _) _) hnd
        have hcoll : fieldCollisions st methods (f :: rest)
            = (f, alt) :: fieldCollisions st methods rest := by
          simp [fieldCollisions, hb, hf]
        by_cases hv : Pos_IsValid (st.objs f).pos = true
        · have hs1o : (errorf s (positioner.object (st.objs alt).pos)
              Code.DuplicateFieldAndMethod
              ("field and method with the same name " ++ (st.objs f).name)).st.objs = st.objs := by
            rw [hs1]
            exact hobjs
          have hcb1 : (errorf s (positioner.object (st.objs alt).pos)
              Code.DuplicateFieldAndMethod
              ("field and method with the same name " ++ (st.objs f).name)).st.conf.hasError
              = true := by
            rw [hs1]
            exact hcb
          obtain ⟨g1, g2, g3⟩ := errorf_callback
            (errorf s (positioner.object (st.objs alt).pos) Code.DuplicateFieldAndMethod
              ("field and method with the same name " ++ (st.objs f).name)).st
            (positioner.object (st.objs f).pos) Code.DuplicateDecl
            ("\tother declaration of " ++ (st.objs f).name) hcb1 (by decide) (by simp)
          obtain ⟨fe2, sk2, hs2⟩ := g2
          have halt : reportAltDecl
              (errorf s (positioner.object (st.objs alt).pos) Code.DuplicateFieldAndMethod
                ("field and method with the same name " ++ (st.objs f).name)).st f
              = errorf
                (errorf s (positioner.object (st.objs alt).pos) Code.DuplicateFieldAndMethod
                  ("field and method with the same name " ++ (st.objs f).name)).st
                (positioner.object (st.objs f).pos) Code.DuplicateDecl
                ("\tother declaration of " ++ (st.objs f).name) := by
            unfold reportAltDecl
            rw [hs1o, if_pos hv]
          rw [halt, Res.bind_ok _ _ () g1]
          have ho2 : (errorf
              (errorf s (positioner.object (st.objs alt).pos) Code.DuplicateFieldAndMethod
                ("field and method with the same name " ++ (st.objs f).name)).st
              (positioner.object (st.objs f).pos) Code.DuplicateDecl
              ("\tother declaration of " ++ (st.objs f).name)).st.objs = st.objs := by
            rw [hs2]
            exact hs1o
          have hc2 : (errorf
              (errorf s (positioner.object (st.objs alt).pos) Code.DuplicateFieldAndMethod
                ("field and method with the same name " ++ (st.objs f).name)).st
              (positioner.object (st.objs f).pos) Code.DuplicateDecl
              ("\tother declaration of " ++ (st.objs f).name)).st.conf.hasError = true := by
            rw [hs2]
            exact hcb1
          obtain ⟨r1, r2⟩ := ih _ mset prev ho2 hc2 hinv hnd2
          refine ⟨r1, ?_⟩
          show reportsOf (_ ++ (_ ++ (checkFieldsLoop _ mset rest).trace)) = _
          rw [reportsOf_append, reportsOf_append, r2, h3, g3, reportsOf_report, reportsOf_report,
            hcoll]
          simp [collisionErrors, hv]
        · have halt : reportAltDecl
              (errorf s (positioner.object (st.objs alt).pos) Code.DuplicateFieldAndMethod
                ("field and method with the same name " ++ (st.objs f).name)).st f
              = Res.ret (errorf s (positioner.object (st.objs alt).pos)
                  Code.DuplicateFieldAndMethod
                  ("field and method with the same name " ++ (st.objs f).name)).st () := by
            unfold reportAltDecl
            rw [hs1]
            simp only [hobjs]
            rw [if_neg hv]
          rw [halt]
          obtain ⟨r1, r2⟩ := ih
            (errorf s (positioner.object (st.objs alt).pos) Code.DuplicateFieldAndMethod
              ("field and method with the same name " ++ (st.objs f).name)).st
            mset prev (by rw [hs1]; exact hobjs) (by rw [hs1]; exact hcb) hinv hnd2
          refine ⟨r1, ?_⟩
          show reportsOf (_ ++ ([] ++ (checkFieldsLoop
            (errorf s (positioner.object (st.objs alt).pos) Code.DuplicateFieldAndMethod
              ("field and method with the same name " ++ (st.objs f).name)).st
            mset rest).trace)) = _
          rw [List.nil_append, reportsOf_append, r2, h3, reportsOf_report, hcoll]
          simp [collisionErrors, hv]
      | none =>
        simp only []
        have hnd2 : (((prev ++ [f]) ++ rest.filter fun f => decide ((st.objs f).name ≠ "_")).map
            fun x => (st.objs x).name).Nodup := by
          simpa using hnd
        obtain ⟨r1, r2⟩ := ih s (mset ++ [((st.objs f).name, f)]) (prev ++ [f]) hobjs hcb
          (by
            intro k
            rw [← List.append_assoc, find_name_append, lookup_append_one, hinv k])
          hnd2
        refine ⟨r1, ?_⟩
        rw [r2]
        simp [fieldCollisions, hb, hf]

/-- C22 (amended): with an error callback configured, for a defined type whose
methods are functions with distinct non-blank names: if its underlying type is a
struct whose non-blank field names are distinct, `checkFieldUniqueness` returns
normally and its diagnostics are, for each non-blank field whose name is the name of
a method of the type, in the order of the fields, one `DuplicateFieldAndMethod`
diagnostic at the method followed by the other declaration at the field when the
position of the field is valid, and nothing else; if the underlying type is not a
struct it reports nothing and leaves the checker as it is. -/
theorem checkFieldUniqueness_reports (st : Checker) (base : ObjId)
    (hcb : st.conf.hasError = true)
    (hmf : ∀ m ∈ st.namedMethods base, (st.objs m).kind = ObjKind.Func)
    (hmnb : ∀ m ∈ st.namedMethods base, (st.objs m).name ≠ "_")
    (hmnd : ((st.namedMethods base).map fun x => (st.objs x).name).Nodup) :
    (∀ n, st.underlying base = Typ.composite n → (st.nodes n).kind = NodeKind.Struct →
      (((st.structFields n).filter fun f => decide ((st.objs f).name ≠ "_")).map
        fun x => (st.objs x).name).Nodup →
      (checkFieldUniqueness st base).out = Outcome.ok ()
      ∧ reportsOf (checkFieldUniqueness st base).trace
          = (fieldCollisions st (st.namedMethods base) (st.structFields n)).flatMap
              (fun p => collisionErrors st p.1 p.2))
    ∧ ((¬ ∃ n, st.underlying base = Typ.composite n ∧ (st.nodes n).kind = NodeKind.Struct) →
      checkFieldUniqueness st base = Res.ret st ()) := by
  constructor
  · intro n hu hk hnd
    have hins := insertExisting_distinct st (st.namedMethods base) [] (by simpa using hmnd) hmnb
    simp only [List.map_nil, List.nil_append] at hins
    unfold checkFieldUniqueness
    simp only [hu, hk, if_true, hins]
    exact checkFieldsLoop_spec st (st.namedMethods base) hmf (st.structFields n) st _ []
      rfl hcb (by
        intro k
        rw [List.append_nil]
        exact lookup_map_name st k _) (by simpa using hnd)
  · intro hno
    unfold checkFieldUniqueness
    split
    · rename_i n hu
      split
      · rename_i hk
        exact absurd ⟨n, hu, hk⟩ hno
      · rfl
    · rfl

theorem checkFieldUniqueness_reports_witness :
    (checkFieldUniqueness exFields 0).out = Outcome.ok ()
    ∧ reportsOf (checkFieldUniqueness exFields 0).trace
        = [newErrorf (positioner.object 30) Code.DuplicateFieldAndMethod
            "field and method with the same name m",
           newErrorf (positioner.object 60) Code.DuplicateDecl "\tother declaration of m"] :=
  (checkFieldUniqueness_reports exFields 0 rfl (by decide) (by decide) (by decide)).1 7 rfl rfl
    (by decide)

/-- C22 (counterexample): without an error callback, `checkFieldUniqueness` for the
type `T` with the method `m` and the field `m`, which has a valid position, ends in
the bailout of the `DuplicateFieldAndMethod` diagnostic: the other declaration at
the field is not reported. -/
theorem checkFieldUniqueness_bails_out_before_other_declaration :
    exFieldsBailout.conf.hasError = false
    ∧ fieldCollisions exFieldsBailout (exFieldsBailout.namedMethods 0)
        (exFieldsBailout.structFields 7) = [(4, 1)]
    ∧ Pos_IsValid (exFieldsBailout.objs 4).pos = true
    ∧ (checkFieldUniqueness exFieldsBailout 0).out = Outcome.bailout
    ∧ reportsOf (checkFieldUniqueness exFieldsBailout 0).trace
        = [newErrorf (positioner.object 30) Code.DuplicateFieldAndMethod
            "field and method with the same name m"] := by
  decide

/-- C31: for every non-empty path, `firstInSrc` returns an index of the path; no
object of the path has a source position smaller than the object at that index, every
object at a smaller index has a strictly greater position, and so the index is the
smallest among the indices of objects with the smallest position. -/
theorem firstInSrc_earliest (posOf : ObjId → Pos) (path : List ObjId) (hne : path ≠ []) :
    ∃ i o0, firstInSrc posOf path = some i ∧ i < path.length ∧ path[i]? = some o0
      ∧ (∀ o ∈ path, posOf o0 ≤ posOf o)
      ∧ (∀ j oj, j < i → path[j]? = some oj → posOf o0 < posOf oj)
      ∧ (∀ k ok, path[k]? = some ok → (∀ o ∈ path, posOf ok ≤ posOf o) → i ≤ k) := by
  obtain ⟨i, o0, h1, h2, h3, h4⟩ := firstInSrc_spec posOf path hne
  refine ⟨i, o0, h1, ?_, h2, h3, h4, ?_⟩
  · exact (List.getElem?_eq_some_iff.mp h2).1
  · intro k ok hk hmin
    by_contra hlt
    have h5 := h4 k ok (Nat.lt_of_not_le hlt) hk
    have h6 := hmin o0 (by
      obtain ⟨hl, he⟩ := List.getElem?_eq_some_iff.mp h2
      rw [← he]
      exact List.getElem_mem hl)
    exact absurd h5 (not_lt.mpr h6)

theorem firstInSrc_earliest_witness :
    ∃ i o0, firstInSrc (fun o => if o = 0 then 30 else 10) [0, 1, 2] = some i
      ∧ i < [0, 1, 2].length ∧ [0, 1, 2][i]? = some o0 ∧ i = 1 := by
  obtain ⟨i, o0, h1, h2, h3, _, _, _⟩ :=
    firstInSrc_earliest (fun o => if o = 0 then 30 else 10) [0, 1, 2] (by decide)
  have hi : i = 1 := by
    have h : firstInSrc (fun o => if o = 0 then (30 : Pos) else 10) [0, 1, 2] = some 1 := by
      decide
    rw [h] at h1
    exact (Option.some.inj h1).symm
  exact ⟨i, o0, h1, h2, h3, hi⟩

/-- C32: for a white object that has a type, `objDecl` returns normally after
painting the object black, which is the only observation point: the object path, the
type of the object and every other part of the checker are as before. The result is
the same for every object map, so the declaration info is not consulted, and the body
of `objDecl` gives the same result for every routine handed to it, so no declaration
is resolved. -/
theorem objDecl_white_typed (fuel : Nat) (st : Checker) (obj : ObjId)
    (hw : Object_color st obj = White) (ht : (st.objs obj).typ ≠ none) :
    objDecl (fuel + 1) st obj
      = some ⟨Outcome.ok (), Object_setColor st obj Black,
          [⟨Label.setColor obj Black, Object_setColor st obj Black⟩]⟩
    ∧ Object_color (Object_setColor st obj Black) obj = Black
    ∧ (Object_setColor st obj Black).objPath = st.objPath
    ∧ ((Object_setColor st obj Black).objs obj).typ = (st.objs obj).typ
    ∧ (∀ o, o ≠ obj → (Object_setColor st obj Black).objs o = st.objs o)
    ∧ (∀ om, objDecl (fuel + 1) { st with objMap := om } obj
        = some ⟨Outcome.ok (), { Object_setColor st obj Black with objMap := om },
            [⟨Label.setColor obj Black, { Object_setColor st obj Black with objMap := om }⟩]⟩)
    ∧ (∀ call, objDeclBody call st obj
        = some ⟨Outcome.ok (), Object_setColor st obj Black,
            [⟨Label.setColor obj Black, Object_setColor st obj Black⟩]⟩) := by
  have hn : (st.objs obj).typ.isNone = false := by
    cases h : (st.objs obj).typ with
    | none => exact absurd h ht
    | some t => rfl
  have hbody : ∀ (call : Checker → ObjId → Option (Res Unit)) (s : Checker),
      Object_color s obj = White → (s.objs obj).typ ≠ none →
      objDeclBody call s obj
        = some ⟨Outcome.ok (), Object_setColor s obj Black,
            [⟨Label.setColor obj Black, Object_setColor s obj Black⟩]⟩ := by
    intro call s h1 h2
    unfold objDeclBody
    rw [if_pos ⟨h1, h2⟩]
  refine ⟨?_, ?_, rfl, ?_, ?_, ?_, fun call => hbody call st hw ht⟩
  · rw [objDecl]
    simp only [hn, Bool.and_false, Bool.false_eq_true, if_false]
    exact hbody _ st hw ht
  · simp [Object_color, Object_setColor]
  · simp [Object_setColor]
  · intro o ho
    simp [Object_setColor, Function.update_noteq ho]
  · intro om
    rw [objDecl]
    simp only [hn, Bool.and_false, Bool.false_eq_true, if_false]
    exact hbody _ { st with objMap := om } hw ht

theorem objDecl_white_typed_witness :
    objDecl 1 exWhiteTyped 0
      = some ⟨Outcome.ok (), Object_setColor exWhiteTyped 0 Black,
          [⟨Label.setColor 0 Black, Object_setColor exWhiteTyped 0 Black⟩]⟩ :=
  (objDecl_white_typed 0 exWhiteTyped 0 (by decide) (by decide)).1

theorem acceptsCycle_nil (st : Checker) : acceptsCycle st [] = true := by
  simp [acceptsCycle, throughTParamList]

theorem objDeclGrey_value (s : Checker) (obj : ObjId)
    (hk : (s.objs obj).kind = ObjKind.Const ∨ (s.objs obj).kind = ObjKind.Var)
    (hg : Grey ≤ Object_color s obj) (hs : Object_color s obj - Grey ≤ s.objPath.length)
    (hwf : wellFormedCycle s (cycleOf s obj))
    (hmode : acceptsCycle s (cycleOf s obj) = true ∨ s.conf.hasError = true) :
    (objDeclGrey s obj).out = Outcome.ok ()
    ∧ ((s.objs obj).typ = none → ((objDeclGrey s obj).st.objs obj).typ = some Typ_Invalid)
    ∧ (∀ t, (s.objs obj).typ = some t → acceptsCycle s (cycleOf s obj) = true →
        ((objDeclGrey s obj).st.objs obj).typ = some t)
    ∧ (acceptsCycle s (cycleOf s obj) = false →
        ((objDeclGrey s obj).st.objs obj).typ = some Typ_Invalid) := by
  have hfin : ∀ (valid : Bool) (s1 : Checker), (s1.objs obj).typ = (s.objs obj).typ →
      let s2 := if (!valid || (s1.objs obj).typ.isNone) = true
        then Object_setTyp s1 obj Typ_Invalid else s1
      (if (s2.objs obj).typ.isNone = true
        then (⟨Outcome.panic "assertion failed", s2, [⟨Label.step, s2⟩]⟩ : Res Unit)
        else ⟨Outcome.ok (), s2, [⟨Label.step, s2⟩]⟩).out = Outcome.ok ()
      ∧ (s2.objs obj).typ
          = if valid = true then (match (s.objs obj).typ with
              | none => some Typ_Invalid
              | some t => some t) else some Typ_Invalid := by
    intro valid s1 h1
    cases valid with
    | true =>
      cases ht : (s.objs obj).typ with
      | none => simp [h1, ht, Object_setTyp]
      | some t => simp [h1, ht]
    | false => simp [Object_setTyp]
  have hmain : ∃ (valid : Bool) (s1 : Checker),
      valid = acceptsCycle s (cycleOf s obj)
      ∧ (s1.objs obj).typ = (s.objs obj).typ
      ∧ (validCycle s obj).out = Outcome.ok valid ∧ (validCycle s obj).st = s1 := by
    cases hacc : acceptsCycle s (cycleOf s obj) with
    | true =>
      refine ⟨true, s, rfl, rfl, ?_, ?_⟩ <;> rw [validCycle_accepts s obj hg hs hwf hacc]
    | false =>
      have hcb : s.conf.hasError = true := by
        rcases hmode with h | h
        · rw [hacc] at h; cases h
        · exact h
      have hne : cycleOf s obj ≠ [] := by
        intro h
        rw [h, acceptsCycle_nil] at hacc
        cases hacc
      refine ⟨false, (validCycle s obj).st, rfl, ?_,
        (validCycle_rejects s obj hg hs hwf hne hacc).2.1 hcb, rfl⟩
      have hval := (Keeps_validCycle sameValues CycleStable_sameValues s obj).1
      rw [hval obj (by rcases hk with h | h <;> rw [h] <;> decide)]
  obtain ⟨valid, s1, hv, ht1, hout, hst⟩ := hmain
  obtain ⟨f1, f2⟩ := hfin valid s1 ht1
  have hg2 : objDeclGrey s obj
      = ⟨(if ((if (!valid || (s1.objs obj).typ.isNone) = true
            then Object_setTyp s1 obj Typ_Invalid else s1).objs obj).typ.isNone = true
          then Outcome.panic "assertion failed" else Outcome.ok ()),
         (if (!valid || (s1.objs obj).typ.isNone) = true
            then Object_setTyp s1 obj Typ_Invalid else s1),
         (validCycle s obj).trace ++ [⟨Label.step,
           (if (!valid || (s1.objs obj).typ.isNone) = true
            then Object_setTyp s1 obj Typ_Invalid else s1)⟩]⟩ := by
    unfold objDeclGrey
    rcases hk with h | h
    · simp only [h]
      rw [Res.bind_ok _ _ valid hout, hst]
      simp only [Const_setTyp]
      split <;> (split <;> rfl)
    · simp only [h]
      rw [Res.bind_ok _ _ valid hout, hst]
      simp only [Var_setTyp]
      split <;> (split <;> rfl)
  have hout2 : (objDeclGrey s obj).out = Outcome.ok () := by
    rw [hg2]
    simp only at f1 ⊢
    generalize (if (!valid || (s1.objs obj).typ.isNone) = true
      then Object_setTyp s1 obj Typ_Invalid else s1) = s2 at f1 ⊢
    by_cases hnone : (s2.objs obj).typ.isNone = true
    · rw [if_pos hnone] at f1
      exact absurd f1 (by simp)
    · rw [if_neg hnone]
  have htyp : ((objDeclGrey s obj).st.objs obj).typ
      = if valid = true then (match (s.objs obj).typ with
          | none => some Typ_Invalid
          | some t => some t) else some Typ_Invalid := by
    rw [hg2]
    exact f2
  refine ⟨hout2, ?_, ?_, ?_⟩
  · intro hnil
    rw [htyp, hnil]
    split <;> rfl
  · intro t ht hacc
    rw [htyp, hv, hacc, ht]
    rfl
  · intro hacc
    rw [htyp, hv, hacc]
    rfl

/-- C33 (amended): for a grey constant or variable whose cycle is well formed, when
the cycle is valid or an error callback is configured, `objDecl` returns normally and
the type of the object is not nil afterwards: if the type was nil it is the invalid
type, even when the cycle is valid; if the type was known and the cycle is valid it
is unchanged; and if the cycle is not valid it is the invalid type. -/
theorem objDecl_grey_value_has_type (fuel : Nat) (st : Checker) (obj : ObjId)
    (hk : (st.objs obj).kind = ObjKind.Const ∨ (st.objs obj).kind = ObjKind.Var)
    (hg : Grey ≤ Object_color st obj) (hs : Object_color st obj - Grey ≤ st.objPath.length)
    (hwf : wellFormedCycle st (cycleOf st obj))
    (hmode : acceptsCycle st (cycleOf st obj) = true ∨ st.conf.hasError = true) :
    ∃ r, objDecl (fuel + 1) st obj = some r ∧ r.out = Outcome.ok ()
      ∧ (r.st.objs obj).typ ≠ none
      ∧ ((st.objs obj).typ = none → (r.st.objs obj).typ = some Typ_Invalid)
      ∧ (∀ t, (st.objs obj).typ = some t → acceptsCycle st (cycleOf st obj) = true →
          (r.st.objs obj).typ = some t)
      ∧ (acceptsCycle st (cycleOf st obj) = false → (r.st.objs obj).typ = some Typ_Invalid) := by
  have hcore : ∀ s : Checker, (∃ i, s = { st with indent := i }) →
      (objDeclGrey s obj).out = Outcome.ok ()
      ∧ ((objDeclGrey s obj).st.objs obj).typ ≠ none
      ∧ ((st.objs obj).typ = none → ((objDeclGrey s obj).st.objs obj).typ = some Typ_Invalid)
      ∧ (∀ t, (st.objs obj).typ = some t → acceptsCycle st (cycleOf st obj) = true →
          ((objDeclGrey s obj).st.objs obj).typ = some t)
      ∧ (acceptsCycle st (cycleOf st obj) = false →
          ((objDeclGrey s obj).st.objs obj).typ = some Typ_Invalid) := by
    intro s hsi
    obtain ⟨i, rfl⟩ := hsi
    obtain ⟨h1, h2, h3, h4⟩ := objDeclGrey_value { st with indent := i } obj hk hg hs hwf hmode
    refine ⟨h1, ?_, h2, h3, h4⟩
    cases hacc : acceptsCycle st (cycleOf st obj) with
    | false =>
      rw [h4 hacc]
      simp
    | true =>
      cases ht : (st.objs obj).typ with
      | none =>
        rw [h2 ht]
        simp
      | some t =>
        rw [h3 t ht hacc]
        simp
  rw [objDecl]
  simp only
  split
  · rw [objDeclBody_grey _ { st with indent := st.indent + 1 } obj hg]
    obtain ⟨h1, h2, h3, h4, h5⟩ := hcore { st with indent := st.indent + 1 } ⟨_, rfl⟩
    exact ⟨_, rfl, h1, h2, h3, h4, h5⟩
  · rw [objDeclBody_grey _ st obj hg]
    obtain ⟨h1, h2, h3, h4, h5⟩ := hcore st ⟨st.indent, rfl⟩
    exact ⟨_, rfl, h1, h2, h3, h4, h5⟩

theorem objDecl_grey_value_has_type_witness :
    ∃ r, objDecl 1 exValueTypeCycle 0 = some r ∧ r.out = Outcome.ok ()
      ∧ (r.st.objs 0).typ = some Typ_Invalid := by
  obtain ⟨r, h1, h2, _, h4, _⟩ :=
    objDecl_grey_value_has_type 0 exValueTypeCycle 0 (Or.inl rfl) (by decide) (by decide)
      (by
        intro o ho
        have ho2 : o = 0 ∨ o = 1 := by
          simpa [cycleOf, exValueTypeCycle, Object_color, exChecker, exObj, Grey] using ho
        rcases ho2 with h | h
        · subst h
          exact ⟨by decide, fun hk => by cases hk⟩
        · subst h
          exact ⟨by decide, fun _ d hd => by cases hd⟩)
      (Or.inr rfl)
  exact ⟨r, h1, h2, h4 rfl⟩

/-- C33 (counterexample): without an error callback, `objDecl` for the grey constant
`A` whose cycle goes through the type definition `T`, which is not a valid cycle,
ends in the bailout of the cycle diagnostic, and the type of `A` is still nil. -/
theorem objDecl_grey_value_bails_out :
    exValueTypeCycleBailout.conf.hasError = false
    ∧ Object_color exValueTypeCycleBailout 0 = Grey
    ∧ (exValueTypeCycleBailout.objs 0).kind = ObjKind.Const
    ∧ (objDecl 1 exValueTypeCycleBailout 0).map (fun r => (r.out, (r.st.objs 0).typ))
      = some (Outcome.bailout, none) := by
  decide

theorem popBlack_env (s : Checker) : (popBlack s).st.env = s.env := by
  unfold popBlack
  cases hp : pop s with
  | none => rfl
  | some p =>
    obtain ⟨s1, top⟩ := p
    unfold pop at hp
    cases hl : s.objPath.getLast? with
    | none => rw [hl] at hp; cases hp
    | some o =>
      rw [hl] at hp
      simp only [Option.some.injEq, Prod.mk.injEq] at hp
      rw [← hp.1]
      rfl

theorem objDeclBody_env (call : Checker → ObjId → Option (Res Unit)) (st : Checker)
    (obj : ObjId) (r : Res Unit) (h : objDeclBody call st obj = some r) :
    r.st.env = st.env := by
  unfold objDeclBody at h
  split at h
  · simp only [Option.some.injEq] at h
    subst h
    rfl
  · split at h
    · split at h
      · simp only [Option.some.injEq] at h
        subst h
        rfl
      · simp only at h
        rw [Option.map_eq_some'] at h
        obtain ⟨rr, hrr, rfl⟩ := h
        have h1 := objDeclResolve_env call _ obj rr hrr
        show (popBlack rr.st).st.env = st.env
        rw [popBlack_env, h1]
        rfl
    · split at h
      · split at h
        · simp only [Option.some.injEq] at h
          subst h
          rfl
        · simp only [Option.some.injEq] at h
          subst h
          rfl
      · simp only [Option.some.injEq] at h
        subst h
        exact (Keeps_objDeclGrey sameEnvPath CycleStable_sameEnvPath
          (fun a o t => ⟨rfl, rfl⟩) st obj).1.1

theorem objDecl_env (fuel : Nat) (st : Checker) (obj : ObjId) (r : Res Unit)
    (h : objDecl fuel st obj = some r) : r.st.env = st.env := by
  cases fuel with
  | zero => simp [objDecl] at h
  | succ fuel =>
    rw [objDecl] at h
    simp only at h
    split at h
    · rw [Option.map_eq_some'] at h
      obtain ⟨rb, hrb, rfl⟩ := h
      have h1 := objDeclBody_env _ _ obj rb hrb
      show rb.st.env = st.env
      rw [h1]
    · exact objDeclBody_env _ st obj r h

/-- C34: whenever `objDecl` is left, with a normal return, the bailout or another
panic, the environment of the checker is the one at entry. For a white object
without a type that has a declaration and is a constant, a variable, a type name or
a function, the declaration is resolved from a state that is the state in which the
object was painted grey with the environment replaced by a fresh one: the zero
environment with the file scope of the declaration and, for a constant and a
variable, the declaration as `decl`. -/
theorem objDecl_restores_environment (fuel : Nat) (st : Checker) (obj : ObjId) (r : Res Unit)
    (h : objDecl (fuel + 1) st obj = some r) :
    r.st.env = st.env
    ∧ (Object_color st obj = White → (st.objs obj).typ = none →
        ∀ d, st.decl? obj = some d → (st.objs obj).kind ≠ ObjKind.Other →
        ∃ sGrey rb tail, r.trace
            = ⟨Label.setColor obj (u32 (Grey + u32 st.objPath.length)), sGrey⟩
              :: (rb.trace ++ tail)
          ∧ runActs (objDecl fuel) { sGrey with env := declEnv st obj d } d.body = some rb
          ∧ sGrey.env = st.env ∧ sGrey.objPath = st.objPath ++ [obj]) := by
  refine ⟨objDecl_env (fuel + 1) st obj r h, ?_⟩
  intro hw ht d hd hk
  have hbody : ∀ (s0 : Checker) (rb0 : Res Unit), Object_color s0 obj = White →
      (s0.objs obj).typ = none → s0.decl? obj = some d → s0.objs = st.objs →
      s0.objPath = st.objPath → s0.env = st.env →
      objDeclBody (objDecl fuel) s0 obj = some rb0 →
      ∃ sGrey rb tail, rb0.trace
          = ⟨Label.setColor obj (u32 (Grey + u32 st.objPath.length)), sGrey⟩
            :: (rb.trace ++ tail)
        ∧ runActs (objDecl fuel) { sGrey with env := declEnv st obj d } d.body = some rb
        ∧ sGrey.env = st.env ∧ sGrey.objPath = st.objPath ++ [obj] := by
    intro s0 rb0 hw0 ht0 hd0 hobjs hpath henv hb
    unfold objDeclBody at hb
    have h1 : ¬ (Object_color s0 obj = White ∧ (s0.objs obj).typ ≠ none) := fun hc => hc.2 ht0
    rw [if_neg h1, if_pos hw0, if_neg (by simpa using ht0)] at hb
    simp only at hb
    rw [Option.map_eq_some'] at hb
    obtain ⟨rr, hrr, rfl⟩ := hb
    unfold objDeclResolve at hrr
    have hd2 : Checker.decl? (Object_setColor (push s0 obj).1 obj
        (u32 (Grey + u32 (push s0 obj).2))) obj = some d := hd0
    rw [hd2] at hrr
    simp only at hrr
    have hkind : ((Object_setColor (push s0 obj).1 obj
        (u32 (Grey + u32 (push s0 obj).2))).objs obj).kind = (st.objs obj).kind := by
      simp [Object_setColor, push, hobjs]
    rw [hkind, Option.map_eq_some'] at hrr
    obtain ⟨rb, hrb, rfl⟩ := hrr
    have hlen : (push s0 obj).2 = st.objPath.length := by
      simp [push, hpath]
    refine ⟨Object_setColor (push s0 obj).1 obj (u32 (Grey + u32 (push s0 obj).2)), rb,
      (⟨Label.step, { rb.st with env := s0.env }⟩
        :: (popBlack { rb.st with env := s0.env }).trace), ?_, ?_, henv, ?_⟩
    · rw [← hlen]
      simp only [Res.after, Res.deferred, List.singleton_append, List.append_assoc,
        List.cons_append, List.nil_append]
      rfl
    · cases hkk : (st.objs obj).kind with
      | Const =>
        rw [hkk] at hrb
        simp only [declEnv, hkk, true_or, if_true]
        exact hrb
      | Var =>
        rw [hkk] at hrb
        simp only [declEnv, hkk, or_true, if_true]
        exact hrb
      | TypeName =>
        rw [hkk] at hrb
        simp only [declEnv, hkk]
        exact hrb
      | Func =>
        rw [hkk] at hrb
        simp only [declEnv, hkk]
        exact hrb
      | Other => exact absurd hkk hk
    · simp [Object_setColor, push, hpath]
  rw [objDecl] at h
  simp only at h
  split at h
  · rw [Option.map_eq_some'] at h
    obtain ⟨rb0, hrb0, rfl⟩ := h
    obtain ⟨sGrey, rb, tail, h1, h2, h3, h4⟩ :=
      hbody { st with indent := st.indent + 1 } rb0 hw ht hd rfl rfl rfl hrb0
    refine ⟨sGrey, rb, tail, ?_, h2, h3, h4⟩
    simp only [Res.deferred, Res.ret, List.append_nil]
    exact h1
  · exact hbody st r hw ht hd rfl rfl rfl h

theorem objDecl_restores_environment_witness :
    ∃ r, objDecl 2 exWhiteConsts 0 = some r ∧ r.st.env = exWhiteConsts.env := by
  obtain ⟨r, hr⟩ : ∃ r, objDecl 2 exWhiteConsts 0 = some r := ⟨_, rfl⟩
  exact ⟨r, hr, (objDecl_restores_environment 1 exWhiteConsts 0 r hr).1⟩

/-- When `strings.Index` finds nothing, the text occurs at no index. -/
theorem occursAt_of_index_neg (s sub : String) (h : stringsIndex s sub = -1) (i : Nat) :
    occursAt s sub i = false := by
  unfold stringsIndex at h
  unfold occursAt
  rcases stringsIndexAux_spec sub.data s.data 0 with ⟨_, h2⟩ | ⟨j, h1, _, _⟩
  · exact h2 i
  · rw [h1] at h
    omega

/-- C37 (amended): a diagnostic whose composed message begins with one of
`invalid operand` and `invalid type` and does not contain the other is not
suppressed by `report`: the error value is recorded, and it is handed to the
callback or, without a callback, the pass ends with the bailout. And `report` drops
a diagnostic (normal return, nothing handed on, `firstErr` as before) only when an
error is recorded and the first occurrence of one of the two phrases in the
composed message is not at its beginning. -/
theorem report_keeps_message_starting_with_phrase (st : Checker) (e : error_) (err : Error)
    (msg : String) (h : builtError st e = some err) (hm : composedMsg st e = some msg) :
    (((occursAt msg "invalid operand" 0 = true ∧ ∀ i, occursAt msg "invalid type" i = false)
        ∨ (occursAt msg "invalid type" 0 = true
            ∧ ∀ i, occursAt msg "invalid operand" i = false)) →
      (report st e).st.firstErr = some (st.firstErr.getD err)
      ∧ (st.conf.hasError = true →
          (report st e).out = Outcome.ok () ∧ (report st e).st.sink = st.sink ++ [err])
      ∧ (st.conf.hasError = false → (report st e).out = Outcome.bailout))
    ∧ (((report st e).out = Outcome.ok () ∧ (report st e).st.sink = st.sink
          ∧ (report st e).st.firstErr = st.firstErr) →
        st.firstErr.isSome = true
        ∧ (firstAfterStart msg "invalid operand" ∨ firstAfterStart msg "invalid type")) := by
  have hfo : isFollowOn st e = (st.firstErr.isSome && isInvalidErr msg) := by
    simp [isFollowOn, hm]
  constructor
  · intro hstart
    have hinv : isInvalidErr msg = false := by
      rw [Bool.eq_false_iff]
      intro hc
      rw [isInvalidErr_iff] at hc
      rcases hstart with ⟨h0, hno⟩ | ⟨h0, hno⟩
      · rcases hc with ⟨hc0, _⟩ | ⟨_, i, _, hi⟩
        · rw [h0] at hc0; exact absurd hc0 (by simp)
        · rw [hno i] at hi; exact absurd hi (by simp)
      · rcases hc with ⟨_, i, _, hi⟩ | ⟨hc0, _⟩
        · rw [hno i] at hi; exact absurd hi (by simp)
        · rw [h0] at hc0; exact absurd hc0 (by simp)
    have hf : isFollowOn st e = false := by rw [hfo, hinv]; simp
    rw [report_of_built st e err h]
    simp only [hf, if_false, Bool.false_eq_true]
    refine ⟨?_, ?_, ?_⟩
    · cases hfe : st.firstErr <;> simp [recorded, hfe]
    · intro hcb
      simp [recorded, hcb]
    · intro hcb
      simp [hcb]
  · rw [← isInvalidErr_iff, report_of_built st e err h]
    by_cases hf : isFollowOn st e = true
    · intro _
      rw [hfo, Bool.and_eq_true] at hf
      exact hf
    · have hf' : isFollowOn st e = false := by simpa using hf
      simp only [hf', if_false, Bool.false_eq_true]
      rintro ⟨h1, h2, _⟩
      by_cases hcb : st.conf.hasError = true
      · simp [recorded, hcb] at h2
      · simp [hcb] at h1

theorem report_keeps_message_starting_with_phrase_witness :
    (report exRecorded exInvalidOperand).out = Outcome.ok ()
    ∧ (report exRecorded exInvalidOperand).st.sink
        = exRecorded.sink ++ [⟨9, "invalid operand x", false⟩] :=
  ((report_keeps_message_starting_with_phrase exRecorded exInvalidOperand
      ⟨9, "invalid operand x", false⟩ "invalid operand x" (by decide) (by decide)).1
    (Or.inl ⟨by decide, occursAt_of_index_neg _ _ (by decide)⟩)).2.1 (by decide)

/-- C37 (counterexample): an error is recorded and the message
`invalid operand x (value of invalid type)` begins with `invalid operand`, yet
`report` suppresses the diagnostic: it returns normally, hands nothing to the
callback and leaves `firstErr` as it is, because `invalid type` occurs at index 28. -/
theorem report_drops_message_starting_with_phrase :
    exRecorded.firstErr.isSome = true
    ∧ exOperandOfInvalidType.msg exRecorded.fsetPosition
        = some "invalid operand x (value of invalid type)"
    ∧ composedMsg exRecorded exOperandOfInvalidType
        = some "invalid operand x (value of invalid type)"
    ∧ occursAt "invalid operand x (value of invalid type)" "invalid operand" 0 = true
    ∧ stringsIndex "invalid operand x (value of invalid type)" "invalid type" = 28
    ∧ (report exRecorded exOperandOfInvalidType).out = Outcome.ok ()
    ∧ (report exRecorded exOperandOfInvalidType).st.sink = exRecorded.sink
    ∧ (report exRecorded exOperandOfInvalidType).st.firstErr = exRecorded.firstErr := by
  decide

/-- The case `*ast.ArrayType` with a length, when the length and the element type
are evaluated with a normal return. -/
theorem typInternal_array_eq (call : Checker → ObjId → Option (Res Unit)) (st : Checker)
    (p q : Pos) (len : ArrayLen) (elt : TExpr) (def_ : Option ObjId)
    (rl : Res Int) (re : Res Typ) (n : Int) (t : Typ)
    (hl : arrayLen call (allocBound (typEntry st) def_ NodeKind.Array).1 len = some rl)
    (hlok : rl.out = Outcome.ok n)
    (he : varType call (setLen rl.st (typEntry st).nextNode n) elt = some re)
    (heok : re.out = Outcome.ok t) :
    typInternal call st (TExpr.array p q (some len) elt) def_
      = some (typLeave st
          (Res.after [⟨Label.step, (allocBound (typEntry st) def_ NodeKind.Array).1⟩]
            (Res.after rl.trace
              (Res.after [⟨Label.step, setLen rl.st (typEntry st).nextNode n⟩]
                (Res.after re.trace
                  (Res.after [⟨Label.step, setElem re.st (typEntry st).nextNode t⟩]
                    (if n ≥ 0 then
                      Res.ret (setElem re.st (typEntry st).nextNode t)
                        (Typ.composite (typEntry st).nextNode)
                     else typInvalidEnd (setElem re.st (typEntry st).nextNode t) def_))))))) := by
  obtain ⟨hn, _, _⟩ := allocBound_facts (typEntry st) def_ NodeKind.Array
  rw [typInternal_eq, traceWrap_eq]
  simp only [typSwitch, arrayCase, hn]
  rw [seqO_ok _ _ rl n hl hlok]
  rw [seqO_ok _ _ re t he heok]
  simp only [Option.map_some']

/-- The case `*ast.ArrayType` with a length returns normally only when the length
and the element type were evaluated with a normal return. -/
theorem typInternal_array_inv (call : Checker → ObjId → Option (Res Unit)) (st : Checker)
    (p q : Pos) (len : ArrayLen) (elt : TExpr) (def_ : Option ObjId) (r : Res Typ) (ty : Typ)
    (h : typInternal call st (TExpr.array p q (some len) elt) def_ = some r)
    (hok : r.out = Outcome.ok ty) :
    ∃ rl re n t,
      arrayLen call (allocBound (typEntry st) def_ NodeKind.Array).1 len = some rl
      ∧ rl.out = Outcome.ok n
      ∧ varType call (setLen rl.st (typEntry st).nextNode n) elt = some re
      ∧ re.out = Outcome.ok t := by
  obtain ⟨hn, _, _⟩ := allocBound_facts (typEntry st) def_ NodeKind.Array
  rw [typInternal_eq, traceWrap_eq] at h
  simp only [typSwitch, arrayCase, hn] at h
  cases hl : arrayLen call (allocBound (typEntry st) def_ NodeKind.Array).1 len with
  | none => rw [hl] at h; simp [seqO] at h
  | some rl =>
    cases hlo : rl.out with
    | bailout =>
      rw [hl] at h
      simp only [seqO, Option.some_bind, Res.bindO, hlo, Option.map_some',
        Option.some.injEq] at h
      subst h
      rw [(typLeave_facts st _).1] at hok
      cases hok
    | panic m =>
      rw [hl] at h
      simp only [seqO, Option.some_bind, Res.bindO, hlo, Option.map_some',
        Option.some.injEq] at h
      subst h
      rw [(typLeave_facts st _).1] at hok
      cases hok
    | ok n =>
      rw [seqO_ok _ _ rl n hl hlo] at h
      cases he : varType call (setLen rl.st (typEntry st).nextNode n) elt with
      | none => rw [he] at h; simp [seqO] at h
      | some re =>
        cases heo : re.out with
        | bailout =>
          rw [he] at h
          simp only [seqO, Option.some_bind, Res.bindO, heo, Option.map_some',
            Option.some.injEq] at h
          subst h
          rw [(typLeave_facts st _).1] at hok
          cases hok
        | panic m =>
          rw [he] at h
          simp only [seqO, Option.some_bind, Res.bindO, heo, Option.map_some',
            Option.some.injEq] at h
          subst h
          rw [(typLeave_facts st _).1] at hok
          cases hok
        | ok t => exact ⟨rl, re, n, t, rfl, hlo, he, heo⟩

/-- What the evaluation of the length `[...]` is when it returns: the length is -1
and `BadDotDotDotSyntax` has been reported at the ellipsis. -/
theorem arrayLen_ellipsis (call : Checker → ObjId → Option (Res Unit)) (s : Checker)
    (a b : Pos) (rl : Res Int) (n : Int)
    (hl : arrayLen call s (ArrayLen.ellipsis a b) = some rl) (hlok : rl.out = Outcome.ok n) :
    n = -1
    ∧ reportsOf rl.trace = [newErrorf (positioner.node a b) Code.BadDotDotDotSyntax
        "invalid use of [...] array (outside a composite literal)"] := by
  simp only [arrayLen, Option.some.injEq] at hl
  subst hl
  obtain ⟨u, hu, hk, htr, _⟩ := Res.bind_ok_inv _ _ n hlok
  simp only [Res.ret, Outcome.ok.injEq] at hk
  refine ⟨hk.symm, ?_⟩
  rw [htr]
  simp only [error, report_trace, Res.ret, List.append_nil, reportsOf_report]

/-- C39 (amended): `typInternal` never returns an array type with a negative length,
whatever the nested calls of `objDecl` do: when it returns a type for an array type
expression with a length, the type is the invalid type, or it is the array structure
allocated by the call and the length that was evaluated and stored is not negative.
When the length and the element type are evaluated with a normal return, it returns:
for a negative length (the length `[...]`, after the `BadDotDotDotSyntax` diagnostic
at the ellipsis, or a length expression rejected by `arrayLength`) the invalid type,
which is then the underlying type of `def`; for a non-negative length the array
type, whose structure, when the two evaluations leave it as it is, has that length
and the element type. Its diagnostics are those of the two evaluations. With an
error callback the evaluation of the length `[...]` returns, with the length -1. -/
theorem typInternal_array_length (call : Checker → ObjId → Option (Res Unit))
    (st : Checker) (p q : Pos) (len : ArrayLen) (elt : TExpr) (def_ : Option ObjId) :
    (∀ r ty, typInternal call st (TExpr.array p q (some len) elt) def_ = some r →
        r.out = Outcome.ok ty →
        ty = Typ_Invalid
        ∨ (ty = Typ.composite st.nextNode
            ∧ ∃ rl n, arrayLen call (allocBound (typEntry st) def_ NodeKind.Array).1 len
                = some rl
              ∧ rl.out = Outcome.ok n ∧ 0 ≤ n))
    ∧ (∀ (rl : Res Int) (re : Res Typ) (n : Int) (t : Typ),
        arrayLen call (allocBound (typEntry st) def_ NodeKind.Array).1 len = some rl →
        rl.out = Outcome.ok n →
        varType call (setLen rl.st st.nextNode n) elt = some re →
        re.out = Outcome.ok t →
        ∃ r, typInternal call st (TExpr.array p q (some len) elt) def_ = some r
          ∧ reportsOf r.trace = reportsOf rl.trace ++ reportsOf re.trace
          ∧ (∀ a b, len = ArrayLen.ellipsis a b →
              n = -1
              ∧ reportsOf rl.trace
                = [newErrorf (positioner.node a b) Code.BadDotDotDotSyntax
                    "invalid use of [...] array (outside a composite literal)"])
          ∧ (n < 0 →
              r.out = Outcome.ok Typ_Invalid
              ∧ ∀ d, def_ = some d → r.st.underlying d = Typ_Invalid)
          ∧ (0 ≤ n →
              r.out = Outcome.ok (Typ.composite st.nextNode)
              ∧ (rl.st.nodes st.nextNode
                    = (allocBound (typEntry st) def_ NodeKind.Array).1.nodes st.nextNode →
                  re.st.nodes st.nextNode = (setLen rl.st st.nextNode n).nodes st.nextNode →
                  r.st.nodes st.nextNode
                    = { kind := NodeKind.Array, len := n, elem := some t, base := none,
                        key := none, dir := 0 })))
    ∧ (∀ a b, len = ArrayLen.ellipsis a b → st.conf.hasError = true →
        ∃ rl, arrayLen call (allocBound (typEntry st) def_ NodeKind.Array).1 len = some rl
          ∧ rl.out = Outcome.ok (-1)) := by
  obtain ⟨he1, he2⟩ := typEntry_nodes st
  obtain ⟨hn, hn1, hnode1⟩ := allocBound_facts (typEntry st) def_ NodeKind.Array
  rw [he2] at hn1 hnode1
  have hfwd : ∀ (rl : Res Int) (re : Res Typ) (n : Int) (t : Typ),
      arrayLen call (allocBound (typEntry st) def_ NodeKind.Array).1 len = some rl →
      rl.out = Outcome.ok n →
      varType call (setLen rl.st st.nextNode n) elt = some re →
      re.out = Outcome.ok t →
      ∃ r, typInternal call st (TExpr.array p q (some len) elt) def_ = some r
        ∧ reportsOf r.trace = reportsOf rl.trace ++ reportsOf re.trace
        ∧ (n < 0 →
            r.out = Outcome.ok Typ_Invalid
            ∧ ∀ d, def_ = some d → r.st.underlying d = Typ_Invalid)
        ∧ (0 ≤ n →
            r.out = Outcome.ok (Typ.composite st.nextNode)
            ∧ (rl.st.nodes st.nextNode
                  = (allocBound (typEntry st) def_ NodeKind.Array).1.nodes st.nextNode →
                re.st.nodes st.nextNode = (setLen rl.st st.nextNode n).nodes st.nextNode →
                r.st.nodes st.nextNode
                  = { kind := NodeKind.Array, len := n, elem := some t, base := none,
                      key := none, dir := 0 })) := by
    intro rl re n t hl hlok he heok
    have heq := typInternal_array_eq call st p q len elt def_ rl re n t hl hlok
      (by rw [he2]; exact he) heok
    rw [he2] at heq
    refine ⟨_, heq, ?_, ?_, ?_⟩
    · rw [(typLeave_facts st _).2.1]
      by_cases hn0 : n ≥ 0
      · simp [Res.after, Res.ret, hn0, reportsOf_append, reportsOf_step, reportsOf]
      · simp [Res.after, typInvalidEnd, hn0, reportsOf_append, reportsOf_step, reportsOf]
    · intro hneg
      have hn0 : ¬ n ≥ 0 := by omega
      refine ⟨?_, ?_⟩
      · rw [(typLeave_facts st _).1]
        simp [Res.after, hn0, typInvalidEnd]
      · intro d hd
        rw [(typLeave_facts st _).2.2]
        have := (typInvalidEnd_facts (setElem re.st st.nextNode t) def_).2.1 d hd
        simp only [Res.after, hn0, if_false]
        split <;> exact this
    · intro hn0
      have hn0' : n ≥ 0 := hn0
      refine ⟨?_, ?_⟩
      · rw [(typLeave_facts st _).1]
        simp [Res.after, hn0', Res.ret]
      · intro hnl hne
        have hrln : rl.st.nodes st.nextNode = TypeNode.zero NodeKind.Array := by
          rw [hnl, hnode1]
        have hren : re.st.nodes st.nextNode
            = { TypeNode.zero NodeKind.Array with len := n } := by
          rw [hne]
          simp [setLen, hrln]
        rw [(typLeave_facts st _).2.2]
        have : (setElem re.st st.nextNode t).nodes st.nextNode
            = { kind := NodeKind.Array, len := n, elem := some t, base := none,
                key := none, dir := 0 } := by
          simp [setElem, hren, TypeNode.zero]
        simp only [Res.after, hn0', if_true, Res.ret]
        split <;> exact this
  refine ⟨?_, ?_, ?_⟩
  · intro r ty h hok
    obtain ⟨rl, re, n, t, hl, hlok, he, heok⟩ :=
      typInternal_array_inv call st p q len elt def_ r ty h hok
    rw [he2] at he
    obtain ⟨r2, h2, _, hneg, hpos⟩ := hfwd rl re n t hl hlok he heok
    rw [h] at h2
    simp only [Option.some.injEq] at h2
    subst h2
    by_cases hn0 : 0 ≤ n
    · obtain ⟨ho, _⟩ := hpos hn0
      rw [ho] at hok
      simp only [Outcome.ok.injEq] at hok
      exact Or.inr ⟨hok.symm, rl, n, hl, hlok, hn0⟩
    · obtain ⟨ho, _⟩ := hneg (by omega)
      rw [ho] at hok
      simp only [Outcome.ok.injEq] at hok
      exact Or.inl hok.symm
  · intro rl re n t hl hlok he heok
    obtain ⟨r, h1, h2, h3, h4⟩ := hfwd rl re n t hl hlok he heok
    refine ⟨r, h1, h2, ?_, h3, h4⟩
    intro a b hlen
    subst hlen
    exact arrayLen_ellipsis call _ a b rl n hl hlok
  · intro a b hlen hcb
    subst hlen
    have hconf : (allocBound (typEntry st) def_ NodeKind.Array).1.conf = st.conf := by
      obtain ⟨i, hi⟩ := typEntry_fields st
      rw [hi]
      cases def_ <;> rfl
    refine ⟨_, rfl, ?_⟩
    have h1 := (errorf_callback (allocBound (typEntry st) def_ NodeKind.Array).1
      (positioner.node a b) Code.BadDotDotDotSyntax
      "invalid use of [...] array (outside a composite literal)"
      (by rw [hconf]; exact hcb) (by decide) (by simp)).1
    exact (Res.bind_ok _ _ () h1 ▸ rfl)

theorem typInternal_array_length_witness :
    ∃ r, typInternal (objDecl 1) exEmpty exArrayOfSlices none = some r
      ∧ r.out = Outcome.ok (Typ.composite 0)
      ∧ r.st.nextNode = 2
      ∧ r.st.nodes 0
        = { kind := NodeKind.Array, len := 3, elem := some (Typ.composite 1), base := none,
            key := none, dir := 0 } := by
  obtain ⟨r, h1, _, _, _, h5⟩ :=
    (typInternal_array_length (objDecl 1) exEmpty 20 31
      (ArrayLen.expr 21 22 [] 3)
      (TExpr.array 23 31 none (TExpr.ident 25 28 "int" [] operandMode.typexpr (Typ.basic "int")))
      none).2.1
      _ _ 3 (Typ.composite 1) rfl rfl rfl rfl
  have h1' : typInternal (objDecl 1) exEmpty exArrayOfSlices none = some r := h1
  have hn : (typInternal (objDecl 1) exEmpty exArrayOfSlices none).map (fun r => r.st.nextNode)
      = some 2 := by decide
  rw [h1'] at hn
  exact ⟨r, h1', (h5 (by decide)).1, Option.some.inj hn, (h5 (by decide)).2 rfl rfl⟩

/-- C39 (counterexample): without an error callback, `typInternal` for `[...]int`
with `def` the object 5 reports `BadDotDotDotSyntax` and ends in the bailout: it
does not return the invalid type, and the underlying type of `def` is the array
structure that was bound before the length was looked at, not the invalid type. -/
theorem typInternal_ellipsis_array_bails_out :
    exEmptyBailout.conf.hasError = false
    ∧ (typInternal (objDecl 1) exEmptyBailout exEllipsisArray (some 5)).map
        (fun r => (r.out, r.st.underlying 5, reportsOf r.trace))
      = some (Outcome.bailout, Typ.composite 0,
          [newErrorf (positioner.node 21 24) Code.BadDotDotDotSyntax
            "invalid use of [...] array (outside a composite literal)"]) := by
  decide

/-- The diagnostic of `declare` for an object whose name is in the scope already. -/
theorem declare_duplicate_eq (st : Checker) (w : declStore) (scope : Nat) (id : Option Nat)
    (obj alt : ObjId) (pos : Pos) (hname : (st.objs obj).name ≠ "_")
    (hl : (w.elems scope).lookup (st.objs obj).name = some alt) :
    declare st w scope id obj pos
      = ((errorf st (positioner.object (st.objs obj).pos) Code.DuplicateDecl
            ((st.objs obj).name ++ " redeclared in this block")).bind
          fun _ s => reportAltDecl s alt, w) := by
  unfold declare
  simp only [hname, ne_eq, not_false_eq_true, if_true, Scope_Insert, hl]

/-- C40 (amended): `declare` never inserts an object named `_` into a scope: it
returns normally, reports nothing, leaves the checker and every scope as they are
and records the definition when an identifier is given (in `Defs`, when the map is
set). For a name other than `_` that the scope holds already, with the object `alt`,
it leaves the store as it is, so the binding stays in place and no definition is
recorded; the first diagnostic is `DuplicateDecl` at the new object, and it is
followed by the `other declaration` diagnostic at `alt` exactly when the first
report returned and `alt` has a valid position; with an error callback the first
report returns and `declare` returns normally. -/
theorem declare_blank_or_duplicate (st : Checker) (w : declStore) (scope : Nat)
    (id : Option Nat) (obj : ObjId) (pos : Pos) :
    ((st.objs obj).name = "_" →
        (declare st w scope id obj pos).1 = Res.ret st ()
        ∧ (declare st w scope id obj pos).2.elems = w.elems
        ∧ (declare st w scope id obj pos).2.parent = w.parent
        ∧ (declare st w scope id obj pos).2.scopePos = w.scopePos
        ∧ (∀ i m, id = some i → w.Defs = some m →
            (declare st w scope id obj pos).2.Defs = some (Function.update m i (some obj)))
        ∧ (id = none ∨ w.Defs = none → (declare st w scope id obj pos).2.Defs = w.Defs))
    ∧ (∀ alt, (st.objs obj).name ≠ "_" →
        (w.elems scope).lookup (st.objs obj).name = some alt →
        (declare st w scope id obj pos).2 = w
        ∧ reportsOf (declare st w scope id obj pos).1.trace
          = newErrorf (positioner.object (st.objs obj).pos) Code.DuplicateDecl
              ((st.objs obj).name ++ " redeclared in this block")
            :: (if (errorf st (positioner.object (st.objs obj).pos) Code.DuplicateDecl
                      ((st.objs obj).name ++ " redeclared in this block")).out = Outcome.ok ()
                    ∧ Pos_IsValid (st.objs alt).pos = true then
                  [newErrorf (positioner.object (st.objs alt).pos) Code.DuplicateDecl
                    ("\tother declaration of " ++ (st.objs alt).name)]
                else [])
        ∧ (st.conf.hasError = true →
            (errorf st (positioner.object (st.objs obj).pos) Code.DuplicateDecl
                ((st.objs obj).name ++ " redeclared in this block")).out = Outcome.ok ()
            ∧ (declare st w scope id obj pos).1.out = Outcome.ok ())) := by
  constructor
  · intro hname
    have hd : declare st w scope id obj pos
        = if id.isSome then recordDef st w id obj else (Res.ret st (), w) := by
      unfold declare
      simp only [hname, ne_eq, not_true_eq_false, if_false]
    rw [hd]
    cases id with
    | none =>
      refine ⟨rfl, rfl, rfl, rfl, ?_, fun _ => rfl⟩
      intro i m hi
      cases hi
    | some i0 =>
      simp only [Option.isSome_some, if_true]
      unfold recordDef
      refine ⟨?_, ?_, ?_, ?_, ?_, ?_⟩
      · rfl
      · cases w.Defs <;> rfl
      · cases w.Defs <;> rfl
      · cases w.Defs <;> rfl
      · intro i m hi hm
        cases hi
        rw [hm]
      · intro h
        rcases h with h | h
        · cases h
        · simp only [h]
  · intro alt hname hl
    rw [declare_duplicate_eq st w scope id obj alt pos hname hl]
    have hfirst := errorf_callback st (positioner.object (st.objs obj).pos) Code.DuplicateDecl
      ((st.objs obj).name ++ " redeclared in this block")
    have htr : (errorf st (positioner.object (st.objs obj).pos) Code.DuplicateDecl
        ((st.objs obj).name ++ " redeclared in this block")).trace
        = [⟨Label.report (newErrorf (positioner.object (st.objs obj).pos) Code.DuplicateDecl
            ((st.objs obj).name ++ " redeclared in this block")), st⟩] := report_trace st _
    have hobjs : (errorf st (positioner.object (st.objs obj).pos) Code.DuplicateDecl
        ((st.objs obj).name ++ " redeclared in this block")).st.objs = st.objs :=
      (sameButErrors_fields _ _ (report_sameButErrors st _)).1
    refine ⟨rfl, ?_, ?_⟩
    · cases hout : (errorf st (positioner.object (st.objs obj).pos) Code.DuplicateDecl
          ((st.objs obj).name ++ " redeclared in this block")).out with
      | ok u =>
        cases u
        have hb : ((errorf st (positioner.object (st.objs obj).pos) Code.DuplicateDecl
            ((st.objs obj).name ++ " redeclared in this block")).bind
            fun _ s => reportAltDecl s alt).trace
            = (errorf st (positioner.object (st.objs obj).pos) Code.DuplicateDecl
                ((st.objs obj).name ++ " redeclared in this block")).trace
              ++ (reportAltDecl (errorf st (positioner.object (st.objs obj).pos)
                Code.DuplicateDecl
                ((st.objs obj).name ++ " redeclared in this block")).st alt).trace := by
          rw [Res.bind_ok _ _ () hout]
        have halt : reportsOf (reportAltDecl (errorf st (positioner.object (st.objs obj).pos)
            Code.DuplicateDecl
            ((st.objs obj).name ++ " redeclared in this block")).st alt).trace
            = if Pos_IsValid (st.objs alt).pos = true then
                [newErrorf (positioner.object (st.objs alt).pos) Code.DuplicateDecl
                  ("\tother declaration of " ++ (st.objs alt).name)]
              else [] := by
          unfold reportAltDecl
          rw [hobjs]
          split
          · simp only [errorf, report_trace, reportsOf_report]
          · rfl
        rw [hb, reportsOf_append, htr, reportsOf_report, halt, List.singleton_append]
        simp only [true_and]
      | bailout =>
        rw [Res.bind_bailout _ _ hout]
        simp only [htr, reportsOf_report]
        rw [if_neg (fun hc => by cases hc.1)]
      | panic m =>
        have hb : ((errorf st (positioner.object (st.objs obj).pos) Code.DuplicateDecl
            ((st.objs obj).name ++ " redeclared in this block")).bind
            fun _ s => reportAltDecl s alt).trace
            = (errorf st (positioner.object (st.objs obj).pos) Code.DuplicateDecl
              ((st.objs obj).name ++ " redeclared in this block")).trace := by
          unfold Res.bind
          rw [hout]
        rw [hb]
        simp only [htr, reportsOf_report]
        rw [if_neg (fun hc => by cases hc.1)]
    · intro hcb
      obtain ⟨h1, h2, _⟩ := hfirst hcb (by decide) (by simp)
      refine ⟨h1, ?_⟩
      rw [Res.bind_ok _ _ () h1]
      show (reportAltDecl _ alt).out = Outcome.ok ()
      unfold reportAltDecl
      split
      · obtain ⟨fe, sk, hs⟩ := h2
        refine (errorf_callback _ _ _ _ ?_ (by decide) (by simp)).1
        rw [hs]
        exact hcb
      · rfl

/-- C40 (counterexample): without an error callback, `declare` for a second
variable `x` (object 1) in a scope that holds the variable `x` (object 0, at the
valid position 10) reports the `DuplicateDecl` diagnostic at the new object and ends
in the bailout: the `other declaration` diagnostic at the existing object is not
reported. -/
theorem declare_bails_out_before_other_declaration :
    exTwoXBailout.conf.hasError = false
    ∧ (exStore.elems 0).lookup (exTwoXBailout.objs 1).name = some 0
    ∧ Pos_IsValid (exTwoXBailout.objs 0).pos = true
    ∧ (declare exTwoXBailout exStore 0 (some 7) 1 41).1.out = Outcome.bailout
    ∧ reportsOf (declare exTwoXBailout exStore 0 (some 7) 1 41).1.trace
      = [newErrorf (positioner.object 40) Code.DuplicateDecl "x redeclared in this block"] := by
  decide

theorem callsOf_append (t1 t2 : List Moment) : callsOf (t1 ++ t2) = callsOf t1 ++ callsOf t2 := by
  simp [callsOf, List.filterMap_append]

theorem callsOf_errorf (s : Checker) (p : positioner) (c : Code) (t : String) :
    callsOf (errorf s p c t).trace = [] := by
  simp only [errorf, report_trace]
  rfl

theorem callsOf_callDecl (f : decl → Checker → Res Unit) (hf : ∀ d s, callsOf (f d s).trace = [])
    (d : decl) (s : Checker) : callsOf (callDecl f d s).trace = [d] := by
  unfold callDecl
  simp only [Res.after, callsOf_append, hf]
  rfl

theorem mem_callsOf_bind {α β : Type} (r : Res α) (k : α → Checker → Res β) (d : decl)
    (h : d ∈ callsOf (r.bind k).trace) :
    d ∈ callsOf r.trace ∨ ∃ a, r.out = Outcome.ok a ∧ d ∈ callsOf (k a r.st).trace := by
  unfold Res.bind at h
  cases hout : r.out with
  | ok a =>
    rw [hout] at h
    simp only [callsOf_append, List.mem_append] at h
    rcases h with h | h
    · exact Or.inl h
    · exact Or.inr ⟨a, rfl, h⟩
  | bailout => rw [hout] at h; exact Or.inl h
  | panic m => rw [hout] at h; exact Or.inl h

theorem nearest_append_one (pre : List Spec) (s : Spec) :
    nearestWithTypeOrValues (pre ++ [s])
      = match ownTypeOrValues s with
        | some v => some v
        | none => nearestWithTypeOrValues pre := by
  induction pre with
  | nil =>
    simp only [List.nil_append, nearestWithTypeOrValues]
    cases ownTypeOrValues s <;> rfl
  | cons x xs ih =>
    rw [List.cons_append, nearestWithTypeOrValues, ih]
    cases ownTypeOrValues s with
    | none =>
      simp only
      rw [nearestWithTypeOrValues]
    | some v => rfl

theorem hasTypeOrValues_iff (v : ValueSpec) :
    hasTypeOrValues v = true ↔ (v.Type_ ≠ none ∨ v.Values.length > 0) := by
  unfold hasTypeOrValues
  cases ht : v.Type_ <;> cases hv : v.Values <;> simp

theorem lastAgrees_other (pre : List Spec) (s : Spec) (last : Option ValueSpec)
    (hs : ∀ v, s ≠ Spec.valueSpec v) (h : lastAgrees pre last) : lastAgrees (pre ++ [s]) last := by
  have hn : nearestWithTypeOrValues (pre ++ [s]) = nearestWithTypeOrValues pre := by
    rw [nearest_append_one]
    cases s with
    | valueSpec v => exact absurd rfl (hs v)
    | importSpec i => rfl
    | typeSpec t => rfl
    | other p q n => rfl
  unfold lastAgrees at h ⊢
  rw [hn]
  exact h

/-- What the switch of `walkDecl` yields for a constant specification, when `last`
agrees with the specifications passed so far. -/
theorem lastAndInherited_spec (pre : List Spec) (v : ValueSpec) (last : Option ValueSpec)
    (h : lastAgrees pre last) :
    lastAgrees (pre ++ [Spec.valueSpec v]) (some (lastAndInherited v last).1)
    ∧ ((lastAndInherited v last).2 = true → v.Type_ = none ∧ v.Values = []
        ∧ ((lastAndInherited v last).1.Type_, (lastAndInherited v last).1.Values)
          = inheritedFrom (nearestWithTypeOrValues pre))
    ∧ ((lastAndInherited v last).2 = false →
        (lastAndInherited v last).1.Type_ = v.Type_
        ∧ (lastAndInherited v last).1.Values = v.Values) := by
  unfold lastAndInherited
  by_cases hc : v.Type_ ≠ none ∨ v.Values.length > 0
  · rw [if_pos hc]
    refine ⟨?_, (fun hh => by cases hh), fun _ => ⟨rfl, rfl⟩⟩
    unfold lastAgrees
    left
    rw [nearest_append_one]
    simp only [ownTypeOrValues, (hasTypeOrValues_iff v).mpr hc, if_true]
  · rw [if_neg hc]
    have hnot : hasTypeOrValues v = false := by
      rw [Bool.eq_false_iff]
      exact fun hh => hc ((hasTypeOrValues_iff v).mp hh)
    have hn : nearestWithTypeOrValues (pre ++ [Spec.valueSpec v])
        = nearestWithTypeOrValues pre := by
      rw [nearest_append_one]
      simp only [ownTypeOrValues, hnot, Bool.false_eq_true, if_false]
    have hty : v.Type_ = none := by
      by_contra hh
      exact hc (Or.inl hh)
    have hvals : v.Values = [] := by
      cases hv : v.Values with
      | nil => rfl
      | cons a b => exact absurd (Or.inr (by rw [hv]; simp)) hc
    cases last with
    | none =>
      unfold lastAgrees at h
      refine ⟨?_, (fun hh => by cases hh), fun _ => ⟨hty.symm, hvals.symm⟩⟩
      unfold lastAgrees
      rw [hn]
      exact Or.inr ⟨h, rfl⟩
    | some l =>
      unfold lastAgrees at h
      refine ⟨?_, fun _ => ⟨hty, hvals, ?_⟩, fun hh => by cases hh⟩
      · unfold lastAgrees
        rw [hn]
        exact h
      · rcases h with h | ⟨h, hz⟩
        · rw [h]
          rfl
        · rw [h, hz]
          rfl

theorem walkSpecs_const_calls (arityMatch : ValueSpec → Option ValueSpec → Checker → Res Unit)
    (f : decl → Checker → Res Unit)
    (ham : ∀ v l s, callsOf (arityMatch v l s).trace = [])
    (hf : ∀ d s, callsOf (f d s).trace = []) :
    ∀ (rest pre : List Spec) (last : Option ValueSpec) (st : Checker), lastAgrees pre last →
      ∀ d ∈ callsOf (walkSpecs arityMatch f Token.CONST rest pre.length last st).trace,
        goodCall (pre ++ rest) d := by
  intro rest
  induction rest with
  | nil =>
    intro pre last st _ d hd
    simp [walkSpecs, Res.ret, callsOf] at hd
  | cons s rest ih =>
    intro pre last st hla d hd
    have hlen : (pre ++ [s]).length = pre.length + 1 := by simp
    have happ : pre ++ s :: rest = (pre ++ [s]) ++ rest := by simp
    have hnext : ∀ (last1 : Option ValueSpec) (s1 : Checker), lastAgrees (pre ++ [s]) last1 →
        d ∈ callsOf (walkSpecs arityMatch f Token.CONST rest (pre.length + 1) last1 s1).trace →
        goodCall (pre ++ s :: rest) d := by
      intro last1 s1 h1 h2
      rw [happ]
      rw [← hlen] at h2
      exact ih (pre ++ [s]) last1 s1 h1 d h2
    cases s with
    | importSpec i =>
      rw [walkSpecs] at hd
      rcases mem_callsOf_bind _ _ d hd with h | ⟨_, _, h⟩
      · rw [callsOf_callDecl f hf, List.mem_singleton] at h
        subst h
        trivial
      · exact hnext last _ (lastAgrees_other pre _ last (fun v hv => by cases hv) hla) h
    | typeSpec t =>
      rw [walkSpecs] at hd
      rcases mem_callsOf_bind _ _ d hd with h | ⟨_, _, h⟩
      · rw [callsOf_callDecl f hf, List.mem_singleton] at h
        subst h
        trivial
      · exact hnext last _ (lastAgrees_other pre _ last (fun v hv => by cases hv) hla) h
    | other p q n =>
      rw [walkSpecs] at hd
      rcases mem_callsOf_bind _ _ d hd with h | ⟨_, _, h⟩
      · rw [callsOf_errorf] at h
        cases h
      · exact hnext last _ (lastAgrees_other pre _ last (fun v hv => by cases hv) hla) h
    | valueSpec v =>
      rw [walkSpecs] at hd
      obtain ⟨h1, h2, h3⟩ := lastAndInherited_spec pre v last hla
      rcases mem_callsOf_bind _ _ d hd with h | ⟨_, _, h⟩
      · rw [ham] at h
        cases h
      · rcases mem_callsOf_bind _ _ d h with h | ⟨_, _, h⟩
        · rw [callsOf_callDecl f hf, List.mem_singleton] at h
          subst h
          refine ⟨pre.length, rfl,
            by rw [List.getElem?_append_right (Nat.le_refl _)]; simp, ?_, h3⟩
          intro hinh
          rw [List.take_left]
          exact h2 hinh
        · exact hnext _ _ h1 h

/-- C35 (amended): for a constant group, while `arityMatch` and the callback hand
nothing to the callback themselves: every value that `walkDecl` passes to `f` for a
constant specification carries as `iota` the index of the specification in the
group; if it is passed with `inherited = true`, the specification has neither a type
nor values of its own, and `typ` and `init` are the type and the values of the
nearest preceding specification that has a type or values, and no type and no
values when no preceding specification has either; if it is passed with
`inherited = false`, `typ` and `init` are its own type and values. -/
theorem walkDecl_inherited (arityMatch : ValueSpec → Option ValueSpec → Checker → Res Unit)
    (f : decl → Checker → Res Unit)
    (ham : ∀ v l s, callsOf (arityMatch v l s).trace = [])
    (hf : ∀ d s, callsOf (f d s).trace = [])
    (st : Checker) (specs : List Spec) (v : ValueSpec) (k : Int) (typ : Option TExpr)
    (init : List Expr) (inh : Bool)
    (hd : decl.constDecl v k typ init inh
      ∈ callsOf (walkDecl arityMatch f st (Decl.gen Token.CONST specs)).trace) :
    ∃ n : Nat, k = (n : Int) ∧ specs[n]? = some (Spec.valueSpec v)
      ∧ (inh = true →
          v.Type_ = none ∧ v.Values = []
          ∧ (∀ l, nearestWithTypeOrValues (specs.take n) = some l →
              typ = l.Type_ ∧ init = l.Values)
          ∧ (nearestWithTypeOrValues (specs.take n) = none → typ = none ∧ init = []))
      ∧ (inh = false → typ = v.Type_ ∧ init = v.Values) := by
  have h := walkSpecs_const_calls arityMatch f ham hf specs [] none st rfl _ hd
  obtain ⟨n, h1, h2, h3, h4⟩ := h
  refine ⟨n, h1, by simpa using h2, ?_, h4⟩
  intro hinh
  obtain ⟨h5, h6, h7⟩ := h3 hinh
  rw [List.nil_append] at h7
  refine ⟨h5, h6, ?_, ?_⟩
  · intro l hl
    rw [hl] at h7
    exact ⟨congrArg Prod.fst h7, congrArg Prod.snd h7⟩
  · intro hl
    rw [hl] at h7
    exact ⟨congrArg Prod.fst h7, congrArg Prod.snd h7⟩

theorem walkDecl_inherited_witness :
    decl.constDecl ⟨40, 41, none, []⟩ 3 (some exIntType) [exOne] true
      ∈ callsOf (walkDecl exArity exVisit exEmpty exConstGroup).trace
    ∧ ∃ n : Nat, (3 : Int) = (n : Int)
      ∧ [Spec.valueSpec ⟨10, 15, none, [exOne]⟩, Spec.valueSpec ⟨20, 21, none, []⟩,
          Spec.valueSpec ⟨30, 39, some exIntType, [exOne]⟩,
          Spec.valueSpec ⟨40, 41, none, []⟩][n]? = some (Spec.valueSpec ⟨40, 41, none, []⟩) :=
  ⟨by decide,
    (walkDecl_inherited exArity exVisit (fun _ _ _ => rfl) (fun _ _ => rfl) exEmpty _
      ⟨40, 41, none, []⟩ 3 (some exIntType) [exOne] true (by decide)).imp
      fun _ h => ⟨h.1, h.2.1⟩⟩

/-- C35 (counterexample): in the group `const ( a; b )` the second specification is
passed with `inherited = true` although no specification before it has a type or
values: the first has neither, and `typ` and `init` are nil. -/
theorem walkDecl_inherited_from_nothing :
    callsOf (walkDecl exArity exVisit exEmpty exBareGroup).trace
      = [decl.constDecl ⟨10, 11, none, []⟩ 0 none [] false,
         decl.constDecl ⟨20, 21, none, []⟩ 1 none [] true]
    ∧ exBareGroup = Decl.gen Token.CONST
        [Spec.valueSpec ⟨10, 11, none, []⟩, Spec.valueSpec ⟨20, 21, none, []⟩]
    ∧ hasTypeOrValues ⟨10, 11, none, []⟩ = false
    ∧ nearestWithTypeOrValues [Spec.valueSpec ⟨10, 11, none, []⟩] = none := by
  decide

theorem callsOf_bind_ok {α β : Type} (r : Res α) (k : α → Checker → Res β) (a : α)
    (h : r.out = Outcome.ok a) :
    (r.bind k).out = (k a r.st).out
    ∧ callsOf (r.bind k).trace = callsOf r.trace ++ callsOf (k a r.st).trace := by
  rw [Res.bind_ok r k a h]
  exact ⟨rfl, callsOf_append _ _⟩

theorem walkSpecs_const_normal
    (arityMatch : ValueSpec → Option ValueSpec → Checker → Res Unit)
    (f : decl → Checker → Res Unit)
    (ham : ∀ v l s, (arityMatch v l s).out = Outcome.ok () ∧ callsOf (arityMatch v l s).trace = [])
    (hf : ∀ d s, (f d s).out = Outcome.ok () ∧ callsOf (f d s).trace = []) :
    ∀ (vs : List ValueSpec) (iota : Nat) (last : Option ValueSpec) (st : Checker),
      (walkSpecs arityMatch f Token.CONST (vs.map Spec.valueSpec) iota last st).out
        = Outcome.ok ()
      ∧ (callsOf (walkSpecs arityMatch f Token.CONST (vs.map Spec.valueSpec) iota last
          st).trace).length = vs.length
      ∧ ∀ j v, vs[j]? = some v → ∃ typ init inh,
          (callsOf (walkSpecs arityMatch f Token.CONST (vs.map Spec.valueSpec) iota last
            st).trace)[j]? = some (decl.constDecl v ((iota + j : Nat) : Int) typ init inh) := by
  intro vs
  induction vs with
  | nil =>
    intro iota last st
    refine ⟨rfl, rfl, ?_⟩
    intro j v hj
    simp at hj
  | cons v vs ih =>
    intro iota last st
    rw [List.map_cons, walkSpecs]
    obtain ⟨o1, c1⟩ := callsOf_bind_ok (arityMatch v (some (lastAndInherited v last).1) st)
      (fun _ s1 =>
        (callDecl f (decl.constDecl v iota (lastAndInherited v last).1.Type_
          (lastAndInherited v last).1.Values (lastAndInherited v last).2) s1).bind fun _ s2 =>
          walkSpecs arityMatch f Token.CONST (vs.map Spec.valueSpec) (iota + 1)
            (some (lastAndInherited v last).1) s2) () (ham _ _ _).1
    have hco : ∀ d s, (callDecl f d s).out = Outcome.ok () := fun d s => (hf d s).1
    obtain ⟨o2, c2⟩ := callsOf_bind_ok
      (callDecl f (decl.constDecl v iota (lastAndInherited v last).1.Type_
          (lastAndInherited v last).1.Values (lastAndInherited v last).2)
        (arityMatch v (some (lastAndInherited v last).1) st).st)
      (fun _ s2 =>
          walkSpecs arityMatch f Token.CONST (vs.map Spec.valueSpec) (iota + 1)
            (some (lastAndInherited v last).1) s2) () (hco _ _)
    obtain ⟨i1, i2, i3⟩ := ih (iota + 1) (some (lastAndInherited v last).1)
      (callDecl f (decl.constDecl v iota (lastAndInherited v last).1.Type_
          (lastAndInherited v last).1.Values (lastAndInherited v last).2)
        (arityMatch v (some (lastAndInherited v last).1) st).st).st
    rw [o1, o2, c1, c2, (ham _ _ _).2, callsOf_callDecl f (fun d s => (hf d s).2),
      List.nil_append, List.singleton_append]
    refine ⟨i1, by rw [List.length_cons, i2, List.length_cons], ?_⟩
    intro j w hj
    cases j with
    | zero =>
      simp only [List.getElem?_cons_zero, Option.some.injEq] at hj
      subst hj
      exact ⟨(lastAndInherited v last).1.Type_, (lastAndInherited v last).1.Values,
        (lastAndInherited v last).2, by simp⟩
    | succ j =>
      simp only [List.getElem?_cons_succ] at hj
      obtain ⟨typ, init, inh, h⟩ := i3 j w hj
      refine ⟨typ, init, inh, ?_⟩
      rw [List.getElem?_cons_succ, h]
      have : iota + 1 + j = iota + (j + 1) := by omega
      rw [this]

/-- C36: for a constant group, when `arityMatch` and the callback return normally
and hand nothing to the callback themselves: `walkDecl` returns normally, it calls
`f` as many times as the group has specifications, and the call number `k` (from 0)
is for the specification number `k` and passes a `constDecl` with `iota = k`. -/
theorem walkDecl_const_calls_in_order
    (arityMatch : ValueSpec → Option ValueSpec → Checker → Res Unit)
    (f : decl → Checker → Res Unit)
    (ham : ∀ v l s, (arityMatch v l s).out = Outcome.ok () ∧ callsOf (arityMatch v l s).trace = [])
    (hf : ∀ d s, (f d s).out = Outcome.ok () ∧ callsOf (f d s).trace = [])
    (st : Checker) (vs : List ValueSpec) :
    (walkDecl arityMatch f st (Decl.gen Token.CONST (vs.map Spec.valueSpec))).out
      = Outcome.ok ()
    ∧ (callsOf (walkDecl arityMatch f st
        (Decl.gen Token.CONST (vs.map Spec.valueSpec))).trace).length = vs.length
    ∧ ∀ (k : Nat) (v : ValueSpec), vs[k]? = some v → ∃ typ init inh,
        (callsOf (walkDecl arityMatch f st
          (Decl.gen Token.CONST (vs.map Spec.valueSpec))).trace)[k]?
          = some (decl.constDecl v (k : Int) typ init inh) := by
  obtain ⟨h1, h2, h3⟩ := walkSpecs_const_normal arityMatch f ham hf vs 0 none st
  refine ⟨h1, h2, ?_⟩
  intro k v hk
  obtain ⟨typ, init, inh, h⟩ := h3 k v hk
  refine ⟨typ, init, inh, ?_⟩
  rw [Nat.zero_add] at h
  exact h

theorem walkDecl_const_calls_in_order_witness :
    callsOf (walkDecl exArity exVisit exEmpty exConstGroup).trace
      = [decl.constDecl ⟨10, 15, none, [exOne]⟩ 0 none [exOne] false,
         decl.constDecl ⟨20, 21, none, []⟩ 1 none [exOne] true,
         decl.constDecl ⟨30, 39, some exIntType, [exOne]⟩ 2 (some exIntType) [exOne] false,
         decl.constDecl ⟨40, 41, none, []⟩ 3 (some exIntType) [exOne] true]
    ∧ (callsOf (walkDecl exArity exVisit exEmpty
        (Decl.gen Token.CONST
          ([⟨10, 15, none, [exOne]⟩, ⟨20, 21, none, []⟩, ⟨30, 39, some exIntType, [exOne]⟩,
            ⟨40, 41, none, []⟩].map Spec.valueSpec))).trace).length = 4 :=
  ⟨by decide,
    (walkDecl_const_calls_in_order exArity exVisit (fun _ _ _ => ⟨rfl, rfl⟩)
      (fun _ _ => ⟨rfl, rfl⟩) exEmpty
      [⟨10, 15, none, [exOne]⟩, ⟨20, 21, none, []⟩, ⟨30, 39, some exIntType, [exOne]⟩,
        ⟨40, 41, none, []⟩]).2.1⟩

theorem decodeRune_appendRune (r : Nat) (hr : isScalar r) (rest : List Nat) :
    decodeRune (appendRune r ++ rest) = (r, (appendRune r).length) := by
  unfold isScalar at hr
  unfold appendRune
  by_cases h1 : r ≤ 0x7F
  · rw [if_pos h1]
    simp only [List.singleton_append, decodeRune, List.length_singleton]
    rw [if_pos (by omega)]
  · rw [if_neg h1]
    by_cases h2 : r ≤ 0x7FF
    · rw [if_pos h2]
      have hf : firstByte (0xC0 + r / 64) = some (2, 0x80, 0xBF) := by
        unfold firstByte
        rw [if_pos (by omega)]
      simp only [List.cons_append, List.nil_append, decodeRune, hf, List.length_cons]
      rw [if_neg (by omega), if_neg (by omega), if_neg (by omega), if_pos (by omega)]
      congr 1
      omega
    · rw [if_neg h2, if_neg (by omega)]
      by_cases h3 : r ≤ 0xFFFF
      · rw [if_pos h3]
        have hf : ∃ lo hi, firstByte (0xE0 + r / 4096) = some (3, lo, hi)
            ∧ lo ≤ 0x80 + r / 64 % 64 ∧ 0x80 + r / 64 % 64 ≤ hi := by
          unfold firstByte
          rw [if_neg (by omega)]
          by_cases c0 : 0xE0 + r / 4096 = 0xE0
          · rw [if_pos c0]
            exact ⟨_, _, rfl, by omega, by omega⟩
          · rw [if_neg c0]
            by_cases c1 : (0xE1 ≤ 0xE0 + r / 4096 ∧ 0xE0 + r / 4096 ≤ 0xEC)
                ∨ 0xE0 + r / 4096 = 0xEE ∨ 0xE0 + r / 4096 = 0xEF
            · rw [if_pos c1]
              exact ⟨_, _, rfl, by omega, by omega⟩
            · rw [if_neg c1, if_pos (by omega)]
              exact ⟨_, _, rfl, by omega, by omega⟩
        obtain ⟨lo, hi, hf, hlo, hhi⟩ := hf
        simp only [List.cons_append, List.nil_append, decodeRune, hf, List.length_cons]
        rw [if_neg (by omega), if_neg (by omega), if_neg (by omega), if_neg (by omega),
          if_neg (by omega), if_pos (by omega)]
        congr 1
        omega
      · rw [if_neg h3]
        have hf : ∃ lo hi, firstByte (0xF0 + r / 262144) = some (4, lo, hi)
            ∧ lo ≤ 0x80 + r / 4096 % 64 ∧ 0x80 + r / 4096 % 64 ≤ hi := by
          unfold firstByte
          rw [if_neg (by omega), if_neg (by omega), if_neg (by omega), if_neg (by omega)]
          by_cases c0 : 0xF0 + r / 262144 = 0xF0
          · rw [if_pos c0]
            exact ⟨_, _, rfl, by omega, by omega⟩
          · rw [if_neg c0]
            by_cases c1 : 0xF1 ≤ 0xF0 + r / 262144 ∧ 0xF0 + r / 262144 ≤ 0xF3
            · rw [if_pos c1]
              exact ⟨_, _, rfl, by omega, by omega⟩
            · rw [if_neg c1, if_pos (by omega)]
              exact ⟨_, _, rfl, by omega, by omega⟩
        obtain ⟨lo, hi, hf, hlo, hhi⟩ := hf
        simp only [List.cons_append, List.nil_append, decodeRune, hf, List.length_cons]
        rw [if_neg (by omega), if_neg (by omega), if_neg (by omega), if_neg (by omega),
          if_neg (by omega), if_neg (by omega), if_neg (by omega)]
        congr 1
        omega

theorem appendRune_length_pos (r : Nat) : 0 < (appendRune r).length := by
  unfold appendRune
  split
  · simp
  · split
    · simp
    · split
      · simp
      · split <;> simp

theorem stripLoop_succ (fuel : Nat) (s buf : List Nat) (hs : s ≠ []) :
    stripLoop (fuel + 1) s buf
      = stripLoop fuel (s.drop (decodeRune s).2)
          (if (decodeRune s).1 < 0x2080 ∨ 0x2080 + 10 ≤ (decodeRune s).1 then
            buf ++ appendRune (decodeRune s).1 else buf) := by
  cases s with
  | nil => exact absurd rfl hs
  | cons a l => rw [stripLoop]

theorem runesLoop_succ (fuel : Nat) (s : List Nat) (hs : s ≠ []) :
    runesLoop (fuel + 1) s = (decodeRune s).1 :: runesLoop fuel (s.drop (decodeRune s).2) := by
  cases s with
  | nil => exact absurd rfl hs
  | cons a l => rw [runesLoop]

theorem appendRune_append_ne_nil (r : Nat) (rest : List Nat) : appendRune r ++ rest ≠ [] := by
  intro h
  have h1 := congrArg List.length h
  have h2 := appendRune_length_pos r
  simp only [List.length_append, List.length_nil] at h1
  omega

theorem keep_iff (r : Nat) :
    (r < 0x2080 ∨ 0x2080 + 10 ≤ r) ↔ (!isSubscriptDigit r) = true := by
  unfold isSubscriptDigit
  simp only [Bool.not_eq_true', Bool.and_eq_false_imp, decide_eq_true_eq, decide_eq_false_iff_not]
  omega

theorem stripLoop_encode (cs : List Nat) (hv : ∀ r ∈ cs, isScalar r) :
    ∀ (fuel : Nat) (buf : List Nat), cs.length ≤ fuel →
      stripLoop fuel (encodeRunes cs) buf
        = buf ++ encodeRunes (cs.filter fun r => !isSubscriptDigit r) := by
  induction cs with
  | nil =>
    intro fuel buf _
    cases fuel <;> simp [stripLoop, encodeRunes]
  | cons r rs ih =>
    intro fuel buf hfuel
    cases fuel with
    | zero => simp at hfuel
    | succ fuel =>
      have hr := hv r (List.mem_cons_self r rs)
      rw [encodeRunes, stripLoop_succ _ _ _ (appendRune_append_ne_nil r _),
        decodeRune_appendRune r hr, List.drop_left,
        ih (fun x hx => hv x (List.mem_cons_of_mem r hx)) fuel _
          (by simp only [List.length_cons] at hfuel; omega)]
      by_cases hk : (!isSubscriptDigit r) = true
      · rw [if_pos ((keep_iff r).mpr hk),
          List.filter_cons_of_pos (p := fun r => !isSubscriptDigit r) hk, encodeRunes,
          List.append_assoc]
      · rw [if_neg (fun h => hk ((keep_iff r).mp h)),
          List.filter_cons_of_neg (p := fun r => !isSubscriptDigit r) hk]

theorem runesLoop_encode (cs : List Nat) (hv : ∀ r ∈ cs, isScalar r) :
    ∀ (fuel : Nat), cs.length ≤ fuel → runesLoop fuel (encodeRunes cs) = cs := by
  induction cs with
  | nil =>
    intro fuel _
    cases fuel <;> simp [runesLoop, encodeRunes]
  | cons r rs ih =>
    intro fuel hfuel
    cases fuel with
    | zero => simp at hfuel
    | succ fuel =>
      have hr := hv r (List.mem_cons_self r rs)
      rw [encodeRunes, runesLoop_succ _ _ (appendRune_append_ne_nil r _),
        decodeRune_appendRune r hr, List.drop_left,
        ih (fun x hx => hv x (List.mem_cons_of_mem r hx)) fuel
          (by simp only [List.length_cons] at hfuel; omega)]

theorem length_le_encodeRunes (cs : List Nat) : cs.length ≤ (encodeRunes cs).length := by
  induction cs with
  | nil => simp [encodeRunes]
  | cons r rs ih =>
    have := appendRune_length_pos r
    simp only [encodeRunes, List.length_cons, List.length_append]
    omega

theorem runesOf_encode (cs : List Nat) (hv : ∀ r ∈ cs, isScalar r) :
    runesOf (encodeRunes cs) = cs :=
  runesLoop_encode cs hv _ (length_le_encodeRunes cs)

theorem encodeRunes_filter_length (p : Nat → Bool) (cs : List Nat) :
    (encodeRunes (cs.filter p)).length ≤ (encodeRunes cs).length
    ∧ ((encodeRunes cs).length ≤ (encodeRunes (cs.filter p)).length → cs.filter p = cs) := by
  induction cs with
  | nil => simp [encodeRunes]
  | cons r rs ih =>
    have hpos := appendRune_length_pos r
    by_cases hp : p r = true
    · rw [List.filter_cons_of_pos hp]
      simp only [encodeRunes, List.length_append]
      refine ⟨by omega, fun h => ?_⟩
      rw [ih.2 (by omega)]
    · rw [List.filter_cons_of_neg hp]
      simp only [encodeRunes, List.length_append]
      refine ⟨by omega, fun h => ?_⟩
      omega

theorem stripAnnotations_utf8_encode (cs : List Nat) (hv : ∀ r ∈ cs, isScalar r) :
    stripAnnotations_utf8 (encodeRunes cs)
      = encodeRunes (cs.filter fun r => !isSubscriptDigit r) := by
  unfold stripAnnotations_utf8
  simp only
  rw [stripLoop_encode cs hv _ _ (length_le_encodeRunes cs), List.nil_append]
  split
  · rfl
  · rename_i hlt
    rw [(encodeRunes_filter_length _ cs).2 (by omega)]

/-- The function on strings of characters agrees with the function on bytes: the
bytes of the result are the result on the bytes. -/
theorem stripAnnotations_utf8_string (s : String) :
    stripAnnotations_utf8 (encodeRunes (s.data.map Char.toNat))
      = encodeRunes ((stripAnnotations s).data.map Char.toNat) := by
  have hv : ∀ r ∈ s.data.map Char.toNat, isScalar r := by
    intro r hr
    rw [List.mem_map] at hr
    obtain ⟨c, _, rfl⟩ := hr
    exact c.valid
  rw [stripAnnotations_utf8_encode _ hv]
  unfold stripAnnotations
  simp only [List.filter_map]
  congr 2
  apply List.filter_congr
  intro c _
  simp only [Function.comp, isSubscriptDigit]
  cases h1 : decide (c.toNat < 8320) <;> cases h2 : decide (8320 + 10 ≤ c.toNat) <;>
    simp only [decide_eq_true_eq, decide_eq_false_iff_not] at h1 h2 <;>
    simp <;> omega

/-- On valid UTF-8 `stripAnnotations` does what its comment says: for the encoding
`s` of a sequence of Unicode scalar values, the runes of `stripAnnotations(s)` are the
runes of `s` without the subscript digits U+2080 to U+2089, in their order, and the
result is their encoding; so the result contains no subscript digit, it equals `s`
when `s` contains none, and `stripAnnotations` is idempotent on `s`. -/
theorem stripAnnotations_removes_subscripts (cs : List Nat) (hv : ∀ r ∈ cs, isScalar r) :
    runesOf (encodeRunes cs) = cs
    ∧ runesOf (stripAnnotations_utf8 (encodeRunes cs))
        = (runesOf (encodeRunes cs)).filter (fun r => !isSubscriptDigit r)
    ∧ stripAnnotations_utf8 (encodeRunes cs)
        = encodeRunes ((runesOf (encodeRunes cs)).filter fun r => !isSubscriptDigit r)
    ∧ (∀ r ∈ runesOf (stripAnnotations_utf8 (encodeRunes cs)), isSubscriptDigit r = false)
    ∧ ((∀ r ∈ runesOf (encodeRunes cs), isSubscriptDigit r = false) →
        stripAnnotations_utf8 (encodeRunes cs) = encodeRunes cs)
    ∧ stripAnnotations_utf8 (stripAnnotations_utf8 (encodeRunes cs))
        = stripAnnotations_utf8 (encodeRunes cs) := by
  have hvf : ∀ r ∈ cs.filter (fun r => !isSubscriptDigit r), isScalar r :=
    fun r hr => hv r (List.mem_of_mem_filter hr)
  have h1 := runesOf_encode cs hv
  have h2 := stripAnnotations_utf8_encode cs hv
  have h3 := runesOf_encode _ hvf
  rw [h1, h2, h3]
  refine ⟨rfl, rfl, rfl, ?_, ?_, ?_⟩
  · intro r hr
    have := (List.mem_filter.mp hr).2
    simpa using this
  · intro hnone
    congr 1
    rw [List.filter_eq_self]
    intro r hr
    rw [hnone r hr]
    rfl
  · rw [stripAnnotations_utf8_encode _ hvf, List.filter_filter]
    congr 1
    apply List.filter_congr
    intro r _
    simp

theorem stripAnnotations_removes_subscripts_witness :
    stripAnnotations_utf8 (encodeRunes [0x54, 0x2081, 0xE9, 0x1F600])
      = encodeRunes ((runesOf (encodeRunes [0x54, 0x2081, 0xE9, 0x1F600])).filter
          fun r => !isSubscriptDigit r) :=
  (stripAnnotations_removes_subscripts [0x54, 0x2081, 0xE9, 0x1F600]
    (by unfold isScalar; decide)).2.2.1

/-- C38: `stripAnnotations` does not remove every subscript digit. For the Go string
`"\xff\xff₀"`, two bytes that are not valid UTF-8 followed by the subscript digit
U+2080, the loop drops the digit but writes each invalid byte back as the
replacement character U+FFFD, three bytes each; the buffer then has six bytes, the
test `buf.Len() < len(s)` fails against the five bytes of the string, and the string
is returned as it is, with the subscript digit. The character `#`, which the comment
in the loop also names, is never removed. -/
theorem stripAnnotations_keeps_subscript_after_invalid_bytes :
    runesOf exInvalidUtf8 = [0xFFFD, 0xFFFD, 0x2080]
    ∧ stripLoop exInvalidUtf8.length exInvalidUtf8 [] = [0xEF, 0xBF, 0xBD, 0xEF, 0xBF, 0xBD]
    ∧ stripAnnotations_utf8 exInvalidUtf8 = exInvalidUtf8
    ∧ 0x2080 ∈ runesOf (stripAnnotations_utf8 exInvalidUtf8)
    ∧ isSubscriptDigit 0x2080 = true
    ∧ stripAnnotations_utf8 [0x61, 0x23, 0x62] = [0x61, 0x23, 0x62] := by
  decide

end Xtypes
